import Mathlib

/-! Compilador SSL: lexer, parser and semantic checker.

A shallow embedding of `lexer.c`, `parser.c`, `semantic.c`, `utils.c` and the
compilation driver of `main.c`.

Conventions of the embedding.

* A C `char` is a Lean `Char`; a C string is the `List Char` of the characters
  before its terminating NUL, so `strlen` is `List.length` and `strcmp(a, b) == 0`
  is `a = b`.  Reading `sourceCode[i]` at or past the end of the list reads NUL.
* The global variables of the program are the fields of `State`; a function
  that mutates globals is a function `State → State` (with a result when the
  C function returns one).
* `printf` of a diagnostic appends a `Diagnostic` to `State.output`.
* A `Symbol*` is the position of the node in the linked list `symbolTable`
  (`none` for `NULL`).
* The recursive-descent functions take a fuel argument that bounds the depth of
  the call chain and return `none` when it is exhausted.
* The fixed-size buffers (`lexeme[50]`, `name[30]`, `message[100]`) are lists;
  the embedding is exact for lexemes shorter than `MAX_TOKEN_LENGTH`, which is
  what `LexemeFits`, `TokensFitFrom` and `TokensFit` say of a call, of the calls
  from a state and of the calls on a source text.
-/

namespace Compilador

/-! ## compilador.h -/

def MAX_TOKEN_LENGTH : Nat := 50
def MAX_IDENTIFIER_LENGTH : Nat := 30

inductive TokenType where
  | TOKEN_IDENTIFIER
  | TOKEN_NUMBER
  | TOKEN_CHAR_LITERAL
  | TOKEN_REAL_LITERAL
  | TOKEN_STRING_LITERAL
  | TOKEN_ENTERO
  | TOKEN_CARACTER
  | TOKEN_REAL
  | TOKEN_SI
  | TOKEN_SINO
  | TOKEN_MIENTRAS
  | TOKEN_REPETIR
  | TOKEN_HASTA
  | TOKEN_LEER
  | TOKEN_ESCRIBIR
  | TOKEN_PLUS
  | TOKEN_MINUS
  | TOKEN_MULTIPLY
  | TOKEN_DIVIDE
  | TOKEN_MOD
  | TOKEN_ASSIGN
  | TOKEN_EQUAL
  | TOKEN_NOT_EQUAL
  | TOKEN_LESS
  | TOKEN_LESS_EQUAL
  | TOKEN_GREATER
  | TOKEN_GREATER_EQUAL
  | TOKEN_AND
  | TOKEN_OR
  | TOKEN_NOT
  | TOKEN_LPAREN
  | TOKEN_RPAREN
  | TOKEN_LBRACE
  | TOKEN_RBRACE
  | TOKEN_SEMICOLON
  | TOKEN_COMMA
  | TOKEN_EOF
  | TOKEN_ERROR
  deriving DecidableEq, Repr

inductive DataType where
  | TYPE_ENTERO
  | TYPE_CARACTER
  | TYPE_REAL
  | TYPE_ERROR
  deriving DecidableEq, Repr

open TokenType DataType

/-- The `value` union of a `Token`.  It is written only for literals; `unset`
stands for the field of a token whose union was never assigned.  The argument of
`realValue` is the text handed to `atof`. -/
inductive TokenValue where
  | unset
  | intValue (n : Int)
  | charValue (c : Char)
  | realValue (text : List Char)
  deriving DecidableEq, Repr

structure Token where
  type : TokenType
  lexeme : List Char
  line : Nat
  column : Nat
  value : TokenValue
  deriving DecidableEq, Repr

/-- The `value` union of a `Symbol`: the member written last.  The only real
ever stored is `0.0f`. -/
inductive SymbolValue where
  | intValue (n : Int)
  | charValue (c : Char)
  | realValue (q : Int)
  deriving DecidableEq, Repr

structure Symbol where
  name : List Char
  type : DataType
  value : SymbolValue
  initialized : Bool
  deriving DecidableEq, Repr

/-- What the program prints about the source it analyses. -/
inductive Diagnostic where
  /-- Printed by `syntaxError`: line, column, message, lexeme of the lookahead. -/
  | errorSintactico (line column : Nat) (message lexeme : List Char)
  /-- Printed by `semanticError`: line, message. -/
  | errorSemantico (line : Nat) (message : List Char)
  /-- A line starting with ADVERTENCIA. -/
  | advertencia (message : List Char)
  /-- A line starting with INFO. -/
  | info (message : List Char)
  /-- The line printed by `createSymbol` for a name that is too long. -/
  | error (message : List Char)
  deriving DecidableEq, Repr

/-- The global variables, and the diagnostics printed so far. -/
structure State where
  sourceCode : List Char
  currentPos : Nat
  currentLine : Nat
  currentColumn : Nat
  currentToken : Token
  symbolTable : List Symbol
  hasError : Bool
  output : List Diagnostic
  deriving DecidableEq, Repr

/-- The NUL character that ends a C string. -/
def NUL : Char := Char.ofNat 0

/-- The single quote character. -/
def QUOTE : Char := Char.ofNat 39

/-- The double quote character. -/
def DQUOTE : Char := Char.ofNat 34

/-- Value of `sourceCode[i]`. -/
def charAt (code : List Char) (i : Nat) : Char := code.getD i NUL

/-- Decimal rendering of an `int` argument of `%d` (non-negative here). -/
def fmtInt (n : Nat) : List Char := Nat.toDigits 10 n

/-! ## lexer.c -/

def isKeyword (word : List Char) : TokenType :=
  if word = "entero".toList then TOKEN_ENTERO
  else if word = "caracter".toList then TOKEN_CARACTER
  else if word = "real".toList then TOKEN_REAL
  else if word = "si".toList then TOKEN_SI
  else if word = "sino".toList then TOKEN_SINO
  else if word = "mientras".toList then TOKEN_MIENTRAS
  else if word = "repetir".toList then TOKEN_REPETIR
  else if word = "hasta".toList then TOKEN_HASTA
  else if word = "leer".toList then TOKEN_LEER
  else if word = "escribir".toList then TOKEN_ESCRIBIR
  else if word = "y".toList then TOKEN_AND
  else if word = "o".toList then TOKEN_OR
  else if word = "no".toList then TOKEN_NOT
  else TOKEN_IDENTIFIER

def isLetter (c : Char) : Bool :=
  (decide ('a' ≤ c) && decide (c ≤ 'z')) || (decide ('A' ≤ c) && decide (c ≤ 'Z')) || c == '_'

def isDigit (c : Char) : Bool :=
  decide ('0' ≤ c) && decide (c ≤ '9')

/-- The loop of `skipWhitespace`, run on the text from `currentPos` on; gives
the new `(currentPos, currentLine, currentColumn)`. -/
def skipWhitespaceLoop : List Char → Nat → Nat → Nat → Nat × Nat × Nat
  | [], pos, line, col => (pos, line, col)
  | c :: rest, pos, line, col =>
    if c == ' ' || c == '\t' || c == '\n' || c == '\r' then
      if c == '\n' then skipWhitespaceLoop rest (pos + 1) (line + 1) 1
      else skipWhitespaceLoop rest (pos + 1) line (col + 1)
    else (pos, line, col)

def skipWhitespace (s : State) : State :=
  let r := skipWhitespaceLoop (s.sourceCode.drop s.currentPos) s.currentPos s.currentLine
    s.currentColumn
  { s with currentPos := r.1, currentLine := r.2.1, currentColumn := r.2.2 }

/-- Number of iterations of a loop `while (p(sourceCode[currentPos])) currentPos++`
run on the text from `currentPos` on.  Every `p` used fails on NUL, so the loop
stops at the end of the text. -/
def scanWhile (p : Char → Bool) : List Char → Nat
  | [] => 0
  | c :: rest => if p c then scanWhile p rest + 1 else 0

/-- Only `currentPos` moves: the column is left as it was. -/
def skipComment (s : State) : State :=
  if charAt s.sourceCode s.currentPos == '/' && charAt s.sourceCode (s.currentPos + 1) == '/' then
    { s with currentPos := s.currentPos +
        scanWhile (fun c => c != '\n' && c != NUL) (s.sourceCode.drop s.currentPos) }
  else s

/-- The text `sourceCode[start .. start + length)` copied by `strncpy`. -/
def substring (code : List Char) (start length : Nat) : List Char :=
  (code.drop start).take length

/-- The word is copied to `token.lexeme`, an array of `MAX_TOKEN_LENGTH`
characters, with no test of its length: for a word of `MAX_TOKEN_LENGTH` characters
or more the C code writes past the array and its behaviour is undefined.  The
definition is the code for the shorter words (`LexemeFits`). -/
def processIdentifier (s : State) : Token × State :=
  let start := s.currentPos
  let n := scanWhile (fun c => isLetter c || isDigit c) (s.sourceCode.drop s.currentPos)
  let s1 := { s with currentPos := s.currentPos + n, currentColumn := s.currentColumn + n }
  let length := s1.currentPos - start
  let lexeme := substring s.sourceCode start length
  ({ type := isKeyword lexeme, lexeme := lexeme, line := s.currentLine,
     column := s.currentColumn, value := TokenValue.unset }, s1)

/-- The `int` that `atoi` returns on a lexeme of digits.  Where the decimal value
of the digits fits an `int` it is that value.  Beyond, C leaves the result
undefined; the value here is the one of `(int) strtol(...)`: the `long` saturated at
`2^63 - 1`, reduced to 32 bits in two's complement. -/
def atoi (digits : List Char) : Int :=
  let value := digits.foldl (fun acc c => 10 * acc + (c.toNat - '0'.toNat)) 0
  let long := min value (2 ^ 63 - 1)
  (((long + 2 ^ 31) % 2 ^ 32 : Nat) : Int) - 2 ^ 31

/-- As in `processIdentifier`, the literal is copied to `token.lexeme` with no test
of its length: the definition is the code for the literals shorter than
`MAX_TOKEN_LENGTH` characters (`LexemeFits`). -/
def processNumber (s : State) : Token × State :=
  let start := s.currentPos
  let n := scanWhile isDigit (s.sourceCode.drop s.currentPos)
  let s1 := { s with currentPos := s.currentPos + n, currentColumn := s.currentColumn + n }
  let hasDecimal := charAt s1.sourceCode s1.currentPos == '.'
  let s2 :=
    if hasDecimal then
      let m := scanWhile isDigit (s1.sourceCode.drop (s1.currentPos + 1))
      { s1 with currentPos := s1.currentPos + 1 + m, currentColumn := s1.currentColumn + 1 + m }
    else s1
  let length := s2.currentPos - start
  let lexeme := substring s.sourceCode start length
  if hasDecimal then
    ({ type := TOKEN_REAL_LITERAL, lexeme := lexeme, line := s.currentLine,
       column := s.currentColumn, value := TokenValue.realValue lexeme }, s2)
  else
    ({ type := TOKEN_NUMBER, lexeme := lexeme, line := s.currentLine,
       column := s.currentColumn, value := TokenValue.intValue (atoi lexeme) }, s2)

def processCharLiteral (s : State) : Token × State :=
  let s1 := { s with currentPos := s.currentPos + 1, currentColumn := s.currentColumn + 1 }
  let c := charAt s1.sourceCode s1.currentPos
  if c == NUL || c == '\n' then
    ({ type := TOKEN_ERROR, lexeme := "ERROR: Caracter literal no cerrado".toList,
       line := s.currentLine, column := s.currentColumn, value := TokenValue.unset }, s1)
  else
    let s2 := { s1 with currentPos := s1.currentPos + 1, currentColumn := s1.currentColumn + 1 }
    if charAt s2.sourceCode s2.currentPos != QUOTE then
      ({ type := TOKEN_ERROR, lexeme := "ERROR: Caracter literal no cerrado".toList,
         line := s.currentLine, column := s.currentColumn, value := TokenValue.charValue c }, s2)
    else
      let s3 := { s2 with currentPos := s2.currentPos + 1, currentColumn := s2.currentColumn + 1 }
      ({ type := TOKEN_CHAR_LITERAL, lexeme := [QUOTE, c, QUOTE],
         line := s.currentLine, column := s.currentColumn, value := TokenValue.charValue c }, s3)

/-- As in `processIdentifier`, a closed literal is copied to `token.lexeme`, quotes
included, with no test of its length: the definition is the code for the literals
shorter than `MAX_TOKEN_LENGTH` characters (`LexemeFits`).  The error token carries
a fixed text. -/
def processStringLiteral (s : State) : Token × State :=
  let start := s.currentPos
  let n := scanWhile (fun c => c != DQUOTE && c != NUL && c != '\n')
    (s.sourceCode.drop (s.currentPos + 1))
  let s1 := { s with currentPos := s.currentPos + 1 + n, currentColumn := s.currentColumn + 1 + n }
  if charAt s1.sourceCode s1.currentPos != DQUOTE then
    ({ type := TOKEN_ERROR, lexeme := "ERROR: Cadena literal no cerrada".toList,
       line := s.currentLine, column := s.currentColumn, value := TokenValue.unset }, s1)
  else
    let s2 := { s1 with currentPos := s1.currentPos + 1, currentColumn := s1.currentColumn + 1 }
    let length := s2.currentPos - start
    ({ type := TOKEN_STRING_LITERAL, lexeme := substring s.sourceCode start length,
       line := s.currentLine, column := s.currentColumn, value := TokenValue.unset }, s2)

def createBasicToken (s : State) (type : TokenType) (lexeme : List Char) : Token :=
  { type := type, lexeme := lexeme, line := s.currentLine, column := s.currentColumn,
    value := TokenValue.unset }

def processTwoCharOperator (s : State) : Token × State :=
  let first := charAt s.sourceCode s.currentPos
  let second := charAt s.sourceCode (s.currentPos + 1)
  let token : Token :=
    if first == ':' && second == '=' then createBasicToken s TOKEN_ASSIGN ":=".toList
    else if first == '<' && second == '>' then createBasicToken s TOKEN_NOT_EQUAL "<>".toList
    else if first == '<' && second == '=' then createBasicToken s TOKEN_LESS_EQUAL "<=".toList
    else if first == '>' && second == '=' then createBasicToken s TOKEN_GREATER_EQUAL ">=".toList
    else createBasicToken s TOKEN_ERROR "ERROR: Operador no valido".toList
  if token.type != TOKEN_ERROR then
    (token, { s with currentPos := s.currentPos + 2, currentColumn := s.currentColumn + 2 })
  else (token, s)

def processArithmeticOperator (s : State) (currentChar : Char) : Option Token :=
  if currentChar == '+' then some (createBasicToken s TOKEN_PLUS "+".toList)
  else if currentChar == '-' then some (createBasicToken s TOKEN_MINUS "-".toList)
  else if currentChar == '*' then some (createBasicToken s TOKEN_MULTIPLY "*".toList)
  else if currentChar == '/' then some (createBasicToken s TOKEN_DIVIDE "/".toList)
  else if currentChar == '%' then some (createBasicToken s TOKEN_MOD "%".toList)
  else none

def processRelationalOperator (s : State) (currentChar : Char) : Option Token :=
  if currentChar == '=' then some (createBasicToken s TOKEN_EQUAL "=".toList)
  else if currentChar == '<' then some (createBasicToken s TOKEN_LESS "<".toList)
  else if currentChar == '>' then some (createBasicToken s TOKEN_GREATER ">".toList)
  else none

def processDelimiter (s : State) (currentChar : Char) : Option Token :=
  if currentChar == '(' then some (createBasicToken s TOKEN_LPAREN "(".toList)
  else if currentChar == ')' then some (createBasicToken s TOKEN_RPAREN ")".toList)
  else if currentChar == Char.ofNat 123 then some (createBasicToken s TOKEN_LBRACE [Char.ofNat 123])
  else if currentChar == Char.ofNat 125 then some (createBasicToken s TOKEN_RBRACE [Char.ofNat 125])
  else if currentChar == ';' then some (createBasicToken s TOKEN_SEMICOLON ";".toList)
  else if currentChar == ',' then some (createBasicToken s TOKEN_COMMA ",".toList)
  else none

def processSingleCharOperator (s : State) (currentChar : Char) : Token × State :=
  let s1 := { s with currentPos := s.currentPos + 1, currentColumn := s.currentColumn + 1 }
  match processArithmeticOperator s currentChar with
  | some token => (token, s1)
  | none =>
    match processRelationalOperator s currentChar with
    | some token => (token, s1)
    | none =>
      match processDelimiter s currentChar with
      | some token => (token, s1)
      | none =>
        ({ type := TOKEN_ERROR,
           lexeme := "ERROR: Car\xc3\xa1cter desconocido ".toList ++ [QUOTE, currentChar, QUOTE],
           line := s.currentLine, column := s.currentColumn, value := TokenValue.unset }, s1)

def isTwoCharOperatorStart (s : State) (currentChar : Char) : Bool :=
  (currentChar == ':' && charAt s.sourceCode (s.currentPos + 1) == '=') ||
  (currentChar == '<' && (charAt s.sourceCode (s.currentPos + 1) == '>' ||
      charAt s.sourceCode (s.currentPos + 1) == '=')) ||
  (currentChar == '>' && charAt s.sourceCode (s.currentPos + 1) == '=')

/-- Returns the token and the state with the scan position moved past it. -/
def getNextToken (s0 : State) : Token × State :=
  let s := skipWhitespace (skipComment (skipWhitespace s0))
  if charAt s.sourceCode s.currentPos == NUL then
    ({ type := TOKEN_EOF, lexeme := "EOF".toList, line := s.currentLine,
       column := s.currentColumn, value := TokenValue.unset }, s)
  else
    let currentChar := charAt s.sourceCode s.currentPos
    if isLetter currentChar then processIdentifier s
    else if isDigit currentChar then processNumber s
    else if currentChar == QUOTE then processCharLiteral s
    else if currentChar == DQUOTE then processStringLiteral s
    else if isTwoCharOperatorStart s currentChar then processTwoCharOperator s
    else processSingleCharOperator s currentChar

/-- The statement `currentToken = getNextToken();`. -/
def advance (s : State) : State :=
  let r := getNextToken s
  { r.2 with currentToken := r.1 }

def initLexer (s : State) (code : List Char) : State :=
  advance { s with sourceCode := code, currentPos := 0, currentLine := 1, currentColumn := 1 }

/-! ## semantic.c -/

def initSemantic (s : State) : State := { s with symbolTable := [] }

/-- The scan of the linked list starting at a given node; the result is the
position of the node found, counted from that node. -/
def lookupFrom : List Symbol → List Char → Option Nat
  | [], _ => none
  | current :: next, name =>
    if current.name = name then some 0 else (lookupFrom next name).map (· + 1)

def lookupSymbol (s : State) (name : List Char) : Option Nat :=
  lookupFrom s.symbolTable name

def initializeSymbolValue (type : DataType) : SymbolValue :=
  if type = TYPE_CARACTER then SymbolValue.charValue NUL
  else if type = TYPE_REAL then SymbolValue.realValue 0
  else SymbolValue.intValue 0

/-- The result is the new node, not yet linked (`malloc` is taken to succeed). -/
def createSymbol (s : State) (name : List Char) (type : DataType) : Option Symbol × State :=
  if name.length = 0 then (none, s)
  else if name.length ≥ MAX_IDENTIFIER_LENGTH then
    (none, { s with output := s.output ++
      [Diagnostic.error ("ERROR: Nombre de variable demasiado largo: ".toList ++
        [QUOTE] ++ name ++ [QUOTE])] })
  else
    (some { name := name, type := type, initialized := false,
            value := initializeSymbolValue type }, s)

def insertSymbolInTable (s : State) (symbol : Option Symbol) : Bool × State :=
  match symbol with
  | none => (false, s)
  | some sym => (true, { s with symbolTable := sym :: s.symbolTable })

/-- The result is the pointer to the inserted node (the head of the list), or
`none` for `NULL`. -/
def insertSymbol (s : State) (name : List Char) (type : DataType) : Option Nat × State :=
  if (lookupSymbol s name).isSome then (none, s)
  else
    match createSymbol s name type with
    | (none, s1) => (none, s1)
    | (some newSymbol, s1) =>
      match insertSymbolInTable s1 (some newSymbol) with
      | (false, s2) => (none, s2)
      | (true, s2) => (some 0, s2)

def getTokenDataType (type : TokenType) : DataType :=
  if type = TOKEN_ENTERO ∨ type = TOKEN_NUMBER then TYPE_ENTERO
  else if type = TOKEN_CARACTER ∨ type = TOKEN_CHAR_LITERAL then TYPE_CARACTER
  else if type = TOKEN_REAL ∨ type = TOKEN_REAL_LITERAL then TYPE_REAL
  else TYPE_ERROR

def checkExpressionType (s : State) : DataType :=
  if s.currentToken.type = TOKEN_NUMBER then TYPE_ENTERO
  else if s.currentToken.type = TOKEN_REAL_LITERAL then TYPE_REAL
  else if s.currentToken.type = TOKEN_CHAR_LITERAL then TYPE_CARACTER
  else if s.currentToken.type = TOKEN_IDENTIFIER then
    match lookupSymbol s s.currentToken.lexeme with
    | some i =>
      match s.symbolTable[i]? with
      | some var => var.type
      | none => TYPE_ERROR
    | none => TYPE_ERROR
  else TYPE_ENTERO

def semanticError (s : State) (message : List Char) : State :=
  { s with hasError := true,
           output := s.output ++ [Diagnostic.errorSemantico s.currentLine message] }

/-- The `int` value of a `DataType` enumerator. -/
def DataType.code : DataType → Nat
  | TYPE_ENTERO => 0
  | TYPE_CARACTER => 1
  | TYPE_REAL => 2
  | TYPE_ERROR => 3

def checkIntegerAssignment (s : State) (var : Symbol) (exprType : DataType) : State :=
  if exprType = TYPE_ENTERO then s
  else if exprType = TYPE_REAL then
    { s with output := s.output ++ [Diagnostic.advertencia
      "Asignaci\xc3\xb3n de real a entero puede causar p\xc3\xa9rdida de precisi\xc3\xb3n".toList] }
  else if exprType = TYPE_CARACTER then
    { s with output := s.output ++ [Diagnostic.advertencia
      "Asignacion de caracter a entero (conversion automatica)".toList] }
  else
    semanticError s ("Incompatibilidad de tipos: no se puede asignar tipo ".toList ++
      fmtInt exprType.code ++ " a variable entera ".toList ++ [QUOTE] ++ var.name ++ [QUOTE])

def checkRealAssignment (s : State) (var : Symbol) (exprType : DataType) : State :=
  if exprType = TYPE_REAL then s
  else if exprType = TYPE_ENTERO then
    { s with output := s.output ++ [Diagnostic.info
      "Conversion automatica de entero a real".toList] }
  else if exprType = TYPE_CARACTER then
    { s with output := s.output ++ [Diagnostic.advertencia
      "Asignacion de caracter a real (conversion automatica)".toList] }
  else
    semanticError s ("Incompatibilidad de tipos: no se puede asignar tipo ".toList ++
      fmtInt exprType.code ++ " a variable real ".toList ++ [QUOTE] ++ var.name ++ [QUOTE])

def checkCharacterAssignment (s : State) (var : Symbol) (exprType : DataType) : State :=
  if exprType = TYPE_CARACTER then s
  else if exprType = TYPE_ENTERO then
    { s with output := s.output ++ [Diagnostic.advertencia
      "Asignacion de entero a caracter (conversion automatica)".toList] }
  else
    semanticError s ("Incompatibilidad de tipos: no se puede asignar tipo ".toList ++
      fmtInt exprType.code ++ " a variable caracter ".toList ++ [QUOTE] ++ var.name ++ [QUOTE])

def performTypeCompatibilityCheck (s : State) (var : Symbol) (exprType : DataType) : State :=
  if var.type = TYPE_ENTERO then checkIntegerAssignment s var exprType
  else if var.type = TYPE_REAL then checkRealAssignment s var exprType
  else if var.type = TYPE_CARACTER then checkCharacterAssignment s var exprType
  else semanticError s "Tipo de variable desconocido".toList

/-- The assignment `var->initialized = 1` through the pointer `i`. -/
def setInitialized : List Symbol → Nat → List Symbol
  | [], _ => []
  | sym :: next, 0 => { sym with initialized := true } :: next
  | sym :: next, i + 1 => sym :: setInitialized next i

def markVariableAsInitialized (s : State) (var : Option Nat) : State :=
  match var with
  | none => s
  | some i => { s with symbolTable := setInitialized s.symbolTable i }

def checkAssignmentCompatibility (s : State) (var : Option Nat) (exprType : DataType) : State :=
  match var with
  | none => s
  | some i =>
    match s.symbolTable[i]? with
    | none => s
    | some sym => markVariableAsInitialized (performTypeCompatibilityCheck s sym exprType) (some i)

/-! ## parser.c -/

def initParser (s : State) : State := { s with hasError := false }

/-- The `int` value of a `TokenType` enumerator. -/
def TokenType.code (t : TokenType) : Nat := t.toCtorIdx

def syntaxError (s : State) (message : List Char) : State :=
  { s with hasError := true,
           output := s.output ++ [Diagnostic.errorSintactico s.currentToken.line
             s.currentToken.column message s.currentToken.lexeme] }

def match_ (expected : TokenType) (s : State) : State :=
  if s.currentToken.type = expected then advance s
  else
    syntaxError s ("Se esperaba token tipo ".toList ++ fmtInt expected.code ++
      ", se encontro ".toList ++ fmtInt s.currentToken.type.code)

def getDataTypeFromToken (s : State) : DataType :=
  if s.currentToken.type = TOKEN_ENTERO then TYPE_ENTERO
  else if s.currentToken.type = TOKEN_CARACTER then TYPE_CARACTER
  else if s.currentToken.type = TOKEN_REAL then TYPE_REAL
  else TYPE_ERROR

def parseDataType (s : State) : DataType × State :=
  let varType := getDataTypeFromToken s
  if varType = TYPE_ERROR then
    (TYPE_ERROR, syntaxError s "Se esperaba tipo de dato (entero, caracter, real)".toList)
  else (varType, match_ s.currentToken.type s)

def processVariableDeclaration (varType : DataType) (s : State) : State :=
  if s.currentToken.type ≠ TOKEN_IDENTIFIER then
    syntaxError s "Se esperaba identificador".toList
  else
    let r := insertSymbol s s.currentToken.lexeme varType
    let s1 :=
      if r.1.isNone then
        syntaxError r.2 ("Variable ".toList ++ [QUOTE] ++ s.currentToken.lexeme ++ [QUOTE] ++
          " ya declarada".toList)
      else r.2
    match_ TOKEN_IDENTIFIER s1

/-- The `while` loop of `parseIdentifierList`. -/
def parseIdentifierListLoop (varType : DataType) : Nat → State → Option State
  | 0, _ => none
  | fuel + 1, s =>
    if s.currentToken.type = TOKEN_COMMA then
      parseIdentifierListLoop varType fuel
        (processVariableDeclaration varType (match_ TOKEN_COMMA s))
    else some s

def parseIdentifierList (varType : DataType) (fuel : Nat) (s : State) : Option State :=
  parseIdentifierListLoop varType fuel (processVariableDeclaration varType s)

def parseDeclaration (fuel : Nat) (s : State) : Option State :=
  let r := parseDataType s
  (if r.1 ≠ TYPE_ERROR then parseIdentifierList r.1 fuel r.2 else some r.2).map
    (match_ TOKEN_SEMICOLON)

def processAssignmentVariable (s : State) : Option Nat × State :=
  if s.currentToken.type ≠ TOKEN_IDENTIFIER then
    (none, syntaxError s "Se esperaba identificador en asignacion".toList)
  else
    let var := lookupSymbol s s.currentToken.lexeme
    let s1 :=
      if var.isNone then
        semanticError s ("Variable ".toList ++ [QUOTE] ++ s.currentToken.lexeme ++ [QUOTE] ++
          " no declarada".toList)
      else s
    (var, match_ TOKEN_IDENTIFIER s1)

def checkAssignmentSemantics (s : State) (var : Option Nat) : State :=
  match var with
  | none => s
  | some i => checkAssignmentCompatibility s (some i) (checkExpressionType s)

def processReadIdentifier (s : State) : State :=
  if s.currentToken.type ≠ TOKEN_IDENTIFIER then
    syntaxError s "Se esperaba identificador en sentencia leer".toList
  else
    let s1 :=
      match lookupSymbol s s.currentToken.lexeme with
      | none =>
        semanticError s ("Variable ".toList ++ [QUOTE] ++ s.currentToken.lexeme ++ [QUOTE] ++
          " no declarada".toList)
      | some i => { s with symbolTable := setInitialized s.symbolTable i }
    match_ TOKEN_IDENTIFIER s1

def parseReadParameters (s : State) : State :=
  match_ TOKEN_RPAREN (processReadIdentifier (match_ TOKEN_LPAREN s))

def parseReadStatement (s : State) : State :=
  match_ TOKEN_SEMICOLON (parseReadParameters (match_ TOKEN_LEER s))

mutual

def parseExpression : Nat → State → Option State
  | 0, _ => none
  | fuel + 1, s => (parseTerm fuel s).bind (parseExpressionLoop fuel)

/-- The `while` loop of `parseExpression`. -/
def parseExpressionLoop : Nat → State → Option State
  | 0, _ => none
  | fuel + 1, s =>
    if s.currentToken.type = TOKEN_PLUS ∨ s.currentToken.type = TOKEN_MINUS then
      (parseTerm fuel (match_ s.currentToken.type s)).bind (parseExpressionLoop fuel)
    else some s

def parseTerm : Nat → State → Option State
  | 0, _ => none
  | fuel + 1, s => (parseFactor fuel s).bind (parseTermLoop fuel)

/-- The `while` loop of `parseTerm`. -/
def parseTermLoop : Nat → State → Option State
  | 0, _ => none
  | fuel + 1, s =>
    if s.currentToken.type = TOKEN_MULTIPLY ∨ s.currentToken.type = TOKEN_DIVIDE ∨
        s.currentToken.type = TOKEN_MOD then
      (parseFactor fuel (match_ s.currentToken.type s)).bind (parseTermLoop fuel)
    else some s

def parseFactor : Nat → State → Option State
  | 0, _ => none
  | fuel + 1, s =>
    if s.currentToken.type = TOKEN_IDENTIFIER then
      let s1 :=
        if (lookupSymbol s s.currentToken.lexeme).isNone then
          semanticError s ("Variable ".toList ++ [QUOTE] ++ s.currentToken.lexeme ++ [QUOTE] ++
            " no declarada".toList)
        else s
      some (match_ TOKEN_IDENTIFIER s1)
    else if s.currentToken.type = TOKEN_NUMBER then some (match_ TOKEN_NUMBER s)
    else if s.currentToken.type = TOKEN_REAL_LITERAL then some (match_ TOKEN_REAL_LITERAL s)
    else if s.currentToken.type = TOKEN_CHAR_LITERAL then some (match_ TOKEN_CHAR_LITERAL s)
    else if s.currentToken.type = TOKEN_LPAREN then
      (parseExpression fuel (match_ TOKEN_LPAREN s)).map (match_ TOKEN_RPAREN)
    else
      some (syntaxError s
        "Se esperaba identificador, n\xc3\xbamero o expresi\xc3\xb3n entre par\xc3\xa9ntesis".toList)

end

mutual

def parseCondition : Nat → State → Option State
  | 0, _ => none
  | fuel + 1, s =>
    (parseExpression fuel s).bind fun s1 =>
    (if s1.currentToken.type = TOKEN_EQUAL ∨ s1.currentToken.type = TOKEN_NOT_EQUAL ∨
        s1.currentToken.type = TOKEN_LESS ∨ s1.currentToken.type = TOKEN_LESS_EQUAL ∨
        s1.currentToken.type = TOKEN_GREATER ∨ s1.currentToken.type = TOKEN_GREATER_EQUAL then
      parseExpression fuel (match_ s1.currentToken.type s1)
    else
      some (syntaxError s1 "Se esperaba operador relacional en condici\xc3\xb3n".toList)).bind
    fun s2 =>
    (parseConditionLoop fuel s2).bind fun s3 =>
    if s3.currentToken.type = TOKEN_NOT then parseCondition fuel (match_ TOKEN_NOT s3)
    else some s3

/-- The `while` loop of `parseCondition`. -/
def parseConditionLoop : Nat → State → Option State
  | 0, _ => none
  | fuel + 1, s =>
    if s.currentToken.type = TOKEN_AND ∨ s.currentToken.type = TOKEN_OR then
      (parseCondition fuel (match_ s.currentToken.type s)).bind (parseConditionLoop fuel)
    else some s

end

def parseAssignment (fuel : Nat) (s : State) : Option State :=
  let r := processAssignmentVariable s
  (parseExpression fuel (match_ TOKEN_ASSIGN r.2)).map fun s1 =>
    match_ TOKEN_SEMICOLON (checkAssignmentSemantics s1 r.1)

def parseIfCondition (fuel : Nat) (s : State) : Option State :=
  (parseCondition fuel (match_ TOKEN_LPAREN s)).map (match_ TOKEN_RPAREN)

def parseWhileCondition (fuel : Nat) (s : State) : Option State :=
  (parseCondition fuel (match_ TOKEN_LPAREN s)).map (match_ TOKEN_RPAREN)

def parseUntilCondition (fuel : Nat) (s : State) : Option State :=
  (parseCondition fuel (match_ TOKEN_LPAREN (match_ TOKEN_HASTA s))).map fun s1 =>
    match_ TOKEN_SEMICOLON (match_ TOKEN_RPAREN s1)

def parseWriteParameters (fuel : Nat) (s : State) : Option State :=
  (parseExpression fuel (match_ TOKEN_LPAREN s)).map (match_ TOKEN_RPAREN)

def parseWriteStatement (fuel : Nat) (s : State) : Option State :=
  (parseWriteParameters fuel (match_ TOKEN_ESCRIBIR s)).map (match_ TOKEN_SEMICOLON)

mutual

def parseStatement : Nat → State → Option State
  | 0, _ => none
  | fuel + 1, s =>
    if s.currentToken.type = TOKEN_IDENTIFIER then parseAssignment fuel s
    else if s.currentToken.type = TOKEN_SI then parseIfStatement fuel s
    else if s.currentToken.type = TOKEN_MIENTRAS then parseWhileStatement fuel s
    else if s.currentToken.type = TOKEN_REPETIR then parseRepeatStatement fuel s
    else if s.currentToken.type = TOKEN_LEER then some (parseReadStatement s)
    else if s.currentToken.type = TOKEN_ESCRIBIR then parseWriteStatement fuel s
    else some (advance (syntaxError s "Sentencia no valida".toList))

def parseBlock : Nat → State → Option State
  | 0, _ => none
  | fuel + 1, s => (parseBlockLoop fuel (match_ TOKEN_LBRACE s)).map (match_ TOKEN_RBRACE)

/-- The `while` loop of `parseBlock`. -/
def parseBlockLoop : Nat → State → Option State
  | 0, _ => none
  | fuel + 1, s =>
    if s.currentToken.type ≠ TOKEN_RBRACE ∧ s.currentToken.type ≠ TOKEN_EOF ∧
        s.hasError = false then
      (parseStatement fuel s).bind (parseBlockLoop fuel)
    else some s

def parseElseBlock : Nat → State → Option State
  | 0, _ => none
  | fuel + 1, s =>
    if s.currentToken.type = TOKEN_SINO then parseBlock fuel (match_ TOKEN_SINO s)
    else some s

def parseIfStatement : Nat → State → Option State
  | 0, _ => none
  | fuel + 1, s =>
    (parseIfCondition fuel (match_ TOKEN_SI s)).bind fun s1 =>
    (parseBlock fuel s1).bind (parseElseBlock fuel)

def parseWhileStatement : Nat → State → Option State
  | 0, _ => none
  | fuel + 1, s =>
    (parseWhileCondition fuel (match_ TOKEN_MIENTRAS s)).bind (parseBlock fuel)

def parseRepeatStatement : Nat → State → Option State
  | 0, _ => none
  | fuel + 1, s =>
    (parseBlock fuel (match_ TOKEN_REPETIR s)).bind (parseUntilCondition fuel)

end

/-- The `while` loop of `parseProgram`, which is the whole of it but for the
banner lines. -/
def parseProgram : Nat → State → Option State
  | 0, _ => none
  | fuel + 1, s =>
    if s.currentToken.type ≠ TOKEN_EOF ∧ s.hasError = false then
      (if s.currentToken.type = TOKEN_ENTERO ∨ s.currentToken.type = TOKEN_CARACTER ∨
          s.currentToken.type = TOKEN_REAL then parseDeclaration fuel s
       else parseStatement fuel s).bind (parseProgram fuel)
    else some s

/-! ## utils.c -/

def isValidIdentifier (identifier : List Char) : Bool :=
  if identifier.length = 0 then false
  else if !isLetter (charAt identifier 0) then false
  else if (identifier.drop 1).any (fun c => !isLetter c && !isDigit c) then false
  else isKeyword identifier == TOKEN_IDENTIFIER

/-! ## main.c -/

/-- The state of a process before `main` runs: the initial values of the
globals (`currentToken` is zero-initialised). -/
def initialState : State :=
  { sourceCode := []
    currentPos := 0
    currentLine := 1
    currentColumn := 1
    currentToken := { type := TOKEN_IDENTIFIER, lexeme := [], line := 0, column := 0,
                      value := TokenValue.unset }
    symbolTable := []
    hasError := false
    output := [] }

def getExampleSourceCode : List Char :=
  ("// Programa de ejemplo con nuevos tipos y sentencias\n" ++
   "entero contador, limite;\n" ++
   "real promedio, suma;\n" ++
   "caracter letra, vocal;\n" ++
   "\n" ++
   "contador := 1;\n" ++
   "limite := 10;\n" ++
   "suma := 0.0;\n" ++
   "letra := 'A';\n" ++
   "\n" ++
   "// Ejemplo de sentencia SI\n" ++
   "si (contador <= limite) \x7b\n" ++
   "    escribir(contador);\n" ++
   "    suma := suma + contador;\n" ++
   "\x7d sino \x7b\n" ++
   "    //escribir(\"Contador excede el l\xc3\x83\xc2\xadmite\");\n" ++
   "\x7d\n" ++
   "\n" ++
   "// Ejemplo de bucle MIENTRAS\n" ++
   "mientras (contador < limite) \x7b\n" ++
   "    contador := contador + 1;\n" ++
   "    suma := suma + contador;\n" ++
   "\x7d\n" ++
   "\n" ++
   "// Ejemplo de bucle REPETIR HASTA\n" ++
   "repetir \x7b\n" ++
   "    escribir(letra);\n" ++
   "    contador := contador - 1;\n" ++
   "\x7d hasta (contador = 0);\n" ++
   "\n" ++
   "promedio := suma / limite;\n" ++
   "escribir(promedio);\n").toList

/-- The state after `compileAndShowResults(sourceCode)` entered in state `s`; the
function returns `!hasError` of that state. -/
def compileAndShowResults (fuel : Nat) (s : State) (sourceCode : List Char) : Option State :=
  parseProgram fuel (initLexer (initParser (initSemantic s)) sourceCode)

/-- A compilation run of a fresh process. -/
def compile (fuel : Nat) (sourceCode : List Char) : Option State :=
  compileAndShowResults fuel initialState sourceCode

/-! ## Auxiliary definitions used by the statements -/

/-- The globals that the tokenizer never writes are the same in `s` and `r`. -/
def SameFrame (s r : State) : Prop :=
  r.sourceCode = s.sourceCode ∧ r.symbolTable = s.symbolTable ∧ r.hasError = s.hasError ∧
    r.output = s.output

/-- The globals of the tokenizer are the same in `s` and `r`. -/
def SameLexer (s r : State) : Prop :=
  r.sourceCode = s.sourceCode ∧ r.currentPos = s.currentPos ∧
    r.currentLine = s.currentLine ∧ r.currentColumn = s.currentColumn ∧
    r.currentToken = s.currentToken

/-- A terminal symbol of the grammar: the kind of a token and its lexeme. -/
abbrev Terminal := TokenType × List Char

/-- `TokenStream s ts`: the lookahead of `s` and the tokens that successive calls
of `getNextToken` return after it are, in kind and lexeme, the terminals `ts`,
followed by the end-of-input token. -/
inductive TokenStream : State → List Terminal → Prop where
  | eof {s : State} : s.currentToken.type = TOKEN_EOF → TokenStream s []
  | cons {s : State} {ts : List Terminal} : s.currentToken.type ≠ TOKEN_EOF →
      TokenStream (advance s) ts →
      TokenStream s ((s.currentToken.type, s.currentToken.lexeme) :: ts)

/-- The terminals from the lookahead of `s` up to the end of the input, read
with at most `fuel` calls of `getNextToken`. -/
def tokensFrom : Nat → State → Option (List Terminal)
  | 0, _ => none
  | fuel + 1, s =>
    if s.currentToken.type = TOKEN_EOF then some []
    else (tokensFrom fuel (advance s)).map fun ts =>
      (s.currentToken.type, s.currentToken.lexeme) :: ts

/-- The terminals of a source text, as the tokenizer of the program reads them. -/
def tokenize (code : List Char) : Option (List Terminal) :=
  tokensFrom (code.length + 1) (initLexer initialState code)

/-- No two symbols of the table have the same name. -/
def DistinctNames (s : State) : Prop := (s.symbolTable.map Symbol.name).Nodup

/-- The symbol that a `Symbol*` points to. -/
def deref (s : State) (var : Option Nat) : Option Symbol :=
  var.bind fun i => s.symbolTable[i]?

/-- A relation between a state and a later state that holds across every
primitive step taken while an expression or a condition is parsed. -/
structure ExprStep (P : State → State → Prop) : Prop where
  refl : ∀ s, P s s
  trans : ∀ a b c, P a b → P b c → P a c
  advance : ∀ s, P s (advance s)
  syntaxError : ∀ s message, P s (syntaxError s message)
  semanticError : ∀ s message, P s (semanticError s message)

/-- A relation between a state and a later state that holds across every
primitive step of the parser. -/
structure ParserStep (P : State → State → Prop) extends ExprStep P : Prop where
  insertSymbol : ∀ s name type, P s (insertSymbol s name type).2
  checkAssignmentCompatibility :
    ∀ s var e, P s (checkAssignmentCompatibility s var e)
  readTarget : ∀ s i, P s { s with symbolTable := setInitialized s.symbolTable i }

/-! ## The grammar of the specification (section 4.2)

```
Program      := { Declaration | Statement }
Declaration  := DataTypeKw Identifier {',' Identifier} ';'
Statement    := Assignment | If | While | Repeat | Read | Write
Block        := '{' { Statement } '}'
Expression   := Term { ('+'|'-') Term }
Term         := Factor { ('*'|'/'|'%') Factor }
Factor       := Identifier | IntLit | RealLit | CharLit | '(' Expression ')'
Condition    := Expression RelOp Expression { ('y'|'o') Condition } [ 'no' Condition ]
```

The types below are the derivation trees of this grammar; `terminals` reads the
derived sentence off a tree. -/

inductive AddOp where
  | plus
  | minus
  deriving DecidableEq, Repr

inductive MulOp where
  | multiply
  | divide
  | mod
  deriving DecidableEq, Repr

inductive RelOp where
  | equal
  | notEqual
  | less
  | lessEqual
  | greater
  | greaterEqual
  deriving DecidableEq, Repr

inductive LogOp where
  | y
  | o
  deriving DecidableEq, Repr

inductive DataTypeKw where
  | entero
  | caracter
  | real
  deriving DecidableEq, Repr

def AddOp.terminal : AddOp → Terminal
  | AddOp.plus => (TOKEN_PLUS, "+".toList)
  | AddOp.minus => (TOKEN_MINUS, "-".toList)

def MulOp.terminal : MulOp → Terminal
  | MulOp.multiply => (TOKEN_MULTIPLY, "*".toList)
  | MulOp.divide => (TOKEN_DIVIDE, "/".toList)
  | MulOp.mod => (TOKEN_MOD, "%".toList)

def RelOp.terminal : RelOp → Terminal
  | RelOp.equal => (TOKEN_EQUAL, "=".toList)
  | RelOp.notEqual => (TOKEN_NOT_EQUAL, "<>".toList)
  | RelOp.less => (TOKEN_LESS, "<".toList)
  | RelOp.lessEqual => (TOKEN_LESS_EQUAL, "<=".toList)
  | RelOp.greater => (TOKEN_GREATER, ">".toList)
  | RelOp.greaterEqual => (TOKEN_GREATER_EQUAL, ">=".toList)

def LogOp.terminal : LogOp → Terminal
  | LogOp.y => (TOKEN_AND, "y".toList)
  | LogOp.o => (TOKEN_OR, "o".toList)

def DataTypeKw.terminal : DataTypeKw → Terminal
  | DataTypeKw.entero => (TOKEN_ENTERO, "entero".toList)
  | DataTypeKw.caracter => (TOKEN_CARACTER, "caracter".toList)
  | DataTypeKw.real => (TOKEN_REAL, "real".toList)

/-- The data type that a data-type keyword declares. -/
def DataTypeKw.dataType : DataTypeKw → DataType
  | DataTypeKw.entero => TYPE_ENTERO
  | DataTypeKw.caracter => TYPE_CARACTER
  | DataTypeKw.real => TYPE_REAL

mutual

inductive Factor where
  | identifier (name : List Char)
  | intLit (lexeme : List Char)
  | realLit (lexeme : List Char)
  | charLit (lexeme : List Char)
  | paren (e : Expression)

/-- `Factor { ('*'|'/'|'%') Factor }` -/
inductive Term where
  | mk (first : Factor) (more : TermRest)

inductive TermRest where
  | nil
  | cons (op : MulOp) (f : Factor) (more : TermRest)

/-- `Term { ('+'|'-') Term }` -/
inductive Expression where
  | mk (first : Term) (more : ExpressionRest)

inductive ExpressionRest where
  | nil
  | cons (op : AddOp) (t : Term) (more : ExpressionRest)

end

mutual

/-- `Expression RelOp Expression { ('y'|'o') Condition } [ 'no' Condition ]` -/
inductive Condition where
  | mk (left : Expression) (op : RelOp) (right : Expression) (more : ConditionRest)
      (negated : ConditionNeg)

inductive ConditionRest where
  | nil
  | cons (op : LogOp) (c : Condition) (more : ConditionRest)

inductive ConditionNeg where
  | none
  | no (c : Condition)

end

mutual

inductive Statement where
  | assignment (name : List Char) (e : Expression)
  | si (c : Condition) (thenBlock : Block) (elseBlock : ElseBlock)
  | mientras (c : Condition) (body : Block)
  | repetir (body : Block) (c : Condition)
  | leer (name : List Char)
  | escribir (e : Expression)

/-- The statements between the braces of a block. -/
inductive Block where
  | nil
  | cons (st : Statement) (more : Block)

inductive ElseBlock where
  | none
  | sino (b : Block)

end

inductive Item where
  | declaration (kw : DataTypeKw) (first : List Char) (more : List (List Char))
  | statement (st : Statement)

abbrev Program := List Item

mutual

def Factor.terminals : Factor → List Terminal
  | Factor.identifier name => [(TOKEN_IDENTIFIER, name)]
  | Factor.intLit lexeme => [(TOKEN_NUMBER, lexeme)]
  | Factor.realLit lexeme => [(TOKEN_REAL_LITERAL, lexeme)]
  | Factor.charLit lexeme => [(TOKEN_CHAR_LITERAL, lexeme)]
  | Factor.paren e => (TOKEN_LPAREN, "(".toList) :: (e.terminals ++ [(TOKEN_RPAREN, ")".toList)])

def Term.terminals : Term → List Terminal
  | Term.mk first more => first.terminals ++ more.terminals

def TermRest.terminals : TermRest → List Terminal
  | TermRest.nil => []
  | TermRest.cons op f more => op.terminal :: (f.terminals ++ more.terminals)

def Expression.terminals : Expression → List Terminal
  | Expression.mk first more => first.terminals ++ more.terminals

def ExpressionRest.terminals : ExpressionRest → List Terminal
  | ExpressionRest.nil => []
  | ExpressionRest.cons op t more => op.terminal :: (t.terminals ++ more.terminals)

end

mutual

/-- The identifiers that occur in the tree, in order. -/
def Factor.identifiers : Factor → List (List Char)
  | Factor.identifier name => [name]
  | Factor.intLit _ => []
  | Factor.realLit _ => []
  | Factor.charLit _ => []
  | Factor.paren e => e.identifiers

def Term.identifiers : Term → List (List Char)
  | Term.mk first more => first.identifiers ++ more.identifiers

def TermRest.identifiers : TermRest → List (List Char)
  | TermRest.nil => []
  | TermRest.cons _ f more => f.identifiers ++ more.identifiers

def Expression.identifiers : Expression → List (List Char)
  | Expression.mk first more => first.identifiers ++ more.identifiers

def ExpressionRest.identifiers : ExpressionRest → List (List Char)
  | ExpressionRest.nil => []
  | ExpressionRest.cons _ t more => t.identifiers ++ more.identifiers

end

mutual

def Condition.terminals : Condition → List Terminal
  | Condition.mk left op right more negated =>
    left.terminals ++ op.terminal :: (right.terminals ++ (more.terminals ++ negated.terminals))

def ConditionRest.terminals : ConditionRest → List Terminal
  | ConditionRest.nil => []
  | ConditionRest.cons op c more => op.terminal :: (c.terminals ++ more.terminals)

def ConditionNeg.terminals : ConditionNeg → List Terminal
  | ConditionNeg.none => []
  | ConditionNeg.no c => (TOKEN_NOT, "no".toList) :: c.terminals

end

mutual

def Condition.identifiers : Condition → List (List Char)
  | Condition.mk left _ right more negated =>
    left.identifiers ++ (right.identifiers ++ (more.identifiers ++ negated.identifiers))

def ConditionRest.identifiers : ConditionRest → List (List Char)
  | ConditionRest.nil => []
  | ConditionRest.cons _ c more => c.identifiers ++ more.identifiers

def ConditionNeg.identifiers : ConditionNeg → List (List Char)
  | ConditionNeg.none => []
  | ConditionNeg.no c => c.identifiers

end

mutual

def Statement.terminals : Statement → List Terminal
  | Statement.assignment name e =>
    (TOKEN_IDENTIFIER, name) :: (TOKEN_ASSIGN, ":=".toList) ::
      (e.terminals ++ [(TOKEN_SEMICOLON, ";".toList)])
  | Statement.si c thenBlock elseBlock =>
    (TOKEN_SI, "si".toList) :: (TOKEN_LPAREN, "(".toList) ::
      (c.terminals ++ (TOKEN_RPAREN, ")".toList) ::
        ((TOKEN_LBRACE, [Char.ofNat 123]) :: (thenBlock.terminals ++
          (TOKEN_RBRACE, [Char.ofNat 125]) :: elseBlock.terminals)))
  | Statement.mientras c body =>
    (TOKEN_MIENTRAS, "mientras".toList) :: (TOKEN_LPAREN, "(".toList) ::
      (c.terminals ++ (TOKEN_RPAREN, ")".toList) ::
        ((TOKEN_LBRACE, [Char.ofNat 123]) :: (body.terminals ++
          [(TOKEN_RBRACE, [Char.ofNat 125])])))
  | Statement.repetir body c =>
    (TOKEN_REPETIR, "repetir".toList) :: (TOKEN_LBRACE, [Char.ofNat 123]) ::
      (body.terminals ++ (TOKEN_RBRACE, [Char.ofNat 125]) ::
        (TOKEN_HASTA, "hasta".toList) :: (TOKEN_LPAREN, "(".toList) ::
          (c.terminals ++ [(TOKEN_RPAREN, ")".toList), (TOKEN_SEMICOLON, ";".toList)]))
  | Statement.leer name =>
    [(TOKEN_LEER, "leer".toList), (TOKEN_LPAREN, "(".toList), (TOKEN_IDENTIFIER, name),
      (TOKEN_RPAREN, ")".toList), (TOKEN_SEMICOLON, ";".toList)]
  | Statement.escribir e =>
    (TOKEN_ESCRIBIR, "escribir".toList) :: (TOKEN_LPAREN, "(".toList) ::
      (e.terminals ++ [(TOKEN_RPAREN, ")".toList), (TOKEN_SEMICOLON, ";".toList)])

/-- The terminals of the statements of a block, without the braces. -/
def Block.terminals : Block → List Terminal
  | Block.nil => []
  | Block.cons st more => st.terminals ++ more.terminals

def ElseBlock.terminals : ElseBlock → List Terminal
  | ElseBlock.none => []
  | ElseBlock.sino b =>
    (TOKEN_SINO, "sino".toList) :: (TOKEN_LBRACE, [Char.ofNat 123]) ::
      (b.terminals ++ [(TOKEN_RBRACE, [Char.ofNat 125])])

end

mutual

def Statement.identifiers : Statement → List (List Char)
  | Statement.assignment name e => name :: e.identifiers
  | Statement.si c thenBlock elseBlock =>
    c.identifiers ++ (thenBlock.identifiers ++ elseBlock.identifiers)
  | Statement.mientras c body => c.identifiers ++ body.identifiers
  | Statement.repetir body c => body.identifiers ++ c.identifiers
  | Statement.leer name => [name]
  | Statement.escribir e => e.identifiers

def Block.identifiers : Block → List (List Char)
  | Block.nil => []
  | Block.cons st more => st.identifiers ++ more.identifiers

def ElseBlock.identifiers : ElseBlock → List (List Char)
  | ElseBlock.none => []
  | ElseBlock.sino b => b.identifiers

end

/-- `{ ',' Identifier }` -/
def identifierListTerminals : List (List Char) → List Terminal
  | [] => []
  | name :: more =>
    (TOKEN_COMMA, ",".toList) :: (TOKEN_IDENTIFIER, name) :: identifierListTerminals more

def Item.terminals : Item → List Terminal
  | Item.declaration kw first more =>
    kw.terminal :: (TOKEN_IDENTIFIER, first) ::
      (identifierListTerminals more ++ [(TOKEN_SEMICOLON, ";".toList)])
  | Item.statement st => st.terminals

def Program.terminals : Program → List Terminal
  | [] => []
  | item :: rest => item.terminals ++ Program.terminals rest

/-- The identifiers that a program declares, each with its declared type, in
the order of the declarations. -/
def Program.declared : Program → List (List Char × DataType)
  | [] => []
  | Item.declaration kw first more :: rest =>
    (first :: more).map (fun name => (name, kw.dataType)) ++ Program.declared rest
  | Item.statement _ :: rest => Program.declared rest

/-- A name that can be declared: a non-reserved word shorter than
`MAX_IDENTIFIER_LENGTH`. -/
def declarable (name : List Char) : Bool :=
  isValidIdentifier name && decide (name.length < MAX_IDENTIFIER_LENGTH)

/-- `wellDeclared known p`: with the names `known` already declared, every
declaration of `p` declares declarable names that are not declared yet (and
declares each once), and every identifier used in a statement is declared by
then. -/
def Program.wellDeclared : List (List Char) → Program → Bool
  | _, [] => true
  | known, Item.declaration _ first more :: rest =>
    (first :: more).all declarable &&
    decide ((first :: more).Nodup) &&
    (first :: more).all (fun name => decide (name ∉ known)) &&
    Program.wellDeclared ((first :: more).reverse ++ known) rest
  | known, Item.statement st :: rest =>
    st.identifiers.all (fun name => decide (name ∈ known)) &&
    Program.wellDeclared known rest

/-- The kind of the lookahead when the terminals `ts` are the rest of the
input. -/
def lookahead : List Terminal → TokenType
  | [] => TOKEN_EOF
  | t :: _ => t.1

/-- Some identifier of the list is not in the symbol table. -/
def anyUndeclared (s : State) (names : List (List Char)) : Bool :=
  names.any fun name => (lookupSymbol s name).isNone

def isAddOp (kind : TokenType) : Prop := kind = TOKEN_PLUS ∨ kind = TOKEN_MINUS

def isMulOp (kind : TokenType) : Prop :=
  kind = TOKEN_MULTIPLY ∨ kind = TOKEN_DIVIDE ∨ kind = TOKEN_MOD

def isRelOp (kind : TokenType) : Prop :=
  kind = TOKEN_EQUAL ∨ kind = TOKEN_NOT_EQUAL ∨ kind = TOKEN_LESS ∨
    kind = TOKEN_LESS_EQUAL ∨ kind = TOKEN_GREATER ∨ kind = TOKEN_GREATER_EQUAL

/-- `ParsedTo s r rest names`: from `s` the parser has read a well-formed phrase
in which the identifiers `names` occur and has reached `r`, where `rest` is what
remains of the input: the symbol table is the same, the error flag was raised if
and only if one of the names is not declared, and nothing was printed unless one
is not. -/
def ParsedTo (s r : State) (rest : List Terminal) (names : List (List Char)) : Prop :=
  TokenStream r rest ∧ r.symbolTable = s.symbolTable ∧
    r.hasError = (s.hasError || anyUndeclared s names) ∧
    (anyUndeclared s names = false → r.output = s.output)

/-! ## Conditions as chains of comparisons

Every sentence of `Condition` is a chain of comparisons joined by `y`, `o` or
`no`; the parser reads it as such a chain, whatever tree derives it. -/

/-- `Expression RelOp Expression` -/
structure Comparison where
  left : Expression
  op : RelOp
  right : Expression

inductive Connective where
  | y
  | o
  | no
  deriving DecidableEq, Repr

def Connective.terminal : Connective → Terminal
  | Connective.y => (TOKEN_AND, "y".toList)
  | Connective.o => (TOKEN_OR, "o".toList)
  | Connective.no => (TOKEN_NOT, "no".toList)

def LogOp.connective : LogOp → Connective
  | LogOp.y => Connective.y
  | LogOp.o => Connective.o

def Comparison.terminals (c : Comparison) : List Terminal :=
  c.left.terminals ++ c.op.terminal :: c.right.terminals

def Comparison.identifiers (c : Comparison) : List (List Char) :=
  c.left.identifiers ++ c.right.identifiers

def chainTerminals : List (Connective × Comparison) → List Terminal
  | [] => []
  | link :: more => link.1.terminal :: (link.2.terminals ++ chainTerminals more)

def chainIdentifiers : List (Connective × Comparison) → List (List Char)
  | [] => []
  | link :: more => link.2.identifiers ++ chainIdentifiers more

/-- The first comparison of a condition. -/
def Condition.head : Condition → Comparison
  | Condition.mk left op right _ _ => { left := left, op := op, right := right }

mutual

/-- The comparisons of a condition after the first, each with the word before it. -/
def Condition.tail : Condition → List (Connective × Comparison)
  | Condition.mk _ _ _ more negated => more.links ++ negated.links

def ConditionRest.links : ConditionRest → List (Connective × Comparison)
  | ConditionRest.nil => []
  | ConditionRest.cons op c more => (op.connective, c.head) :: (c.tail ++ more.links)

def ConditionNeg.links : ConditionNeg → List (Connective × Comparison)
  | ConditionNeg.none => []
  | ConditionNeg.no c => (Connective.no, c.head) :: c.tail

end

def isLogOp (kind : TokenType) : Prop :=
  kind = TOKEN_AND ∨ kind = TOKEN_OR ∨ kind = TOKEN_NOT

/-- Name and declared type of the symbols of the table, most recent first. -/
def declarations (s : State) : List (List Char × DataType) :=
  s.symbolTable.map fun sym => (sym.name, sym.type)

/-- `Accepted s r rest`: from `s` the parser has reached `r` without an error,
`rest` is what remains of the input, and the table declares what it declared. -/
def Accepted (s r : State) (rest : List Terminal) : Prop :=
  TokenStream r rest ∧ r.hasError = false ∧ declarations r = declarations s

/-- `Ready s names`: no error so far, the identifiers `names` are all declared,
and no symbol has the error type. -/
def Ready (s : State) (names : List (List Char)) : Prop :=
  s.hasError = false ∧ anyUndeclared s names = false ∧
    ∀ d ∈ declarations s, d.2 ≠ TYPE_ERROR

/-- The kinds of token that start a statement. -/
def isStatementStart (kind : TokenType) : Prop :=
  kind = TOKEN_IDENTIFIER ∨ kind = TOKEN_SI ∨ kind = TOKEN_MIENTRAS ∨
    kind = TOKEN_REPETIR ∨ kind = TOKEN_LEER ∨ kind = TOKEN_ESCRIBIR

/-! ## The derivation tree of the built-in example program -/

/-- A term that is one factor. -/
def Term.single (f : Factor) : Term := Term.mk f TermRest.nil

/-- An expression that is one factor. -/
def Expression.single (f : Factor) : Expression :=
  Expression.mk (Term.single f) ExpressionRest.nil

/-- A condition that is one comparison. -/
def Condition.single (left : Expression) (op : RelOp) (right : Expression) : Condition :=
  Condition.mk left op right ConditionRest.nil ConditionNeg.none

/-- The program of `getExampleSourceCode`, as a sentence of the grammar. -/
def exampleProgram : Program :=
  [ Item.declaration DataTypeKw.entero "contador".toList ["limite".toList],
    Item.declaration DataTypeKw.real "promedio".toList ["suma".toList],
    Item.declaration DataTypeKw.caracter "letra".toList ["vocal".toList],
    Item.statement (Statement.assignment "contador".toList
      (Expression.single (Factor.intLit "1".toList))),
    Item.statement (Statement.assignment "limite".toList
      (Expression.single (Factor.intLit "10".toList))),
    Item.statement (Statement.assignment "suma".toList
      (Expression.single (Factor.realLit "0.0".toList))),
    Item.statement (Statement.assignment "letra".toList
      (Expression.single (Factor.charLit [QUOTE, 'A', QUOTE]))),
    Item.statement (Statement.si
      (Condition.single (Expression.single (Factor.identifier "contador".toList))
        RelOp.lessEqual (Expression.single (Factor.identifier "limite".toList)))
      (Block.cons (Statement.escribir
          (Expression.single (Factor.identifier "contador".toList)))
        (Block.cons (Statement.assignment "suma".toList
          (Expression.mk (Term.single (Factor.identifier "suma".toList))
            (ExpressionRest.cons AddOp.plus
              (Term.single (Factor.identifier "contador".toList)) ExpressionRest.nil)))
          Block.nil))
      (ElseBlock.sino Block.nil)),
    Item.statement (Statement.mientras
      (Condition.single (Expression.single (Factor.identifier "contador".toList))
        RelOp.less (Expression.single (Factor.identifier "limite".toList)))
      (Block.cons (Statement.assignment "contador".toList
          (Expression.mk (Term.single (Factor.identifier "contador".toList))
            (ExpressionRest.cons AddOp.plus
              (Term.single (Factor.intLit "1".toList)) ExpressionRest.nil)))
        (Block.cons (Statement.assignment "suma".toList
          (Expression.mk (Term.single (Factor.identifier "suma".toList))
            (ExpressionRest.cons AddOp.plus
              (Term.single (Factor.identifier "contador".toList)) ExpressionRest.nil)))
          Block.nil))),
    Item.statement (Statement.repetir
      (Block.cons (Statement.escribir
          (Expression.single (Factor.identifier "letra".toList)))
        (Block.cons (Statement.assignment "contador".toList
          (Expression.mk (Term.single (Factor.identifier "contador".toList))
            (ExpressionRest.cons AddOp.minus
              (Term.single (Factor.intLit "1".toList)) ExpressionRest.nil)))
          Block.nil))
      (Condition.single (Expression.single (Factor.identifier "contador".toList))
        RelOp.equal (Expression.single (Factor.intLit "0".toList)))),
    Item.statement (Statement.assignment "promedio".toList
      (Expression.mk
        (Term.mk (Factor.identifier "suma".toList)
          (TermRest.cons MulOp.divide (Factor.identifier "limite".toList) TermRest.nil))
        ExpressionRest.nil)),
    Item.statement (Statement.escribir
      (Expression.single (Factor.identifier "promedio".toList))) ]

/-- `UndeclaredReported s r`: between `s`, whose lookahead is an identifier, and
`r` the undeclared-variable semantic error for that identifier was raised (the
error flag is set and the diagnostic is the one line printed) and the symbol
table was not touched. -/
def UndeclaredReported (s r : State) : Prop :=
  r.hasError = true ∧ r.symbolTable = s.symbolTable ∧
    r.output = s.output ++ [Diagnostic.errorSemantico s.currentLine
      ("Variable ".toList ++ [QUOTE] ++ s.currentToken.lexeme ++ [QUOTE] ++
        " no declarada".toList)]

/-! ## Auxiliary definitions for the tokenizer and the diagnostics of a run -/

/-- What a finished compilation shows: the error flag and the lines printed. -/
def State.summary (s : State) : Bool × List Diagnostic := (s.hasError, s.output)

/-- The state in which `getNextToken` classifies the next character: the state
after its three opening statements `skipWhitespace(); skipComment();
skipWhitespace();`.  Its scan offset is the offset of the first character of the
token that the call returns. -/
def skipToToken (s : State) : State := skipWhitespace (skipComment (skipWhitespace s))

/-- A white-space character of `skipWhitespace`. -/
def isBlank (c : Char) : Bool := c == ' ' || c == '\t' || c == '\n' || c == '\r'

/-- The line of offset `p` of a text: 1 plus the number of newline characters
before `p`. -/
def lineAt (code : List Char) (p : Nat) : Nat := 1 + (code.take p).count '\n'

/-- The column of offset `p` of a text: 1 plus the number of characters between
the last newline before `p` (or the start of the text) and `p`. -/
def columnAt (code : List Char) (p : Nat) : Nat :=
  1 + ((code.take p).reverse.takeWhile (fun c => c != '\n')).length

/-- The line counter of `s` is the line of its scan offset. -/
def LineSynced (s : State) : Prop := s.currentLine = lineAt s.sourceCode s.currentPos

/-- The column counter of `s` is the column of its scan offset. -/
def ColumnSynced (s : State) : Prop := s.currentColumn = columnAt s.sourceCode s.currentPos

/-- `r` is `s` with the scan offset and the column moved `k` characters to the
right, over characters that are neither a newline nor the end of the text. -/
def Scanned (s r : State) (k : Nat) : Prop :=
  r = { s with currentPos := s.currentPos + k, currentColumn := s.currentColumn + k } ∧
    ∀ i, i < k → charAt s.sourceCode (s.currentPos + i) ≠ '\n' ∧
      charAt s.sourceCode (s.currentPos + i) ≠ NUL

/-- `getNextToken`, entered with nothing to skip in state `s`, returns the token
`tok` of `k` characters and leaves state `r`: the token carries the line and column
of `s`, it is not the end-of-input token, and unless it is an error token its
lexeme is the text scanned. -/
def TokenAt (s : State) (tok : Token) (r : State) (k : Nat) : Prop :=
  Scanned s r k ∧ 0 < k ∧ tok.line = s.currentLine ∧ tok.column = s.currentColumn ∧
    tok.type ≠ TOKEN_EOF ∧
    (tok.type ≠ TOKEN_ERROR → tok.lexeme = substring s.sourceCode s.currentPos k)

/-- The counters of the tokenizer agree with its scan offset, but for the column
once the end of the text is reached (`skipComment` moves the offset and leaves the
column). -/
def CountersSynced (s : State) : Prop :=
  LineSynced s ∧ (ColumnSynced s ∨ charAt s.sourceCode s.currentPos = NUL)

/-- The reserved words of the language with their token kinds, as the
specification lists them. -/
def keywordTable : List (List Char × TokenType) :=
  [("entero".toList, TOKEN_ENTERO), ("caracter".toList, TOKEN_CARACTER),
   ("real".toList, TOKEN_REAL), ("si".toList, TOKEN_SI), ("sino".toList, TOKEN_SINO),
   ("mientras".toList, TOKEN_MIENTRAS), ("repetir".toList, TOKEN_REPETIR),
   ("hasta".toList, TOKEN_HASTA), ("leer".toList, TOKEN_LEER),
   ("escribir".toList, TOKEN_ESCRIBIR), ("y".toList, TOKEN_AND), ("o".toList, TOKEN_OR),
   ("no".toList, TOKEN_NOT)]

/-- The kind of a word by the specification: the kind of the reserved word that
it is, letter for letter, and identifier when it is none of them. -/
def keywordKind (w : List Char) : TokenType :=
  (keywordTable.lookup w).getD TOKEN_IDENTIFIER

/-- The globals as `initLexer(code)` sets them before it reads the first token. -/
def lexerStart (s : State) (code : List Char) : State :=
  { s with sourceCode := code, currentPos := 0, currentLine := 1, currentColumn := 1 }

/-- The state that a call of `getNextToken` leaves. -/
def lexerStep (s : State) : State := (getNextToken s).2

/-- The state of the tokenizer after `n` calls of `getNextToken` on a text. -/
def tokenizerState (code : List Char) (n : Nat) : State :=
  lexerStep^[n] (lexerStart initialState code)

/-- The size of the unread input of a state: the characters from the scan offset
to the end of the text, and one more while the lookahead is not the end-of-input
token. -/
def unread (s : State) : Nat :=
  (s.sourceCode.length - s.currentPos) + (if s.currentToken.type = TOKEN_EOF then 0 else 1)

/-- The token kinds that `parser.c` passes to `match`: every kind but the string
literal, the end-of-input token and the lexical-error token. -/
def grammarKinds : List TokenType :=
  [TOKEN_IDENTIFIER, TOKEN_NUMBER, TOKEN_CHAR_LITERAL, TOKEN_REAL_LITERAL, TOKEN_ENTERO,
   TOKEN_CARACTER, TOKEN_REAL, TOKEN_SI, TOKEN_SINO, TOKEN_MIENTRAS, TOKEN_REPETIR,
   TOKEN_HASTA, TOKEN_LEER, TOKEN_ESCRIBIR, TOKEN_PLUS, TOKEN_MINUS, TOKEN_MULTIPLY,
   TOKEN_DIVIDE, TOKEN_MOD, TOKEN_ASSIGN, TOKEN_EQUAL, TOKEN_NOT_EQUAL, TOKEN_LESS,
   TOKEN_LESS_EQUAL, TOKEN_GREATER, TOKEN_GREATER_EQUAL, TOKEN_AND, TOKEN_OR, TOKEN_NOT,
   TOKEN_LPAREN, TOKEN_RPAREN, TOKEN_LBRACE, TOKEN_RBRACE, TOKEN_SEMICOLON, TOKEN_COMMA]

/-- A token kind that no grammar rule accepts: a string literal or a lexical
error. -/
def Rejected (kind : TokenType) : Prop :=
  kind = TOKEN_STRING_LITERAL ∨ kind = TOKEN_ERROR

/-- A relation between a state and a later state that holds across every step of
the parser, where the steps that read a token are as the parser takes them: a
`match` of a kind of the grammar, and the recovery `syntaxError(...);
currentToken = getNextToken();` of `parseStatement`. -/
structure GuardedStep (P : State → State → Prop) : Prop where
  refl : ∀ s, P s s
  trans : ∀ a b c, P a b → P b c → P a c
  matched : ∀ expected s, expected ∈ grammarKinds → P s (match_ expected s)
  recovery : ∀ s message, P s (advance (syntaxError s message))
  syntaxError : ∀ s message, P s (syntaxError s message)
  semanticError : ∀ s message, P s (semanticError s message)
  insertSymbol : ∀ s name type, P s (insertSymbol s name type).2
  checkAssignmentCompatibility :
    ∀ s var e, P s (checkAssignmentCompatibility s var e)
  readTarget : ∀ s i, P s { s with symbolTable := setInitialized s.symbolTable i }

/-- The state of the tokenizer when the token number `j` of a text (counted from
0) is the lookahead: `initLexer` followed by `j` times `currentToken =
getNextToken()`. -/
def lookaheadState (code : List Char) (j : Nat) : State :=
  advance^[j] (initLexer initialState code)

/-- From `s` to `r` the parser has read `n` tokens, and if one of the `n`
lookaheads it has moved past was a string literal or a lexical-error token, the
error flag of `r` is set; a flag set in `s` is set in `r`. -/
def RejectsBadTokens (s r : State) : Prop :=
  (s.hasError = true → r.hasError = true) ∧
    ∃ n, SameLexer (advance^[n] s) r ∧
      ∀ j, j < n → Rejected (advance^[j] s).currentToken.type → r.hasError = true

/-! ## semantic.c: the checks of operations, and `cleanup` of main.c -/

def checkVariableInitialization (s : State) (name : List Char) : State :=
  match lookupSymbol s name with
  | none => s
  | some i =>
    match s.symbolTable[i]? with
    | none => s
    | some var =>
      if var.initialized = false then
        { s with output := s.output ++ [Diagnostic.advertencia
          ("Variable ".toList ++ [QUOTE] ++ name ++ [QUOTE] ++ " utilizada sin inicializar".toList)] }
      else s

def checkIntegerArithmetic (s : State) (operator : TokenType) : DataType × State :=
  if operator = TOKEN_DIVIDE then
    (TYPE_ENTERO, { s with output := s.output ++ [Diagnostic.advertencia
      "Divisi\xc3\xb3n entera puede causar p\xc3\xa9rdida de precisi\xc3\xb3n".toList] })
  else (TYPE_ENTERO, s)

def operationInvolvesReal (leftType rightType : DataType) : Bool :=
  (leftType == TYPE_REAL && rightType == TYPE_ENTERO) ||
  (leftType == TYPE_ENTERO && rightType == TYPE_REAL) ||
  (leftType == TYPE_REAL && rightType == TYPE_REAL)

/-- The inner `if` on the operator has no `else`: two characters under another
operator fall through to the second test, and from there to `TYPE_ERROR`. -/
def checkCharacterArithmetic (leftType rightType : DataType) (operator : TokenType) : DataType :=
  if leftType = TYPE_CARACTER ∧ rightType = TYPE_CARACTER ∧
      (operator = TOKEN_PLUS ∨ operator = TOKEN_MINUS) then TYPE_ENTERO
  else if (leftType = TYPE_CARACTER ∧ rightType = TYPE_ENTERO) ∨
      (leftType = TYPE_ENTERO ∧ rightType = TYPE_CARACTER) then TYPE_ENTERO
  else TYPE_ERROR

def validateArithmeticOperation (s : State) (leftType rightType : DataType)
    (operator : TokenType) : DataType × State :=
  if leftType = TYPE_ENTERO ∧ rightType = TYPE_ENTERO then checkIntegerArithmetic s operator
  else if operationInvolvesReal leftType rightType then (TYPE_REAL, s)
  else
    let charResult := checkCharacterArithmetic leftType rightType operator
    if charResult ≠ TYPE_ERROR then (charResult, s)
    else (TYPE_ERROR, s)

def checkArithmeticOperation (s : State) (leftType rightType : DataType)
    (operator : TokenType) : DataType × State :=
  let r := validateArithmeticOperation s leftType rightType operator
  if r.1 = TYPE_ERROR then
    (r.1, semanticError r.2
      ("Operaci\xc3\xb3n aritm\xc3\xa9tica no v\xc3\xa1lida entre tipos ".toList ++
        fmtInt leftType.code ++ " y ".toList ++ fmtInt rightType.code))
  else r

/-- The result is the `int` returned: 1 for a valid comparison, 0 otherwise. -/
def checkRelationalOperation (s : State) (leftType rightType : DataType) : Nat × State :=
  if leftType = rightType then (1, s)
  else if (leftType = TYPE_ENTERO ∨ leftType = TYPE_REAL) ∧
      (rightType = TYPE_ENTERO ∨ rightType = TYPE_REAL) then (1, s)
  else if (leftType = TYPE_CARACTER ∧ rightType = TYPE_ENTERO) ∨
      (leftType = TYPE_ENTERO ∧ rightType = TYPE_CARACTER) then (1, s)
  else
    (0, semanticError s ("Comparaci\xc3\xb3n no v\xc3\xa1lida entre tipos ".toList ++
      fmtInt leftType.code ++ " y ".toList ++ fmtInt rightType.code))

/-- The globals after `cleanup()`: the symbols are freed and the table, the scan
position and the error flag are reset. -/
def cleanup (s : State) : State :=
  { s with symbolTable := [], currentPos := 0, currentLine := 1, currentColumn := 1,
           hasError := false }

/-! ## Auxiliary definitions used by the statements -/

/-- Both operand types are numeric. -/
def bothNumeric (l r : DataType) : Prop :=
  (l = TYPE_ENTERO ∨ l = TYPE_REAL) ∧ (r = TYPE_ENTERO ∨ r = TYPE_REAL)

/-- One operand type is character and the other integer. -/
def characterWithInteger (l r : DataType) : Prop :=
  (l = TYPE_CARACTER ∧ r = TYPE_ENTERO) ∨ (l = TYPE_ENTERO ∧ r = TYPE_CARACTER)

/-- The result type of an arithmetic operation as the specification tabulates
it. -/
def arithmeticResult (l r : DataType) (op : TokenType) : DataType :=
  match l, r with
  | TYPE_ENTERO, TYPE_ENTERO => TYPE_ENTERO
  | TYPE_REAL, TYPE_REAL => TYPE_REAL
  | TYPE_REAL, TYPE_ENTERO => TYPE_REAL
  | TYPE_ENTERO, TYPE_REAL => TYPE_REAL
  | TYPE_CARACTER, TYPE_CARACTER =>
    if op = TOKEN_PLUS ∨ op = TOKEN_MINUS then TYPE_ENTERO else TYPE_ERROR
  | TYPE_CARACTER, TYPE_ENTERO => TYPE_ENTERO
  | TYPE_ENTERO, TYPE_CARACTER => TYPE_ENTERO
  | _, _ => TYPE_ERROR

/-- An error flag that is set in `s` is set in `r`. -/
def Sticky (s r : State) : Prop := s.hasError = true → r.hasError = true

/-- The function never clears the error flag. -/
def StickyFn (f : State → State) : Prop := ∀ s, Sticky s (f s)

/-- The parsing function never clears the error flag. -/
def StickyParser (f : Nat → State → Option State) : Prop :=
  ∀ fuel s r, f fuel s = some r → Sticky s r

/-- The body of the loop of `parseProgram`: one top-level declaration or
statement. -/
def parseTopLevel (fuel : Nat) (s : State) : Option State :=
  if s.currentToken.type = TOKEN_ENTERO ∨ s.currentToken.type = TOKEN_CARACTER ∨
      s.currentToken.type = TOKEN_REAL then parseDeclaration fuel s
  else parseStatement fuel s

/-- `Admitted s a`: the loop of `parseProgram`, entered in `s`, comes to test
its condition in `a`: every top-level declaration or statement before `a` was
entered with the error flag clear and the input not at its end. -/
inductive Admitted : State → State → Prop where
  | start (s : State) : Admitted s s
  | item {s a b : State} {fuel : Nat} : Admitted s a → a.currentToken.type ≠ TOKEN_EOF →
      a.hasError = false → parseTopLevel fuel a = some b → Admitted s b

/-- Name, declared type and value slot of a symbol. -/
def Symbol.slots (sym : Symbol) : List Char × DataType × SymbolValue :=
  (sym.name, sym.type, sym.value)

/-- Every symbol of the table holds the value it was created with. -/
def ZeroValues (s : State) : Prop :=
  ∀ sym ∈ s.symbolTable, sym.value = initializeSymbolValue sym.type

/-- The symbols of `s` are in `r` with the same name, type and value, after the
symbols inserted since, which hold the value they were created with. -/
def SlotsKept (s r : State) : Prop :=
  ∃ added : List Symbol, (∀ sym ∈ added, sym.value = initializeSymbolValue sym.type) ∧
    r.symbolTable.map Symbol.slots = (added ++ s.symbolTable).map Symbol.slots

/-- The state `s` of a process that had printed the lines `o` before. -/
def printedAfter (o : List Diagnostic) (s : State) : State :=
  { s with output := o ++ s.output }

/-- The state at the start of the text `leer(c);` with the character variable `c`
declared. -/
def readExample : State :=
  (insertSymbol (initLexer initialState "leer(c);".toList) "c".toList TYPE_CARACTER).2

/-! ## utils.c: the names of the token kinds -/

/-- The array `tokenNames` of `tokenTypeToString`, in the order of the source. -/
def tokenNames : List (List Char) :=
  ["IDENTIFICADOR".toList, "NUMERO".toList, "CARACTER".toList, "REAL".toList, "CADENA".toList,
   "TIPO_ENTERO".toList, "TIPO_CARACTER".toList, "TIPO_REAL".toList,
   "SI".toList, "SINO".toList, "MIENTRAS".toList, "REPETIR".toList, "HASTA".toList,
   "LEER".toList, "ESCRIBIR".toList,
   "ASIGNACION".toList, "SUMA".toList, "RESTA".toList, "MULTIPLICACION".toList,
   "DIVISION".toList, "MODULO".toList,
   "MENOR".toList, "MAYOR".toList, "MENOR_IGUAL".toList, "MAYOR_IGUAL".toList, "IGUAL".toList,
   "DIFERENTE".toList,
   "Y".toList, "O".toList, "NO".toList, "PARENTESIS_IZQ".toList, "PARENTESIS_DER".toList,
   "LLAVE_IZQ".toList,
   "LLAVE_DER".toList, "PUNTO_COMA".toList, "COMA".toList, "FIN_ARCHIVO".toList, "ERROR".toList]

/-- The text that `tokenTypeToString(tokenType, tokenStr)` copies to `tokenStr`:
the entry of `tokenNames` at the `int` value of the kind. -/
def tokenTypeToString (tokenType : TokenType) : List Char :=
  if tokenType.code < tokenNames.length then tokenNames.getD tokenType.code []
  else "DESCONOCIDO".toList

/-! ## Auxiliary definitions for the statements about the symbol table -/

/-- A relation between a state and a later state that holds across every
primitive step taken while a statement is parsed: the steps of an expression, the
compatibility check of an assignment and the marking of a read target.  No
statement inserts a symbol. -/
structure StatementStep (P : State → State → Prop) extends ExprStep P : Prop where
  checkAssignmentCompatibility :
    ∀ s var e, P s (checkAssignmentCompatibility s var e)
  readTarget : ∀ s i, P s { s with symbolTable := setInitialized s.symbolTable i }

/-- No symbol of the table has the error type. -/
def NoErrorType (s : State) : Prop := ∀ sym ∈ s.symbolTable, sym.type ≠ TYPE_ERROR

/-- What a list of declared identifiers adds to the table: new nodes of the
declared type, not initialized, in front of the table as it was. -/
def Declared (varType : DataType) (s r : State) : Prop :=
  ∃ added : List Symbol, r.symbolTable = added ++ s.symbolTable ∧
    ∀ sym ∈ added, sym.type = varType ∧ sym.initialized = false ∧
      sym.value = initializeSymbolValue varType

/-- The state at the start of the text `c := 2.5;` with the character variable `c`
declared. -/
def assignExample : State :=
  (insertSymbol (initLexer initialState "c := 2.5;".toList) "c".toList TYPE_CARACTER).2

/-! ## The lexeme buffer -/

/-- The lexeme of the token that the call of `getNextToken` in state `s` returns
fits the array `lexeme[MAX_TOKEN_LENGTH]` of `Token`, with its terminating NUL.
Without it the copy of the lexeme writes past the array. -/
@[reducible] def LexemeFits (s : State) : Prop :=
  (getNextToken s).1.lexeme.length < MAX_TOKEN_LENGTH

/-- The lexeme of every token that the calls of `getNextToken` from state `s` on
return fits the array.  The calls counted are the first `length - offset + 1`: one
of them returns end-of-input, and so does every later one. -/
@[reducible] def TokensFitFrom (s : State) : Prop :=
  ∀ n, n ≤ s.sourceCode.length - s.currentPos → LexemeFits (lexerStep^[n] s)

/-- Every token of the source text is shorter than `MAX_TOKEN_LENGTH`
characters. -/
@[reducible] def TokensFit (code : List Char) : Prop :=
  TokensFitFrom (lexerStart initialState code)

/-! ## A program of two lines -/

/-- The program `entero x; x := 5;` as a derivation of the grammar. -/
def declareAssignProgram : Program :=
  [Item.declaration DataTypeKw.entero "x".toList [],
   Item.statement (Statement.assignment "x".toList
     (Expression.single (Factor.intLit "5".toList)))]

/-! # The tokenizer leaves the parser's globals alone -/

theorem SameFrame.frame_refl (s : State) : SameFrame s s := ⟨rfl, rfl, rfl, rfl⟩

theorem SameFrame.frame_trans {a b c : State} (h1 : SameFrame a b) (h2 : SameFrame b c) :
    SameFrame a c := by
  obtain ⟨h11, h12, h13, h14⟩ := h1
  obtain ⟨h21, h22, h23, h24⟩ := h2
  exact ⟨h21.trans h11, h22.trans h12, h23.trans h13, h24.trans h14⟩

theorem skipWhitespace_frame (s : State) : SameFrame s (skipWhitespace s) := by
  simp [SameFrame, skipWhitespace]

theorem skipComment_frame (s : State) : SameFrame s (skipComment s) := by
  unfold skipComment; split <;> simp [SameFrame]

theorem processIdentifier_frame (s : State) : SameFrame s (processIdentifier s).2 := by
  simp [SameFrame, processIdentifier]

theorem processNumber_frame (s : State) : SameFrame s (processNumber s).2 := by
  unfold processNumber
  dsimp only
  split_ifs <;> simp [SameFrame]

theorem processCharLiteral_frame (s : State) : SameFrame s (processCharLiteral s).2 := by
  unfold processCharLiteral
  dsimp only
  split_ifs <;> simp [SameFrame]

theorem processStringLiteral_frame (s : State) : SameFrame s (processStringLiteral s).2 := by
  unfold processStringLiteral
  dsimp only
  split_ifs <;> simp [SameFrame]

theorem processTwoCharOperator_frame (s : State) :
    SameFrame s (processTwoCharOperator s).2 := by
  unfold processTwoCharOperator
  dsimp only
  split_ifs <;> simp [SameFrame]

theorem processSingleCharOperator_frame (s : State) (c : Char) :
    SameFrame s (processSingleCharOperator s c).2 := by
  unfold processSingleCharOperator
  dsimp only
  split
  · simp [SameFrame]
  · split
    · simp [SameFrame]
    · split <;> simp [SameFrame]

theorem getNextToken_frame (s : State) : SameFrame s (getNextToken s).2 := by
  have h0 : SameFrame s (skipWhitespace (skipComment (skipWhitespace s))) :=
    ((skipWhitespace_frame s).frame_trans (skipComment_frame _)).frame_trans (skipWhitespace_frame _)
  unfold getNextToken
  dsimp only
  split_ifs
  · exact h0
  · exact h0.frame_trans (processIdentifier_frame _)
  · exact h0.frame_trans (processNumber_frame _)
  · exact h0.frame_trans (processCharLiteral_frame _)
  · exact h0.frame_trans (processStringLiteral_frame _)
  · exact h0.frame_trans (processTwoCharOperator_frame _)
  · exact h0.frame_trans (processSingleCharOperator_frame _ _)

theorem advance_frame (s : State) : SameFrame s (advance s) := by
  have h := getNextToken_frame s
  simpa [advance, SameFrame] using h

@[simp] theorem advance_sourceCode (s : State) : (advance s).sourceCode = s.sourceCode :=
  (advance_frame s).1

@[simp] theorem advance_symbolTable (s : State) : (advance s).symbolTable = s.symbolTable :=
  (advance_frame s).2.1

@[simp] theorem advance_hasError (s : State) : (advance s).hasError = s.hasError :=
  (advance_frame s).2.2.1

@[simp] theorem advance_output (s : State) : (advance s).output = s.output :=
  (advance_frame s).2.2.2

@[simp] theorem advance_currentToken (s : State) :
    (advance s).currentToken = (getNextToken s).1 := rfl

/-! # Symbol table -/

theorem lookupFrom_eq_none_iff (table : List Symbol) (name : List Char) :
    lookupFrom table name = none ↔ ∀ sym ∈ table, sym.name ≠ name := by
  induction table with
  | nil => simp [lookupFrom]
  | cons a rest ih =>
    by_cases h : a.name = name
    · simp [lookupFrom, h]
    · simp [lookupFrom, h, ih]

theorem lookupFrom_isSome_iff (table : List Symbol) (name : List Char) :
    (lookupFrom table name).isSome ↔ ∃ sym ∈ table, sym.name = name := by
  rw [← not_iff_not]
  simp [lookupFrom_eq_none_iff]

/-- A successful lookup returns a node of the list, and that node has the name
looked up. -/
theorem lookupFrom_some (table : List Symbol) (name : List Char) (i : Nat)
    (h : lookupFrom table name = some i) :
    ∃ sym, table[i]? = some sym ∧ sym.name = name := by
  induction table generalizing i with
  | nil => simp [lookupFrom] at h
  | cons a rest ih =>
    by_cases hn : a.name = name
    · simp [lookupFrom, hn] at h
      subst h
      exact ⟨a, by simp, hn⟩
    · simp [lookupFrom, hn] at h
      obtain ⟨j, hj, rfl⟩ := h
      obtain ⟨sym, h1, h2⟩ := ih j hj
      exact ⟨sym, by simpa using h1, h2⟩

theorem setInitialized_get?_self (table : List Symbol) (i : Nat) (sym : Symbol)
    (h : table[i]? = some sym) :
    (setInitialized table i)[i]? = some { sym with initialized := true } := by
  induction table generalizing i with
  | nil => simp at h
  | cons a rest ih =>
    cases i with
    | zero =>
      simp at h
      subst h
      simp [setInitialized]
    | succ j =>
      simp at h
      simpa [setInitialized] using ih j (by simpa using h)

theorem setInitialized_get?_other (table : List Symbol) (i j : Nat) (h : j ≠ i) :
    (setInitialized table i)[j]? = table[j]? := by
  induction table generalizing i j with
  | nil => simp [setInitialized]
  | cons a rest ih =>
    cases i with
    | zero =>
      cases j with
      | zero => exact absurd rfl h
      | succ k => simp [setInitialized]
    | succ i' =>
      cases j with
      | zero => simp [setInitialized]
      | succ k =>
        have := ih i' k (by omega)
        simpa [setInitialized] using this

@[simp] theorem setInitialized_map_name (table : List Symbol) (i : Nat) :
    (setInitialized table i).map Symbol.name = table.map Symbol.name := by
  induction table generalizing i with
  | nil => simp [setInitialized]
  | cons a rest ih => cases i <;> simp [setInitialized, ih]

@[simp] theorem setInitialized_map_type (table : List Symbol) (i : Nat) :
    (setInitialized table i).map Symbol.type = table.map Symbol.type := by
  induction table generalizing i with
  | nil => simp [setInitialized]
  | cons a rest ih => cases i <;> simp [setInitialized, ih]

@[simp] theorem setInitialized_map_value (table : List Symbol) (i : Nat) :
    (setInitialized table i).map Symbol.value = table.map Symbol.value := by
  induction table generalizing i with
  | nil => simp [setInitialized]
  | cons a rest ih => cases i <;> simp [setInitialized, ih]

@[simp] theorem lookupFrom_setInitialized (table : List Symbol) (i : Nat) (name : List Char) :
    lookupFrom (setInitialized table i) name = lookupFrom table name := by
  induction table generalizing i with
  | nil => simp [setInitialized]
  | cons a rest ih => cases i <;> simp [setInitialized, lookupFrom, ih]

/-! # What holds across every step of the parser holds across the parser -/

theorem ExprStep.match_step {P : State → State → Prop} (hP : ExprStep P)
    (expected : TokenType) (s : State) : P s (match_ expected s) := by
  unfold Compilador.match_
  split
  · exact hP.advance s
  · exact hP.syntaxError s _

theorem ExprStep.expression_all {P : State → State → Prop} (hP : ExprStep P) : ∀ n,
    (∀ s r, parseExpression n s = some r → P s r) ∧
    (∀ s r, parseExpressionLoop n s = some r → P s r) ∧
    (∀ s r, parseTerm n s = some r → P s r) ∧
    (∀ s r, parseTermLoop n s = some r → P s r) ∧
    (∀ s r, parseFactor n s = some r → P s r) := by
  intro n
  induction n with
  | zero => simp [parseExpression, parseExpressionLoop, parseTerm, parseTermLoop, parseFactor]
  | succ n ih =>
    obtain ⟨ihE, ihEL, ihT, ihTL, ihF⟩ := ih
    refine ⟨?_, ?_, ?_, ?_, ?_⟩
    · intro s r h
      simp only [parseExpression, Option.bind_eq_some] at h
      obtain ⟨s1, h1, h2⟩ := h
      exact hP.trans _ _ _ (ihT _ _ h1) (ihEL _ _ h2)
    · intro s r h
      simp only [parseExpressionLoop] at h
      split at h
      · simp only [Option.bind_eq_some] at h
        obtain ⟨s1, h1, h2⟩ := h
        exact hP.trans _ _ _ (hP.match_step _ _) (hP.trans _ _ _ (ihT _ _ h1) (ihEL _ _ h2))
      · cases h
        exact hP.refl _
    · intro s r h
      simp only [parseTerm, Option.bind_eq_some] at h
      obtain ⟨s1, h1, h2⟩ := h
      exact hP.trans _ _ _ (ihF _ _ h1) (ihTL _ _ h2)
    · intro s r h
      simp only [parseTermLoop] at h
      split at h
      · simp only [Option.bind_eq_some] at h
        obtain ⟨s1, h1, h2⟩ := h
        exact hP.trans _ _ _ (hP.match_step _ _) (hP.trans _ _ _ (ihF _ _ h1) (ihTL _ _ h2))
      · cases h
        exact hP.refl _
    · intro s r h
      simp only [parseFactor] at h
      split_ifs at h
      · cases h
        exact hP.trans _ _ _ (hP.semanticError _ _) (hP.match_step _ _)
      · cases h
        exact hP.match_step _ _
      · cases h
        exact hP.match_step _ _
      · cases h
        exact hP.match_step _ _
      · cases h
        exact hP.match_step _ _
      · simp only [Option.map_eq_some'] at h
        obtain ⟨s1, h1, rfl⟩ := h
        exact hP.trans _ _ _ (hP.match_step _ _) (hP.trans _ _ _ (ihE _ _ h1) (hP.match_step _ _))
      · cases h
        exact hP.syntaxError _ _

theorem ExprStep.parseExpression {P : State → State → Prop} (hP : ExprStep P)
    {n : Nat} {s r : State} (h : parseExpression n s = some r) : P s r :=
  (hP.expression_all n).1 s r h

theorem ExprStep.parseTerm {P : State → State → Prop} (hP : ExprStep P)
    {n : Nat} {s r : State} (h : parseTerm n s = some r) : P s r :=
  (hP.expression_all n).2.2.1 s r h

theorem ExprStep.parseFactor {P : State → State → Prop} (hP : ExprStep P)
    {n : Nat} {s r : State} (h : parseFactor n s = some r) : P s r :=
  (hP.expression_all n).2.2.2.2 s r h

theorem ExprStep.condition_all {P : State → State → Prop} (hP : ExprStep P) : ∀ n,
    (∀ s r, parseCondition n s = some r → P s r) ∧
    (∀ s r, parseConditionLoop n s = some r → P s r) := by
  intro n
  induction n with
  | zero => simp [parseCondition, parseConditionLoop]
  | succ n ih =>
    obtain ⟨ihC, ihCL⟩ := ih
    refine ⟨?_, ?_⟩
    · intro s r h
      simp only [Compilador.parseCondition, Option.bind_eq_some] at h
      obtain ⟨s1, h1, s2, h2, s3, h3, h4⟩ := h
      have p1 : P s s1 := hP.parseExpression h1
      have p2 : P s1 s2 := by
        split at h2
        · exact hP.trans _ _ _ (hP.match_step _ _) (hP.parseExpression h2)
        · cases h2
          exact hP.syntaxError _ _
      have p3 : P s2 s3 := ihCL _ _ h3
      have p4 : P s3 r := by
        split at h4
        · exact hP.trans _ _ _ (hP.match_step _ _) (ihC _ _ h4)
        · cases h4
          exact hP.refl _
      exact hP.trans _ _ _ p1 (hP.trans _ _ _ p2 (hP.trans _ _ _ p3 p4))
    · intro s r h
      simp only [Compilador.parseConditionLoop] at h
      split at h
      · simp only [Option.bind_eq_some] at h
        obtain ⟨s1, h1, h2⟩ := h
        exact hP.trans _ _ _ (hP.match_step _ _) (hP.trans _ _ _ (ihC _ _ h1) (ihCL _ _ h2))
      · cases h
        exact hP.refl _

theorem ExprStep.parseCondition {P : State → State → Prop} (hP : ExprStep P)
    {n : Nat} {s r : State} (h : parseCondition n s = some r) : P s r :=
  (hP.condition_all n).1 s r h

theorem ExprStep.parseWriteStatement {P : State → State → Prop} (hP : ExprStep P)
    {n : Nat} {s r : State} (h : parseWriteStatement n s = some r) : P s r := by
  simp only [Compilador.parseWriteStatement, parseWriteParameters, Option.map_eq_some'] at h
  obtain ⟨s2, ⟨s1, h1, rfl⟩, rfl⟩ := h
  exact hP.trans _ _ _ (hP.match_step _ _) (hP.trans _ _ _ (hP.match_step _ _)
    (hP.trans _ _ _ (hP.parseExpression h1) (hP.trans _ _ _ (hP.match_step _ _) (hP.match_step _ _))))

theorem ExprStep.parseIfCondition {P : State → State → Prop} (hP : ExprStep P)
    {n : Nat} {s r : State} (h : parseIfCondition n s = some r) : P s r := by
  simp only [Compilador.parseIfCondition, Option.map_eq_some'] at h
  obtain ⟨s1, h1, rfl⟩ := h
  exact hP.trans _ _ _ (hP.match_step _ _) (hP.trans _ _ _ (hP.parseCondition h1) (hP.match_step _ _))

theorem ExprStep.parseWhileCondition {P : State → State → Prop} (hP : ExprStep P)
    {n : Nat} {s r : State} (h : parseWhileCondition n s = some r) : P s r := by
  simp only [Compilador.parseWhileCondition, Option.map_eq_some'] at h
  obtain ⟨s1, h1, rfl⟩ := h
  exact hP.trans _ _ _ (hP.match_step _ _) (hP.trans _ _ _ (hP.parseCondition h1) (hP.match_step _ _))

theorem ExprStep.parseUntilCondition {P : State → State → Prop} (hP : ExprStep P)
    {n : Nat} {s r : State} (h : parseUntilCondition n s = some r) : P s r := by
  simp only [Compilador.parseUntilCondition, Option.map_eq_some'] at h
  obtain ⟨s1, h1, rfl⟩ := h
  exact hP.trans _ _ _ (hP.match_step _ _) (hP.trans _ _ _ (hP.match_step _ _)
    (hP.trans _ _ _ (hP.parseCondition h1) (hP.trans _ _ _ (hP.match_step _ _) (hP.match_step _ _))))

theorem ParserStep.processVariableDeclaration {P : State → State → Prop} (hP : ParserStep P)
    (varType : DataType) (s : State) : P s (processVariableDeclaration varType s) := by
  unfold Compilador.processVariableDeclaration
  split
  · exact hP.syntaxError _ _
  · dsimp only
    refine hP.trans s (Compilador.insertSymbol s s.currentToken.lexeme varType).2 _
      (hP.insertSymbol _ _ _) (hP.trans _ _ _ ?_ (hP.match_step _ _))
    split
    · exact hP.syntaxError _ _
    · exact hP.refl _

theorem ParserStep.parseIdentifierListLoop {P : State → State → Prop} (hP : ParserStep P)
    (varType : DataType) : ∀ n s r, parseIdentifierListLoop varType n s = some r → P s r := by
  intro n
  induction n with
  | zero => simp [Compilador.parseIdentifierListLoop]
  | succ n ih =>
    intro s r h
    simp only [Compilador.parseIdentifierListLoop] at h
    split at h
    · exact hP.trans _ _ _ (hP.match_step _ _)
        (hP.trans _ _ _ (hP.processVariableDeclaration _ _) (ih _ _ h))
    · cases h
      exact hP.refl _

theorem ParserStep.parseDeclaration {P : State → State → Prop} (hP : ParserStep P)
    {n : Nat} {s r : State} (h : parseDeclaration n s = some r) : P s r := by
  simp only [Compilador.parseDeclaration, parseDataType, Option.map_eq_some'] at h
  obtain ⟨s1, h1, rfl⟩ := h
  refine hP.trans _ _ _ ?_ (hP.match_step _ _)
  by_cases ht : getDataTypeFromToken s = TYPE_ERROR
  · simp only [ht, if_true, ne_eq, not_true_eq_false, if_false, Option.some.injEq] at h1 ⊢
    subst h1
    exact hP.syntaxError _ _
  · simp only [ht, if_false, ne_eq, not_false_eq_true, if_true, parseIdentifierList] at h1 ⊢
    exact hP.trans _ _ _ (hP.match_step _ _) (hP.trans _ _ _ (hP.processVariableDeclaration _ _)
      (hP.parseIdentifierListLoop _ _ _ _ h1))

theorem ParserStep.processAssignmentVariable {P : State → State → Prop} (hP : ParserStep P)
    (s : State) : P s (processAssignmentVariable s).2 := by
  unfold Compilador.processAssignmentVariable
  split
  · exact hP.syntaxError _ _
  · dsimp only
    refine hP.trans _ _ _ ?_ (hP.match_step _ _)
    split
    · exact hP.semanticError _ _
    · exact hP.refl _

theorem ParserStep.parseAssignment {P : State → State → Prop} (hP : ParserStep P)
    {n : Nat} {s r : State} (h : parseAssignment n s = some r) : P s r := by
  simp only [Compilador.parseAssignment, Option.map_eq_some'] at h
  obtain ⟨s1, h1, rfl⟩ := h
  refine hP.trans _ _ _ (hP.processAssignmentVariable s) (hP.trans _ _ _ (hP.match_step _ _)
    (hP.trans _ _ _ (hP.parseExpression h1) (hP.trans _ _ _ ?_ (hP.match_step _ _))))
  unfold checkAssignmentSemantics
  split
  · exact hP.refl _
  · exact hP.checkAssignmentCompatibility _ _ _

theorem ParserStep.processReadIdentifier {P : State → State → Prop} (hP : ParserStep P)
    (s : State) : P s (processReadIdentifier s) := by
  unfold Compilador.processReadIdentifier
  split
  · exact hP.syntaxError _ _
  · dsimp only
    refine hP.trans _ _ _ ?_ (hP.match_step _ _)
    split
    · exact hP.semanticError _ _
    · exact hP.readTarget _ _

theorem ParserStep.parseReadStatement {P : State → State → Prop} (hP : ParserStep P)
    (s : State) : P s (parseReadStatement s) := by
  unfold Compilador.parseReadStatement parseReadParameters
  exact hP.trans _ _ _ (hP.match_step _ _) (hP.trans _ _ _ (hP.match_step _ _)
    (hP.trans _ _ _ (hP.processReadIdentifier _) (hP.trans _ _ _ (hP.match_step _ _) (hP.match_step _ _))))

theorem ParserStep.statement_all {P : State → State → Prop} (hP : ParserStep P) : ∀ n,
    (∀ s r, parseStatement n s = some r → P s r) ∧
    (∀ s r, parseBlock n s = some r → P s r) ∧
    (∀ s r, parseBlockLoop n s = some r → P s r) ∧
    (∀ s r, parseElseBlock n s = some r → P s r) ∧
    (∀ s r, parseIfStatement n s = some r → P s r) ∧
    (∀ s r, parseWhileStatement n s = some r → P s r) ∧
    (∀ s r, parseRepeatStatement n s = some r → P s r) := by
  intro n
  induction n with
  | zero =>
    simp [parseStatement, parseBlock, parseBlockLoop, parseElseBlock, parseIfStatement,
      parseWhileStatement, parseRepeatStatement]
  | succ n ih =>
    obtain ⟨ihS, ihB, ihBL, ihEB, ihI, ihW, ihR⟩ := ih
    refine ⟨?_, ?_, ?_, ?_, ?_, ?_, ?_⟩
    · intro s r h
      simp only [parseStatement] at h
      split_ifs at h
      · exact hP.parseAssignment h
      · exact ihI _ _ h
      · exact ihW _ _ h
      · exact ihR _ _ h
      · cases h
        exact hP.parseReadStatement _
      · exact hP.parseWriteStatement h
      · cases h
        exact hP.trans _ _ _ (hP.syntaxError _ _) (hP.advance _)
    · intro s r h
      simp only [parseBlock, Option.map_eq_some'] at h
      obtain ⟨s1, h1, rfl⟩ := h
      exact hP.trans _ _ _ (hP.match_step _ _) (hP.trans _ _ _ (ihBL _ _ h1) (hP.match_step _ _))
    · intro s r h
      simp only [parseBlockLoop] at h
      split at h
      · simp only [Option.bind_eq_some] at h
        obtain ⟨s1, h1, h2⟩ := h
        exact hP.trans _ _ _ (ihS _ _ h1) (ihBL _ _ h2)
      · cases h
        exact hP.refl _
    · intro s r h
      simp only [parseElseBlock] at h
      split at h
      · exact hP.trans _ _ _ (hP.match_step _ _) (ihB _ _ h)
      · cases h
        exact hP.refl _
    · intro s r h
      simp only [parseIfStatement, Option.bind_eq_some] at h
      obtain ⟨s1, h1, s2, h2, h3⟩ := h
      exact hP.trans _ _ _ (hP.match_step _ _) (hP.trans _ _ _ (hP.parseIfCondition h1)
        (hP.trans _ _ _ (ihB _ _ h2) (ihEB _ _ h3)))
    · intro s r h
      simp only [parseWhileStatement, Option.bind_eq_some] at h
      obtain ⟨s1, h1, h2⟩ := h
      exact hP.trans _ _ _ (hP.match_step _ _) (hP.trans _ _ _ (hP.parseWhileCondition h1)
        (ihB _ _ h2))
    · intro s r h
      simp only [parseRepeatStatement, Option.bind_eq_some] at h
      obtain ⟨s1, h1, h2⟩ := h
      exact hP.trans _ _ _ (hP.match_step _ _) (hP.trans _ _ _ (ihB _ _ h1)
        (hP.parseUntilCondition h2))

theorem ParserStep.parseStatement {P : State → State → Prop} (hP : ParserStep P)
    {n : Nat} {s r : State} (h : parseStatement n s = some r) : P s r :=
  (hP.statement_all n).1 s r h

theorem ParserStep.parseBlock {P : State → State → Prop} (hP : ParserStep P)
    {n : Nat} {s r : State} (h : parseBlock n s = some r) : P s r :=
  (hP.statement_all n).2.1 s r h

theorem ParserStep.parseProgram {P : State → State → Prop} (hP : ParserStep P) :
    ∀ n s r, parseProgram n s = some r → P s r := by
  intro n
  induction n with
  | zero => simp [Compilador.parseProgram]
  | succ n ih =>
    intro s r h
    simp only [Compilador.parseProgram] at h
    split at h
    · simp only [Option.bind_eq_some] at h
      obtain ⟨s1, h1, h2⟩ := h
      refine hP.trans _ _ _ ?_ (ih _ _ h2)
      split at h1
      · exact hP.parseDeclaration h1
      · exact hP.parseStatement h1
    · cases h
      exact hP.refl _

/-! # More fuel never changes a result -/

theorem exists_succ_of_succ_le {n m : Nat} (h : n + 1 ≤ m) : ∃ k, m = k + 1 ∧ n ≤ k :=
  ⟨m - 1, by omega, by omega⟩

theorem expression_mono_all : ∀ n,
    (∀ m s r, n ≤ m → parseExpression n s = some r → parseExpression m s = some r) ∧
    (∀ m s r, n ≤ m → parseExpressionLoop n s = some r → parseExpressionLoop m s = some r) ∧
    (∀ m s r, n ≤ m → parseTerm n s = some r → parseTerm m s = some r) ∧
    (∀ m s r, n ≤ m → parseTermLoop n s = some r → parseTermLoop m s = some r) ∧
    (∀ m s r, n ≤ m → parseFactor n s = some r → parseFactor m s = some r) := by
  intro n
  induction n with
  | zero => simp [parseExpression, parseExpressionLoop, parseTerm, parseTermLoop, parseFactor]
  | succ n ih =>
    obtain ⟨ihE, ihEL, ihT, ihTL, ihF⟩ := ih
    refine ⟨?_, ?_, ?_, ?_, ?_⟩
    · intro m s r hm h
      obtain ⟨k, rfl, hk⟩ := exists_succ_of_succ_le hm
      simp only [parseExpression, Option.bind_eq_some] at h ⊢
      obtain ⟨s1, h1, h2⟩ := h
      exact ⟨s1, ihT k _ _ hk h1, ihEL k _ _ hk h2⟩
    · intro m s r hm h
      obtain ⟨k, rfl, hk⟩ := exists_succ_of_succ_le hm
      simp only [parseExpressionLoop] at h ⊢
      split_ifs at h ⊢
      · simp only [Option.bind_eq_some] at h ⊢
        obtain ⟨s1, h1, h2⟩ := h
        exact ⟨s1, ihT k _ _ hk h1, ihEL k _ _ hk h2⟩
      · exact h
    · intro m s r hm h
      obtain ⟨k, rfl, hk⟩ := exists_succ_of_succ_le hm
      simp only [parseTerm, Option.bind_eq_some] at h ⊢
      obtain ⟨s1, h1, h2⟩ := h
      exact ⟨s1, ihF k _ _ hk h1, ihTL k _ _ hk h2⟩
    · intro m s r hm h
      obtain ⟨k, rfl, hk⟩ := exists_succ_of_succ_le hm
      simp only [parseTermLoop] at h ⊢
      split_ifs at h ⊢
      · simp only [Option.bind_eq_some] at h ⊢
        obtain ⟨s1, h1, h2⟩ := h
        exact ⟨s1, ihF k _ _ hk h1, ihTL k _ _ hk h2⟩
      · exact h
    · intro m s r hm h
      obtain ⟨k, rfl, hk⟩ := exists_succ_of_succ_le hm
      simp only [parseFactor] at h ⊢
      split_ifs at h ⊢
      all_goals first
        | exact h
        | (simp only [Option.map_eq_some'] at h ⊢
           obtain ⟨s1, h1, h2⟩ := h
           exact ⟨s1, ihE k _ _ hk h1, h2⟩)

theorem parseExpression_mono {n m : Nat} {s r : State} (hm : n ≤ m)
    (h : parseExpression n s = some r) : parseExpression m s = some r :=
  (expression_mono_all n).1 m s r hm h

theorem condition_mono_all : ∀ n,
    (∀ m s r, n ≤ m → parseCondition n s = some r → parseCondition m s = some r) ∧
    (∀ m s r, n ≤ m → parseConditionLoop n s = some r → parseConditionLoop m s = some r) := by
  intro n
  induction n with
  | zero => simp [parseCondition, parseConditionLoop]
  | succ n ih =>
    obtain ⟨ihC, ihCL⟩ := ih
    refine ⟨?_, ?_⟩
    · intro m s r hm h
      obtain ⟨k, rfl, hk⟩ := exists_succ_of_succ_le hm
      simp only [parseCondition, Option.bind_eq_some] at h ⊢
      obtain ⟨s1, h1, s2, h2, s3, h3, h4⟩ := h
      refine ⟨s1, parseExpression_mono hk h1, s2, ?_, s3, ihCL k _ _ hk h3, ?_⟩
      · split_ifs at h2 ⊢
        · exact parseExpression_mono hk h2
        · exact h2
      · split_ifs at h4 ⊢
        · exact ihC k _ _ hk h4
        · exact h4
    · intro m s r hm h
      obtain ⟨k, rfl, hk⟩ := exists_succ_of_succ_le hm
      simp only [parseConditionLoop] at h ⊢
      split_ifs at h ⊢
      · simp only [Option.bind_eq_some] at h ⊢
        obtain ⟨s1, h1, h2⟩ := h
        exact ⟨s1, ihC k _ _ hk h1, ihCL k _ _ hk h2⟩
      · exact h

theorem parseCondition_mono {n m : Nat} {s r : State} (hm : n ≤ m)
    (h : parseCondition n s = some r) : parseCondition m s = some r :=
  (condition_mono_all n).1 m s r hm h

theorem parseIdentifierListLoop_mono (varType : DataType) : ∀ n m s r, n ≤ m →
    parseIdentifierListLoop varType n s = some r →
    parseIdentifierListLoop varType m s = some r := by
  intro n
  induction n with
  | zero => simp [parseIdentifierListLoop]
  | succ n ih =>
    intro m s r hm h
    obtain ⟨k, rfl, hk⟩ := exists_succ_of_succ_le hm
    simp only [parseIdentifierListLoop] at h ⊢
    split_ifs at h ⊢
    · exact ih k _ _ hk h
    · exact h

theorem parseDeclaration_mono {n m : Nat} {s r : State} (hm : n ≤ m)
    (h : parseDeclaration n s = some r) : parseDeclaration m s = some r := by
  simp only [parseDeclaration, parseIdentifierList, Option.map_eq_some'] at h ⊢
  obtain ⟨s1, h1, h2⟩ := h
  refine ⟨s1, ?_, h2⟩
  split_ifs at h1 ⊢
  · exact parseIdentifierListLoop_mono _ _ _ _ _ hm h1
  · exact h1

theorem parseAssignment_mono {n m : Nat} {s r : State} (hm : n ≤ m)
    (h : parseAssignment n s = some r) : parseAssignment m s = some r := by
  simp only [parseAssignment, Option.map_eq_some'] at h ⊢
  obtain ⟨s1, h1, h2⟩ := h
  exact ⟨s1, parseExpression_mono hm h1, h2⟩

theorem parseIfCondition_mono {n m : Nat} {s r : State} (hm : n ≤ m)
    (h : parseIfCondition n s = some r) : parseIfCondition m s = some r := by
  simp only [parseIfCondition, Option.map_eq_some'] at h ⊢
  obtain ⟨s1, h1, h2⟩ := h
  exact ⟨s1, parseCondition_mono hm h1, h2⟩

theorem parseWhileCondition_mono {n m : Nat} {s r : State} (hm : n ≤ m)
    (h : parseWhileCondition n s = some r) : parseWhileCondition m s = some r := by
  simp only [parseWhileCondition, Option.map_eq_some'] at h ⊢
  obtain ⟨s1, h1, h2⟩ := h
  exact ⟨s1, parseCondition_mono hm h1, h2⟩

theorem parseUntilCondition_mono {n m : Nat} {s r : State} (hm : n ≤ m)
    (h : parseUntilCondition n s = some r) : parseUntilCondition m s = some r := by
  simp only [parseUntilCondition, Option.map_eq_some'] at h ⊢
  obtain ⟨s1, h1, h2⟩ := h
  exact ⟨s1, parseCondition_mono hm h1, h2⟩

theorem parseWriteStatement_mono {n m : Nat} {s r : State} (hm : n ≤ m)
    (h : parseWriteStatement n s = some r) : parseWriteStatement m s = some r := by
  simp only [parseWriteStatement, parseWriteParameters, Option.map_eq_some'] at h ⊢
  obtain ⟨s2, ⟨s1, h1, h2⟩, h3⟩ := h
  exact ⟨s2, ⟨s1, parseExpression_mono hm h1, h2⟩, h3⟩

theorem statement_mono_all : ∀ n,
    (∀ m s r, n ≤ m → parseStatement n s = some r → parseStatement m s = some r) ∧
    (∀ m s r, n ≤ m → parseBlock n s = some r → parseBlock m s = some r) ∧
    (∀ m s r, n ≤ m → parseBlockLoop n s = some r → parseBlockLoop m s = some r) ∧
    (∀ m s r, n ≤ m → parseElseBlock n s = some r → parseElseBlock m s = some r) ∧
    (∀ m s r, n ≤ m → parseIfStatement n s = some r → parseIfStatement m s = some r) ∧
    (∀ m s r, n ≤ m → parseWhileStatement n s = some r → parseWhileStatement m s = some r) ∧
    (∀ m s r, n ≤ m → parseRepeatStatement n s = some r →
      parseRepeatStatement m s = some r) := by
  intro n
  induction n with
  | zero =>
    simp [parseStatement, parseBlock, parseBlockLoop, parseElseBlock, parseIfStatement,
      parseWhileStatement, parseRepeatStatement]
  | succ n ih =>
    obtain ⟨ihS, ihB, ihBL, ihEB, ihI, ihW, ihR⟩ := ih
    refine ⟨?_, ?_, ?_, ?_, ?_, ?_, ?_⟩
    · intro m s r hm h
      obtain ⟨k, rfl, hk⟩ := exists_succ_of_succ_le hm
      simp only [parseStatement] at h ⊢
      split_ifs at h ⊢
      · exact parseAssignment_mono hk h
      · exact ihI k _ _ hk h
      · exact ihW k _ _ hk h
      · exact ihR k _ _ hk h
      · exact h
      · exact parseWriteStatement_mono hk h
      · exact h
    · intro m s r hm h
      obtain ⟨k, rfl, hk⟩ := exists_succ_of_succ_le hm
      simp only [parseBlock, Option.map_eq_some'] at h ⊢
      obtain ⟨s1, h1, h2⟩ := h
      exact ⟨s1, ihBL k _ _ hk h1, h2⟩
    · intro m s r hm h
      obtain ⟨k, rfl, hk⟩ := exists_succ_of_succ_le hm
      simp only [parseBlockLoop] at h ⊢
      split_ifs at h ⊢
      · simp only [Option.bind_eq_some] at h ⊢
        obtain ⟨s1, h1, h2⟩ := h
        exact ⟨s1, ihS k _ _ hk h1, ihBL k _ _ hk h2⟩
      · exact h
    · intro m s r hm h
      obtain ⟨k, rfl, hk⟩ := exists_succ_of_succ_le hm
      simp only [parseElseBlock] at h ⊢
      split_ifs at h ⊢
      · exact ihB k _ _ hk h
      · exact h
    · intro m s r hm h
      obtain ⟨k, rfl, hk⟩ := exists_succ_of_succ_le hm
      simp only [parseIfStatement, Option.bind_eq_some] at h ⊢
      obtain ⟨s1, h1, s2, h2, h3⟩ := h
      exact ⟨s1, parseIfCondition_mono hk h1, s2, ihB k _ _ hk h2, ihEB k _ _ hk h3⟩
    · intro m s r hm h
      obtain ⟨k, rfl, hk⟩ := exists_succ_of_succ_le hm
      simp only [parseWhileStatement, Option.bind_eq_some] at h ⊢
      obtain ⟨s1, h1, h2⟩ := h
      exact ⟨s1, parseWhileCondition_mono hk h1, ihB k _ _ hk h2⟩
    · intro m s r hm h
      obtain ⟨k, rfl, hk⟩ := exists_succ_of_succ_le hm
      simp only [parseRepeatStatement, Option.bind_eq_some] at h ⊢
      obtain ⟨s1, h1, h2⟩ := h
      exact ⟨s1, ihB k _ _ hk h1, parseUntilCondition_mono hk h2⟩

theorem parseStatement_mono {n m : Nat} {s r : State} (hm : n ≤ m)
    (h : parseStatement n s = some r) : parseStatement m s = some r :=
  (statement_mono_all n).1 m s r hm h

theorem parseBlock_mono {n m : Nat} {s r : State} (hm : n ≤ m)
    (h : parseBlock n s = some r) : parseBlock m s = some r :=
  (statement_mono_all n).2.1 m s r hm h

theorem parseBlockLoop_mono {n m : Nat} {s r : State} (hm : n ≤ m)
    (h : parseBlockLoop n s = some r) : parseBlockLoop m s = some r :=
  (statement_mono_all n).2.2.1 m s r hm h

theorem parseElseBlock_mono {n m : Nat} {s r : State} (hm : n ≤ m)
    (h : parseElseBlock n s = some r) : parseElseBlock m s = some r :=
  (statement_mono_all n).2.2.2.1 m s r hm h

theorem parseProgram_mono : ∀ n m s r, n ≤ m →
    parseProgram n s = some r → parseProgram m s = some r := by
  intro n
  induction n with
  | zero => simp [parseProgram]
  | succ n ih =>
    intro m s r hm h
    obtain ⟨k, rfl, hk⟩ := exists_succ_of_succ_le hm
    simp only [parseProgram] at h ⊢
    split_ifs at h ⊢
    · simp only [Option.bind_eq_some] at h ⊢
      obtain ⟨s1, h1, h2⟩ := h
      exact ⟨s1, parseDeclaration_mono hk h1, ih k _ _ hk h2⟩
    · simp only [Option.bind_eq_some] at h ⊢
      obtain ⟨s1, h1, h2⟩ := h
      exact ⟨s1, parseStatement_mono hk h1, ih k _ _ hk h2⟩
    · exact h

/-- A compilation that ends with some fuel ends in the same state with any
larger fuel. -/
theorem compile_mono {n m : Nat} {code : List Char} {r : State} (hm : n ≤ m)
    (h : compile n code = some r) : compile m code = some r :=
  parseProgram_mono n m _ r hm h

/-! # The token stream seen by the parser -/

theorem SameLexer.lexer_refl (s : State) : SameLexer s s := ⟨rfl, rfl, rfl, rfl, rfl⟩

theorem SameLexer.lexer_symm {s r : State} (h : SameLexer s r) : SameLexer r s :=
  ⟨h.1.symm, h.2.1.symm, h.2.2.1.symm, h.2.2.2.1.symm, h.2.2.2.2.symm⟩

theorem SameLexer.lexer_trans {a b c : State} (h1 : SameLexer a b) (h2 : SameLexer b c) :
    SameLexer a c :=
  ⟨h2.1.trans h1.1, h2.2.1.trans h1.2.1, h2.2.2.1.trans h1.2.2.1,
    h2.2.2.2.1.trans h1.2.2.2.1, h2.2.2.2.2.trans h1.2.2.2.2⟩

theorem skipWhitespace_congr {s r : State} (h : SameLexer s r) :
    SameLexer (skipWhitespace s) (skipWhitespace r) := by
  obtain ⟨h1, h2, h3, h4, h5⟩ := h
  simp [skipWhitespace, SameLexer, h1, h2, h3, h4, h5]

theorem skipComment_congr {s r : State} (h : SameLexer s r) :
    SameLexer (skipComment s) (skipComment r) := by
  obtain ⟨h1, h2, h3, h4, h5⟩ := h
  simp only [skipComment, h1, h2]
  split_ifs <;> simp [SameLexer, h1, h2, h3, h4, h5]

theorem processIdentifier_congr {s r : State} (h : SameLexer s r) :
    (processIdentifier r).1 = (processIdentifier s).1 ∧
      SameLexer (processIdentifier s).2 (processIdentifier r).2 := by
  obtain ⟨h1, h2, h3, h4, h5⟩ := h
  simp [processIdentifier, SameLexer, h1, h2, h3, h4, h5]

theorem processNumber_congr {s r : State} (h : SameLexer s r) :
    (processNumber r).1 = (processNumber s).1 ∧
      SameLexer (processNumber s).2 (processNumber r).2 := by
  obtain ⟨h1, h2, h3, h4, h5⟩ := h
  simp only [processNumber, h1, h2, h3, h4]
  split_ifs <;> simp [SameLexer, h1, h2, h3, h4, h5]

theorem processCharLiteral_congr {s r : State} (h : SameLexer s r) :
    (processCharLiteral r).1 = (processCharLiteral s).1 ∧
      SameLexer (processCharLiteral s).2 (processCharLiteral r).2 := by
  obtain ⟨h1, h2, h3, h4, h5⟩ := h
  simp only [processCharLiteral, h1, h2, h3, h4]
  split_ifs <;> simp [SameLexer, h1, h2, h3, h4, h5]

theorem processStringLiteral_congr {s r : State} (h : SameLexer s r) :
    (processStringLiteral r).1 = (processStringLiteral s).1 ∧
      SameLexer (processStringLiteral s).2 (processStringLiteral r).2 := by
  obtain ⟨h1, h2, h3, h4, h5⟩ := h
  simp only [processStringLiteral, h1, h2, h3, h4]
  split_ifs <;> simp [SameLexer, h1, h2, h3, h4, h5]

theorem processTwoCharOperator_congr {s r : State} (h : SameLexer s r) :
    (processTwoCharOperator r).1 = (processTwoCharOperator s).1 ∧
      SameLexer (processTwoCharOperator s).2 (processTwoCharOperator r).2 := by
  obtain ⟨h1, h2, h3, h4, h5⟩ := h
  simp only [processTwoCharOperator, createBasicToken, h1, h2, h3, h4]
  split_ifs <;> simp [SameLexer, h1, h2, h3, h4, h5]

theorem createBasicToken_congr {s r : State} (h : SameLexer s r) (type : TokenType)
    (lexeme : List Char) : createBasicToken r type lexeme = createBasicToken s type lexeme := by
  obtain ⟨h1, h2, h3, h4, h5⟩ := h
  simp [createBasicToken, h3, h4]

theorem processSingleCharOperator_congr {s r : State} (h : SameLexer s r) (c : Char) :
    (processSingleCharOperator r c).1 = (processSingleCharOperator s c).1 ∧
      SameLexer (processSingleCharOperator s c).2 (processSingleCharOperator r c).2 := by
  have ha : processArithmeticOperator r c = processArithmeticOperator s c := by
    simp only [processArithmeticOperator, createBasicToken_congr h]
  have hr : processRelationalOperator r c = processRelationalOperator s c := by
    simp only [processRelationalOperator, createBasicToken_congr h]
  have hd : processDelimiter r c = processDelimiter s c := by
    simp only [processDelimiter, createBasicToken_congr h]
  obtain ⟨h1, h2, h3, h4, h5⟩ := h
  simp only [processSingleCharOperator, ha, hr, hd, h3, h4]
  split
  · simp [SameLexer, h1, h2, h3, h4, h5]
  · split
    · simp [SameLexer, h1, h2, h3, h4, h5]
    · split <;> simp [SameLexer, h1, h2, h3, h4, h5]

/-- The tokenizer reads only its own globals. -/
theorem getNextToken_congr {s r : State} (h : SameLexer s r) :
    (getNextToken r).1 = (getNextToken s).1 ∧
      SameLexer (getNextToken s).2 (getNextToken r).2 := by
  have h0 : SameLexer (skipWhitespace (skipComment (skipWhitespace s)))
      (skipWhitespace (skipComment (skipWhitespace r))) :=
    skipWhitespace_congr (skipComment_congr (skipWhitespace_congr h))
  unfold getNextToken
  generalize skipWhitespace (skipComment (skipWhitespace s)) = a at h0 ⊢
  generalize skipWhitespace (skipComment (skipWhitespace r)) = b at h0 ⊢
  have e1 := h0.1
  have e2 := h0.2.1
  simp only [e1, e2, isTwoCharOperatorStart]
  split_ifs
  · exact ⟨by simp [h0.2.2.1, h0.2.2.2.1], h0⟩
  · exact processIdentifier_congr h0
  · exact processNumber_congr h0
  · exact processCharLiteral_congr h0
  · exact processStringLiteral_congr h0
  · exact processTwoCharOperator_congr h0
  · exact processSingleCharOperator_congr h0 _

theorem advance_congr {s r : State} (h : SameLexer s r) :
    SameLexer (advance s) (advance r) := by
  obtain ⟨h1, h2⟩ := getNextToken_congr h
  obtain ⟨g1, g2, g3, g4, _⟩ := h2
  simp only [SameLexer, advance]
  exact ⟨g1, g2, g3, g4, h1⟩

theorem TokenStream.congr {s : State} {ts : List Terminal} (h : TokenStream s ts) :
    ∀ {r : State}, SameLexer s r → TokenStream r ts := by
  induction h with
  | eof h0 =>
    intro r hr
    exact TokenStream.eof (by rw [hr.2.2.2.2]; exact h0)
  | @cons s ts h0 _ ih =>
    intro r hr
    have := @TokenStream.cons r ts (by rw [hr.2.2.2.2]; exact h0)
      (ih (advance_congr hr))
    rwa [hr.2.2.2.2] at this

theorem tokensFrom_sound : ∀ (fuel : Nat) (s : State) (ts : List Terminal),
    tokensFrom fuel s = some ts → TokenStream s ts := by
  intro fuel
  induction fuel with
  | zero => simp [tokensFrom]
  | succ n ih =>
    intro s ts h
    simp only [tokensFrom] at h
    split_ifs at h with h0
    · cases h
      exact TokenStream.eof h0
    · simp only [Option.map_eq_some'] at h
      obtain ⟨ts', h1, rfl⟩ := h
      exact TokenStream.cons h0 (ih _ _ h1)

theorem TokenStream.nil_type {s : State} (h : TokenStream s []) :
    s.currentToken.type = TOKEN_EOF := by
  cases h with
  | eof h0 => exact h0

theorem TokenStream.head {s : State} {t : Terminal} {ts : List Terminal}
    (h : TokenStream s (t :: ts)) :
    s.currentToken.type = t.1 ∧ s.currentToken.lexeme = t.2 ∧ t.1 ≠ TOKEN_EOF ∧
      TokenStream (advance s) ts := by
  cases h with
  | cons h0 h1 => exact ⟨rfl, rfl, h0, h1⟩

/-- With the expected kind in the lookahead, `match` moves to the next token. -/
theorem TokenStream.match_advance {s : State} {t : Terminal} {ts : List Terminal}
    (h : TokenStream s (t :: ts)) :
    match_ t.1 s = advance s ∧ TokenStream (match_ t.1 s) ts := by
  obtain ⟨h1, _, _, h4⟩ := h.head
  have : Compilador.match_ t.1 s = advance s := by simp [Compilador.match_, h1]
  exact ⟨this, this ▸ h4⟩

/-! # Invariants of the symbol table and of the error flag -/

theorem insertSymbol_symbolTable (s : State) (name : List Char) (type : DataType) :
    (insertSymbol s name type).2.symbolTable = s.symbolTable ∨
    (lookupSymbol s name = none ∧ 1 ≤ name.length ∧ name.length < MAX_IDENTIFIER_LENGTH ∧
      (insertSymbol s name type).2.symbolTable =
        { name := name, type := type, value := initializeSymbolValue type,
          initialized := false } :: s.symbolTable) := by
  by_cases h1 : (lookupSymbol s name).isSome
  · left
    simp [insertSymbol, h1]
  · have h1' : lookupSymbol s name = none := by simpa using h1
    by_cases h2 : name.length = 0
    · left
      simp [insertSymbol, h1', createSymbol, h2]
    · by_cases h3 : MAX_IDENTIFIER_LENGTH ≤ name.length
      · left
        simp [insertSymbol, h1', createSymbol, h2, h3]
      · right
        refine ⟨h1', by omega, by omega, ?_⟩
        simp [insertSymbol, h1', createSymbol, h2, h3, insertSymbolInTable]

theorem insertSymbol_hasError (s : State) (name : List Char) (type : DataType) :
    (insertSymbol s name type).2.hasError = s.hasError := by
  simp only [insertSymbol, createSymbol, insertSymbolInTable]
  split_ifs <;> rfl

theorem insertSymbol_sameLexer (s : State) (name : List Char) (type : DataType) :
    SameLexer s (insertSymbol s name type).2 := by
  simp only [insertSymbol, createSymbol, insertSymbolInTable]
  split_ifs <;> exact SameLexer.lexer_refl _

theorem checkAssignmentCompatibility_symbolTable (s : State) (var : Option Nat)
    (e : DataType) :
    (checkAssignmentCompatibility s var e).symbolTable = s.symbolTable ∨
    ∃ i, (checkAssignmentCompatibility s var e).symbolTable =
      setInitialized s.symbolTable i := by
  cases var with
  | none => left; rfl
  | some i =>
    cases hv : s.symbolTable[i]? with
    | none => left; simp [checkAssignmentCompatibility, hv]
    | some sym =>
      right
      refine ⟨i, ?_⟩
      simp only [checkAssignmentCompatibility, hv, markVariableAsInitialized,
        performTypeCompatibilityCheck, checkIntegerAssignment, checkRealAssignment,
        checkCharacterAssignment, semanticError]
      split_ifs <;> rfl

theorem checkAssignmentCompatibility_sameLexer (s : State) (var : Option Nat)
    (e : DataType) : SameLexer s (checkAssignmentCompatibility s var e) := by
  cases var with
  | none => exact SameLexer.lexer_refl _
  | some i =>
    cases hv : s.symbolTable[i]? with
    | none => simp only [checkAssignmentCompatibility, hv]; exact SameLexer.lexer_refl _
    | some sym =>
      simp only [checkAssignmentCompatibility, hv, markVariableAsInitialized,
        performTypeCompatibilityCheck, checkIntegerAssignment, checkRealAssignment,
        checkCharacterAssignment, semanticError]
      split_ifs <;> exact SameLexer.lexer_refl _

theorem checkAssignmentCompatibility_sticky (s : State) (var : Option Nat)
    (e : DataType) (h : s.hasError = true) :
    (checkAssignmentCompatibility s var e).hasError = true := by
  cases var with
  | none => exact h
  | some i =>
    cases hv : s.symbolTable[i]? with
    | none => simpa [checkAssignmentCompatibility, hv] using h
    | some sym =>
      simp only [checkAssignmentCompatibility, hv, markVariableAsInitialized,
        performTypeCompatibilityCheck, checkIntegerAssignment, checkRealAssignment,
        checkCharacterAssignment, semanticError]
      split_ifs <;> first | exact h | rfl

/-- The names of the table stay pairwise distinct across every step. -/
theorem distinctNames_step :
    ParserStep fun s r => DistinctNames s → DistinctNames r where
  refl := fun _ h => h
  trans := fun _ _ _ h1 h2 h => h2 (h1 h)
  advance := fun s h => by simpa [DistinctNames] using h
  syntaxError := fun _ _ h => h
  semanticError := fun _ _ h => h
  insertSymbol := fun s name type h => by
    rcases insertSymbol_symbolTable s name type with e | ⟨hl, _, _, e⟩
    · simpa [DistinctNames, e] using h
    · have hl' := (lookupFrom_eq_none_iff _ _).1 hl
      simp only [DistinctNames, e, List.map_cons, List.nodup_cons]
      refine ⟨?_, h⟩
      intro hmem
      obtain ⟨sym, hs, hn⟩ := List.mem_map.1 hmem
      exact hl' sym hs hn
  checkAssignmentCompatibility := fun s var e h => by
    rcases checkAssignmentCompatibility_symbolTable s var e with e1 | ⟨i, e1⟩
    · simpa [DistinctNames, e1] using h
    · simpa [DistinctNames, e1] using h
  readTarget := fun s i h => by simpa [DistinctNames] using h

/-- Once set, the error flag stays set across every step. -/
theorem sticky_step :
    ParserStep fun s r => s.hasError = true → r.hasError = true where
  refl := fun _ h => h
  trans := fun _ _ _ h1 h2 h => h2 (h1 h)
  advance := fun s h => by simpa using h
  syntaxError := fun _ _ _ => rfl
  semanticError := fun _ _ _ => rfl
  insertSymbol := fun s name type h => by rw [insertSymbol_hasError]; exact h
  checkAssignmentCompatibility := fun s var e h => checkAssignmentCompatibility_sticky s var e h
  readTarget := fun _ _ h => h

/-! # Parsing a well-formed phrase -/

theorem TokenStream.type_eq {s : State} {ts : List Terminal} (h : TokenStream s ts) :
    s.currentToken.type = lookahead ts := by
  cases h with
  | eof h0 => exact h0
  | cons h0 h1 => rfl

theorem TokenStream.cons_inv {s : State} {k : TokenType} {lx : List Char}
    {ts : List Terminal} (h : TokenStream s ((k, lx) :: ts)) :
    s.currentToken.type = k ∧ s.currentToken.lexeme = lx ∧ TokenStream (advance s) ts := by
  obtain ⟨h1, h2, _, h4⟩ := h.head
  exact ⟨h1, h2, h4⟩

/-- `match` of the kind that is in the lookahead, in a state that has the
tokenizer globals of `s`. -/
theorem TokenStream.step {s s1 : State} {k : TokenType} {lx : List Char}
    {ts : List Terminal} (h : TokenStream s ((k, lx) :: ts)) (hl : SameLexer s s1) :
    match_ k s1 = advance s1 ∧ TokenStream (advance s1) ts := by
  obtain ⟨h1, _, h3⟩ := h.cons_inv
  have ht : s1.currentToken.type = k := by rw [hl.2.2.2.2]; exact h1
  refine ⟨by simp [match_, ht], ?_⟩
  exact h3.congr (advance_congr hl)

theorem semanticError_sameLexer (s : State) (message : List Char) :
    SameLexer s (semanticError s message) := ⟨rfl, rfl, rfl, rfl, rfl⟩

theorem syntaxError_sameLexer (s : State) (message : List Char) :
    SameLexer s (syntaxError s message) := ⟨rfl, rfl, rfl, rfl, rfl⟩

theorem anyUndeclared_congr {s r : State} (h : r.symbolTable = s.symbolTable)
    (names : List (List Char)) : anyUndeclared r names = anyUndeclared s names := by
  simp [anyUndeclared, lookupSymbol, h]

theorem anyUndeclared_append (s : State) (a b : List (List Char)) :
    anyUndeclared s (a ++ b) = (anyUndeclared s a || anyUndeclared s b) := by
  simp [anyUndeclared, List.any_append]

theorem ParsedTo.no_token {s : State} {rest : List Terminal} (h : TokenStream s rest) :
    ParsedTo s s rest [] :=
  ⟨h, rfl, by simp [anyUndeclared], fun _ => rfl⟩

/-- Reading one token that is not an identifier use. -/
theorem ParsedTo.one_token {s : State} {k : TokenType} {lx : List Char} {ts : List Terminal}
    (h : TokenStream s ((k, lx) :: ts)) :
    match_ k s = advance s ∧ ParsedTo s (advance s) ts [] := by
  obtain ⟨h1, h2⟩ := h.step (SameLexer.lexer_refl s)
  exact ⟨h1, h2, by simp, by simp [anyUndeclared], fun _ => by simp⟩

theorem ParsedTo.seq {s r1 r2 : State} {mid rest : List Terminal}
    {a b : List (List Char)} (h1 : ParsedTo s r1 mid a) (h2 : ParsedTo r1 r2 rest b) :
    ParsedTo s r2 rest (a ++ b) := by
  obtain ⟨_, t1, e1, o1⟩ := h1
  obtain ⟨st2, t2, e2, o2⟩ := h2
  have hb : anyUndeclared r1 b = anyUndeclared s b := anyUndeclared_congr t1 b
  refine ⟨st2, t2.trans t1, ?_, ?_⟩
  · rw [e2, e1, hb, anyUndeclared_append, Bool.or_assoc]
  · intro hu
    rw [anyUndeclared_append, Bool.or_eq_false_iff] at hu
    rw [o2 (hb.trans hu.2), o1 hu.1]

theorem ParsedTo.names_eq {s r : State} {rest : List Terminal} {a b : List (List Char)}
    (h : ParsedTo s r rest a) (hab : a = b) : ParsedTo s r rest b := hab ▸ h

theorem TermRest.lookahead_termRest (more : TermRest) (rest : List Terminal) :
    lookahead (more.terminals ++ rest) = lookahead rest ∨
      isMulOp (lookahead (more.terminals ++ rest)) := by
  cases more with
  | nil => left; simp [TermRest.terminals]
  | cons op f more' =>
    right
    cases op <;> simp [TermRest.terminals, lookahead, MulOp.terminal, isMulOp]

theorem ExpressionRest.lookahead_expressionRest (more : ExpressionRest) (rest : List Terminal) :
    lookahead (more.terminals ++ rest) = lookahead rest ∨
      isAddOp (lookahead (more.terminals ++ rest)) := by
  cases more with
  | nil => left; simp [ExpressionRest.terminals]
  | cons op f more' =>
    right
    cases op <;> simp [ExpressionRest.terminals, lookahead, AddOp.terminal, isAddOp]

theorem isAddOp_not_isMulOp {k : TokenType} (h : isAddOp k) : ¬ isMulOp k := by
  rcases h with h | h <;> subst h <;> simp [isMulOp]

theorem parseFactor_identifier {s : State} {name : List Char} {rest : List Terminal}
    (h : TokenStream s ((TOKEN_IDENTIFIER, name) :: rest)) :
    ∃ r, parseFactor 1 s = some r ∧ ParsedTo s r rest [name] := by
  obtain ⟨ht, hl, _⟩ := h.cons_inv
  cases hlook : lookupSymbol s name with
  | none =>
    obtain ⟨m1, st1⟩ := h.step (semanticError_sameLexer s
      ("Variable ".toList ++ [QUOTE] ++ name ++ [QUOTE] ++ " no declarada".toList))
    refine ⟨_, ?_, st1, ?_, ?_, ?_⟩
    · simp only [parseFactor, ht, hl, hlook, if_true, Option.isNone_none]
      rw [m1]
    · simp [semanticError]
    · simp [semanticError, anyUndeclared, hlook]
    · intro hu
      simp [anyUndeclared, hlook] at hu
  | some i =>
    obtain ⟨m1, st1⟩ := h.step (SameLexer.lexer_refl s)
    refine ⟨_, ?_, st1, ?_, ?_, ?_⟩
    · simp only [parseFactor, ht, hl, hlook, if_true, Option.isNone_some]
      simp only [Bool.false_eq_true, if_false]
      rw [m1]
    · simp
    · simp [anyUndeclared, hlook]
    · intro _
      simp

theorem parseFactor_literal {s : State} {k : TokenType} {lx : List Char}
    {rest : List Terminal}
    (hk : k = TOKEN_NUMBER ∨ k = TOKEN_REAL_LITERAL ∨ k = TOKEN_CHAR_LITERAL)
    (h : TokenStream s ((k, lx) :: rest)) :
    ∃ r, parseFactor 1 s = some r ∧ ParsedTo s r rest [] := by
  obtain ⟨ht, _, _⟩ := h.cons_inv
  obtain ⟨m1, p1⟩ := ParsedTo.one_token h
  refine ⟨_, ?_, p1⟩
  rcases hk with hk | hk | hk <;> subst hk <;> simp [parseFactor, ht, m1]

mutual

theorem Factor.parses_factor : ∀ (f : Factor) (s : State) (rest : List Terminal),
    TokenStream s (f.terminals ++ rest) →
    ∃ fuel r, parseFactor fuel s = some r ∧ ParsedTo s r rest f.identifiers
  | Factor.identifier name, s, rest, h => by
    obtain ⟨r, h1, h2⟩ := @parseFactor_identifier s name rest
      (by simpa [Factor.terminals] using h)
    exact ⟨1, r, h1, by simpa [Factor.identifiers] using h2⟩
  | Factor.intLit lexeme, s, rest, h => by
    obtain ⟨r, h1, h2⟩ := @parseFactor_literal s TOKEN_NUMBER lexeme
      rest (Or.inl rfl) (by simpa [Factor.terminals] using h)
    exact ⟨1, r, h1, by simpa [Factor.identifiers] using h2⟩
  | Factor.realLit lexeme, s, rest, h => by
    obtain ⟨r, h1, h2⟩ := @parseFactor_literal s TOKEN_REAL_LITERAL
      lexeme rest (Or.inr (Or.inl rfl))
      (by simpa [Factor.terminals] using h)
    exact ⟨1, r, h1, by simpa [Factor.identifiers] using h2⟩
  | Factor.charLit lexeme, s, rest, h => by
    obtain ⟨r, h1, h2⟩ := @parseFactor_literal s TOKEN_CHAR_LITERAL
      lexeme rest (Or.inr (Or.inr rfl))
      (by simpa [Factor.terminals] using h)
    exact ⟨1, r, h1, by simpa [Factor.identifiers] using h2⟩
  | Factor.paren e, s, rest, h => by
    have h' : TokenStream s ((TOKEN_LPAREN, "(".toList) ::
        (e.terminals ++ (TOKEN_RPAREN, ")".toList) :: rest)) := by
      simpa [Factor.terminals] using h
    obtain ⟨ht, _, _⟩ := h'.cons_inv
    obtain ⟨m1, p1⟩ := ParsedTo.one_token h'
    obtain ⟨fuel, r1, hr1, p2⟩ := Expression.parses_expression e (advance s)
      ((TOKEN_RPAREN, ")".toList) :: rest) p1.1
      (by simp [lookahead, isAddOp]) (by simp [lookahead, isMulOp])
    obtain ⟨m2, p3⟩ := ParsedTo.one_token p2.1
    refine ⟨fuel + 1, advance r1, ?_, ?_⟩
    · simp [parseFactor, ht, m1, hr1, m2]
    · have := (p1.seq p2).seq p3
      simpa [Factor.identifiers] using this

theorem Term.parses_term : ∀ (t : Term) (s : State) (rest : List Terminal),
    TokenStream s (t.terminals ++ rest) → ¬ isMulOp (lookahead rest) →
    ∃ fuel r, parseTerm fuel s = some r ∧ ParsedTo s r rest t.identifiers
  | Term.mk first more, s, rest, h, hm => by
    have h' : TokenStream s (first.terminals ++ (more.terminals ++ rest)) := by
      simpa [Term.terminals] using h
    obtain ⟨f1, r1, hr1, p1⟩ := Factor.parses_factor first s _ h'
    obtain ⟨f2, r2, hr2, p2⟩ := TermRest.parses_termRest more r1 rest p1.1 hm
    refine ⟨max f1 f2 + 1, r2, ?_, ?_⟩
    · simp only [parseTerm, Option.bind_eq_some]
      exact ⟨r1, (expression_mono_all f1).2.2.2.2 _ _ _ (le_max_left _ _) hr1,
        (expression_mono_all f2).2.2.2.1 _ _ _ (le_max_right _ _) hr2⟩
    · simpa [Term.identifiers] using p1.seq p2

theorem TermRest.parses_termRest : ∀ (more : TermRest) (s : State) (rest : List Terminal),
    TokenStream s (more.terminals ++ rest) → ¬ isMulOp (lookahead rest) →
    ∃ fuel r, parseTermLoop fuel s = some r ∧ ParsedTo s r rest more.identifiers
  | TermRest.nil, s, rest, h, hm => by
    have h' : TokenStream s rest := by simpa [TermRest.terminals] using h
    refine ⟨1, s, ?_, by simpa [TermRest.identifiers] using ParsedTo.no_token h'⟩
    have hm' : ¬ isMulOp s.currentToken.type := by rw [h'.type_eq]; exact hm
    simp only [isMulOp] at hm'
    simp [parseTermLoop, hm']
  | TermRest.cons op f more, s, rest, h, hm => by
    have h' : TokenStream s ((op.terminal.1, op.terminal.2) ::
        (f.terminals ++ (more.terminals ++ rest))) := by
      simpa [TermRest.terminals] using h
    obtain ⟨ht, _, _⟩ := h'.cons_inv
    have hop : isMulOp s.currentToken.type := by
      rw [ht]; cases op <;> simp [MulOp.terminal, isMulOp]
    obtain ⟨m1, p1⟩ := ParsedTo.one_token h'
    obtain ⟨f1, r1, hr1, p2⟩ := Factor.parses_factor f (advance s) _ p1.1
    obtain ⟨f2, r2, hr2, p3⟩ := TermRest.parses_termRest more r1 rest p2.1 hm
    refine ⟨max f1 f2 + 1, r2, ?_, ?_⟩
    · simp only [isMulOp] at hop
      simp only [parseTermLoop, hop, if_true, Option.bind_eq_some]
      rw [ht, m1]
      exact ⟨r1, (expression_mono_all f1).2.2.2.2 _ _ _ (le_max_left _ _) hr1,
        (expression_mono_all f2).2.2.2.1 _ _ _ (le_max_right _ _) hr2⟩
    · have := (p1.seq p2).seq p3
      simpa [TermRest.identifiers] using this

theorem Expression.parses_expression : ∀ (e : Expression) (s : State) (rest : List Terminal),
    TokenStream s (e.terminals ++ rest) → ¬ isAddOp (lookahead rest) →
    ¬ isMulOp (lookahead rest) →
    ∃ fuel r, parseExpression fuel s = some r ∧ ParsedTo s r rest e.identifiers
  | Expression.mk first more, s, rest, h, ha, hm => by
    have h' : TokenStream s (first.terminals ++ (more.terminals ++ rest)) := by
      simpa [Expression.terminals] using h
    have hm' : ¬ isMulOp (lookahead (more.terminals ++ rest)) := by
      rcases ExpressionRest.lookahead_expressionRest more rest with e | e
      · rw [e]; exact hm
      · exact isAddOp_not_isMulOp e
    obtain ⟨f1, r1, hr1, p1⟩ := Term.parses_term first s _ h' hm'
    obtain ⟨f2, r2, hr2, p2⟩ := ExpressionRest.parses_expressionRest more r1 rest p1.1 ha hm
    refine ⟨max f1 f2 + 1, r2, ?_, ?_⟩
    · simp only [parseExpression, Option.bind_eq_some]
      exact ⟨r1, (expression_mono_all f1).2.2.1 _ _ _ (le_max_left _ _) hr1,
        (expression_mono_all f2).2.1 _ _ _ (le_max_right _ _) hr2⟩
    · simpa [Expression.identifiers] using p1.seq p2

theorem ExpressionRest.parses_expressionRest : ∀ (more : ExpressionRest) (s : State)
    (rest : List Terminal),
    TokenStream s (more.terminals ++ rest) → ¬ isAddOp (lookahead rest) →
    ¬ isMulOp (lookahead rest) →
    ∃ fuel r, parseExpressionLoop fuel s = some r ∧ ParsedTo s r rest more.identifiers
  | ExpressionRest.nil, s, rest, h, ha, _ => by
    have h' : TokenStream s rest := by simpa [ExpressionRest.terminals] using h
    refine ⟨1, s, ?_, by simpa [ExpressionRest.identifiers] using ParsedTo.no_token h'⟩
    have ha' : ¬ isAddOp s.currentToken.type := by rw [h'.type_eq]; exact ha
    simp only [isAddOp] at ha'
    simp [parseExpressionLoop, ha']
  | ExpressionRest.cons op t more, s, rest, h, ha, hm => by
    have h' : TokenStream s ((op.terminal.1, op.terminal.2) ::
        (t.terminals ++ (more.terminals ++ rest))) := by
      simpa [ExpressionRest.terminals] using h
    obtain ⟨ht, _, _⟩ := h'.cons_inv
    have hop : isAddOp s.currentToken.type := by
      rw [ht]; cases op <;> simp [AddOp.terminal, isAddOp]
    have hm' : ¬ isMulOp (lookahead (more.terminals ++ rest)) := by
      rcases ExpressionRest.lookahead_expressionRest more rest with e | e
      · rw [e]; exact hm
      · exact isAddOp_not_isMulOp e
    obtain ⟨m1, p1⟩ := ParsedTo.one_token h'
    obtain ⟨f1, r1, hr1, p2⟩ := Term.parses_term t (advance s) _ p1.1 hm'
    obtain ⟨f2, r2, hr2, p3⟩ := ExpressionRest.parses_expressionRest more r1 rest p2.1 ha hm
    refine ⟨max f1 f2 + 1, r2, ?_, ?_⟩
    · simp only [isAddOp] at hop
      simp only [parseExpressionLoop, hop, if_true, Option.bind_eq_some]
      rw [ht, m1]
      exact ⟨r1, (expression_mono_all f1).2.2.1 _ _ _ (le_max_left _ _) hr1,
        (expression_mono_all f2).2.1 _ _ _ (le_max_right _ _) hr2⟩
    · have := (p1.seq p2).seq p3
      simpa [ExpressionRest.identifiers] using this

end

/-! # Conditions -/

theorem chainTerminals_append (a b : List (Connective × Comparison)) :
    chainTerminals (a ++ b) = chainTerminals a ++ chainTerminals b := by
  induction a with
  | nil => rfl
  | cons x a ih => simp [chainTerminals, ih]

theorem chainIdentifiers_append (a b : List (Connective × Comparison)) :
    chainIdentifiers (a ++ b) = chainIdentifiers a ++ chainIdentifiers b := by
  induction a with
  | nil => rfl
  | cons x a ih => simp [chainIdentifiers, ih]

mutual

theorem Condition.condition_terminals_eq : ∀ c : Condition,
    c.terminals = c.head.terminals ++ chainTerminals c.tail
  | Condition.mk left op right more negated => by
    simp [Condition.terminals, Condition.head, Condition.tail, Comparison.terminals,
      chainTerminals_append, ConditionRest.rest_terminals_eq more,
      ConditionNeg.neg_terminals_eq negated]

theorem ConditionRest.rest_terminals_eq : ∀ more : ConditionRest,
    more.terminals = chainTerminals more.links
  | ConditionRest.nil => rfl
  | ConditionRest.cons op c more => by
    cases op <;>
    simp [ConditionRest.terminals, ConditionRest.links, chainTerminals,
      chainTerminals_append, Condition.condition_terminals_eq c,
      ConditionRest.rest_terminals_eq more, LogOp.terminal, LogOp.connective,
      Connective.terminal]

theorem ConditionNeg.neg_terminals_eq : ∀ negated : ConditionNeg,
    negated.terminals = chainTerminals negated.links
  | ConditionNeg.none => rfl
  | ConditionNeg.no c => by
    simp [ConditionNeg.terminals, ConditionNeg.links, chainTerminals,
      Condition.condition_terminals_eq c, Connective.terminal]

end

mutual

theorem Condition.condition_identifiers_eq : ∀ c : Condition,
    c.identifiers = c.head.identifiers ++ chainIdentifiers c.tail
  | Condition.mk left op right more negated => by
    simp [Condition.identifiers, Condition.head, Condition.tail, Comparison.identifiers,
      chainIdentifiers_append, ConditionRest.rest_identifiers_eq more,
      ConditionNeg.neg_identifiers_eq negated]

theorem ConditionRest.rest_identifiers_eq : ∀ more : ConditionRest,
    more.identifiers = chainIdentifiers more.links
  | ConditionRest.nil => rfl
  | ConditionRest.cons op c more => by
    simp [ConditionRest.identifiers, ConditionRest.links, chainIdentifiers,
      chainIdentifiers_append, Condition.condition_identifiers_eq c,
      ConditionRest.rest_identifiers_eq more]

theorem ConditionNeg.neg_identifiers_eq : ∀ negated : ConditionNeg,
    negated.identifiers = chainIdentifiers negated.links
  | ConditionNeg.none => rfl
  | ConditionNeg.no c => by
    simp [ConditionNeg.identifiers, ConditionNeg.links, chainIdentifiers,
      Condition.condition_identifiers_eq c]

end

theorem RelOp.isRelOp_terminal (op : RelOp) : isRelOp op.terminal.1 := by
  cases op <;> simp [RelOp.terminal, isRelOp]

theorem RelOp.relOp_not_add_mul (op : RelOp) :
    ¬ isAddOp op.terminal.1 ∧ ¬ isMulOp op.terminal.1 := by
  cases op <;> simp [RelOp.terminal, isAddOp, isMulOp]

theorem Connective.connective_not_add_mul (c : Connective) :
    ¬ isAddOp c.terminal.1 ∧ ¬ isMulOp c.terminal.1 := by
  cases c <;> simp [Connective.terminal, isAddOp, isMulOp]

/-- The two expressions of a comparison and the operator between them. -/
theorem Comparison.parses_comparison (cmp : Comparison) (s : State) (tail : List Terminal)
    (h : TokenStream s (cmp.terminals ++ tail))
    (ha : ¬ isAddOp (lookahead tail)) (hm : ¬ isMulOp (lookahead tail)) :
    ∃ fuel r1 r2, isRelOp r1.currentToken.type ∧
      (∀ n, fuel ≤ n → parseExpression n s = some r1 ∧
        parseExpression n (match_ r1.currentToken.type r1) = some r2) ∧
      ParsedTo s r2 tail cmp.identifiers := by
  have h' : TokenStream s (cmp.left.terminals ++
      ((cmp.op.terminal.1, cmp.op.terminal.2) :: (cmp.right.terminals ++ tail))) := by
    simpa [Comparison.terminals] using h
  obtain ⟨f1, r1, hr1, p1⟩ := Expression.parses_expression cmp.left s _ h'
    (by simpa [lookahead] using cmp.op.relOp_not_add_mul.1)
    (by simpa [lookahead] using cmp.op.relOp_not_add_mul.2)
  obtain ⟨ht, _, _⟩ := p1.1.cons_inv
  obtain ⟨m1, p2⟩ := ParsedTo.one_token p1.1
  obtain ⟨f2, r2, hr2, p3⟩ := Expression.parses_expression cmp.right (advance r1) tail p2.1 ha hm
  refine ⟨max f1 f2, r1, r2, ?_, ?_, ?_⟩
  · rw [ht]; exact cmp.op.isRelOp_terminal
  · intro n hn
    refine ⟨parseExpression_mono (le_trans (le_max_left _ _) hn) hr1, ?_⟩
    rw [ht, m1]
    exact parseExpression_mono (le_trans (le_max_right _ _) hn) hr2
  · have := (p1.seq p2).seq p3
    simpa [Comparison.identifiers] using this

theorem parseConditionLoop_exit {s : State} {n : Nat}
    (h1 : s.currentToken.type ≠ TOKEN_AND) (h2 : s.currentToken.type ≠ TOKEN_OR) :
    parseConditionLoop (n + 1) s = some s := by
  simp [parseConditionLoop, h1, h2]

/-- A chain of comparisons followed by anything that cannot continue it. -/
theorem chain_parses : ∀ (links : List (Connective × Comparison)) (cmp : Comparison)
    (s : State) (rest : List Terminal),
    TokenStream s (cmp.terminals ++ (chainTerminals links ++ rest)) →
    ¬ isLogOp (lookahead rest) → ¬ isAddOp (lookahead rest) → ¬ isMulOp (lookahead rest) →
    ∃ fuel r, parseCondition fuel s = some r ∧
      ParsedTo s r rest (cmp.identifiers ++ chainIdentifiers links) := by
  intro links
  induction links with
  | nil =>
    intro cmp s rest h hl ha hm
    obtain ⟨f, r1, r2, hrel, hpar, p⟩ := cmp.parses_comparison s rest (by simpa [chainTerminals] using h)
      ha hm
    have hty := p.1.type_eq
    simp only [isLogOp, not_or] at hl
    simp only [isRelOp] at hrel
    refine ⟨max f 1 + 1, r2, ?_, by simpa [chainIdentifiers] using p⟩
    obtain ⟨e1, e2⟩ := hpar (max f 1) (le_max_left _ _)
    simp only [parseCondition, Option.bind_eq_some]
    refine ⟨r1, e1, r2, ?_, r2, ?_, ?_⟩
    · rw [if_pos hrel]; exact e2
    · obtain ⟨k, hk⟩ : ∃ k, max f 1 = k + 1 := ⟨max f 1 - 1, by omega⟩
      rw [hk]
      exact parseConditionLoop_exit (by rw [hty]; exact hl.1) (by rw [hty]; exact hl.2.1)
    · rw [if_neg (by rw [hty]; exact hl.2.2)]
  | cons link more ih =>
    intro cmp s rest h hl ha hm
    obtain ⟨conn, cmp'⟩ := link
    have h' : TokenStream s (cmp.terminals ++
        ((conn.terminal.1, conn.terminal.2) ::
          (cmp'.terminals ++ (chainTerminals more ++ rest)))) := by
      simpa [chainTerminals] using h
    obtain ⟨f, r1, r2, hrel, hpar, p⟩ := cmp.parses_comparison s _ h'
      (by simpa [lookahead] using conn.connective_not_add_mul.1)
      (by simpa [lookahead] using conn.connective_not_add_mul.2)
    obtain ⟨ht, _, _⟩ := p.1.cons_inv
    obtain ⟨m1, p2⟩ := ParsedTo.one_token p.1
    obtain ⟨f', r', hr', p3⟩ := ih cmp' (advance r2) rest p2.1 hl ha hm
    have hty := p3.1.type_eq
    have hl' := hl
    simp only [isLogOp, not_or] at hl'
    simp only [isRelOp] at hrel
    have hids : ParsedTo s r' rest (cmp.identifiers ++ chainIdentifiers ((conn, cmp') :: more)) := by
      have := (p.seq p2).seq p3
      simpa [chainIdentifiers] using this
    refine ⟨max f (f' + 1) + 1, r', ?_, hids⟩
    obtain ⟨e1, e2⟩ := hpar (max f (f' + 1)) (le_max_left _ _)
    obtain ⟨k, hk, hkf⟩ : ∃ k, max f (f' + 1) = k + 1 ∧ f' ≤ k :=
      ⟨max f (f' + 1) - 1, by omega, by omega⟩
    have hr'k : parseCondition k (advance r2) = some r' := parseCondition_mono hkf hr'
    have hr'K : parseCondition (k + 1) (advance r2) = some r' :=
      parseCondition_mono (by omega) hr'
    obtain ⟨j, hj⟩ : ∃ j, k = j + 1 := by
      cases k with
      | zero => simp [parseCondition] at hr'k
      | succ j => exact ⟨j, rfl⟩
    simp only [parseCondition, Option.bind_eq_some]
    rw [hk]
    rw [hk] at e1 e2
    refine ⟨r1, e1, r2, ?_, ?_⟩
    · rw [if_pos hrel]; exact e2
    cases conn with
    | y =>
      have htA : r2.currentToken.type = TOKEN_AND := ht
      refine ⟨r', ?_, ?_⟩
      · simp only [parseConditionLoop, htA, true_or, if_true, Option.bind_eq_some]
        refine ⟨r', ?_, ?_⟩
        · have := m1
          simp only [Connective.terminal] at this
          rw [this]; exact hr'k
        · rw [hj]
          exact parseConditionLoop_exit (by rw [hty]; exact hl'.1) (by rw [hty]; exact hl'.2.1)
      · rw [if_neg (by rw [hty]; exact hl'.2.2)]
    | o =>
      have htO : r2.currentToken.type = TOKEN_OR := ht
      refine ⟨r', ?_, ?_⟩
      · simp only [parseConditionLoop, htO, or_true, if_true, Option.bind_eq_some]
        refine ⟨r', ?_, ?_⟩
        · have := m1
          simp only [Connective.terminal] at this
          rw [this]; exact hr'k
        · rw [hj]
          exact parseConditionLoop_exit (by rw [hty]; exact hl'.1) (by rw [hty]; exact hl'.2.1)
      · rw [if_neg (by rw [hty]; exact hl'.2.2)]
    | no =>
      have htN : r2.currentToken.type = TOKEN_NOT := ht
      refine ⟨r2, ?_, ?_⟩
      · exact parseConditionLoop_exit (by rw [htN]; decide) (by rw [htN]; decide)
      · rw [if_pos htN]
        have := m1
        simp only [Connective.terminal] at this
        rw [this]; exact hr'K

/-- A condition followed by anything that cannot continue it. -/
theorem Condition.parses_condition (c : Condition) (s : State) (rest : List Terminal)
    (h : TokenStream s (c.terminals ++ rest))
    (hl : ¬ isLogOp (lookahead rest)) (ha : ¬ isAddOp (lookahead rest))
    (hm : ¬ isMulOp (lookahead rest)) :
    ∃ fuel r, parseCondition fuel s = some r ∧ ParsedTo s r rest c.identifiers := by
  rw [c.condition_identifiers_eq]
  refine chain_parses c.tail c.head s rest ?_ hl ha hm
  rw [c.condition_terminals_eq] at h
  simpa using h

/-! # Statements -/

theorem lookupFrom_congr : ∀ (a b : List Symbol) (name : List Char),
    a.map Symbol.name = b.map Symbol.name → lookupFrom a name = lookupFrom b name := by
  intro a
  induction a with
  | nil =>
    intro b name h
    cases b with
    | nil => rfl
    | cons y b => simp at h
  | cons x a ih =>
    intro b name h
    cases b with
    | nil => simp at h
    | cons y b =>
      simp only [List.map_cons, List.cons.injEq] at h
      simp [lookupFrom, h.1, ih b name h.2]

theorem declarations_names {s r : State} (h : declarations r = declarations s) :
    r.symbolTable.map Symbol.name = s.symbolTable.map Symbol.name := by
  have := congrArg (List.map Prod.fst) h
  simpa [declarations, List.map_map, Function.comp_def] using this

theorem lookupSymbol_congr {s r : State} (h : declarations r = declarations s)
    (name : List Char) : lookupSymbol r name = lookupSymbol s name :=
  lookupFrom_congr _ _ _ (declarations_names h)

theorem anyUndeclared_declarations {s r : State} (h : declarations r = declarations s)
    (names : List (List Char)) : anyUndeclared r names = anyUndeclared s names := by
  simp [anyUndeclared, lookupSymbol_congr h]

theorem declarations_setInitialized (s : State) (i : Nat) :
    declarations { s with symbolTable := setInitialized s.symbolTable i } = declarations s := by
  have h : ∀ (table : List Symbol) (i : Nat),
      (setInitialized table i).map (fun sym => (sym.name, sym.type)) =
        table.map (fun sym => (sym.name, sym.type)) := by
    intro table
    induction table with
    | nil => intro i; simp [setInitialized]
    | cons a rest ih => intro i; cases i <;> simp [setInitialized, ih]
  exact h _ _

theorem Ready.mono {s : State} {a b : List (List Char)} (h : Ready s a)
    (hsub : ∀ n ∈ b, n ∈ a) : Ready s b := by
  obtain ⟨h1, h2, h3⟩ := h
  refine ⟨h1, ?_, h3⟩
  simp only [anyUndeclared, List.any_eq_false] at h2 ⊢
  intro n hn
  exact h2 n (hsub n hn)

theorem Ready.transfer {s r : State} {rest : List Terminal} {a : List (List Char)}
    (h : Ready s a) (hr : Accepted s r rest) : Ready r a := by
  obtain ⟨_, h2, h3⟩ := h
  obtain ⟨_, e, d⟩ := hr
  exact ⟨e, (anyUndeclared_declarations d a).trans h2, by rw [d]; exact h3⟩

theorem Accepted.stay {s : State} {rest : List Terminal} (h : TokenStream s rest)
    (he : s.hasError = false) : Accepted s s rest := ⟨h, he, rfl⟩

theorem Accepted.andThen {s r1 r2 : State} {mid rest : List Terminal}
    (h1 : Accepted s r1 mid) (h2 : Accepted r1 r2 rest) : Accepted s r2 rest :=
  ⟨h2.1, h2.2.1, h2.2.2.trans h1.2.2⟩

/-- Reading one token. -/
theorem Accepted.read_token {s : State} {k : TokenType} {lx : List Char} {ts : List Terminal}
    (h : TokenStream s ((k, lx) :: ts)) (he : s.hasError = false) :
    match_ k s = advance s ∧ Accepted s (advance s) ts := by
  obtain ⟨h1, h2⟩ := h.step (SameLexer.lexer_refl s)
  exact ⟨h1, h2, by simpa using he, by simp [declarations]⟩

/-- A well-formed phrase all of whose identifiers are declared. -/
theorem ParsedTo.accepted {s r : State} {rest : List Terminal} {names : List (List Char)}
    (h : ParsedTo s r rest names) (he : s.hasError = false)
    (hu : anyUndeclared s names = false) : Accepted s r rest := by
  obtain ⟨h1, h2, h3, _⟩ := h
  exact ⟨h1, by rw [h3, he, hu]; rfl, by simp [declarations, h2]⟩

theorem checkAssignmentCompatibility_entero (s : State) (i : Nat) (sym : Symbol)
    (hsym : s.symbolTable[i]? = some sym) (hty : sym.type ≠ TYPE_ERROR) :
    (checkAssignmentCompatibility s (some i) TYPE_ENTERO).hasError = s.hasError ∧
    (checkAssignmentCompatibility s (some i) TYPE_ENTERO).symbolTable =
      setInitialized s.symbolTable i := by
  cases hT : sym.type <;>
    simp [checkAssignmentCompatibility, hsym, markVariableAsInitialized,
      performTypeCompatibilityCheck, checkIntegerAssignment, checkRealAssignment,
      checkCharacterAssignment, hT] at hty ⊢

theorem declared_type_ne_error {s : State} {i : Nat} {sym : Symbol}
    (h : ∀ d ∈ declarations s, d.2 ≠ TYPE_ERROR) (hsym : s.symbolTable[i]? = some sym) :
    sym.type ≠ TYPE_ERROR := by
  have hmem : sym ∈ s.symbolTable := List.getElem?_mem hsym
  exact h (sym.name, sym.type) (List.mem_map.2 ⟨sym, hmem, rfl⟩)

theorem anyUndeclared_cons_false {s : State} {name : List Char} {names : List (List Char)}
    (h : anyUndeclared s (name :: names) = false) :
    (∃ i, lookupSymbol s name = some i) ∧ anyUndeclared s names = false := by
  simp only [anyUndeclared, List.any_cons, Bool.or_eq_false_iff] at h
  refine ⟨?_, h.2⟩
  cases hl : lookupSymbol s name with
  | none => simp [hl] at h
  | some i => exact ⟨i, rfl⟩

/-- `Identifier ':=' Expression ';'` with everything declared. -/
theorem parseAssignment_accepts (name : List Char) (e : Expression) (s : State)
    (rest : List Terminal)
    (h : TokenStream s ((Statement.assignment name e).terminals ++ rest))
    (hr : Ready s (Statement.assignment name e).identifiers) :
    ∃ fuel r, parseAssignment fuel s = some r ∧ Accepted s r rest := by
  have h' : TokenStream s ((TOKEN_IDENTIFIER, name) :: (TOKEN_ASSIGN, ":=".toList) ::
      (e.terminals ++ (TOKEN_SEMICOLON, ";".toList) :: rest)) := by
    simpa [Statement.terminals] using h
  obtain ⟨he, hu, hty⟩ := hr
  obtain ⟨⟨i, hi⟩, hu'⟩ := anyUndeclared_cons_false (by simpa [Statement.identifiers] using hu)
  obtain ⟨ht, hl, _⟩ := h'.cons_inv
  obtain ⟨m1, a1⟩ := Accepted.read_token h' he
  obtain ⟨m2, a2⟩ := Accepted.read_token a1.1 a1.2.1
  have hu2 : anyUndeclared (advance (advance s)) e.identifiers = false :=
    (anyUndeclared_declarations (a1.andThen a2).2.2 _).trans hu'
  obtain ⟨fuel, r3, hr3, p3⟩ := Expression.parses_expression e (advance (advance s))
    ((TOKEN_SEMICOLON, ";".toList) :: rest) a2.1
    (by simp [lookahead, isAddOp]) (by simp [lookahead, isMulOp])
  have a3 : Accepted (advance (advance s)) r3 _ := p3.accepted a2.2.1 hu2
  have a03 : Accepted s r3 _ := (a1.andThen a2).andThen a3
  obtain ⟨ht3, _, _⟩ := a3.1.cons_inv
  have hi3 : lookupSymbol r3 name = some i := (lookupSymbol_congr a03.2.2 name).trans hi
  obtain ⟨sym, hsym, _⟩ := lookupFrom_some _ _ _ hi3
  have hsymty : sym.type ≠ TYPE_ERROR :=
    declared_type_ne_error (by rw [a03.2.2]; exact hty) hsym
  have hexpr : checkExpressionType r3 = TYPE_ENTERO := by
    simp [checkExpressionType, ht3]
  obtain ⟨c1, c2⟩ := checkAssignmentCompatibility_entero r3 i sym hsym hsymty
  obtain ⟨m4, st4⟩ := a3.1.step (checkAssignmentCompatibility_sameLexer r3 (some i) TYPE_ENTERO)
  refine ⟨fuel, _, ?_, st4, ?_, ?_⟩
  · simp only [parseAssignment, processAssignmentVariable, ht, hl, hi, ne_eq,
      not_true_eq_false, if_false, Option.isNone_some, Bool.false_eq_true, m1, m2, hr3,
      Option.map_some', checkAssignmentSemantics, hexpr, m4]
  · rw [advance_hasError, c1]; exact a3.2.1
  · have : declarations (advance (checkAssignmentCompatibility r3 (some i) TYPE_ENTERO)) =
        declarations r3 := by
      simp only [declarations, advance_symbolTable, c2]
      exact declarations_setInitialized r3 i
    exact this.trans a03.2.2

theorem readTarget_sameLexer (x : State) (i : Nat) :
    SameLexer x { x with symbolTable := setInitialized x.symbolTable i } :=
  ⟨rfl, rfl, rfl, rfl, rfl⟩

theorem processReadIdentifier_declared {x : State} {name : List Char} {i : Nat}
    (ht : x.currentToken.type = TOKEN_IDENTIFIER) (hl : x.currentToken.lexeme = name)
    (hi : lookupSymbol x name = some i) :
    processReadIdentifier x =
      match_ TOKEN_IDENTIFIER { x with symbolTable := setInitialized x.symbolTable i } := by
  simp only [processReadIdentifier, ht, hl, hi, ne_eq, not_true_eq_false, if_false]

theorem processReadIdentifier_accepts {x : State} {name : List Char} {i : Nat}
    {ts : List Terminal} (h : TokenStream x ((TOKEN_IDENTIFIER, name) :: ts))
    (he : x.hasError = false) (hi : lookupSymbol x name = some i) :
    Accepted x (processReadIdentifier x) ts := by
  obtain ⟨ht, hl, _⟩ := h.cons_inv
  obtain ⟨m3, st3⟩ := h.step (readTarget_sameLexer x i)
  rw [processReadIdentifier_declared ht hl hi, m3]
  refine ⟨st3, ?_, ?_⟩
  · rw [advance_hasError]; exact he
  · simp only [declarations, advance_symbolTable]
    exact declarations_setInitialized x i

/-- `'leer' '(' Identifier ')' ';'` with the identifier declared. -/
theorem parseReadStatement_accepts (name : List Char) (s : State) (rest : List Terminal)
    (h : TokenStream s ((Statement.leer name).terminals ++ rest))
    (hr : Ready s (Statement.leer name).identifiers) :
    Accepted s (parseReadStatement s) rest := by
  have h' : TokenStream s ((TOKEN_LEER, "leer".toList) :: (TOKEN_LPAREN, "(".toList) ::
      (TOKEN_IDENTIFIER, name) :: (TOKEN_RPAREN, ")".toList) ::
      (TOKEN_SEMICOLON, ";".toList) :: rest) := by
    simpa [Statement.terminals] using h
  obtain ⟨he, hu, _⟩ := hr
  obtain ⟨⟨i, hi⟩, _⟩ := anyUndeclared_cons_false (by simpa [Statement.identifiers] using hu)
  obtain ⟨m1, a1⟩ := Accepted.read_token h' he
  obtain ⟨m2, a2⟩ := Accepted.read_token a1.1 a1.2.1
  have a02 := a1.andThen a2
  have hi2 : lookupSymbol (advance (advance s)) name = some i :=
    (lookupSymbol_congr a02.2.2 name).trans hi
  have a3 := processReadIdentifier_accepts a2.1 a2.2.1 hi2
  obtain ⟨m4, a4⟩ := Accepted.read_token a3.1 a3.2.1
  obtain ⟨m5, a5⟩ := Accepted.read_token a4.1 a4.2.1
  have : parseReadStatement s =
      advance (advance (processReadIdentifier (advance (advance s)))) := by
    simp only [parseReadStatement, parseReadParameters, m1, m2, m4, m5]
  rw [this]
  exact ((a02.andThen a3).andThen a4).andThen a5

/-- `'escribir' '(' Expression ')' ';'` with everything declared. -/
theorem parseWriteStatement_accepts (e : Expression) (s : State) (rest : List Terminal)
    (h : TokenStream s ((Statement.escribir e).terminals ++ rest))
    (hr : Ready s (Statement.escribir e).identifiers) :
    ∃ fuel r, parseWriteStatement fuel s = some r ∧ Accepted s r rest := by
  have h' : TokenStream s ((TOKEN_ESCRIBIR, "escribir".toList) ::
      (TOKEN_LPAREN, "(".toList) :: (e.terminals ++ (TOKEN_RPAREN, ")".toList) ::
      (TOKEN_SEMICOLON, ";".toList) :: rest)) := by
    simpa [Statement.terminals] using h
  obtain ⟨he, hu, _⟩ := hr
  obtain ⟨m1, a1⟩ := Accepted.read_token h' he
  obtain ⟨m2, a2⟩ := Accepted.read_token a1.1 a1.2.1
  have a02 := a1.andThen a2
  have hu2 : anyUndeclared (advance (advance s)) e.identifiers = false :=
    (anyUndeclared_declarations a02.2.2 _).trans (by simpa [Statement.identifiers] using hu)
  obtain ⟨fuel, r3, hr3, p3⟩ := Expression.parses_expression e (advance (advance s)) _ a2.1
    (by simp [lookahead, isAddOp]) (by simp [lookahead, isMulOp])
  have a3 : Accepted (advance (advance s)) r3 _ := p3.accepted a2.2.1 hu2
  obtain ⟨m4, a4⟩ := Accepted.read_token a3.1 a3.2.1
  obtain ⟨m5, a5⟩ := Accepted.read_token a4.1 a4.2.1
  refine ⟨fuel, advance (advance r3), ?_, ((a02.andThen a3).andThen a4).andThen a5⟩
  simp only [parseWriteStatement, parseWriteParameters, m1, m2, hr3, Option.map_some', m4, m5]

/-- `'(' Condition ')'` with everything declared. -/
theorem parenCondition_accepts (c : Condition) (x : State) (tail : List Terminal)
    (h : TokenStream x ((TOKEN_LPAREN, "(".toList) ::
      (c.terminals ++ (TOKEN_RPAREN, ")".toList) :: tail)))
    (hr : Ready x c.identifiers) :
    ∃ fuel r, (parseCondition fuel (match_ TOKEN_LPAREN x)).map (match_ TOKEN_RPAREN) = some r ∧
      Accepted x r tail := by
  obtain ⟨he, hu, _⟩ := hr
  obtain ⟨m1, a1⟩ := Accepted.read_token h he
  have hu1 : anyUndeclared (advance x) c.identifiers = false :=
    (anyUndeclared_declarations a1.2.2 _).trans hu
  obtain ⟨fuel, r2, hr2, p2⟩ := c.parses_condition (advance x) _ a1.1
    (by simp [lookahead, isLogOp]) (by simp [lookahead, isAddOp])
    (by simp [lookahead, isMulOp])
  have a2 : Accepted (advance x) r2 _ := p2.accepted a1.2.1 hu1
  obtain ⟨m3, a3⟩ := Accepted.read_token a2.1 a2.2.1
  refine ⟨fuel, advance r2, ?_, (a1.andThen a2).andThen a3⟩
  simp only [m1, hr2, Option.map_some', m3]

/-- `'hasta' '(' Condition ')' ';'` with everything declared. -/
theorem parseUntilCondition_accepts (c : Condition) (x : State) (tail : List Terminal)
    (h : TokenStream x ((TOKEN_HASTA, "hasta".toList) :: (TOKEN_LPAREN, "(".toList) ::
      (c.terminals ++ (TOKEN_RPAREN, ")".toList) :: (TOKEN_SEMICOLON, ";".toList) :: tail)))
    (hr : Ready x c.identifiers) :
    ∃ fuel r, parseUntilCondition fuel x = some r ∧ Accepted x r tail := by
  obtain ⟨m1, a1⟩ := Accepted.read_token h hr.1
  obtain ⟨fuel, r2, hr2, a2⟩ := parenCondition_accepts c (advance x) _ a1.1 (hr.transfer a1)
  obtain ⟨m3, a3⟩ := Accepted.read_token a2.1 a2.2.1
  refine ⟨fuel, advance r2, ?_, (a1.andThen a2).andThen a3⟩
  simp only [Option.map_eq_some'] at hr2
  obtain ⟨r1, e1, e2⟩ := hr2
  simp only [parseUntilCondition, m1, e1, Option.map_some', e2, m3]

theorem Statement.lookahead_start (st : Statement) (tail : List Terminal) :
    isStatementStart (lookahead (st.terminals ++ tail)) := by
  cases st <;> simp [Statement.terminals, lookahead, isStatementStart]

theorem Block.lookahead_block (b : Block) (tail : List Terminal) :
    lookahead (b.terminals ++ tail) = lookahead tail ∨
      isStatementStart (lookahead (b.terminals ++ tail)) := by
  cases b with
  | nil => left; simp [Block.terminals]
  | cons st more =>
    right
    have := st.lookahead_start (more.terminals ++ tail)
    simpa [Block.terminals] using this

theorem isStatementStart.ne_sino {k : TokenType} (h : isStatementStart k) :
    k ≠ TOKEN_SINO ∧ k ≠ TOKEN_RBRACE ∧ k ≠ TOKEN_EOF ∧ k ≠ TOKEN_ENTERO ∧
      k ≠ TOKEN_CARACTER ∧ k ≠ TOKEN_REAL := by
  rcases h with h | h | h | h | h | h <;> subst h <;> decide

/-- `'{' { Statement } '}'`, given that the loop of the block accepts the
statements. -/
theorem parseBlock_of_loop {x : State} {body tail : List Terminal}
    (h : TokenStream x ((TOKEN_LBRACE, [Char.ofNat 123]) ::
      (body ++ (TOKEN_RBRACE, [Char.ofNat 125]) :: tail)))
    (he : x.hasError = false)
    (hloop : ∀ y, Accepted x y (body ++ (TOKEN_RBRACE, [Char.ofNat 125]) :: tail) →
      ∃ fuel r, parseBlockLoop fuel y = some r ∧
        Accepted y r ((TOKEN_RBRACE, [Char.ofNat 125]) :: tail)) :
    ∃ fuel r, parseBlock fuel x = some r ∧ Accepted x r tail := by
  obtain ⟨m1, a1⟩ := Accepted.read_token h he
  obtain ⟨fuel, r2, hr2, a2⟩ := hloop (advance x) a1
  obtain ⟨m3, a3⟩ := Accepted.read_token a2.1 a2.2.1
  refine ⟨fuel + 1, advance r2, ?_, (a1.andThen a2).andThen a3⟩
  simp only [parseBlock, m1, hr2, Option.map_some', m3]

/-! # Statements and blocks -/

theorem parseStatement_identifier {s : State} {n : Nat}
    (ht : s.currentToken.type = TOKEN_IDENTIFIER) :
    parseStatement (n + 1) s = parseAssignment n s := by
  simp [parseStatement, ht]

theorem parseStatement_si {s : State} {n : Nat} (ht : s.currentToken.type = TOKEN_SI) :
    parseStatement (n + 1) s = parseIfStatement n s := by
  simp [parseStatement, ht]

theorem parseStatement_mientras {s : State} {n : Nat}
    (ht : s.currentToken.type = TOKEN_MIENTRAS) :
    parseStatement (n + 1) s = parseWhileStatement n s := by
  simp [parseStatement, ht]

theorem parseStatement_repetir {s : State} {n : Nat}
    (ht : s.currentToken.type = TOKEN_REPETIR) :
    parseStatement (n + 1) s = parseRepeatStatement n s := by
  simp [parseStatement, ht]

theorem parseStatement_leer {s : State} {n : Nat} (ht : s.currentToken.type = TOKEN_LEER) :
    parseStatement (n + 1) s = some (parseReadStatement s) := by
  simp [parseStatement, ht]

theorem parseStatement_escribir {s : State} {n : Nat}
    (ht : s.currentToken.type = TOKEN_ESCRIBIR) :
    parseStatement (n + 1) s = parseWriteStatement n s := by
  simp [parseStatement, ht]

theorem Block.block_ne_sino (b : Block) (tail : List Terminal) :
    lookahead (b.terminals ++ (TOKEN_RBRACE, [Char.ofNat 125]) :: tail) ≠ TOKEN_SINO := by
  rcases b.lookahead_block ((TOKEN_RBRACE, [Char.ofNat 125]) :: tail) with e | e
  · rw [e]; simp [lookahead]
  · exact e.ne_sino.1

mutual

theorem Statement.accepts_statement : ∀ (st : Statement) (s : State) (rest : List Terminal),
    TokenStream s (st.terminals ++ rest) → Ready s st.identifiers →
    lookahead rest ≠ TOKEN_SINO →
    ∃ fuel r, parseStatement fuel s = some r ∧ Accepted s r rest
  | Statement.assignment name e, s, rest, h, hr, _ => by
    obtain ⟨fuel, r, h1, a⟩ := parseAssignment_accepts name e s rest h hr
    have ht : s.currentToken.type = TOKEN_IDENTIFIER := by
      have := h.type_eq
      simpa [Statement.terminals, lookahead] using this
    exact ⟨fuel + 1, r, by rw [parseStatement_identifier ht]; exact h1, a⟩
  | Statement.leer name, s, rest, h, hr, _ => by
    have a := parseReadStatement_accepts name s rest h hr
    have ht : s.currentToken.type = TOKEN_LEER := by
      have := h.type_eq
      simpa [Statement.terminals, lookahead] using this
    exact ⟨1, _, parseStatement_leer ht, a⟩
  | Statement.escribir e, s, rest, h, hr, _ => by
    obtain ⟨fuel, r, h1, a⟩ := parseWriteStatement_accepts e s rest h hr
    have ht : s.currentToken.type = TOKEN_ESCRIBIR := by
      have := h.type_eq
      simpa [Statement.terminals, lookahead] using this
    exact ⟨fuel + 1, r, by rw [parseStatement_escribir ht]; exact h1, a⟩
  | Statement.si c tb eb, s, rest, h, hr, hs => by
    have h' : TokenStream s ((TOKEN_SI, "si".toList) :: (TOKEN_LPAREN, "(".toList) ::
        (c.terminals ++ (TOKEN_RPAREN, ")".toList) :: (TOKEN_LBRACE, [Char.ofNat 123]) ::
          (tb.terminals ++ (TOKEN_RBRACE, [Char.ofNat 125]) :: (eb.terminals ++ rest)))) := by
      simpa [Statement.terminals] using h
    obtain ⟨ht, _, _⟩ := h'.cons_inv
    have hrc : Ready s c.identifiers :=
      hr.mono (by intro n hn; simp [Statement.identifiers, hn])
    have hrt : Ready s tb.identifiers :=
      hr.mono (by intro n hn; simp [Statement.identifiers, hn])
    have hre : Ready s eb.identifiers :=
      hr.mono (by intro n hn; simp [Statement.identifiers, hn])
    obtain ⟨m1, a1⟩ := Accepted.read_token h' hr.1
    obtain ⟨f2, r2, hr2, a2⟩ := parenCondition_accepts c (advance s) _ a1.1 (hrc.transfer a1)
    have hr2' : parseIfCondition f2 (advance s) = some r2 := hr2
    have a02 := a1.andThen a2
    obtain ⟨f3, r3, hr3, a3⟩ := parseBlock_of_loop a2.1 a2.2.1
      (fun y hy => Block.accepts_block tb y _ hy.1 (hrt.transfer (a02.andThen hy)))
    have a03 := a02.andThen a3
    obtain ⟨f4, r4, hr4, a4⟩ := ElseBlock.accepts_else eb r3 rest a3.1 (hre.transfer a03) hs
    refine ⟨max f2 (max f3 f4) + 2, r4, ?_, a03.andThen a4⟩
    rw [parseStatement_si ht]
    simp only [parseIfStatement, m1, Option.bind_eq_some]
    exact ⟨r2, parseIfCondition_mono (le_max_left _ _) hr2', r3,
      parseBlock_mono (le_trans (le_max_left _ _) (le_max_right _ _)) hr3,
      parseElseBlock_mono (le_trans (le_max_right _ _) (le_max_right _ _)) hr4⟩
  | Statement.mientras c body, s, rest, h, hr, _ => by
    have h' : TokenStream s ((TOKEN_MIENTRAS, "mientras".toList) ::
        (TOKEN_LPAREN, "(".toList) ::
        (c.terminals ++ (TOKEN_RPAREN, ")".toList) :: (TOKEN_LBRACE, [Char.ofNat 123]) ::
          (body.terminals ++ (TOKEN_RBRACE, [Char.ofNat 125]) :: rest))) := by
      simpa [Statement.terminals] using h
    obtain ⟨ht, _, _⟩ := h'.cons_inv
    have hrc : Ready s c.identifiers :=
      hr.mono (by intro n hn; simp [Statement.identifiers, hn])
    have hrb : Ready s body.identifiers :=
      hr.mono (by intro n hn; simp [Statement.identifiers, hn])
    obtain ⟨m1, a1⟩ := Accepted.read_token h' hr.1
    obtain ⟨f2, r2, hr2, a2⟩ := parenCondition_accepts c (advance s) _ a1.1 (hrc.transfer a1)
    have hr2' : parseWhileCondition f2 (advance s) = some r2 := hr2
    have a02 := a1.andThen a2
    obtain ⟨f3, r3, hr3, a3⟩ := parseBlock_of_loop a2.1 a2.2.1
      (fun y hy => Block.accepts_block body y _ hy.1 (hrb.transfer (a02.andThen hy)))
    refine ⟨max f2 f3 + 2, r3, ?_, a02.andThen a3⟩
    rw [parseStatement_mientras ht]
    simp only [parseWhileStatement, m1, Option.bind_eq_some]
    exact ⟨r2, parseWhileCondition_mono (le_max_left _ _) hr2',
      parseBlock_mono (le_max_right _ _) hr3⟩
  | Statement.repetir body c, s, rest, h, hr, _ => by
    have h' : TokenStream s ((TOKEN_REPETIR, "repetir".toList) ::
        (TOKEN_LBRACE, [Char.ofNat 123]) ::
        (body.terminals ++ (TOKEN_RBRACE, [Char.ofNat 125]) ::
          ((TOKEN_HASTA, "hasta".toList) :: (TOKEN_LPAREN, "(".toList) ::
            (c.terminals ++ (TOKEN_RPAREN, ")".toList) ::
              (TOKEN_SEMICOLON, ";".toList) :: rest)))) := by
      simpa [Statement.terminals] using h
    obtain ⟨ht, _, _⟩ := h'.cons_inv
    have hrc : Ready s c.identifiers :=
      hr.mono (by intro n hn; simp [Statement.identifiers, hn])
    have hrb : Ready s body.identifiers :=
      hr.mono (by intro n hn; simp [Statement.identifiers, hn])
    obtain ⟨m1, a1⟩ := Accepted.read_token h' hr.1
    obtain ⟨f2, r2, hr2, a2⟩ := parseBlock_of_loop a1.1 a1.2.1
      (fun y hy => Block.accepts_block body y _ hy.1 (hrb.transfer (a1.andThen hy)))
    have a02 := a1.andThen a2
    obtain ⟨f3, r3, hr3, a3⟩ := parseUntilCondition_accepts c r2 rest a2.1 (hrc.transfer a02)
    refine ⟨max f2 f3 + 2, r3, ?_, a02.andThen a3⟩
    rw [parseStatement_repetir ht]
    simp only [parseRepeatStatement, m1, Option.bind_eq_some]
    exact ⟨r2, parseBlock_mono (le_max_left _ _) hr2,
      parseUntilCondition_mono (le_max_right _ _) hr3⟩

theorem Block.accepts_block : ∀ (b : Block) (s : State) (rest : List Terminal),
    TokenStream s (b.terminals ++ (TOKEN_RBRACE, [Char.ofNat 125]) :: rest) →
    Ready s b.identifiers →
    ∃ fuel r, parseBlockLoop fuel s = some r ∧
      Accepted s r ((TOKEN_RBRACE, [Char.ofNat 125]) :: rest)
  | Block.nil, s, rest, h, hr => by
    have h' : TokenStream s ((TOKEN_RBRACE, [Char.ofNat 125]) :: rest) := by
      simpa [Block.terminals] using h
    obtain ⟨ht, _, _⟩ := h'.cons_inv
    exact ⟨1, s, by simp [parseBlockLoop, ht], Accepted.stay h' hr.1⟩
  | Block.cons st more, s, rest, h, hr => by
    have h' : TokenStream s (st.terminals ++
        (more.terminals ++ (TOKEN_RBRACE, [Char.ofNat 125]) :: rest)) := by
      simpa [Block.terminals] using h
    have hstart : isStatementStart s.currentToken.type := by
      rw [h'.type_eq]; exact st.lookahead_start _
    have hrs : Ready s st.identifiers :=
      hr.mono (by intro n hn; simp [Block.identifiers, hn])
    have hrm : Ready s more.identifiers :=
      hr.mono (by intro n hn; simp [Block.identifiers, hn])
    obtain ⟨f1, r1, hr1, a1⟩ := Statement.accepts_statement st s _ h' hrs (more.block_ne_sino rest)
    obtain ⟨f2, r2, hr2, a2⟩ := Block.accepts_block more r1 rest a1.1 (hrm.transfer a1)
    refine ⟨max f1 f2 + 1, r2, ?_, a1.andThen a2⟩
    have hc : s.currentToken.type ≠ TOKEN_RBRACE ∧ s.currentToken.type ≠ TOKEN_EOF ∧
        s.hasError = false := ⟨hstart.ne_sino.2.1, hstart.ne_sino.2.2.1, hr.1⟩
    simp only [parseBlockLoop, if_pos hc, Option.bind_eq_some]
    exact ⟨r1, parseStatement_mono (le_max_left _ _) hr1,
      parseBlockLoop_mono (le_max_right _ _) hr2⟩

theorem ElseBlock.accepts_else : ∀ (eb : ElseBlock) (s : State) (rest : List Terminal),
    TokenStream s (eb.terminals ++ rest) → Ready s eb.identifiers →
    lookahead rest ≠ TOKEN_SINO →
    ∃ fuel r, parseElseBlock fuel s = some r ∧ Accepted s r rest
  | ElseBlock.none, s, rest, h, hr, hs => by
    have h' : TokenStream s rest := by simpa [ElseBlock.terminals] using h
    have ht : s.currentToken.type ≠ TOKEN_SINO := by rw [h'.type_eq]; exact hs
    exact ⟨1, s, by simp [parseElseBlock, ht], Accepted.stay h' hr.1⟩
  | ElseBlock.sino b, s, rest, h, hr, _ => by
    have h' : TokenStream s ((TOKEN_SINO, "sino".toList) ::
        (TOKEN_LBRACE, [Char.ofNat 123]) ::
        (b.terminals ++ (TOKEN_RBRACE, [Char.ofNat 125]) :: rest)) := by
      simpa [ElseBlock.terminals] using h
    obtain ⟨ht, _, _⟩ := h'.cons_inv
    have hrb : Ready s b.identifiers :=
      hr.mono (by intro n hn; simpa [ElseBlock.identifiers] using hn)
    obtain ⟨m1, a1⟩ := Accepted.read_token h' hr.1
    obtain ⟨f2, r2, hr2, a2⟩ := parseBlock_of_loop a1.1 a1.2.1
      (fun y hy => Block.accepts_block b y _ hy.1 (hrb.transfer (a1.andThen hy)))
    refine ⟨f2 + 1, r2, ?_, a1.andThen a2⟩
    simp only [parseElseBlock, ht, if_true, m1]
    exact hr2

end

/-! # Declarations and programs -/

theorem lookupSymbol_eq_none_iff (s : State) (name : List Char) :
    lookupSymbol s name = none ↔ name ∉ (declarations s).map Prod.fst := by
  rw [lookupSymbol, lookupFrom_eq_none_iff]
  simp only [declarations, List.map_map, List.mem_map, Function.comp_apply, not_exists,
    not_and]

theorem anyUndeclared_eq_false_iff (s : State) (names : List (List Char)) :
    anyUndeclared s names = false ↔ ∀ n ∈ names, n ∈ (declarations s).map Prod.fst := by
  simp only [anyUndeclared, List.any_eq_false]
  constructor
  · intro h n hn
    by_contra hc
    have := (lookupSymbol_eq_none_iff s n).2 hc
    exact h n hn (by simp [this])
  · intro h n hn hnone
    have h1 : lookupSymbol s n = none := by simpa using hnone
    exact (lookupSymbol_eq_none_iff s n).1 h1 (h n hn)

theorem declarable_length {name : List Char} (h : declarable name = true) :
    1 ≤ name.length ∧ name.length < MAX_IDENTIFIER_LENGTH := by
  simp only [declarable, Bool.and_eq_true, decide_eq_true_eq] at h
  refine ⟨?_, h.2⟩
  by_contra hc
  have h0 : name.length = 0 := by omega
  simp [isValidIdentifier, h0] at h

/-- A declared name that is new and declarable is put in front of the table. -/
theorem processVariableDeclaration_fresh {x : State} {name : List Char}
    {ts : List Terminal} (ty : DataType)
    (h : TokenStream x ((TOKEN_IDENTIFIER, name) :: ts)) (he : x.hasError = false)
    (hnew : name ∉ (declarations x).map Prod.fst) (hd : declarable name = true) :
    TokenStream (processVariableDeclaration ty x) ts ∧
      (processVariableDeclaration ty x).hasError = false ∧
      declarations (processVariableDeclaration ty x) = (name, ty) :: declarations x := by
  obtain ⟨ht, hl, _⟩ := h.cons_inv
  obtain ⟨hmin, hmax⟩ := declarable_length hd
  have hlook : lookupSymbol x name = none := (lookupSymbol_eq_none_iff x name).2 hnew
  have h2 : name.length ≠ 0 := by omega
  have h3 : ¬ MAX_IDENTIFIER_LENGTH ≤ name.length := by omega
  have hins1 : (insertSymbol x name ty).1 = some 0 := by
    simp [insertSymbol, hlook, createSymbol, h2, h3, insertSymbolInTable]
  have hins2 : (insertSymbol x name ty).2.symbolTable =
      { name := name, type := ty, value := initializeSymbolValue ty,
        initialized := false } :: x.symbolTable := by
    simp [insertSymbol, hlook, createSymbol, h2, h3, insertSymbolInTable]
  obtain ⟨m1, st1⟩ := h.step (insertSymbol_sameLexer x name ty)
  have hP : processVariableDeclaration ty x = advance (insertSymbol x name ty).2 := by
    simp only [processVariableDeclaration, ht, hl, ne_eq, not_true_eq_false, if_false,
      hins1, Option.isNone_some, Bool.false_eq_true, m1]
  rw [hP]
  refine ⟨st1, ?_, ?_⟩
  · rw [advance_hasError, insertSymbol_hasError]; exact he
  · simp [declarations, hins2]

/-- `{ ',' Identifier } ';'` with new, declarable, pairwise different names. -/
theorem parseIdentifierListLoop_accepts (ty : DataType) : ∀ (more : List (List Char))
    (x : State) (rest : List Terminal),
    TokenStream x (identifierListTerminals more ++ (TOKEN_SEMICOLON, ";".toList) :: rest) →
    x.hasError = false → more.Nodup →
    (∀ n ∈ more, declarable n = true ∧ n ∉ (declarations x).map Prod.fst) →
    ∃ fuel r, parseIdentifierListLoop ty fuel x = some r ∧
      TokenStream r ((TOKEN_SEMICOLON, ";".toList) :: rest) ∧ r.hasError = false ∧
      declarations r = (more.reverse.map fun n => (n, ty)) ++ declarations x := by
  intro more
  induction more with
  | nil =>
    intro x rest h he _ _
    have h' : TokenStream x ((TOKEN_SEMICOLON, ";".toList) :: rest) := by
      simpa [identifierListTerminals] using h
    obtain ⟨ht, _, _⟩ := h'.cons_inv
    exact ⟨1, x, by simp [parseIdentifierListLoop, ht], h', he, by simp⟩
  | cons name more ih =>
    intro x rest h he hnd hall
    have h' : TokenStream x ((TOKEN_COMMA, ",".toList) :: (TOKEN_IDENTIFIER, name) ::
        (identifierListTerminals more ++ (TOKEN_SEMICOLON, ";".toList) :: rest)) := by
      simpa [identifierListTerminals] using h
    obtain ⟨ht, _, _⟩ := h'.cons_inv
    obtain ⟨m1, a1⟩ := Accepted.read_token h' he
    obtain ⟨hd, hnew⟩ := hall name (List.mem_cons_self _ _)
    have hnew1 : name ∉ (declarations (advance x)).map Prod.fst := by
      rw [a1.2.2]; exact hnew
    obtain ⟨st2, he2, d2⟩ := processVariableDeclaration_fresh ty a1.1 a1.2.1 hnew1 hd
    rw [List.nodup_cons] at hnd
    obtain ⟨fuel, r, hr, st3, he3, d3⟩ := ih (processVariableDeclaration ty (advance x)) rest
      st2 he2 hnd.2 (by
        intro n hn
        obtain ⟨hdn, hnn⟩ := hall n (List.mem_cons_of_mem _ hn)
        refine ⟨hdn, ?_⟩
        rw [d2, a1.2.2]
        simp only [List.map_cons, List.mem_cons, not_or]
        exact ⟨fun e => hnd.1 (e ▸ hn), hnn⟩)
    refine ⟨fuel + 1, r, ?_, st3, he3, ?_⟩
    · simp only [parseIdentifierListLoop, ht, if_true, m1]
      exact hr
    · rw [d3, d2, a1.2.2]
      simp

theorem DataTypeKw.dataType_ne_error (kw : DataTypeKw) : kw.dataType ≠ TYPE_ERROR := by
  cases kw <;> simp [DataTypeKw.dataType]

theorem parseDataType_keyword {s : State} {kw : DataTypeKw}
    (ht : s.currentToken.type = kw.terminal.1) :
    parseDataType s = (kw.dataType, match_ kw.terminal.1 s) := by
  cases kw <;>
    simp [parseDataType, getDataTypeFromToken, DataTypeKw.terminal, DataTypeKw.dataType] at ht ⊢ <;>
    simp [ht]

/-- `DataTypeKw Identifier { ',' Identifier } ';'` with new, declarable, pairwise
different names. -/
theorem parseDeclaration_accepts (kw : DataTypeKw) (first : List Char)
    (more : List (List Char)) (s : State) (rest : List Terminal)
    (h : TokenStream s ((Item.declaration kw first more).terminals ++ rest))
    (he : s.hasError = false) (hnd : (first :: more).Nodup)
    (hall : ∀ n ∈ first :: more, declarable n = true ∧ n ∉ (declarations s).map Prod.fst) :
    ∃ fuel r, parseDeclaration fuel s = some r ∧ TokenStream r rest ∧ r.hasError = false ∧
      declarations r =
        ((first :: more).reverse.map fun n => (n, kw.dataType)) ++ declarations s := by
  have h' : TokenStream s ((kw.terminal.1, kw.terminal.2) :: (TOKEN_IDENTIFIER, first) ::
      (identifierListTerminals more ++ (TOKEN_SEMICOLON, ";".toList) :: rest)) := by
    simpa [Item.terminals] using h
  obtain ⟨ht, _, _⟩ := h'.cons_inv
  obtain ⟨m1, a1⟩ := Accepted.read_token h' he
  obtain ⟨hd, hnew⟩ := hall first (List.mem_cons_self _ _)
  have hnew1 : first ∉ (declarations (advance s)).map Prod.fst := by
    rw [a1.2.2]; exact hnew
  obtain ⟨st2, he2, d2⟩ := processVariableDeclaration_fresh kw.dataType a1.1 a1.2.1 hnew1 hd
  rw [List.nodup_cons] at hnd
  obtain ⟨fuel, r3, hr3, st3, he3, d3⟩ := parseIdentifierListLoop_accepts kw.dataType more
    (processVariableDeclaration kw.dataType (advance s)) rest st2 he2 hnd.2 (by
      intro n hn
      obtain ⟨hdn, hnn⟩ := hall n (List.mem_cons_of_mem _ hn)
      refine ⟨hdn, ?_⟩
      rw [d2, a1.2.2]
      simp only [List.map_cons, List.mem_cons, not_or]
      exact ⟨fun e => hnd.1 (e ▸ hn), hnn⟩)
  have a3 : Accepted r3 r3 _ := Accepted.stay st3 he3
  obtain ⟨m4, a4⟩ := Accepted.read_token st3 he3
  refine ⟨fuel, advance r3, ?_, a4.1, a4.2.1, ?_⟩
  · simp only [parseDeclaration, parseDataType_keyword ht, ne_eq, kw.dataType_ne_error,
      not_false_eq_true, if_true, parseIdentifierList, m1, hr3, Option.map_some', m4]
  · rw [a4.2.2, d3, d2, a1.2.2]
    simp

theorem Item.lookahead_item (item : Item) (tail : List Terminal) :
    isStatementStart (lookahead (item.terminals ++ tail)) ∨
      lookahead (item.terminals ++ tail) = TOKEN_ENTERO ∨
      lookahead (item.terminals ++ tail) = TOKEN_CARACTER ∨
      lookahead (item.terminals ++ tail) = TOKEN_REAL := by
  cases item with
  | declaration kw first more =>
    right
    cases kw <;> simp [Item.terminals, lookahead, DataTypeKw.terminal]
  | statement st =>
    left
    exact st.lookahead_start tail

theorem Program.program_ne_sino (p : Program) :
    lookahead (Program.terminals p) ≠ TOKEN_SINO := by
  cases p with
  | nil => simp [Program.terminals, lookahead]
  | cons item rest =>
    rcases item.lookahead_item (Program.terminals rest) with e | e | e | e
    · exact e.ne_sino.1
    · simp [Program.terminals, e]
    · simp [Program.terminals, e]
    · simp [Program.terminals, e]

/-- A program of the grammar whose identifiers are declared before use, each
once, is parsed to the end without an error, and its declarations are put in
the table. -/
theorem Program.accepts_program : ∀ (p : Program) (s : State),
    TokenStream s (Program.terminals p) → s.hasError = false →
    (∀ d ∈ declarations s, d.2 ≠ TYPE_ERROR) →
    Program.wellDeclared ((declarations s).map Prod.fst) p = true →
    ∃ fuel r, parseProgram fuel s = some r ∧ r.hasError = false ∧
      r.currentToken.type = TOKEN_EOF ∧
      declarations r = (Program.declared p).reverse ++ declarations s := by
  intro p
  induction p with
  | nil =>
    intro s h he _ _
    have ht := h.nil_type
    exact ⟨1, s, by simp [parseProgram, ht], he, ht, by simp [Program.declared]⟩
  | cons item rest ih =>
    intro s h he hty hwd
    cases item with
    | declaration kw first more =>
      simp only [Program.wellDeclared, Bool.and_eq_true, List.all_eq_true,
        decide_eq_true_eq] at hwd
      obtain ⟨⟨⟨hdecl, hnd⟩, hfresh⟩, hrest⟩ := hwd
      have h' : TokenStream s ((Item.declaration kw first more).terminals ++
          Program.terminals rest) := by
        simpa [Program.terminals] using h
      have hkind : s.currentToken.type = kw.terminal.1 := by
        rw [h'.type_eq]; simp [Item.terminals, lookahead]
      obtain ⟨f1, r1, hr1, st1, he1, d1⟩ := parseDeclaration_accepts kw first more s _ h' he
        hnd (fun n hn => ⟨hdecl n hn, hfresh n hn⟩)
      have hnames : (declarations r1).map Prod.fst =
          (first :: more).reverse ++ (declarations s).map Prod.fst := by
        rw [d1]
        simp [List.map_reverse, Function.comp_def]
      obtain ⟨f2, r2, hr2, he2, heof, d2⟩ := ih r1 st1 he1 (by
          intro d hd
          rw [d1, List.mem_append] at hd
          rcases hd with hd | hd
          · obtain ⟨n, _, rfl⟩ := List.mem_map.1 hd
            exact kw.dataType_ne_error
          · exact hty d hd) (by rw [hnames]; exact hrest)
      refine ⟨max f1 f2 + 1, r2, ?_, he2, heof, ?_⟩
      · have hc : s.currentToken.type ≠ TOKEN_EOF ∧ s.hasError = false := by
          refine ⟨?_, he⟩
          rw [hkind]; cases kw <;> simp [DataTypeKw.terminal]
        have hk : s.currentToken.type = TOKEN_ENTERO ∨ s.currentToken.type = TOKEN_CARACTER ∨
            s.currentToken.type = TOKEN_REAL := by
          rw [hkind]; cases kw <;> simp [DataTypeKw.terminal]
        simp only [parseProgram, if_pos hc, if_pos hk, Option.bind_eq_some]
        exact ⟨r1, parseDeclaration_mono (le_max_left _ _) hr1,
          parseProgram_mono _ _ _ _ (le_max_right _ _) hr2⟩
      · rw [d2, d1]
        simp [Program.declared, List.map_reverse]
    | statement st =>
      simp only [Program.wellDeclared, Bool.and_eq_true, List.all_eq_true,
        decide_eq_true_eq] at hwd
      obtain ⟨huse, hrest⟩ := hwd
      have h' : TokenStream s (st.terminals ++ Program.terminals rest) := by
        simpa [Program.terminals, Item.terminals] using h
      have hstart : isStatementStart s.currentToken.type := by
        rw [h'.type_eq]; exact st.lookahead_start _
      have hready : Ready s st.identifiers :=
        ⟨he, (anyUndeclared_eq_false_iff s _).2 huse, hty⟩
      obtain ⟨f1, r1, hr1, a1⟩ := st.accepts_statement s _ h' hready (Program.program_ne_sino rest)
      obtain ⟨f2, r2, hr2, he2, heof, d2⟩ := ih r1 a1.1 a1.2.1
        (by rw [a1.2.2]; exact hty) (by rw [a1.2.2]; exact hrest)
      refine ⟨max f1 f2 + 1, r2, ?_, he2, heof, ?_⟩
      · have hc : s.currentToken.type ≠ TOKEN_EOF ∧ s.hasError = false :=
          ⟨hstart.ne_sino.2.2.1, he⟩
        have hk : ¬ (s.currentToken.type = TOKEN_ENTERO ∨
            s.currentToken.type = TOKEN_CARACTER ∨ s.currentToken.type = TOKEN_REAL) := by
          obtain ⟨_, _, _, k1, k2, k3⟩ := hstart.ne_sino
          simp [k1, k2, k3]
        simp only [parseProgram, if_pos hc, if_neg hk, Option.bind_eq_some]
        exact ⟨r1, parseStatement_mono (le_max_left _ _) hr1,
          parseProgram_mono _ _ _ _ (le_max_right _ _) hr2⟩
      · rw [d2, a1.2.2]
        simp [Program.declared]

/-- The state in which `parseProgram` starts has the token stream of the source. -/
theorem compile_start (code : List Char) (ts : List Terminal)
    (h : tokenize code = some ts) :
    TokenStream (initLexer (initParser (initSemantic initialState)) code) ts ∧
      (initLexer (initParser (initSemantic initialState)) code).hasError = false ∧
      (initLexer (initParser (initSemantic initialState)) code).symbolTable = [] := by
  have h1 := tokensFrom_sound _ _ _ h
  refine ⟨?_, ?_, ?_⟩
  · refine h1.congr ?_
    simp only [initLexer]
    exact advance_congr ⟨rfl, rfl, rfl, rfl, rfl⟩
  · simp [initLexer, initParser]
  · simp [initLexer, initParser, initSemantic]

/-! # Declarations that fail, and uses of undeclared names -/

theorem parseProgram_stop {s : State} (n : Nat) (he : s.hasError = true) :
    parseProgram (n + 1) s = some s := by
  simp [parseProgram, he]

theorem parseProgram_eof {s : State} (n : Nat) (ht : s.currentToken.type = TOKEN_EOF) :
    parseProgram (n + 1) s = some s := by
  simp [parseProgram, ht]

theorem parseProgram_declaration {s : State} (n : Nat) (kw : DataTypeKw)
    (ht : s.currentToken.type = kw.terminal.1) (he : s.hasError = false) :
    parseProgram (n + 1) s = (parseDeclaration n s).bind (parseProgram n) := by
  have hc : s.currentToken.type ≠ TOKEN_EOF ∧ s.hasError = false := by
    refine ⟨?_, he⟩
    rw [ht]; cases kw <;> simp [DataTypeKw.terminal]
  have hk : s.currentToken.type = TOKEN_ENTERO ∨ s.currentToken.type = TOKEN_CARACTER ∨
      s.currentToken.type = TOKEN_REAL := by
    rw [ht]; cases kw <;> simp [DataTypeKw.terminal]
  simp only [parseProgram, if_pos hc, if_pos hk]

theorem parseProgram_statement {s : State} (n : Nat)
    (ht : isStatementStart s.currentToken.type) (he : s.hasError = false) :
    parseProgram (n + 1) s = (parseStatement n s).bind (parseProgram n) := by
  have hc : s.currentToken.type ≠ TOKEN_EOF ∧ s.hasError = false := ⟨ht.ne_sino.2.2.1, he⟩
  have hk : ¬ (s.currentToken.type = TOKEN_ENTERO ∨
      s.currentToken.type = TOKEN_CARACTER ∨ s.currentToken.type = TOKEN_REAL) := by
    obtain ⟨_, _, _, k1, k2, k3⟩ := ht.ne_sino
    simp [k1, k2, k3]
  simp only [parseProgram, if_pos hc, if_neg hk]

/-- With an identifier in the lookahead, `processVariableDeclaration` always
moves past it. -/
theorem processVariableDeclaration_stream {x : State} {name : List Char}
    {ts : List Terminal} (ty : DataType)
    (h : TokenStream x ((TOKEN_IDENTIFIER, name) :: ts)) :
    TokenStream (processVariableDeclaration ty x) ts := by
  obtain ⟨ht, hl, _⟩ := h.cons_inv
  simp only [processVariableDeclaration, ht, hl, ne_eq, not_true_eq_false, if_false]
  split
  · exact (h.step ((insertSymbol_sameLexer x name ty).lexer_trans
      (syntaxError_sameLexer _ _))).1 ▸
      (h.step ((insertSymbol_sameLexer x name ty).lexer_trans (syntaxError_sameLexer _ _))).2
  · exact (h.step (insertSymbol_sameLexer x name ty)).1 ▸
      (h.step (insertSymbol_sameLexer x name ty)).2

/-- A new declarable name: the symbol is put in front, nothing is printed. -/
theorem processVariableDeclaration_new {x : State} {name : List Char}
    {ts : List Terminal} (ty : DataType)
    (h : TokenStream x ((TOKEN_IDENTIFIER, name) :: ts))
    (hlook : lookupSymbol x name = none) (hd : declarable name = true) :
    (processVariableDeclaration ty x).hasError = x.hasError ∧
      (processVariableDeclaration ty x).output = x.output ∧
      (processVariableDeclaration ty x).symbolTable =
        { name := name, type := ty, value := initializeSymbolValue ty,
          initialized := false } :: x.symbolTable := by
  obtain ⟨ht, hl, _⟩ := h.cons_inv
  obtain ⟨hmin, hmax⟩ := declarable_length hd
  have h2 : name.length ≠ 0 := by omega
  have h3 : ¬ MAX_IDENTIFIER_LENGTH ≤ name.length := by omega
  have hins : insertSymbol x name ty = (some 0,
      { x with symbolTable :=
          Symbol.mk name ty (initializeSymbolValue ty) false :: x.symbolTable }) := by
    simp [insertSymbol, hlook, createSymbol, h2, h3, insertSymbolInTable]
  obtain ⟨m1, _⟩ := h.step (insertSymbol_sameLexer x name ty)
  have hP : processVariableDeclaration ty x = advance (insertSymbol x name ty).2 := by
    simp only [hins] at m1
    simp only [processVariableDeclaration, ht, hl, ne_eq, not_true_eq_false, if_false,
      hins, Option.isNone_some, Bool.false_eq_true]
    exact m1
  rw [hP, hins]
  simp

/-- A name that is already in the table: a syntax error is printed, the table is
untouched. -/
theorem processVariableDeclaration_duplicate {x : State} {name : List Char}
    {ts : List Terminal} {i : Nat} (ty : DataType)
    (h : TokenStream x ((TOKEN_IDENTIFIER, name) :: ts))
    (hlook : lookupSymbol x name = some i) :
    (processVariableDeclaration ty x).hasError = true ∧
      (processVariableDeclaration ty x).symbolTable = x.symbolTable ∧
      (processVariableDeclaration ty x).output = x.output ++
        [Diagnostic.errorSintactico x.currentToken.line x.currentToken.column
          ("Variable ".toList ++ [QUOTE] ++ name ++ [QUOTE] ++ " ya declarada".toList)
          name] := by
  obtain ⟨ht, hl, _⟩ := h.cons_inv
  have hins : insertSymbol x name ty = (none, x) := by
    simp [insertSymbol, hlook]
  obtain ⟨m1, _⟩ := h.step (syntaxError_sameLexer x
    ("Variable ".toList ++ [QUOTE] ++ name ++ [QUOTE] ++ " ya declarada".toList))
  have hP : processVariableDeclaration ty x = advance (syntaxError x
      ("Variable ".toList ++ [QUOTE] ++ name ++ [QUOTE] ++ " ya declarada".toList)) := by
    simp only [processVariableDeclaration, ht, hl, ne_eq, not_true_eq_false, if_false,
      hins, Option.isNone_none, if_true]
    exact m1
  rw [hP]
  simp [syntaxError, hl]

theorem parseIdentifierListLoop_exit {ty : DataType} {s : State} (n : Nat)
    (h : s.currentToken.type ≠ TOKEN_COMMA) :
    parseIdentifierListLoop ty (n + 1) s = some s := by
  simp [parseIdentifierListLoop, h]

theorem parseIdentifierListLoop_comma {ty : DataType} {s : State} (n : Nat)
    (h : s.currentToken.type = TOKEN_COMMA) :
    parseIdentifierListLoop ty (n + 1) s =
      parseIdentifierListLoop ty n (processVariableDeclaration ty (match_ TOKEN_COMMA s)) := by
  simp [parseIdentifierListLoop, h]

/-- `DataTypeKw Identifier ';'`, whatever becomes of the insertion. -/
theorem parseDeclaration_one (kw : DataTypeKw) (name : List Char) (s : State)
    (rest : List Terminal) (n : Nat)
    (h : TokenStream s ((kw.terminal.1, kw.terminal.2) :: (TOKEN_IDENTIFIER, name) ::
      (TOKEN_SEMICOLON, ";".toList) :: rest)) :
    TokenStream (advance s) ((TOKEN_IDENTIFIER, name) :: (TOKEN_SEMICOLON, ";".toList) :: rest) ∧
    parseDeclaration (n + 1) s =
      some (advance (processVariableDeclaration kw.dataType (advance s))) ∧
    TokenStream (advance (processVariableDeclaration kw.dataType (advance s))) rest := by
  obtain ⟨ht, _, _⟩ := h.cons_inv
  obtain ⟨m1, st1⟩ := h.step (SameLexer.lexer_refl s)
  have st2 := processVariableDeclaration_stream kw.dataType st1
  obtain ⟨ht2, _, _⟩ := st2.cons_inv
  obtain ⟨m3, st3⟩ := st2.step (SameLexer.lexer_refl _)
  refine ⟨st1, ?_, st3⟩
  simp only [parseDeclaration, parseDataType_keyword ht, ne_eq, kw.dataType_ne_error,
    not_false_eq_true, if_true, parseIdentifierList, m1]
  rw [parseIdentifierListLoop_exit n (by rw [ht2]; decide)]
  simp only [Option.map_some', m3]

/-- `DataTypeKw Identifier ',' Identifier ';'`, whatever becomes of the
insertions. -/
theorem parseDeclaration_two (kw : DataTypeKw) (a b : List Char) (s : State)
    (rest : List Terminal) (n : Nat)
    (h : TokenStream s ((kw.terminal.1, kw.terminal.2) :: (TOKEN_IDENTIFIER, a) ::
      (TOKEN_COMMA, ",".toList) :: (TOKEN_IDENTIFIER, b) ::
      (TOKEN_SEMICOLON, ";".toList) :: rest)) :
    TokenStream (advance s) ((TOKEN_IDENTIFIER, a) :: (TOKEN_COMMA, ",".toList) ::
      (TOKEN_IDENTIFIER, b) :: (TOKEN_SEMICOLON, ";".toList) :: rest) ∧
    TokenStream (advance (processVariableDeclaration kw.dataType (advance s)))
      ((TOKEN_IDENTIFIER, b) :: (TOKEN_SEMICOLON, ";".toList) :: rest) ∧
    parseDeclaration (n + 2) s =
      some (advance (processVariableDeclaration kw.dataType
        (advance (processVariableDeclaration kw.dataType (advance s))))) ∧
    TokenStream (advance (processVariableDeclaration kw.dataType
        (advance (processVariableDeclaration kw.dataType (advance s))))) rest := by
  obtain ⟨ht, _, _⟩ := h.cons_inv
  obtain ⟨m1, st1⟩ := h.step (SameLexer.lexer_refl s)
  have st2 := processVariableDeclaration_stream kw.dataType st1
  obtain ⟨ht2, _, _⟩ := st2.cons_inv
  obtain ⟨m3, st3⟩ := st2.step (SameLexer.lexer_refl _)
  have st4 := processVariableDeclaration_stream kw.dataType st3
  obtain ⟨ht4, _, _⟩ := st4.cons_inv
  obtain ⟨m5, st5⟩ := st4.step (SameLexer.lexer_refl _)
  refine ⟨st1, st3, ?_, st5⟩
  simp only [parseDeclaration, parseDataType_keyword ht, ne_eq, kw.dataType_ne_error,
    not_false_eq_true, if_true, parseIdentifierList, m1]
  rw [parseIdentifierListLoop_comma (n + 1) ht2, m3,
    parseIdentifierListLoop_exit n (by rw [ht4]; decide)]
  simp only [Option.map_some', m5]

theorem lookupFrom_head (sym : Symbol) (table : List Symbol) :
    lookupFrom (sym :: table) sym.name = some 0 := by
  simp [lookupFrom]

/-- `T1 x; T2 x;` from an empty table: the second declaration is rejected. -/
theorem declared_twice_in_two (kw1 kw2 : DataTypeKw) (x : List Char) (s0 : State)
    (hx : declarable x = true)
    (hs : TokenStream s0 [kw1.terminal, (TOKEN_IDENTIFIER, x), (TOKEN_SEMICOLON, ";".toList),
      kw2.terminal, (TOKEN_IDENTIFIER, x), (TOKEN_SEMICOLON, ";".toList)])
    (he : s0.hasError = false) (ht : s0.symbolTable = []) :
    ∃ r, (∀ n, parseProgram (n + 4) s0 = some r) ∧ r.hasError = true ∧
      r.symbolTable = [Symbol.mk x kw1.dataType (initializeSymbolValue kw1.dataType) false] ∧
      ∃ line column, r.output = s0.output ++ [Diagnostic.errorSintactico line column
        ("Variable ".toList ++ [QUOTE] ++ x ++ [QUOTE] ++ " ya declarada".toList) x] := by
  have hk0 := hs.head.1
  obtain ⟨st1, pd1, st3⟩ := parseDeclaration_one kw1 x s0 _ 0 hs
  have hl1 : lookupSymbol (advance s0) x = none := by
    simp [lookupSymbol, ht, lookupFrom]
  obtain ⟨e1, o1, t1⟩ := processVariableDeclaration_new kw1.dataType st1 hl1 hx
  generalize processVariableDeclaration kw1.dataType (advance s0) = p1 at st3 pd1 e1 o1 t1
  have hk3 := st3.head.1
  have he3 : (advance p1).hasError = false := by rw [advance_hasError, e1, advance_hasError, he]
  obtain ⟨st4, pd2, st5⟩ := parseDeclaration_one kw2 x (advance p1) _ 0 st3
  have hl4 : lookupSymbol (advance (advance p1)) x = some 0 := by
    simp only [lookupSymbol, advance_symbolTable, t1]
    exact lookupFrom_head (Symbol.mk x kw1.dataType (initializeSymbolValue kw1.dataType) false) _
  obtain ⟨e2, t2, o2⟩ := processVariableDeclaration_duplicate kw2.dataType st4 hl4
  generalize processVariableDeclaration kw2.dataType (advance (advance p1)) = p2
    at st5 pd2 e2 t2 o2
  have he5 : (advance p2).hasError = true := by rw [advance_hasError, e2]
  refine ⟨advance p2, ?_, he5, ?_, (advance (advance p1)).currentToken.line,
    (advance (advance p1)).currentToken.column, ?_⟩
  · intro n
    rw [parseProgram_declaration (n + 3) kw1 hk0 he,
      parseDeclaration_mono (Nat.le_add_left 1 (n + 2)) pd1, Option.some_bind,
      parseProgram_declaration (n + 2) kw2 hk3 he3,
      parseDeclaration_mono (Nat.le_add_left 1 (n + 1)) pd2, Option.some_bind,
      parseProgram_stop (n + 1) he5]
  · simp [t2, t1, ht]
  · rw [advance_output, o2, advance_output, advance_output, o1, advance_output]

/-- `T1 x, x;` from an empty table: the second name of the list is rejected. -/
theorem declared_twice_in_one (kw1 : DataTypeKw) (x : List Char) (s0 : State)
    (hx : declarable x = true)
    (hs : TokenStream s0 [kw1.terminal, (TOKEN_IDENTIFIER, x), (TOKEN_COMMA, ",".toList),
      (TOKEN_IDENTIFIER, x), (TOKEN_SEMICOLON, ";".toList)])
    (he : s0.hasError = false) (ht : s0.symbolTable = []) :
    ∃ r, (∀ n, parseProgram (n + 4) s0 = some r) ∧ r.hasError = true ∧
      r.symbolTable = [Symbol.mk x kw1.dataType (initializeSymbolValue kw1.dataType) false] ∧
      ∃ line column, r.output = s0.output ++ [Diagnostic.errorSintactico line column
        ("Variable ".toList ++ [QUOTE] ++ x ++ [QUOTE] ++ " ya declarada".toList) x] := by
  have hk0 := hs.head.1
  obtain ⟨st1, st3, pd, st5⟩ := parseDeclaration_two kw1 x x s0 _ 0 hs
  have hl1 : lookupSymbol (advance s0) x = none := by
    simp [lookupSymbol, ht, lookupFrom]
  obtain ⟨e1, o1, t1⟩ := processVariableDeclaration_new kw1.dataType st1 hl1 hx
  generalize processVariableDeclaration kw1.dataType (advance s0) = p1 at st3 st5 pd e1 o1 t1
  have hl4 : lookupSymbol (advance p1) x = some 0 := by
    simp only [lookupSymbol, advance_symbolTable, t1]
    exact lookupFrom_head (Symbol.mk x kw1.dataType (initializeSymbolValue kw1.dataType) false) _
  obtain ⟨e2, t2, o2⟩ := processVariableDeclaration_duplicate kw1.dataType st3 hl4
  generalize processVariableDeclaration kw1.dataType (advance p1) = p2 at st5 pd e2 t2 o2
  have he5 : (advance p2).hasError = true := by rw [advance_hasError, e2]
  refine ⟨advance p2, ?_, he5, ?_, (advance p1).currentToken.line,
    (advance p1).currentToken.column, ?_⟩
  · intro n
    rw [parseProgram_declaration (n + 3) kw1 hk0 he,
      parseDeclaration_mono (Nat.le_add_left 2 (n + 1)) pd, Option.some_bind,
      parseProgram_stop (n + 2) he5]
  · simp [t2, t1, ht]
  · rw [advance_output, o2, advance_output, o1, advance_output]

theorem compile_start_output (code : List Char) :
    (initLexer (initParser (initSemantic initialState)) code).output = [] := by
  simp [initLexer, initParser, initSemantic, initialState]

theorem match_same_kind {s : State} {k : TokenType} (h : s.currentToken.type = k) :
    match_ k s = advance s := by
  simp [match_, h]

theorem processAssignmentVariable_undeclared (s : State)
    (hid : s.currentToken.type = TOKEN_IDENTIFIER)
    (hund : lookupSymbol s s.currentToken.lexeme = none) :
    (processAssignmentVariable s).1 = none ∧
      UndeclaredReported s (processAssignmentVariable s).2 := by
  have hm : match_ TOKEN_IDENTIFIER (semanticError s ("Variable ".toList ++ [QUOTE] ++
      s.currentToken.lexeme ++ [QUOTE] ++ " no declarada".toList)) = advance _ :=
    match_same_kind hid
  simp only [processAssignmentVariable, hid, hund, ne_eq, not_true_eq_false, if_false,
    Option.isNone_none, if_true, hm, UndeclaredReported, advance_hasError,
    advance_symbolTable, advance_output]
  simp [semanticError]

theorem processReadIdentifier_undeclared (s : State)
    (hid : s.currentToken.type = TOKEN_IDENTIFIER)
    (hund : lookupSymbol s s.currentToken.lexeme = none) :
    UndeclaredReported s (processReadIdentifier s) := by
  have hm : match_ TOKEN_IDENTIFIER (semanticError s ("Variable ".toList ++ [QUOTE] ++
      s.currentToken.lexeme ++ [QUOTE] ++ " no declarada".toList)) = advance _ :=
    match_same_kind hid
  simp only [processReadIdentifier, hid, hund, ne_eq, not_true_eq_false, if_false, hm,
    UndeclaredReported, advance_hasError, advance_symbolTable, advance_output]
  simp [semanticError]

theorem parseFactor_undeclared (s : State) (fuel : Nat)
    (hid : s.currentToken.type = TOKEN_IDENTIFIER)
    (hund : lookupSymbol s s.currentToken.lexeme = none) :
    ∃ r, parseFactor (fuel + 1) s = some r ∧ UndeclaredReported s r := by
  have hm : match_ TOKEN_IDENTIFIER (semanticError s ("Variable ".toList ++ [QUOTE] ++
      s.currentToken.lexeme ++ [QUOTE] ++ " no declarada".toList)) = advance _ :=
    match_same_kind hid
  refine ⟨advance (semanticError s ("Variable ".toList ++ [QUOTE] ++
      s.currentToken.lexeme ++ [QUOTE] ++ " no declarada".toList)),
    by simp only [parseFactor, hid, hund, if_true, Option.isNone_none, hm], ?_⟩
  simp only [UndeclaredReported, advance_hasError, advance_symbolTable, advance_output]
  simp [semanticError]

/-- `n ':=' Expression ';'` with `n` not declared. -/
theorem parseStatement_assignment_undeclared (s : State) (n : List Char) (e : Expression)
    (rest : List Terminal) (hund : lookupSymbol s n = none)
    (h : TokenStream s ((Statement.assignment n e).terminals ++ rest)) :
    ∃ fuel r, (∀ m, fuel ≤ m → parseStatement m s = some r) ∧ r.hasError = true ∧
      r.symbolTable = s.symbolTable ∧ TokenStream r rest := by
  have h' : TokenStream s ((TOKEN_IDENTIFIER, n) :: (TOKEN_ASSIGN, ":=".toList) ::
      (e.terminals ++ (TOKEN_SEMICOLON, ";".toList) :: rest)) := by
    simpa [Statement.terminals] using h
  obtain ⟨ht, hl, _⟩ := h'.cons_inv
  obtain ⟨hv, he1, ht1, _⟩ := processAssignmentVariable_undeclared s ht (by rw [hl]; exact hund)
  have hP : (processAssignmentVariable s).2 = advance (semanticError s
      ("Variable ".toList ++ [QUOTE] ++ n ++ [QUOTE] ++ " no declarada".toList)) := by
    simp only [processAssignmentVariable, ht, hl, hund, ne_eq, not_true_eq_false, if_false,
      Option.isNone_none, if_true]
    exact match_same_kind ht
  obtain ⟨_, st1⟩ := h'.step (semanticError_sameLexer s
    ("Variable ".toList ++ [QUOTE] ++ n ++ [QUOTE] ++ " no declarada".toList))
  rw [← hP] at st1
  generalize hs1 : (processAssignmentVariable s).2 = s1 at st1 he1 ht1
  obtain ⟨m2, p2⟩ := ParsedTo.one_token st1
  obtain ⟨fuel, r3, hr3, p3⟩ := Expression.parses_expression e (advance s1) _ p2.1
    (by simp [lookahead, isAddOp]) (by simp [lookahead, isMulOp])
  obtain ⟨m4, p4⟩ := ParsedTo.one_token p3.1
  have hall := (p2.seq p3).seq p4
  refine ⟨fuel + 1, advance r3, ?_, ?_, ?_, p4.1⟩
  · intro m hm
    obtain ⟨k, rfl, hk⟩ := exists_succ_of_succ_le hm
    rw [parseStatement_identifier ht]
    have hpa : parseAssignment fuel s = some (advance r3) := by
      simp only [parseAssignment, hv, checkAssignmentSemantics, hs1, m2, hr3,
        Option.map_some', m4]
    exact parseAssignment_mono hk hpa
  · rw [hall.2.2.1, he1]; rfl
  · rw [hall.2.1, ht1]

/-- `n ')' ';'` in a read statement, with `n` not declared. -/
theorem processReadIdentifier_undeclared_stream (x : State) (n : List Char)
    (rest : List Terminal) (hund : lookupSymbol x n = none)
    (h : TokenStream x ((TOKEN_IDENTIFIER, n) :: (TOKEN_RPAREN, ")".toList) ::
      (TOKEN_SEMICOLON, ";".toList) :: rest)) :
    (match_ TOKEN_SEMICOLON (match_ TOKEN_RPAREN (processReadIdentifier x))).hasError = true ∧
    (match_ TOKEN_SEMICOLON (match_ TOKEN_RPAREN (processReadIdentifier x))).symbolTable =
      x.symbolTable ∧
    TokenStream (match_ TOKEN_SEMICOLON (match_ TOKEN_RPAREN (processReadIdentifier x)))
      rest := by
  obtain ⟨ht, hl, _⟩ := h.cons_inv
  obtain ⟨he3, ht3, _⟩ := processReadIdentifier_undeclared x ht (by rw [hl]; exact hund)
  have hP : processReadIdentifier x = advance (semanticError x
      ("Variable ".toList ++ [QUOTE] ++ n ++ [QUOTE] ++ " no declarada".toList)) := by
    simp only [processReadIdentifier, ht, hl, hund, ne_eq, not_true_eq_false, if_false]
    exact match_same_kind ht
  obtain ⟨_, st3⟩ := h.step (semanticError_sameLexer x
    ("Variable ".toList ++ [QUOTE] ++ n ++ [QUOTE] ++ " no declarada".toList))
  rw [← hP] at st3
  generalize processReadIdentifier x = s3 at st3 he3 ht3
  obtain ⟨m4, p4⟩ := ParsedTo.one_token st3
  obtain ⟨m5, p5⟩ := ParsedTo.one_token p4.1
  have p35 := p4.seq p5
  rw [m4, m5]
  refine ⟨?_, ?_, p5.1⟩
  · rw [p35.2.2.1, he3]; rfl
  · rw [p35.2.1, ht3]

/-- `'leer' '(' n ')' ';'` with `n` not declared. -/
theorem parseStatement_leer_undeclared (s : State) (n : List Char)
    (rest : List Terminal) (hund : lookupSymbol s n = none)
    (h : TokenStream s ((Statement.leer n).terminals ++ rest)) :
    ∃ fuel r, (∀ m, fuel ≤ m → parseStatement m s = some r) ∧ r.hasError = true ∧
      r.symbolTable = s.symbolTable ∧ TokenStream r rest := by
  have h' : TokenStream s ((TOKEN_LEER, "leer".toList) :: (TOKEN_LPAREN, "(".toList) ::
      (TOKEN_IDENTIFIER, n) :: (TOKEN_RPAREN, ")".toList) ::
      (TOKEN_SEMICOLON, ";".toList) :: rest) := by
    simpa [Statement.terminals] using h
  obtain ⟨ht, _, _⟩ := h'.cons_inv
  obtain ⟨m1, p1⟩ := ParsedTo.one_token h'
  obtain ⟨m2, p2⟩ := ParsedTo.one_token p1.1
  have p02 := p1.seq p2
  have hparse : parseReadStatement s = match_ TOKEN_SEMICOLON (match_ TOKEN_RPAREN
      (processReadIdentifier (advance (advance s)))) := by
    simp only [parseReadStatement, parseReadParameters, m1, m2]
  generalize advance (advance s) = x at p02 hparse
  have hundx : lookupSymbol x n = none := by
    simp only [lookupSymbol, p02.2.1]
    exact hund
  obtain ⟨e, t, st⟩ := processReadIdentifier_undeclared_stream x n rest hundx p02.1
  rw [← hparse] at e t st
  refine ⟨1, parseReadStatement s, ?_, e, t.trans p02.2.1, st⟩
  intro m hm
  obtain ⟨k, rfl, _⟩ := exists_succ_of_succ_le hm
  exact parseStatement_leer ht

/-- `'escribir' '(' Expression ')' ';'` with an identifier of the expression not
declared. -/
theorem parseStatement_escribir_undeclared (s : State) (e : Expression)
    (rest : List Terminal) (hund : anyUndeclared s e.identifiers = true)
    (h : TokenStream s ((Statement.escribir e).terminals ++ rest)) :
    ∃ fuel r, (∀ m, fuel ≤ m → parseStatement m s = some r) ∧ r.hasError = true ∧
      r.symbolTable = s.symbolTable ∧ TokenStream r rest := by
  have h' : TokenStream s ((TOKEN_ESCRIBIR, "escribir".toList) ::
      (TOKEN_LPAREN, "(".toList) :: (e.terminals ++ (TOKEN_RPAREN, ")".toList) ::
      (TOKEN_SEMICOLON, ";".toList) :: rest)) := by
    simpa [Statement.terminals] using h
  obtain ⟨ht, _, _⟩ := h'.cons_inv
  obtain ⟨m1, p1⟩ := ParsedTo.one_token h'
  obtain ⟨m2, p2⟩ := ParsedTo.one_token p1.1
  obtain ⟨fuel, r3, hr3, p3⟩ := Expression.parses_expression e (advance (advance s)) _ p2.1
    (by simp [lookahead, isAddOp]) (by simp [lookahead, isMulOp])
  obtain ⟨m4, p4⟩ := ParsedTo.one_token p3.1
  obtain ⟨m5, p5⟩ := ParsedTo.one_token p4.1
  have hall := (((p1.seq p2).seq p3).seq p4).seq p5
  refine ⟨fuel + 1, advance (advance r3), ?_, ?_, hall.2.1, p5.1⟩
  · intro m hm
    obtain ⟨k, rfl, hk⟩ := exists_succ_of_succ_le hm
    rw [parseStatement_escribir ht]
    have hw : parseWriteStatement fuel s = some (advance (advance r3)) := by
      simp only [parseWriteStatement, parseWriteParameters, m1, m2, hr3, Option.map_some',
        m4, m5]
    exact parseWriteStatement_mono hk hw
  · rw [hall.2.2.1]
    simp [anyUndeclared_append, hund]

/-- A program whose first statement raises an error ends there. -/
theorem parseProgram_first_statement_fails {s r : State} {fuel : Nat}
    (hstart : isStatementStart s.currentToken.type) (he : s.hasError = false)
    (hst : ∀ m, fuel ≤ m → parseStatement m s = some r) (hr : r.hasError = true) :
    ∀ m, fuel + 1 ≤ m → parseProgram (m + 1) s = some r := by
  intro m hm
  obtain ⟨k, rfl, hk⟩ := exists_succ_of_succ_le hm
  rw [parseProgram_statement (k + 1) hstart he, hst (k + 1) (by omega), Option.some_bind,
    parseProgram_stop k hr]

/-! # The claims -/

/-- A text that the tokenizer reads as the sentence of a derivation tree `p` of the
grammar of section 4.2, with tokens that fit the lexeme buffer, in which every
declared identifier is a non-reserved word shorter than 30 characters, declared
once and before any use: with enough fuel the compilation returns, at the end of
the input, with `hasError = 0` and a symbol table that holds exactly the declared
identifiers, each with its declared type, the most recent first. -/
theorem programs_compile (p : Program) (code : List Char)
    (hlex : tokenize code = some (Program.terminals p))
    (hwd : Program.wellDeclared [] p = true)
    (_ : ∀ t ∈ Program.terminals p, t.2.length < MAX_TOKEN_LENGTH) :
    ∃ fuel r, (∀ n, fuel ≤ n → compile n code = some r) ∧ r.hasError = false ∧
      r.currentToken.type = TOKEN_EOF ∧
      declarations r = (Program.declared p).reverse := by
  obtain ⟨hs, he, ht⟩ := compile_start code _ hlex
  obtain ⟨fuel, r, hr, hre, heof, hd⟩ := Program.accepts_program p _ hs he
    (by simp [declarations, ht]) (by simpa [declarations, ht] using hwd)
  refine ⟨fuel, r, ?_, hre, heof, by simpa [declarations, ht] using hd⟩
  intro n hn
  exact parseProgram_mono _ _ _ _ hn hr

set_option maxRecDepth 1000000 in
/-- The text of `getExampleSourceCode` is read as the sentence of `exampleProgram`,
with every identifier declared once before use and every token shorter than the
lexeme buffer, and it compiles with `hasError = 0` to a table of exactly its six
declared variables. -/
theorem exampleProgram_compiles :
    tokenize getExampleSourceCode = some (Program.terminals exampleProgram) ∧
    Program.wellDeclared [] exampleProgram = true ∧
    (∀ t ∈ Program.terminals exampleProgram, t.2.length < MAX_TOKEN_LENGTH) ∧
    ∃ fuel r, (∀ n, fuel ≤ n → compile n getExampleSourceCode = some r) ∧
      r.hasError = false ∧ r.currentToken.type = TOKEN_EOF ∧
      declarations r =
        [("vocal".toList, TYPE_CARACTER), ("letra".toList, TYPE_CARACTER),
         ("suma".toList, TYPE_REAL), ("promedio".toList, TYPE_REAL),
         ("limite".toList, TYPE_ENTERO), ("contador".toList, TYPE_ENTERO)] :=
  ⟨by decide, by decide, by decide,
    programs_compile exampleProgram getExampleSourceCode (by decide) (by decide) (by decide)⟩

/-- C1: what the code does on the programs of the grammar.  A text that the
tokenizer reads as the sentence of a derivation (every token fitting the lexeme
buffer), with every identifier declarable, declared once and before use, compiles
with `hasError = 0` to the table of its declarations; the built-in example is such
a text, and so is `entero x; x := 5;` alone or after one comment line.  After two
comment lines the same program is rejected: the tokenizer skips the first comment
only and reads the second as `/`, `/`, `b`, so the compilation ends with the error
flag set and an empty table. -/
theorem C1_program_after_two_comments_is_rejected :
    (∀ (p : Program) (code : List Char), tokenize code = some (Program.terminals p) →
      Program.wellDeclared [] p = true →
      (∀ t ∈ Program.terminals p, t.2.length < MAX_TOKEN_LENGTH) →
      ∃ fuel r, (∀ n, fuel ≤ n → compile n code = some r) ∧ r.hasError = false ∧
        r.currentToken.type = TOKEN_EOF ∧
        declarations r = (Program.declared p).reverse) ∧
    (tokenize getExampleSourceCode = some (Program.terminals exampleProgram) ∧
      Program.wellDeclared [] exampleProgram = true ∧
      (∀ t ∈ Program.terminals exampleProgram, t.2.length < MAX_TOKEN_LENGTH)) ∧
    (Program.wellDeclared [] declareAssignProgram = true ∧
      tokenize "entero x;\nx := 5;".toList = some (Program.terminals declareAssignProgram) ∧
      tokenize "// a\nentero x;\nx := 5;".toList =
        some (Program.terminals declareAssignProgram) ∧
      (∀ fuel, (compile (fuel + 12) "// a\nentero x;\nx := 5;".toList).map
        (fun r => (r.hasError, declarations r)) =
        some (false, [("x".toList, TYPE_ENTERO)]))) ∧
    tokenize "// a\n// b\nentero x;\nx := 5;".toList =
      some ((TOKEN_DIVIDE, "/".toList) :: (TOKEN_DIVIDE, "/".toList) ::
        (TOKEN_IDENTIFIER, "b".toList) :: Program.terminals declareAssignProgram) ∧
    (∀ fuel, (compile (fuel + 12) "// a\n// b\nentero x;\nx := 5;".toList).map
      (fun r => (r.hasError, r.symbolTable)) = some (true, [])) := by
  refine ⟨programs_compile, ⟨exampleProgram_compiles.1, exampleProgram_compiles.2.1,
      exampleProgram_compiles.2.2.1⟩, ⟨by decide, by decide, by decide, ?_⟩, by decide, ?_⟩
  · intro fuel
    have h : (compile 12 "// a\nentero x;\nx := 5;".toList).map
        (fun r => (r.hasError, declarations r)) =
        some (false, [("x".toList, TYPE_ENTERO)]) := by decide
    simp only [Option.map_eq_some'] at h ⊢
    obtain ⟨r, h1, h2⟩ := h
    exact ⟨r, parseProgram_mono _ _ _ _ (by omega) h1, h2⟩
  · intro fuel
    have h : (compile 12 "// a\n// b\nentero x;\nx := 5;".toList).map
        (fun r => (r.hasError, r.symbolTable)) = some (true, []) := by decide
    simp only [Option.map_eq_some'] at h ⊢
    obtain ⟨r, h1, h2⟩ := h
    exact ⟨r, parseProgram_mono _ _ _ _ (by omega) h1, h2⟩

/-- C2 (as stated, refuted): in the state reached by `initLexer` on the text `x y`
the lookahead is the identifier `x`; `match(TOKEN_SEMICOLON)` finds a different
kind, and afterwards the lookahead is still `x`, not the next token `y`. -/
theorem C2_match_mismatch_does_not_advance :
    (initLexer initialState "x y".toList).currentToken.type ≠ TOKEN_SEMICOLON ∧
    (match_ TOKEN_SEMICOLON (initLexer initialState "x y".toList)).currentToken =
      (initLexer initialState "x y".toList).currentToken ∧
    (match_ TOKEN_SEMICOLON (initLexer initialState "x y".toList)).currentToken ≠
      (getNextToken (initLexer initialState "x y".toList)).1 := by
  decide

/-- C2 (amended): for every state and expected kind, if the lookahead has the
expected kind then `match` replaces the lookahead by the next token of the
tokenizer (the scan position moves as `getNextToken` moves it) and leaves the
error flag, the symbol table and the diagnostics unchanged; if it differs,
`match` sets the error flag, prints one syntax error, and leaves the lookahead,
the scan position and the symbol table exactly as they were. -/
theorem C2_match (s : State) (expected : TokenType) :
    (s.currentToken.type = expected →
      (match_ expected s).currentToken = (getNextToken s).1 ∧
      (match_ expected s).currentPos = (getNextToken s).2.currentPos ∧
      (match_ expected s).hasError = s.hasError ∧
      (match_ expected s).symbolTable = s.symbolTable ∧
      (match_ expected s).output = s.output) ∧
    (s.currentToken.type ≠ expected →
      (match_ expected s).hasError = true ∧
      (match_ expected s).currentToken = s.currentToken ∧
      (match_ expected s).currentPos = s.currentPos ∧
      (match_ expected s).currentLine = s.currentLine ∧
      (match_ expected s).currentColumn = s.currentColumn ∧
      (match_ expected s).symbolTable = s.symbolTable ∧
      ∃ message, (match_ expected s).output =
        s.output ++ [Diagnostic.errorSintactico s.currentToken.line s.currentToken.column
          message s.currentToken.lexeme]) := by
  constructor
  · intro h
    simp [match_, h]
    rfl
  · intro h
    simp [match_, h, syntaxError]

/-- C3: `insertSymbol(name, type)` returns `NULL` exactly when a symbol of the
table already has the name, or the name is empty, or it has
`MAX_IDENTIFIER_LENGTH` (30) or more characters; and whenever it returns `NULL`
the symbol table is the one before the call. -/
theorem C3_insertSymbol_rejects (s : State) (name : List Char) (type : DataType) :
    ((insertSymbol s name type).1 = none ↔
      ((∃ sym ∈ s.symbolTable, sym.name = name) ∨ name.length = 0 ∨
        MAX_IDENTIFIER_LENGTH ≤ name.length)) ∧
    ((insertSymbol s name type).1 = none →
      (insertSymbol s name type).2.symbolTable = s.symbolTable) := by
  by_cases h1 : (lookupSymbol s name).isSome
  · have h1' := (lookupFrom_isSome_iff _ _).1 h1
    simp [insertSymbol, h1, h1']
  · have h1' : ¬ ∃ sym ∈ s.symbolTable, sym.name = name :=
      fun h => h1 ((lookupFrom_isSome_iff _ _).2 h)
    by_cases h2 : name.length = 0
    · simp [insertSymbol, h1, h1', createSymbol, h2]
    · by_cases h3 : MAX_IDENTIFIER_LENGTH ≤ name.length
      · simp [insertSymbol, h1, h1', createSymbol, h2, h3]
      · simp [insertSymbol, h1, h1', createSymbol, h2, h3, insertSymbolInTable]

/-- C4: for a name of 1 to 29 characters that no symbol of the table has,
`insertSymbol(name, type)` returns the new head of the list: a symbol with that
name and type, `initialized = 0` and the zero value of its type, linked in front
of the old table, which is otherwise unchanged and in its old order.  Afterwards
`lookupSymbol(name)` returns that head, and `lookupSymbol` of any other name
returns the node it returned before (one place further down the list, holding the
same symbol). -/
theorem C4_insertSymbol_prepends (s : State) (name : List Char) (type : DataType)
    (hmin : 1 ≤ name.length) (hmax : name.length < MAX_IDENTIFIER_LENGTH)
    (hnew : ∀ sym ∈ s.symbolTable, sym.name ≠ name) :
    (insertSymbol s name type).1 = some 0 ∧
    (insertSymbol s name type).2.symbolTable =
      { name := name, type := type, value := initializeSymbolValue type,
        initialized := false } :: s.symbolTable ∧
    (type = TYPE_ENTERO → initializeSymbolValue type = SymbolValue.intValue 0) ∧
    (type = TYPE_CARACTER → initializeSymbolValue type = SymbolValue.charValue NUL) ∧
    (type = TYPE_REAL → initializeSymbolValue type = SymbolValue.realValue 0) ∧
    lookupSymbol (insertSymbol s name type).2 name = some 0 ∧
    (∀ other, other ≠ name →
      lookupSymbol (insertSymbol s name type).2 other =
        (lookupSymbol s other).map (· + 1) ∧
      deref (insertSymbol s name type).2 (lookupSymbol (insertSymbol s name type).2 other) =
        deref s (lookupSymbol s other)) := by
  have h1 : lookupSymbol s name = none := (lookupFrom_eq_none_iff _ _).2 hnew
  have h2 : name.length ≠ 0 := by omega
  have h3 : ¬ MAX_IDENTIFIER_LENGTH ≤ name.length := by omega
  have htable : (insertSymbol s name type).2.symbolTable =
      { name := name, type := type, value := initializeSymbolValue type,
        initialized := false } :: s.symbolTable := by
    simp [insertSymbol, h1, createSymbol, h2, h3, insertSymbolInTable]
  refine ⟨?_, htable, ?_, ?_, ?_, ?_, ?_⟩
  · simp [insertSymbol, h1, createSymbol, h2, h3, insertSymbolInTable]
  · rintro rfl; rfl
  · rintro rfl; rfl
  · rintro rfl; rfl
  · simp [lookupSymbol, htable, lookupFrom]
  · intro other hne
    have hne' : ¬ name = other := fun h => hne h.symm
    have hl : lookupSymbol (insertSymbol s name type).2 other =
        (lookupSymbol s other).map (· + 1) := by
      simp [lookupSymbol, htable, lookupFrom, hne']
    refine ⟨hl, ?_⟩
    rw [hl]
    cases hls : lookupSymbol s other with
    | none => simp [deref]
    | some i => simp [deref, htable]

/-- C4 at a concrete input: inserting `x` of type integer into the table that
holds the real `y`. -/
theorem C4_insertSymbol_prepends_witness :
    (insertSymbol { initialState with symbolTable :=
        [{ name := "y".toList, type := TYPE_REAL, value := SymbolValue.realValue 0,
           initialized := true }] } "x".toList TYPE_ENTERO).2.symbolTable =
      [{ name := "x".toList, type := TYPE_ENTERO, value := SymbolValue.intValue 0,
         initialized := false },
       { name := "y".toList, type := TYPE_REAL, value := SymbolValue.realValue 0,
         initialized := true }] :=
  (C4_insertSymbol_prepends { initialState with symbolTable :=
        [{ name := "y".toList, type := TYPE_REAL, value := SymbolValue.realValue 0,
           initialized := true }] } "x".toList TYPE_ENTERO (by decide) (by decide)
        (by decide)).2.1

/-- C5: at most one symbol per name.  If no two symbols of the table have the
same name, then none have after `insertSymbol`, and none have after
`parseDeclaration`, `parseStatement` or `parseProgram` run from such a state; so
whatever the state on entry and the source text, a compilation (which starts by
emptying the table) ends with pairwise distinct names. -/
theorem C5_one_symbol_per_name :
    (∀ s name type, DistinctNames s → DistinctNames (insertSymbol s name type).2) ∧
    (∀ fuel s r, DistinctNames s → parseDeclaration fuel s = some r → DistinctNames r) ∧
    (∀ fuel s r, DistinctNames s → parseStatement fuel s = some r → DistinctNames r) ∧
    (∀ fuel s r, DistinctNames s → parseProgram fuel s = some r → DistinctNames r) ∧
    (∀ fuel s code r, compileAndShowResults fuel s code = some r → DistinctNames r) := by
  refine ⟨?_, ?_, ?_, ?_, ?_⟩
  · intro s name type h
    exact distinctNames_step.insertSymbol s name type h
  · intro fuel s r h hr
    exact distinctNames_step.parseDeclaration hr h
  · intro fuel s r h hr
    exact distinctNames_step.parseStatement hr h
  · intro fuel s r h hr
    exact distinctNames_step.parseProgram fuel s r hr h
  · intro fuel s code r hr
    refine distinctNames_step.parseProgram fuel _ r hr ?_
    simp [DistinctNames, initLexer, initParser, initSemantic]

/-- C6 (as stated, refuted): the word of 30 letters `a` is an identifier
(`isValidIdentifier` accepts it, and it fits the lexeme buffer), yet compiling
`entero a...a; real a...a;` leaves an empty symbol table, not a table with one
symbol: the first insertion is rejected for the length of the name. -/
theorem C6_long_identifier_is_never_inserted :
    isValidIdentifier "aaaaaaaaaaaaaaaaaaaaaaaaaaaaaa".toList = true ∧
    (compile 10
      "entero aaaaaaaaaaaaaaaaaaaaaaaaaaaaaa; real aaaaaaaaaaaaaaaaaaaaaaaaaaaaaa;".toList).map
      (fun r => (r.hasError, r.symbolTable)) = some (true, []) := by
  decide

/-- C6 (amended): for every identifier `x` shorter than 30 characters and every
pair of data-type keywords `T1`, `T2`, compiling a source whose tokens are
`T1 x ; T2 x ;` or `T1 x , x ;` ends with the error flag set and one diagnostic,
the syntax error "Variable 'x' ya declarada", and the symbol table holds exactly
one symbol, named `x`, of the type of `T1`, not initialized. -/
theorem C6_duplicate_declaration (x : List Char) (kw1 kw2 : DataTypeKw)
    (code : List Char) (hx : declarable x = true)
    (hcode : tokenize code = some [kw1.terminal, (TOKEN_IDENTIFIER, x),
        (TOKEN_SEMICOLON, ";".toList), kw2.terminal, (TOKEN_IDENTIFIER, x),
        (TOKEN_SEMICOLON, ";".toList)] ∨
      tokenize code = some [kw1.terminal, (TOKEN_IDENTIFIER, x), (TOKEN_COMMA, ",".toList),
        (TOKEN_IDENTIFIER, x), (TOKEN_SEMICOLON, ";".toList)]) :
    ∃ r, (∀ n, compile (n + 4) code = some r) ∧ r.hasError = true ∧
      r.symbolTable = [Symbol.mk x kw1.dataType (initializeSymbolValue kw1.dataType) false] ∧
      ∃ line column, r.output = [Diagnostic.errorSintactico line column
        ("Variable ".toList ++ [QUOTE] ++ x ++ [QUOTE] ++ " ya declarada".toList) x] := by
  rcases hcode with hcode | hcode
  · obtain ⟨hs, he, ht⟩ := compile_start code _ hcode
    obtain ⟨r, h1, h2, h3, line, column, h4⟩ := declared_twice_in_two kw1 kw2 x _ hx hs he ht
    refine ⟨r, h1, h2, h3, line, column, ?_⟩
    rw [h4, compile_start_output]
    rfl
  · obtain ⟨hs, he, ht⟩ := compile_start code _ hcode
    obtain ⟨r, h1, h2, h3, line, column, h4⟩ := declared_twice_in_one kw1 x _ hx hs he ht
    refine ⟨r, h1, h2, h3, line, column, ?_⟩
    rw [h4, compile_start_output]
    rfl

/-- C6 at a concrete input: `entero x; real x;` leaves `x` an integer. -/
theorem C6_duplicate_declaration_witness :
    ∃ r, (∀ n, compile (n + 4) "entero x; real x;".toList = some r) ∧ r.hasError = true ∧
      r.symbolTable = [Symbol.mk "x".toList TYPE_ENTERO (SymbolValue.intValue 0) false] ∧
      ∃ line column, r.output = [Diagnostic.errorSintactico line column
        "Variable 'x' ya declarada".toList "x".toList] :=
  C6_duplicate_declaration "x".toList DataTypeKw.entero DataTypeKw.real
    "entero x; real x;".toList (by decide) (Or.inl (by decide))

/-- C7: in every state whose lookahead is an identifier that `lookupSymbol` does
not find, `processAssignmentVariable` (which then returns `NULL`),
`processReadIdentifier` and `parseFactor` each raise the undeclared-variable
semantic error (error flag set, one diagnostic naming the identifier) and leave
the symbol table as it was.  So the statements `n := Expression ;` and
`leer ( n ) ;` with `n` not declared, and `escribir ( Expression ) ;` with an
identifier of the expression not declared, end with the error flag set and the
same symbol table; once set the flag stays set to the end of `parseProgram`; and
a source that consists of one such statement compiles to failure with an empty
table. -/
theorem C7_undeclared_use :
    (∀ s : State, s.currentToken.type = TOKEN_IDENTIFIER →
      lookupSymbol s s.currentToken.lexeme = none →
      ((processAssignmentVariable s).1 = none ∧
        UndeclaredReported s (processAssignmentVariable s).2) ∧
      UndeclaredReported s (processReadIdentifier s) ∧
      ∀ fuel, ∃ r, parseFactor (fuel + 1) s = some r ∧ UndeclaredReported s r) ∧
    (∀ (s : State) (st : Statement) (rest : List Terminal),
      ((∃ n e, st = Statement.assignment n e ∧ lookupSymbol s n = none) ∨
        (∃ n, st = Statement.leer n ∧ lookupSymbol s n = none) ∨
        (∃ e, st = Statement.escribir e ∧ anyUndeclared s e.identifiers = true)) →
      TokenStream s (st.terminals ++ rest) →
      ∃ fuel r, (∀ m, fuel ≤ m → parseStatement m s = some r) ∧ r.hasError = true ∧
        r.symbolTable = s.symbolTable ∧ TokenStream r rest) ∧
    (∀ fuel s r, s.hasError = true → parseProgram fuel s = some r → r.hasError = true) ∧
    (∀ (code : List Char) (st : Statement),
      ((∃ n e, st = Statement.assignment n e) ∨ (∃ n, st = Statement.leer n) ∨
        (∃ e, st = Statement.escribir e ∧ e.identifiers ≠ [])) →
      tokenize code = some st.terminals →
      ∃ fuel r, (∀ m, fuel ≤ m → compile m code = some r) ∧ r.hasError = true ∧
        r.symbolTable = []) := by
  have hB : ∀ (s : State) (st : Statement) (rest : List Terminal),
      ((∃ n e, st = Statement.assignment n e ∧ lookupSymbol s n = none) ∨
        (∃ n, st = Statement.leer n ∧ lookupSymbol s n = none) ∨
        (∃ e, st = Statement.escribir e ∧ anyUndeclared s e.identifiers = true)) →
      TokenStream s (st.terminals ++ rest) →
      ∃ fuel r, (∀ m, fuel ≤ m → parseStatement m s = some r) ∧ r.hasError = true ∧
        r.symbolTable = s.symbolTable ∧ TokenStream r rest := by
    intro s st rest hst h
    rcases hst with ⟨n, e, rfl, hund⟩ | ⟨n, rfl, hund⟩ | ⟨e, rfl, hund⟩
    · exact parseStatement_assignment_undeclared s n e rest hund h
    · exact parseStatement_leer_undeclared s n rest hund h
    · exact parseStatement_escribir_undeclared s e rest hund h
  refine ⟨?_, hB, ?_, ?_⟩
  · intro s hid hund
    exact ⟨processAssignmentVariable_undeclared s hid hund,
      processReadIdentifier_undeclared s hid hund,
      fun fuel => parseFactor_undeclared s fuel hid hund⟩
  · intro fuel s r he hr
    exact sticky_step.parseProgram fuel s r hr he
  · intro code st hst hcode
    obtain ⟨hs, he, ht⟩ := compile_start code _ hcode
    have hs' : TokenStream (initLexer (initParser (initSemantic initialState)) code)
        (st.terminals ++ []) := by simpa using hs
    have hstart : isStatementStart
        (initLexer (initParser (initSemantic initialState)) code).currentToken.type := by
      rw [hs'.type_eq]; exact st.lookahead_start []
    have hnone : ∀ n, lookupSymbol (initLexer (initParser (initSemantic initialState)) code)
        n = none := by
      intro n
      simp [lookupSymbol, ht, lookupFrom]
    have hcase : (∃ n e, st = Statement.assignment n e ∧
          lookupSymbol (initLexer (initParser (initSemantic initialState)) code) n = none) ∨
        (∃ n, st = Statement.leer n ∧
          lookupSymbol (initLexer (initParser (initSemantic initialState)) code) n = none) ∨
        (∃ e, st = Statement.escribir e ∧
          anyUndeclared (initLexer (initParser (initSemantic initialState)) code)
            e.identifiers = true) := by
      rcases hst with ⟨n, e, rfl⟩ | ⟨n, rfl⟩ | ⟨e, rfl, hne⟩
      · exact Or.inl ⟨n, e, rfl, hnone n⟩
      · exact Or.inr (Or.inl ⟨n, rfl, hnone n⟩)
      · refine Or.inr (Or.inr ⟨e, rfl, ?_⟩)
        cases hids : e.identifiers with
        | nil => exact absurd hids hne
        | cons a l => simp [anyUndeclared, hnone]
    obtain ⟨fuel, r, hr, hre, hrt, _⟩ := hB _ st [] hcase hs'
    refine ⟨fuel + 2, r, ?_, hre, hrt.trans ht⟩
    intro m hm
    obtain ⟨k, rfl, hk⟩ := exists_succ_of_succ_le hm
    exact parseProgram_first_statement_fails hstart he hr hre k hk

/-- C7 at concrete inputs: `z := 1;`, `leer(z);` and `escribir(z);` each compile
to failure with an empty symbol table. -/
theorem C7_undeclared_use_witness :
    (∃ fuel r, (∀ m, fuel ≤ m → compile m "z := 1;".toList = some r) ∧ r.hasError = true ∧
      r.symbolTable = []) ∧
    (∃ fuel r, (∀ m, fuel ≤ m → compile m "leer(z);".toList = some r) ∧ r.hasError = true ∧
      r.symbolTable = []) ∧
    (∃ fuel r, (∀ m, fuel ≤ m → compile m "escribir(z);".toList = some r) ∧
      r.hasError = true ∧ r.symbolTable = []) :=
  ⟨C7_undeclared_use.2.2.2 "z := 1;".toList
      (Statement.assignment "z".toList (Expression.single (Factor.intLit "1".toList)))
      (Or.inl ⟨_, _, rfl⟩) (by decide),
    C7_undeclared_use.2.2.2 "leer(z);".toList (Statement.leer "z".toList)
      (Or.inr (Or.inl ⟨_, rfl⟩)) (by decide),
    C7_undeclared_use.2.2.2 "escribir(z);".toList
      (Statement.escribir (Expression.single (Factor.identifier "z".toList)))
      (Or.inr (Or.inr ⟨_, rfl, by decide⟩)) (by decide)⟩

/-- C8 (as stated, refuted): compiling `entero x; y := 3;` prints exactly one
diagnostic, and it is a syntax error ("Sentencia no valida" at the token `y`, which
is the reserved word of the logical and), not a semantic error. -/
theorem C8_y_is_reported_as_syntax_error :
    (compile 10 "entero x; y := 3;".toList).map (fun r => r.output) =
      some [Diagnostic.errorSintactico 1 11 "Sentencia no valida".toList "y".toList] := by
  decide

/-- C8 (amended): compiling `entero x; y := 3;` fails; `y` is the reserved word
of the logical and, so the failure is the syntax error "Sentencia no valida" at
`y` and no semantic error is printed; afterwards the symbol table holds exactly
`x`, of type integer, with `initialized = 0`.  With a name that is not reserved in
place of `y`, as in `entero x; z := 3;`, the failure is the semantic error
"Variable 'z' no declarada" and no syntax error is printed, with the same table. -/
theorem C8_undeclared_target (fuel : Nat) :
    (∃ r, compile (fuel + 10) "entero x; y := 3;".toList = some r ∧
      r.hasError = true ∧
      r.output = [Diagnostic.errorSintactico 1 11 "Sentencia no valida".toList "y".toList] ∧
      r.symbolTable = [{ name := "x".toList, type := TYPE_ENTERO,
                         value := SymbolValue.intValue 0, initialized := false }]) ∧
    (∃ r, compile (fuel + 10) "entero x; z := 3;".toList = some r ∧
      r.hasError = true ∧
      r.output = [Diagnostic.errorSemantico 1 "Variable 'z' no declarada".toList] ∧
      r.symbolTable = [{ name := "x".toList, type := TYPE_ENTERO,
                         value := SymbolValue.intValue 0, initialized := false }]) := by
  have hy : (compile 10 "entero x; y := 3;".toList).map
      (fun r => (r.hasError, r.output, r.symbolTable)) =
      some (true, [Diagnostic.errorSintactico 1 11 "Sentencia no valida".toList "y".toList],
        [{ name := "x".toList, type := TYPE_ENTERO,
           value := SymbolValue.intValue 0, initialized := false }]) := by
    decide
  have hz : (compile 10 "entero x; z := 3;".toList).map
      (fun r => (r.hasError, r.output, r.symbolTable)) =
      some (true, [Diagnostic.errorSemantico 1 "Variable 'z' no declarada".toList],
        [{ name := "x".toList, type := TYPE_ENTERO,
           value := SymbolValue.intValue 0, initialized := false }]) := by
    decide
  simp only [Option.map_eq_some', Prod.mk.injEq] at hy hz
  obtain ⟨r1, h1, e1, o1, t1⟩ := hy
  obtain ⟨r2, h2, e2, o2, t2⟩ := hz
  exact ⟨⟨r1, compile_mono (by omega) h1, e1, o1, t1⟩,
    ⟨r2, compile_mono (by omega) h2, e2, o2, t2⟩⟩

/-- C9: compiling `entero x; x := 5;` succeeds (the error flag is clear, nothing
is printed) and leaves a symbol table with exactly one symbol, named `x`, of type
integer, with `initialized = 1`. -/
theorem C9_declare_then_assign (fuel : Nat) :
    ∃ r, compile (fuel + 10) "entero x; x := 5;".toList = some r ∧
      r.hasError = false ∧ r.output = [] ∧
      r.symbolTable = [{ name := "x".toList, type := TYPE_ENTERO,
                         value := SymbolValue.intValue 0, initialized := true }] := by
  have h : (compile 10 "entero x; x := 5;".toList).map
      (fun r => (r.hasError, r.output, r.symbolTable)) =
      some (false, [], [Symbol.mk "x".toList TYPE_ENTERO (SymbolValue.intValue 0) true]) := by
    decide
  simp only [Option.map_eq_some', Prod.mk.injEq] at h
  obtain ⟨r, h1, e1, o1, t1⟩ := h
  exact ⟨r, compile_mono (by omega) h1, e1, o1, t1⟩

/-- C10: for a symbol `var` of the table whose type is integer, character or
real, `checkAssignmentCompatibility(var, e)` raises a semantic error (sets the
error flag and prints one semantic-error line) when `e` is the error type or `var`
is a character and `e` is real; for every other pair it leaves the error flag as
it was and prints at most a warning or an information line.  In every case the
symbol is afterwards the same symbol with `initialized = 1` (name, type and value
as before) and every other symbol of the table is untouched. -/
theorem C10_checkAssignmentCompatibility (s : State) (i : Nat) (var : Symbol)
    (e : DataType) (hvar : s.symbolTable[i]? = some var)
    (htype : var.type = TYPE_ENTERO ∨ var.type = TYPE_CARACTER ∨ var.type = TYPE_REAL) :
    ((e = TYPE_ERROR ∨ (var.type = TYPE_CARACTER ∧ e = TYPE_REAL)) →
      (checkAssignmentCompatibility s (some i) e).hasError = true ∧
      ∃ message, (checkAssignmentCompatibility s (some i) e).output =
        s.output ++ [Diagnostic.errorSemantico s.currentLine message]) ∧
    (¬ (e = TYPE_ERROR ∨ (var.type = TYPE_CARACTER ∧ e = TYPE_REAL)) →
      (checkAssignmentCompatibility s (some i) e).hasError = s.hasError ∧
      ((checkAssignmentCompatibility s (some i) e).output = s.output ∨
        ∃ message, (checkAssignmentCompatibility s (some i) e).output =
            s.output ++ [Diagnostic.advertencia message] ∨
          (checkAssignmentCompatibility s (some i) e).output =
            s.output ++ [Diagnostic.info message])) ∧
    (checkAssignmentCompatibility s (some i) e).symbolTable[i]? =
      some { var with initialized := true } ∧
    (∀ j, j ≠ i →
      (checkAssignmentCompatibility s (some i) e).symbolTable[j]? =
        s.symbolTable[j]?) := by
  have hT : (checkAssignmentCompatibility s (some i) e).symbolTable =
      setInitialized s.symbolTable i := by
    simp only [checkAssignmentCompatibility, hvar, markVariableAsInitialized,
      performTypeCompatibilityCheck, checkIntegerAssignment, checkRealAssignment,
      checkCharacterAssignment, semanticError]
    split_ifs <;> rfl
  refine ⟨?_, ?_, ?_, ?_⟩
  · intro h
    rcases htype with ht | ht | ht <;> cases e <;>
      simp [ht] at h <;>
      simp [checkAssignmentCompatibility, hvar, markVariableAsInitialized,
        performTypeCompatibilityCheck, checkIntegerAssignment, checkRealAssignment,
        checkCharacterAssignment, semanticError, ht]
  · intro h
    rcases htype with ht | ht | ht <;> cases e <;>
      simp [ht] at h <;>
      simp [checkAssignmentCompatibility, hvar, markVariableAsInitialized,
        performTypeCompatibilityCheck, checkIntegerAssignment, checkRealAssignment,
        checkCharacterAssignment, semanticError, ht]
  · rw [hT]
    exact setInitialized_get?_self _ _ _ hvar
  · intro j hj
    rw [hT]
    exact setInitialized_get?_other _ _ _ hj

/-- C10 at a concrete input: a real assigned to the character `c` is the hard
error, and `c` is marked initialized all the same. -/
theorem C10_checkAssignmentCompatibility_witness :
    (checkAssignmentCompatibility { initialState with symbolTable :=
        [{ name := "c".toList, type := TYPE_CARACTER, value := SymbolValue.charValue NUL,
           initialized := false }] } (some 0) TYPE_REAL).symbolTable[0]? =
      some { name := "c".toList, type := TYPE_CARACTER, value := SymbolValue.charValue NUL,
             initialized := true } :=
  (C10_checkAssignmentCompatibility { initialState with symbolTable :=
        [{ name := "c".toList, type := TYPE_CARACTER, value := SymbolValue.charValue NUL,
           initialized := false }] } 0
      { name := "c".toList, type := TYPE_CARACTER, value := SymbolValue.charValue NUL,
        initialized := false } TYPE_REAL rfl (Or.inr (Or.inl rfl))).2.2.1

theorem compile_map_mono {α : Type} {n m : Nat} {code : List Char} {f : State → α} {v : α}
    (hm : n ≤ m) (h : (compile n code).map f = some v) : (compile m code).map f = some v := by
  simp only [Option.map_eq_some'] at h ⊢
  obtain ⟨r, h1, h2⟩ := h
  exact ⟨r, compile_mono hm h1, h2⟩

/-! ### Characters -/

theorem isDigit_not_isLetter (c : Char) (h : isDigit c = true) : isLetter c = false := by
  simp only [isDigit, isLetter, Bool.and_eq_true, decide_eq_true_eq, Bool.or_eq_false_iff,
    Bool.and_eq_false_iff, decide_eq_false_iff_not, beq_eq_false_iff_ne] at *
  obtain ⟨_, h2⟩ := h
  have e1 : c.toNat ≤ 57 := h2
  refine ⟨⟨?_, ?_⟩, ?_⟩
  · left; intro h3; have : 97 ≤ c.toNat := h3; omega
  · left; intro h3; have : 65 ≤ c.toNat := h3; omega
  · rintro rfl; exact absurd e1 (by decide)

theorem isLetter_ne {c d : Char} (h : isLetter c = true) (hd : isLetter d = false) : c ≠ d := by
  rintro rfl; simp [h] at hd

theorem isDigit_ne {c d : Char} (h : isDigit c = true) (hd : isDigit d = false) : c ≠ d := by
  rintro rfl; simp [h] at hd

theorem isBlank_ne {c d : Char} (h : isBlank c = false) (hd : isBlank d = true) : c ≠ d := by
  rintro rfl; simp [h] at hd

theorem isBlank_cases {c : Char} (h : isBlank c = true) :
    c = ' ' ∨ c = '\t' ∨ c = '\n' ∨ c = '\r' := by
  simpa [isBlank, or_assoc] using h

theorem isLetter_not_isBlank {c : Char} (h : isLetter c = true) : isBlank c = false := by
  cases hb : isBlank c with
  | false => rfl
  | true =>
    rcases isBlank_cases hb with e | e | e | e <;> subst e <;> exact absurd h (by decide)

theorem charAt_drop (code : List Char) (p i : Nat) :
    charAt (code.drop p) i = charAt code (p + i) := by
  simp [charAt, List.getD_eq_getElem?_getD, List.getElem?_drop]

theorem charAt_lt {code : List Char} {i : Nat} (h : charAt code i ≠ NUL) : i < code.length := by
  by_contra hn
  apply h
  simp only [charAt]
  rw [List.getD_eq_default]
  omega

theorem charAt_of_drop {code : List Char} {p : Nat} {c : Char} {rest : List Char}
    (h : code.drop p = c :: rest) : charAt code p = c := by
  have := charAt_drop code p 0
  rw [h] at this
  simpa [charAt] using this.symm

theorem charAt_of_drop_nil {code : List Char} {p : Nat} (h : code.drop p = []) :
    charAt code p = NUL := by
  have := charAt_drop code p 0
  rw [h] at this
  simpa [charAt] using this.symm

theorem drop_succ_of_drop {code : List Char} {p : Nat} {c : Char} {rest : List Char}
    (h : code.drop p = c :: rest) : code.drop (p + 1) = rest := by
  have : code.drop (p + 1) = (code.drop p).drop 1 := by simp [List.drop_drop, Nat.add_comm]
  rw [this, h]; rfl

theorem drop_eq_cons_charAt {code : List Char} {p : Nat} (h : p < code.length) :
    code.drop p = charAt code p :: code.drop (p + 1) := by
  rw [List.drop_eq_getElem_cons h]
  simp [charAt, List.getD_eq_getElem?_getD, List.getElem?_eq_getElem h]

/-! ### The scanning loops -/

theorem scanWhile_le (p : Char → Bool) (l : List Char) : scanWhile p l ≤ l.length := by
  induction l with
  | nil => simp [scanWhile]
  | cons c rest ih =>
    simp only [scanWhile]
    split_ifs
    · simp only [List.length_cons]; omega
    · omega

theorem scanWhile_all (p : Char → Bool) (l : List Char) (i : Nat) (h : i < scanWhile p l) :
    p (charAt l i) = true := by
  induction l generalizing i with
  | nil => simp [scanWhile] at h
  | cons c rest ih =>
    simp only [scanWhile] at h
    split_ifs at h with hc
    · cases i with
      | zero => simpa [charAt] using hc
      | succ j =>
        have := ih j (by omega)
        simpa [charAt] using this
    · omega

theorem scanWhile_stop (p : Char → Bool) (l : List Char) (hp : p NUL = false) :
    p (charAt l (scanWhile p l)) = false := by
  induction l with
  | nil => simpa [scanWhile, charAt] using hp
  | cons c rest ih =>
    simp only [scanWhile]
    split_ifs with hc
    · simpa [charAt] using ih
    · simpa [charAt] using hc

theorem scanWhile_pos (p : Char → Bool) (c : Char) (rest : List Char) (h : p c = true) :
    0 < scanWhile p (c :: rest) := by
  simp [scanWhile, h]

theorem scanWhile_append (p : Char → Bool) (w rest : List Char) (hw : ∀ c ∈ w, p c = true)
    (hr : ∀ c, rest.head? = some c → p c = false) : scanWhile p (w ++ rest) = w.length := by
  induction w with
  | nil =>
    cases rest with
    | nil => rfl
    | cons c r => simp [scanWhile, hr c rfl]
  | cons c w ih =>
    have e := ih (fun d hd => hw d (List.mem_cons_of_mem _ hd))
    show scanWhile p (c :: (w ++ rest)) = (c :: w).length
    simp only [scanWhile, hw c (List.mem_cons_self _ _), if_true, List.length_cons, e]

/-! ### Lines and columns of a text -/

theorem lineAt_zero (code : List Char) : lineAt code 0 = 1 := by simp [lineAt]

theorem columnAt_zero (code : List Char) : columnAt code 0 = 1 := by simp [columnAt]

theorem take_succ_charAt {code : List Char} {p : Nat} (h : p < code.length) :
    code.take (p + 1) = code.take p ++ [charAt code p] := by
  rw [List.take_succ]
  simp [charAt, List.getD_eq_getElem?_getD, List.getElem?_eq_getElem h]

theorem lineAt_succ {code : List Char} {p : Nat} (h : p < code.length) :
    lineAt code (p + 1) = if charAt code p = '\n' then lineAt code p + 1 else lineAt code p := by
  simp only [lineAt, take_succ_charAt h, List.count_append]
  split_ifs with hc
  · rw [hc]; simp; omega
  · have : List.count '\n' [charAt code p] = 0 := by
      simp [List.count_singleton, hc]
    omega

theorem columnAt_succ {code : List Char} {p : Nat} (h : p < code.length) :
    columnAt code (p + 1) = if charAt code p = '\n' then 1 else columnAt code p + 1 := by
  simp only [columnAt, take_succ_charAt h, List.reverse_append, List.reverse_singleton,
    List.singleton_append]
  split_ifs with hc
  · rw [hc]; simp [List.takeWhile]
  · have : (charAt code p != '\n') = true := by simpa using hc
    simp only [List.takeWhile, this, List.length_cons]
    omega

theorem isBlank_NUL : isBlank NUL = false := by decide

/-! ### `skipWhitespace` -/

theorem skipWhitespaceLoop_spec (code : List Char) :
    ∀ (l : List Char) (pos line col : Nat), code.drop pos = l →
      pos ≤ (skipWhitespaceLoop l pos line col).1 ∧
      (skipWhitespaceLoop l pos line col).1 ≤ pos + l.length ∧
      isBlank (charAt code (skipWhitespaceLoop l pos line col).1) = false ∧
      (line = lineAt code pos →
        (skipWhitespaceLoop l pos line col).2.1 = lineAt code (skipWhitespaceLoop l pos line col).1) ∧
      (line = lineAt code pos → (col = columnAt code pos ∨ charAt code pos = '\n') →
        (skipWhitespaceLoop l pos line col).2.2 =
          columnAt code (skipWhitespaceLoop l pos line col).1) ∧
      (isBlank (charAt code pos) = false → skipWhitespaceLoop l pos line col = (pos, line, col)) := by
  intro l
  induction l with
  | nil =>
    intro pos line col h
    have hc := charAt_of_drop_nil h
    simp only [skipWhitespaceLoop, le_refl, List.length_nil, Nat.add_zero, hc, isBlank_NUL,
      true_and, implies_true, and_true]
    refine ⟨fun h => h, fun _ h2 => ?_⟩
    rcases h2 with h2 | h2
    · exact h2
    · exact absurd h2 (by decide)
  | cons c rest ih =>
    intro pos line col h
    have hc := charAt_of_drop h
    have hd := drop_succ_of_drop h
    have hlt : pos < code.length := by
      by_contra hn
      rw [List.drop_eq_nil_of_le (by omega)] at h
      cases h
    by_cases hb : isBlank c = true
    · have hb2 : (c == ' ' || c == '\t' || c == '\n' || c == '\r') = true := hb
      by_cases hn : c = '\n'
      · have e : skipWhitespaceLoop (c :: rest) pos line col =
            skipWhitespaceLoop rest (pos + 1) (line + 1) 1 := by
          simp [skipWhitespaceLoop, hn]
        obtain ⟨i1, i2, i3, i4, i5, -⟩ := ih (pos + 1) (line + 1) 1 hd
        rw [e]
        have l1 : lineAt code (pos + 1) = lineAt code pos + 1 := by
          rw [lineAt_succ hlt, hc, if_pos hn]
        have c1 : columnAt code (pos + 1) = 1 := by
          rw [columnAt_succ hlt, hc, if_pos hn]
        refine ⟨by omega, by simp only [List.length_cons]; omega, i3, ?_, ?_, ?_⟩
        · intro hl; exact i4 (by omega)
        · intro hl _; exact i5 (by omega) (Or.inl c1.symm)
        · intro h0; rw [hc, hb] at h0; cases h0
      · have e : skipWhitespaceLoop (c :: rest) pos line col =
            skipWhitespaceLoop rest (pos + 1) line (col + 1) := by
          have : (c == '\n') = false := by simpa using hn
          rw [skipWhitespaceLoop, if_pos hb2, this]
          rfl
        obtain ⟨i1, i2, i3, i4, i5, -⟩ := ih (pos + 1) line (col + 1) hd
        rw [e]
        have l1 : lineAt code (pos + 1) = lineAt code pos := by
          rw [lineAt_succ hlt, hc, if_neg hn]
        have c1 : columnAt code (pos + 1) = columnAt code pos + 1 := by
          rw [columnAt_succ hlt, hc, if_neg hn]
        refine ⟨by omega, by simp only [List.length_cons]; omega, i3, ?_, ?_, ?_⟩
        · intro hl; exact i4 (by omega)
        · intro hl h2
          rcases h2 with h2 | h2
          · exact i5 (by omega) (Or.inl (by omega))
          · rw [hc] at h2; exact absurd h2 hn
        · intro h0; rw [hc, hb] at h0; cases h0
    · have hb2 : (c == ' ' || c == '\t' || c == '\n' || c == '\r') = false := by
        simpa [isBlank] using hb
      have e : skipWhitespaceLoop (c :: rest) pos line col = (pos, line, col) := by
        rw [skipWhitespaceLoop, hb2]
        rfl
      rw [e]
      have hb3 : isBlank c = false := by simpa using hb
      refine ⟨le_refl _, by omega, by rw [hc]; exact hb3, fun h => h, ?_, fun _ => rfl⟩
      intro _ h2
      rcases h2 with h2 | h2
      · exact h2
      · rw [hc] at h2; subst h2; exact absurd hb3 (by decide)

/-! ### The skipping functions on states -/

theorem skipWhitespace_spec (s : State) :
    (∃ pos line col, skipWhitespace s =
        { s with currentPos := pos, currentLine := line, currentColumn := col }) ∧
      s.currentPos ≤ (skipWhitespace s).currentPos ∧
      (s.currentPos ≤ s.sourceCode.length →
        (skipWhitespace s).currentPos ≤ s.sourceCode.length) ∧
      isBlank (charAt s.sourceCode (skipWhitespace s).currentPos) = false ∧
      (LineSynced s → LineSynced (skipWhitespace s)) ∧
      (LineSynced s → ColumnSynced s ∨ charAt s.sourceCode s.currentPos = '\n' →
        ColumnSynced (skipWhitespace s)) ∧
      (isBlank (charAt s.sourceCode s.currentPos) = false → skipWhitespace s = s) := by
  obtain ⟨h1, h2, h3, h4, h5, h6⟩ := skipWhitespaceLoop_spec s.sourceCode
    (s.sourceCode.drop s.currentPos) s.currentPos s.currentLine s.currentColumn rfl
  refine ⟨⟨_, _, _, rfl⟩, h1, ?_, h3, h4, h5, ?_⟩
  · intro hle
    have : (skipWhitespace s).currentPos ≤
        s.currentPos + (s.sourceCode.drop s.currentPos).length := h2
    rw [List.length_drop] at this
    omega
  · intro hb
    have e := h6 hb
    simp only [skipWhitespace, e]

theorem scanned_chars (p : Char → Bool) (hn : p '\n' = false) (h0 : p NUL = false)
    (code : List Char) (pos i : Nat) (h : i < scanWhile p (code.drop pos)) :
    charAt code (pos + i) ≠ '\n' ∧ charAt code (pos + i) ≠ NUL := by
  have := scanWhile_all p _ i h
  rw [charAt_drop] at this
  constructor
  · intro e; rw [e, hn] at this; cases this
  · intro e; rw [e, h0] at this; cases this

theorem lineAt_columnAt_add (code : List Char) (pos : Nat) :
    ∀ k, (∀ i, i < k → charAt code (pos + i) ≠ '\n' ∧ charAt code (pos + i) ≠ NUL) →
      lineAt code (pos + k) = lineAt code pos ∧
      columnAt code (pos + k) = columnAt code pos + k := by
  intro k
  induction k with
  | zero => intro _; exact ⟨rfl, rfl⟩
  | succ k ih =>
    intro h
    obtain ⟨i1, i2⟩ := ih (fun i hi => h i (by omega))
    obtain ⟨c1, c2⟩ := h k (by omega)
    have hlt := charAt_lt c2
    have e : pos + (k + 1) = pos + k + 1 := by omega
    rw [e, lineAt_succ hlt, columnAt_succ hlt, if_neg c1, if_neg c1]
    exact ⟨i1, by omega⟩

theorem Scanned.sourceCode_eq {s r : State} {k : Nat} (h : Scanned s r k) :
    r.sourceCode = s.sourceCode := by rw [h.1]

theorem Scanned.currentPos_eq {s r : State} {k : Nat} (h : Scanned s r k) :
    r.currentPos = s.currentPos + k := by rw [h.1]

theorem Scanned.lineSynced {s r : State} {k : Nat} (h : Scanned s r k) (hs : LineSynced s) :
    LineSynced r := by
  obtain ⟨e, hc⟩ := h
  have := (lineAt_columnAt_add s.sourceCode s.currentPos k hc).1
  rw [e]
  simp only [LineSynced] at hs ⊢
  omega

theorem Scanned.columnSynced {s r : State} {k : Nat} (h : Scanned s r k)
    (hs : ColumnSynced s) : ColumnSynced r := by
  obtain ⟨e, hc⟩ := h
  have := (lineAt_columnAt_add s.sourceCode s.currentPos k hc).2
  rw [e]
  simp only [ColumnSynced] at hs ⊢
  omega

theorem Scanned.in_text {s r : State} {k : Nat} (h : Scanned s r k) (hk : 0 < k) :
    r.currentPos ≤ s.sourceCode.length := by
  obtain ⟨e, hc⟩ := h
  have := charAt_lt (hc (k - 1) (by omega)).2
  rw [e]
  simp only
  omega

theorem skipComment_spec (s : State) :
    (∃ pos, skipComment s = { s with currentPos := pos }) ∧
      s.currentPos ≤ (skipComment s).currentPos ∧
      (s.currentPos ≤ s.sourceCode.length →
        (skipComment s).currentPos ≤ s.sourceCode.length) ∧
      (LineSynced s → LineSynced (skipComment s)) ∧
      (skipComment s = s ∨ charAt s.sourceCode (skipComment s).currentPos = '\n' ∨
        charAt s.sourceCode (skipComment s).currentPos = NUL) ∧
      (charAt s.sourceCode s.currentPos ≠ '/' → skipComment s = s) := by
  by_cases hc : (charAt s.sourceCode s.currentPos == '/' &&
      charAt s.sourceCode (s.currentPos + 1) == '/') = true
  · obtain ⟨n, hn⟩ : ∃ n, n = scanWhile (fun c => c != '\n' && c != NUL)
        (s.sourceCode.drop s.currentPos) := ⟨_, rfl⟩
    have e : skipComment s = { s with currentPos := s.currentPos + n } := by
      rw [skipComment, if_pos hc, hn]
    have hle := scanWhile_le (fun c => c != '\n' && c != NUL) (s.sourceCode.drop s.currentPos)
    rw [List.length_drop, ← hn] at hle
    have hch := scanned_chars (fun c => c != '\n' && c != NUL) (by decide) (by decide)
      s.sourceCode s.currentPos
    rw [← hn] at hch
    have hstop := scanWhile_stop (fun c => c != '\n' && c != NUL)
      (s.sourceCode.drop s.currentPos) (by decide)
    rw [charAt_drop, ← hn] at hstop
    rw [e]
    refine ⟨⟨_, rfl⟩, by simp, fun h => by simp only; omega, ?_, ?_, ?_⟩
    · intro hs
      have := (lineAt_columnAt_add s.sourceCode s.currentPos _ hch).1
      simp only [LineSynced] at hs ⊢
      omega
    · right
      simp only [Bool.and_eq_false_iff, bne_eq_false_iff_eq] at hstop
      exact hstop
    · intro hne
      simp only [Bool.and_eq_true, beq_iff_eq] at hc
      exact absurd hc.1 hne
  · have e : skipComment s = s := by
      rw [skipComment, if_neg hc]
    rw [e]
    exact ⟨⟨_, rfl⟩, le_refl _, fun h => h, fun h => h, Or.inl rfl, fun _ => rfl⟩

/-! ### The token functions -/

theorem isKeyword_mem (w : List Char) :
    isKeyword w ∈ [TOKEN_ENTERO, TOKEN_CARACTER, TOKEN_REAL, TOKEN_SI, TOKEN_SINO,
      TOKEN_MIENTRAS, TOKEN_REPETIR, TOKEN_HASTA, TOKEN_LEER, TOKEN_ESCRIBIR, TOKEN_AND,
      TOKEN_OR, TOKEN_NOT, TOKEN_IDENTIFIER] := by
  unfold isKeyword
  by_cases h0 : w = "entero".toList
  · rw [if_pos h0]; decide
  rw [if_neg h0]
  by_cases h1 : w = "caracter".toList
  · rw [if_pos h1]; decide
  rw [if_neg h1]
  by_cases h2 : w = "real".toList
  · rw [if_pos h2]; decide
  rw [if_neg h2]
  by_cases h3 : w = "si".toList
  · rw [if_pos h3]; decide
  rw [if_neg h3]
  by_cases h4 : w = "sino".toList
  · rw [if_pos h4]; decide
  rw [if_neg h4]
  by_cases h5 : w = "mientras".toList
  · rw [if_pos h5]; decide
  rw [if_neg h5]
  by_cases h6 : w = "repetir".toList
  · rw [if_pos h6]; decide
  rw [if_neg h6]
  by_cases h7 : w = "hasta".toList
  · rw [if_pos h7]; decide
  rw [if_neg h7]
  by_cases h8 : w = "leer".toList
  · rw [if_pos h8]; decide
  rw [if_neg h8]
  by_cases h9 : w = "escribir".toList
  · rw [if_pos h9]; decide
  rw [if_neg h9]
  by_cases h10 : w = "y".toList
  · rw [if_pos h10]; decide
  rw [if_neg h10]
  by_cases h11 : w = "o".toList
  · rw [if_pos h11]; decide
  rw [if_neg h11]
  by_cases h12 : w = "no".toList
  · rw [if_pos h12]; decide
  rw [if_neg h12]
  decide

theorem isKeyword_cases (w : List Char) :
    isKeyword w ≠ TOKEN_EOF ∧ isKeyword w ≠ TOKEN_ERROR ∧ isKeyword w ≠ TOKEN_STRING_LITERAL := by
  have h := isKeyword_mem w
  refine ⟨?_, ?_, ?_⟩ <;> intro e <;> rw [e] at h <;> revert h <;> decide

theorem substring_one {code : List Char} {p : Nat} (h : p < code.length) :
    substring code p 1 = [charAt code p] := by
  rw [substring, drop_eq_cons_charAt h]
  rfl

theorem substring_two {code : List Char} {p : Nat} (h : p + 1 < code.length) :
    substring code p 2 = [charAt code p, charAt code (p + 1)] := by
  rw [substring, drop_eq_cons_charAt (by omega : p < code.length), drop_eq_cons_charAt h]
  rfl

theorem substring_three {code : List Char} {p : Nat} (h : p + 2 < code.length) :
    substring code p 3 = [charAt code p, charAt code (p + 1), charAt code (p + 2)] := by
  rw [substring, drop_eq_cons_charAt (by omega : p < code.length),
    drop_eq_cons_charAt (by omega : p + 1 < code.length), drop_eq_cons_charAt h]
  rfl

theorem processIdentifier_spec (s : State)
    (h : isLetter (charAt s.sourceCode s.currentPos) = true) :
    ∃ k, TokenAt s (processIdentifier s).1 (processIdentifier s).2 k ∧
      (processIdentifier s).1.type ≠ TOKEN_ERROR ∧
      k = scanWhile (fun c => isLetter c || isDigit c) (s.sourceCode.drop s.currentPos) := by
  have hlt : s.currentPos < s.sourceCode.length :=
    charAt_lt (isLetter_ne h (by decide))
  have hpos : 0 < scanWhile (fun c => isLetter c || isDigit c)
      (s.sourceCode.drop s.currentPos) := by
    rw [drop_eq_cons_charAt hlt]
    exact scanWhile_pos _ _ _ (by simp [h])
  refine ⟨_, ⟨⟨rfl, ?_⟩, hpos, rfl, rfl, ?_, ?_⟩, ?_, rfl⟩
  · exact scanned_chars _ (by decide) (by decide) _ _
  · exact (isKeyword_cases _).1
  · intro _
    simp [processIdentifier]
  · exact (isKeyword_cases _).2.1

theorem processNumber_spec (s : State)
    (h : isDigit (charAt s.sourceCode s.currentPos) = true) :
    ∃ k n, TokenAt s (processNumber s).1 (processNumber s).2 k ∧
      n = scanWhile isDigit (s.sourceCode.drop s.currentPos) ∧ 0 < n ∧
      (charAt s.sourceCode (s.currentPos + n) = '.' →
        (processNumber s).1.type = TOKEN_REAL_LITERAL ∧
        k = n + 1 + scanWhile isDigit (s.sourceCode.drop (s.currentPos + n + 1))) ∧
      (charAt s.sourceCode (s.currentPos + n) ≠ '.' →
        (processNumber s).1.type = TOKEN_NUMBER ∧ k = n ∧
        (processNumber s).1.value =
          TokenValue.intValue (atoi (substring s.sourceCode s.currentPos n))) := by
  have hlt : s.currentPos < s.sourceCode.length :=
    charAt_lt (isDigit_ne h (by decide))
  have hpos : 0 < scanWhile isDigit (s.sourceCode.drop s.currentPos) := by
    rw [drop_eq_cons_charAt hlt]
    exact scanWhile_pos _ _ _ h
  have hch1 := scanned_chars isDigit (by decide) (by decide) s.sourceCode s.currentPos
  have hch2 := scanned_chars isDigit (by decide) (by decide) s.sourceCode
    (s.currentPos + scanWhile isDigit (s.sourceCode.drop s.currentPos) + 1)
  generalize hn : scanWhile isDigit (s.sourceCode.drop s.currentPos) = n at hpos hch1 hch2 ⊢
  generalize hm : scanWhile isDigit (s.sourceCode.drop (s.currentPos + n + 1)) = m at hch2 ⊢
  by_cases hd : charAt s.sourceCode (s.currentPos + n) = '.'
  · have hd2 : (charAt s.sourceCode (s.currentPos + n) == '.') = true := by simpa using hd
    refine ⟨n + 1 + m, n, ⟨⟨?_, ?_⟩, by omega, ?_, ?_, ?_, ?_⟩, rfl, hpos, ?_, ?_⟩
    · simp only [processNumber, hn, hm, hd2, if_true, State.mk.injEq, true_and]
      exact ⟨by omega, by omega, trivial⟩
    · intro i hi
      by_cases h1 : i < n
      · exact hch1 i h1
      · by_cases h2 : i = n
        · rw [h2, hd]; exact ⟨by decide, by decide⟩
        · have := hch2 (i - n - 1) (by omega)
          have e : s.currentPos + n + 1 + (i - n - 1) = s.currentPos + i := by omega
          rwa [e] at this
    · simp only [processNumber, hn, hd2, if_true]
    · simp only [processNumber, hn, hd2, if_true]
    · simp only [processNumber, hn, hd2, if_true]; decide
    · intro _
      simp only [processNumber, hn, hm, hd2, if_true]
      congr 1
      omega
    · intro _
      exact ⟨by simp only [processNumber, hn, hd2, if_true], by rw [hm]⟩
    · intro hc; exact absurd hd hc
  · have hd2 : (charAt s.sourceCode (s.currentPos + n) == '.') = false := by simpa using hd
    refine ⟨n, n, ⟨⟨?_, hch1⟩, hpos, ?_, ?_, ?_, ?_⟩, rfl, hpos, ?_, ?_⟩
    · simp only [processNumber, hn, hd2, Bool.false_eq_true, if_false]
    · simp only [processNumber, hn, hd2, Bool.false_eq_true, if_false]
    · simp only [processNumber, hn, hd2, Bool.false_eq_true, if_false]
    · simp only [processNumber, hn, hd2, Bool.false_eq_true, if_false]; decide
    · intro _
      simp only [processNumber, hn, hd2, Bool.false_eq_true, if_false]
      simp
    · intro hc; exact absurd hc hd
    · intro _
      refine ⟨by simp only [processNumber, hn, hd2, Bool.false_eq_true, if_false], rfl, ?_⟩
      simp only [processNumber, hn, hd2, Bool.false_eq_true, if_false]
      simp

theorem processCharLiteral_spec (s : State)
    (h : charAt s.sourceCode s.currentPos = QUOTE) :
    ∃ k, TokenAt s (processCharLiteral s).1 (processCharLiteral s).2 k ∧
      ((processCharLiteral s).1.type = TOKEN_CHAR_LITERAL ∨
        (processCharLiteral s).1.type = TOKEN_ERROR) ∧
      ((processCharLiteral s).1.type = TOKEN_ERROR ↔
        (charAt s.sourceCode (s.currentPos + 1) = NUL ∨
          charAt s.sourceCode (s.currentPos + 1) = '\n' ∨
          charAt s.sourceCode (s.currentPos + 2) ≠ QUOTE)) := by
  have h0 : charAt s.sourceCode (s.currentPos + 0) ≠ '\n' ∧
      charAt s.sourceCode (s.currentPos + 0) ≠ NUL := by
    rw [Nat.add_zero, h]; exact ⟨by decide, by decide⟩
  by_cases h1 : charAt s.sourceCode (s.currentPos + 1) = NUL ∨
      charAt s.sourceCode (s.currentPos + 1) = '\n'
  · have e1 : (charAt s.sourceCode (s.currentPos + 1) == NUL ||
        charAt s.sourceCode (s.currentPos + 1) == '\n') = true := by
      simpa using h1
    refine ⟨1, ⟨⟨?_, ?_⟩, Nat.one_pos, ?_, ?_, ?_, ?_⟩, Or.inr ?_, ?_⟩
    · simp only [processCharLiteral, e1, if_true]
    · intro i hi
      have : i = 0 := by omega
      rw [this]; exact h0
    · simp only [processCharLiteral, e1, if_true]
    · simp only [processCharLiteral, e1, if_true]
    · simp only [processCharLiteral, e1, if_true]; decide
    · intro hne
      exact absurd (by simp only [processCharLiteral, e1, if_true]) hne
    · simp only [processCharLiteral, e1, if_true]
    · constructor
      · intro _
        rcases h1 with h1 | h1
        · exact Or.inl h1
        · exact Or.inr (Or.inl h1)
      · intro _
        simp only [processCharLiteral, e1, if_true]
  · have e1 : (charAt s.sourceCode (s.currentPos + 1) == NUL ||
        charAt s.sourceCode (s.currentPos + 1) == '\n') = false := by
      simpa using h1
    have h1a : charAt s.sourceCode (s.currentPos + 1) ≠ '\n' ∧
        charAt s.sourceCode (s.currentPos + 1) ≠ NUL := by
      constructor
      · intro e; exact h1 (Or.inr e)
      · intro e; exact h1 (Or.inl e)
    by_cases h2 : charAt s.sourceCode (s.currentPos + 2) = QUOTE
    · have e2 : (charAt s.sourceCode (s.currentPos + 1 + 1) != QUOTE) = false := by
        simpa using h2
      have h2a : charAt s.sourceCode (s.currentPos + 2) ≠ '\n' ∧
          charAt s.sourceCode (s.currentPos + 2) ≠ NUL := by
        rw [h2]; exact ⟨by decide, by decide⟩
      refine ⟨3, ⟨⟨?_, ?_⟩, by omega, ?_, ?_, ?_, ?_⟩, Or.inl ?_, ?_⟩
      · simp only [processCharLiteral, e1, e2, Bool.false_eq_true, if_false]
      · intro i hi
        have : i = 0 ∨ i = 1 ∨ i = 2 := by omega
        rcases this with e | e | e <;> rw [e]
        · exact h0
        · exact h1a
        · exact h2a
      · simp only [processCharLiteral, e1, e2, Bool.false_eq_true, if_false]
      · simp only [processCharLiteral, e1, e2, Bool.false_eq_true, if_false]
      · simp only [processCharLiteral, e1, e2, Bool.false_eq_true, if_false]; decide
      · intro _
        rw [substring_three (charAt_lt h2a.2), h, h2]
        simp only [processCharLiteral, e1, e2, Bool.false_eq_true, if_false]
      · simp only [processCharLiteral, e1, e2, Bool.false_eq_true, if_false]
      · constructor
        · intro e
          simp only [processCharLiteral, e1, e2, Bool.false_eq_true, if_false] at e
          cases e
        · intro e
          rcases e with e | e | e
          · exact absurd e h1a.2
          · exact absurd e h1a.1
          · exact absurd h2 e
    · have e2 : (charAt s.sourceCode (s.currentPos + 1 + 1) != QUOTE) = true := by
        simpa using h2
      refine ⟨2, ⟨⟨?_, ?_⟩, by omega, ?_, ?_, ?_, ?_⟩, Or.inr ?_, ?_⟩
      · simp only [processCharLiteral, e1, e2, Bool.false_eq_true, if_false, if_true]
      · intro i hi
        have : i = 0 ∨ i = 1 := by omega
        rcases this with e | e <;> rw [e]
        · exact h0
        · exact h1a
      · simp only [processCharLiteral, e1, e2, Bool.false_eq_true, if_false, if_true]
      · simp only [processCharLiteral, e1, e2, Bool.false_eq_true, if_false, if_true]
      · simp only [processCharLiteral, e1, e2, Bool.false_eq_true, if_false, if_true]; decide
      · intro hne
        exact absurd
          (by simp only [processCharLiteral, e1, e2, Bool.false_eq_true, if_false, if_true]) hne
      · simp only [processCharLiteral, e1, e2, Bool.false_eq_true, if_false, if_true]
      · constructor
        · intro _; exact Or.inr (Or.inr h2)
        · intro _
          simp only [processCharLiteral, e1, e2, Bool.false_eq_true, if_false, if_true]

theorem processStringLiteral_spec (s : State)
    (h : charAt s.sourceCode s.currentPos = DQUOTE) :
    ∃ k n, TokenAt s (processStringLiteral s).1 (processStringLiteral s).2 k ∧
      n = scanWhile (fun c => c != DQUOTE && c != NUL && c != '\n')
        (s.sourceCode.drop (s.currentPos + 1)) ∧
      ((processStringLiteral s).1.type = TOKEN_STRING_LITERAL ∨
        (processStringLiteral s).1.type = TOKEN_ERROR) ∧
      ((processStringLiteral s).1.type = TOKEN_ERROR ↔
        charAt s.sourceCode (s.currentPos + 1 + n) ≠ DQUOTE) := by
  have h0 : charAt s.sourceCode (s.currentPos + 0) ≠ '\n' ∧
      charAt s.sourceCode (s.currentPos + 0) ≠ NUL := by
    rw [Nat.add_zero, h]; exact ⟨by decide, by decide⟩
  have hch := scanned_chars (fun c => c != DQUOTE && c != NUL && c != '\n') (by decide)
    (by decide) s.sourceCode (s.currentPos + 1)
  generalize hn : scanWhile (fun c => c != DQUOTE && c != NUL && c != '\n')
    (s.sourceCode.drop (s.currentPos + 1)) = n at hch
  have hfirst : ∀ i, i < 1 + n → charAt s.sourceCode (s.currentPos + i) ≠ '\n' ∧
      charAt s.sourceCode (s.currentPos + i) ≠ NUL := by
    intro i hi
    by_cases hi0 : i = 0
    · rw [hi0]; exact h0
    · have := hch (i - 1) (by omega)
      have e : s.currentPos + 1 + (i - 1) = s.currentPos + i := by omega
      rwa [e] at this
  by_cases hq : charAt s.sourceCode (s.currentPos + 1 + n) = DQUOTE
  · have e1 : (charAt s.sourceCode (s.currentPos + 1 + n) != DQUOTE) = false := by
      simpa using hq
    refine ⟨1 + n + 1, n, ⟨⟨?_, ?_⟩, by omega, ?_, ?_, ?_, ?_⟩, rfl, Or.inl ?_, ?_⟩
    · simp only [processStringLiteral, hn, e1, Bool.false_eq_true, if_false, State.mk.injEq,
        true_and]
      exact ⟨by omega, by omega, trivial⟩
    · intro i hi
      by_cases hi1 : i < 1 + n
      · exact hfirst i hi1
      · have : i = 1 + n := by omega
        rw [this, ← Nat.add_assoc, hq]
        exact ⟨by decide, by decide⟩
    · simp only [processStringLiteral, hn, e1, Bool.false_eq_true, if_false]
    · simp only [processStringLiteral, hn, e1, Bool.false_eq_true, if_false]
    · simp only [processStringLiteral, hn, e1, Bool.false_eq_true, if_false]; decide
    · intro _
      simp only [processStringLiteral, hn, e1, Bool.false_eq_true, if_false]
      congr 1
      omega
    · simp only [processStringLiteral, hn, e1, Bool.false_eq_true, if_false]
    · constructor
      · intro e
        simp only [processStringLiteral, hn, e1, Bool.false_eq_true, if_false] at e
        cases e
      · intro e; exact absurd hq e
  · have e1 : (charAt s.sourceCode (s.currentPos + 1 + n) != DQUOTE) = true := by
      simpa using hq
    refine ⟨1 + n, n, ⟨⟨?_, hfirst⟩, by omega, ?_, ?_, ?_, ?_⟩, rfl, Or.inr ?_, ?_⟩
    · simp only [processStringLiteral, hn, e1, if_true, State.mk.injEq, true_and]
      exact ⟨by omega, by omega, trivial⟩
    · simp only [processStringLiteral, hn, e1, if_true]
    · simp only [processStringLiteral, hn, e1, if_true]
    · simp only [processStringLiteral, hn, e1, if_true]; decide
    · intro hne
      exact absurd (by simp only [processStringLiteral, hn, e1, if_true]) hne
    · simp only [processStringLiteral, hn, e1, if_true]
    · constructor
      · intro _; exact hq
      · intro _
        simp only [processStringLiteral, hn, e1, if_true]

theorem isTwoCharOperatorStart_cases {s : State}
    (h : isTwoCharOperatorStart s (charAt s.sourceCode s.currentPos) = true) :
    (charAt s.sourceCode s.currentPos = ':' ∧ charAt s.sourceCode (s.currentPos + 1) = '=') ∨
    (charAt s.sourceCode s.currentPos = '<' ∧ charAt s.sourceCode (s.currentPos + 1) = '>') ∨
    (charAt s.sourceCode s.currentPos = '<' ∧ charAt s.sourceCode (s.currentPos + 1) = '=') ∨
    (charAt s.sourceCode s.currentPos = '>' ∧ charAt s.sourceCode (s.currentPos + 1) = '=') := by
  simp only [isTwoCharOperatorStart, Bool.or_eq_true, Bool.and_eq_true, beq_iff_eq] at h
  tauto

theorem processTwoCharOperator_spec (s : State)
    (h : isTwoCharOperatorStart s (charAt s.sourceCode s.currentPos) = true) :
    TokenAt s (processTwoCharOperator s).1 (processTwoCharOperator s).2 2 ∧
      (processTwoCharOperator s).1.type ≠ TOKEN_ERROR ∧
      (processTwoCharOperator s).1.type ≠ TOKEN_STRING_LITERAL := by
  have key : ∀ c1 c2 : Char, charAt s.sourceCode s.currentPos = c1 →
      charAt s.sourceCode (s.currentPos + 1) = c2 → c1 ≠ '\n' → c1 ≠ NUL → c2 ≠ '\n' →
      c2 ≠ NUL →
      (∀ i, i < 2 → charAt s.sourceCode (s.currentPos + i) ≠ '\n' ∧
        charAt s.sourceCode (s.currentPos + i) ≠ NUL) ∧
      substring s.sourceCode s.currentPos 2 = [c1, c2] := by
    intro c1 c2 e1 e2 a1 a2 a3 a4
    constructor
    · intro i hi
      have : i = 0 ∨ i = 1 := by omega
      rcases this with e | e <;> rw [e]
      · rw [Nat.add_zero, e1]; exact ⟨a1, a2⟩
      · rw [e2]; exact ⟨a3, a4⟩
    · rw [substring_two (charAt_lt (by rw [e2]; exact a4)), e1, e2]
  rcases isTwoCharOperatorStart_cases h with ⟨e1, e2⟩ | ⟨e1, e2⟩ | ⟨e1, e2⟩ | ⟨e1, e2⟩
  · obtain ⟨k1, k2⟩ := key _ _ e1 e2 (by decide) (by decide) (by decide) (by decide)
    refine ⟨⟨⟨?_, k1⟩, by omega, ?_, ?_, ?_, ?_⟩, ?_, ?_⟩ <;>
      simp [processTwoCharOperator, createBasicToken, e1, e2, k2]
  · obtain ⟨k1, k2⟩ := key _ _ e1 e2 (by decide) (by decide) (by decide) (by decide)
    refine ⟨⟨⟨?_, k1⟩, by omega, ?_, ?_, ?_, ?_⟩, ?_, ?_⟩ <;>
      simp [processTwoCharOperator, createBasicToken, e1, e2, k2]
  · obtain ⟨k1, k2⟩ := key _ _ e1 e2 (by decide) (by decide) (by decide) (by decide)
    refine ⟨⟨⟨?_, k1⟩, by omega, ?_, ?_, ?_, ?_⟩, ?_, ?_⟩ <;>
      simp [processTwoCharOperator, createBasicToken, e1, e2, k2]
  · obtain ⟨k1, k2⟩ := key _ _ e1 e2 (by decide) (by decide) (by decide) (by decide)
    refine ⟨⟨⟨?_, k1⟩, by omega, ?_, ?_, ?_, ?_⟩, ?_, ?_⟩ <;>
      simp [processTwoCharOperator, createBasicToken, e1, e2, k2]

/-- A token made by `createBasicToken` for the one character `c`. -/
theorem processArithmeticOperator_some {s : State} {c : Char} {tok : Token}
    (h : processArithmeticOperator s c = some tok) :
    tok.line = s.currentLine ∧ tok.column = s.currentColumn ∧ tok.lexeme = [c] ∧
      tok.type ≠ TOKEN_EOF ∧ tok.type ≠ TOKEN_ERROR ∧ tok.type ≠ TOKEN_STRING_LITERAL := by
  unfold processArithmeticOperator at h
  split_ifs at h with h1 h2 h3 h4 h5 <;> cases h
  · rw [eq_of_beq h1]; exact ⟨rfl, rfl, rfl, by simp [createBasicToken], by simp [createBasicToken], by simp [createBasicToken]⟩
  · rw [eq_of_beq h2]; exact ⟨rfl, rfl, rfl, by simp [createBasicToken], by simp [createBasicToken], by simp [createBasicToken]⟩
  · rw [eq_of_beq h3]; exact ⟨rfl, rfl, rfl, by simp [createBasicToken], by simp [createBasicToken], by simp [createBasicToken]⟩
  · rw [eq_of_beq h4]; exact ⟨rfl, rfl, rfl, by simp [createBasicToken], by simp [createBasicToken], by simp [createBasicToken]⟩
  · rw [eq_of_beq h5]; exact ⟨rfl, rfl, rfl, by simp [createBasicToken], by simp [createBasicToken], by simp [createBasicToken]⟩

theorem processRelationalOperator_some {s : State} {c : Char} {tok : Token}
    (h : processRelationalOperator s c = some tok) :
    tok.line = s.currentLine ∧ tok.column = s.currentColumn ∧ tok.lexeme = [c] ∧
      tok.type ≠ TOKEN_EOF ∧ tok.type ≠ TOKEN_ERROR ∧ tok.type ≠ TOKEN_STRING_LITERAL := by
  unfold processRelationalOperator at h
  split_ifs at h with h1 h2 h3 <;> cases h
  · rw [eq_of_beq h1]; exact ⟨rfl, rfl, rfl, by simp [createBasicToken], by simp [createBasicToken], by simp [createBasicToken]⟩
  · rw [eq_of_beq h2]; exact ⟨rfl, rfl, rfl, by simp [createBasicToken], by simp [createBasicToken], by simp [createBasicToken]⟩
  · rw [eq_of_beq h3]; exact ⟨rfl, rfl, rfl, by simp [createBasicToken], by simp [createBasicToken], by simp [createBasicToken]⟩

theorem processDelimiter_some {s : State} {c : Char} {tok : Token}
    (h : processDelimiter s c = some tok) :
    tok.line = s.currentLine ∧ tok.column = s.currentColumn ∧ tok.lexeme = [c] ∧
      tok.type ≠ TOKEN_EOF ∧ tok.type ≠ TOKEN_ERROR ∧ tok.type ≠ TOKEN_STRING_LITERAL := by
  unfold processDelimiter at h
  split_ifs at h with h1 h2 h3 h4 h5 h6 <;> cases h
  · rw [eq_of_beq h1]; exact ⟨rfl, rfl, rfl, by simp [createBasicToken], by simp [createBasicToken], by simp [createBasicToken]⟩
  · rw [eq_of_beq h2]; exact ⟨rfl, rfl, rfl, by simp [createBasicToken], by simp [createBasicToken], by simp [createBasicToken]⟩
  · rw [eq_of_beq h3]; exact ⟨rfl, rfl, rfl, by simp [createBasicToken], by simp [createBasicToken], by simp [createBasicToken]⟩
  · rw [eq_of_beq h4]; exact ⟨rfl, rfl, rfl, by simp [createBasicToken], by simp [createBasicToken], by simp [createBasicToken]⟩
  · rw [eq_of_beq h5]; exact ⟨rfl, rfl, rfl, by simp [createBasicToken], by simp [createBasicToken], by simp [createBasicToken]⟩
  · rw [eq_of_beq h6]; exact ⟨rfl, rfl, rfl, by simp [createBasicToken], by simp [createBasicToken], by simp [createBasicToken]⟩

theorem processSingleCharOperator_token (s : State) (c : Char) :
    (processSingleCharOperator s c).2 =
        { s with currentPos := s.currentPos + 1, currentColumn := s.currentColumn + 1 } ∧
      (processSingleCharOperator s c).1.line = s.currentLine ∧
      (processSingleCharOperator s c).1.column = s.currentColumn ∧
      (processSingleCharOperator s c).1.type ≠ TOKEN_EOF ∧
      (processSingleCharOperator s c).1.type ≠ TOKEN_STRING_LITERAL ∧
      ((processSingleCharOperator s c).1.type ≠ TOKEN_ERROR →
        (processSingleCharOperator s c).1.lexeme = [c]) := by
  unfold processSingleCharOperator
  dsimp only
  cases ha : processArithmeticOperator s c with
  | some tok =>
    obtain ⟨a1, a2, a3, a4, a5, a6⟩ := processArithmeticOperator_some ha
    exact ⟨rfl, a1, a2, a4, a6, fun _ => a3⟩
  | none =>
    dsimp only
    cases hr : processRelationalOperator s c with
    | some tok =>
      obtain ⟨a1, a2, a3, a4, a5, a6⟩ := processRelationalOperator_some hr
      exact ⟨rfl, a1, a2, a4, a6, fun _ => a3⟩
    | none =>
      dsimp only
      cases hd : processDelimiter s c with
      | some tok =>
        obtain ⟨a1, a2, a3, a4, a5, a6⟩ := processDelimiter_some hd
        exact ⟨rfl, a1, a2, a4, a6, fun _ => a3⟩
      | none =>
        dsimp only
        exact ⟨rfl, rfl, rfl, by simp, by simp, fun h => absurd rfl h⟩

theorem processSingleCharOperator_spec (s : State)
    (h1 : charAt s.sourceCode s.currentPos ≠ '\n') (h2 : charAt s.sourceCode s.currentPos ≠ NUL) :
    TokenAt s (processSingleCharOperator s (charAt s.sourceCode s.currentPos)).1
      (processSingleCharOperator s (charAt s.sourceCode s.currentPos)).2 1 ∧
    (processSingleCharOperator s (charAt s.sourceCode s.currentPos)).1.type ≠
      TOKEN_STRING_LITERAL := by
  have hch : ∀ i, i < 1 → charAt s.sourceCode (s.currentPos + i) ≠ '\n' ∧
      charAt s.sourceCode (s.currentPos + i) ≠ NUL := by
    intro i hi
    have : i = 0 := by omega
    rw [this, Nat.add_zero]; exact ⟨h1, h2⟩
  have hsub := substring_one (charAt_lt h2)
  obtain ⟨a1, a2, a3, a4, a5, a6⟩ :=
    processSingleCharOperator_token s (charAt s.sourceCode s.currentPos)
  exact ⟨⟨⟨a1, hch⟩, Nat.one_pos, a2, a3, a4, fun h => by rw [hsub]; exact a6 h⟩, a5⟩

/-! ### `getNextToken` -/

theorem skipWhitespace_sourceCode (s : State) :
    (skipWhitespace s).sourceCode = s.sourceCode := rfl

theorem skipComment_sourceCode (s : State) : (skipComment s).sourceCode = s.sourceCode := by
  obtain ⟨⟨pos, e⟩, -⟩ := skipComment_spec s
  rw [e]

theorem skipToToken_sourceCode (s : State) : (skipToToken s).sourceCode = s.sourceCode := by
  simp only [skipToToken, skipWhitespace_sourceCode, skipComment_sourceCode]

theorem skipToToken_spec (s0 : State) :
    s0.currentPos ≤ (skipToToken s0).currentPos ∧
      (s0.currentPos ≤ s0.sourceCode.length →
        (skipToToken s0).currentPos ≤ s0.sourceCode.length) ∧
      isBlank (charAt s0.sourceCode (skipToToken s0).currentPos) = false ∧
      (LineSynced s0 → ColumnSynced s0 → LineSynced (skipToToken s0) ∧
        (ColumnSynced (skipToToken s0) ∨
          charAt s0.sourceCode (skipToToken s0).currentPos = NUL)) ∧
      (isBlank (charAt s0.sourceCode s0.currentPos) = false →
        charAt s0.sourceCode s0.currentPos ≠ '/' → skipToToken s0 = s0) := by
  obtain ⟨-, a2, a3, a4, a5, a6, a7⟩ := skipWhitespace_spec s0
  obtain ⟨-, b2, b3, b4, b5, b6⟩ := skipComment_spec (skipWhitespace s0)
  obtain ⟨-, c2, c3, c4, c5, c6, c7⟩ := skipWhitespace_spec (skipComment (skipWhitespace s0))
  simp only [skipWhitespace_sourceCode, skipComment_sourceCode] at b3 b5 b6 c3 c4 c6 c7
  refine ⟨by simp only [skipToToken]; omega, ?_, c4, ?_, ?_⟩
  · intro h
    exact c3 (b3 (a3 h))
  · intro hl hc
    have l1 := a5 hl
    have k1 := a6 hl (Or.inl hc)
    have l2 := b4 l1
    refine ⟨c5 l2, ?_⟩
    rcases b5 with e | e | e
    · left
      refine c6 l2 (Or.inl ?_)
      rw [e]; exact k1
    · left
      exact c6 l2 (Or.inr e)
    · right
      have := c7 (by rw [e]; exact isBlank_NUL)
      simp only [skipToToken, this]
      exact e
  · intro hb hs
    have e1 := a7 hb
    have e2 : skipComment (skipWhitespace s0) = s0 := by
      rw [e1]
      exact (skipComment_spec s0).2.2.2.2.2 hs
    show skipWhitespace (skipComment (skipWhitespace s0)) = s0
    rw [e2, e1]

theorem getNextToken_eof {s0 : State}
    (h : charAt s0.sourceCode (skipToToken s0).currentPos = NUL) :
    getNextToken s0 =
      (Token.mk TOKEN_EOF "EOF".toList (skipToToken s0).currentLine
        (skipToToken s0).currentColumn TokenValue.unset, skipToToken s0) := by
  rw [← skipToToken_sourceCode] at h
  unfold getNextToken
  simp only [skipToToken] at *
  rw [h]
  rfl

theorem getNextToken_letter {s0 : State}
    (h : isLetter (charAt s0.sourceCode (skipToToken s0).currentPos) = true) :
    getNextToken s0 = processIdentifier (skipToToken s0) := by
  rw [← skipToToken_sourceCode] at h
  have h0 : (charAt (skipToToken s0).sourceCode (skipToToken s0).currentPos == NUL) = false := by
    simpa using isLetter_ne h (by decide)
  unfold getNextToken
  simp only [skipToToken] at *
  generalize skipWhitespace (skipComment (skipWhitespace s0)) = s at h h0 ⊢
  simp only [h0, h, Bool.false_eq_true, if_false, if_true]

theorem getNextToken_digit {s0 : State}
    (h : isDigit (charAt s0.sourceCode (skipToToken s0).currentPos) = true) :
    getNextToken s0 = processNumber (skipToToken s0) := by
  rw [← skipToToken_sourceCode] at h
  have h0 : (charAt (skipToToken s0).sourceCode (skipToToken s0).currentPos == NUL) = false := by
    simpa using isDigit_ne h (by decide)
  have h1 := isDigit_not_isLetter _ h
  unfold getNextToken
  simp only [skipToToken] at *
  generalize skipWhitespace (skipComment (skipWhitespace s0)) = s at h h0 h1 ⊢
  simp only [h0, h, h1, Bool.false_eq_true, if_false, if_true]

theorem getNextToken_quote {s0 : State}
    (h : charAt s0.sourceCode (skipToToken s0).currentPos = QUOTE) :
    getNextToken s0 = processCharLiteral (skipToToken s0) := by
  rw [← skipToToken_sourceCode] at h
  unfold getNextToken
  simp only [skipToToken] at *
  generalize skipWhitespace (skipComment (skipWhitespace s0)) = s at h ⊢
  rw [h]
  rfl

theorem getNextToken_dquote {s0 : State}
    (h : charAt s0.sourceCode (skipToToken s0).currentPos = DQUOTE) :
    getNextToken s0 = processStringLiteral (skipToToken s0) := by
  rw [← skipToToken_sourceCode] at h
  unfold getNextToken
  simp only [skipToToken] at *
  generalize skipWhitespace (skipComment (skipWhitespace s0)) = s at h ⊢
  rw [h]
  rfl

theorem getNextToken_twoChar {s0 : State}
    (h : isTwoCharOperatorStart (skipToToken s0)
      (charAt s0.sourceCode (skipToToken s0).currentPos) = true) :
    getNextToken s0 = processTwoCharOperator (skipToToken s0) := by
  rw [← skipToToken_sourceCode] at h
  unfold getNextToken
  simp only [skipToToken] at *
  generalize skipWhitespace (skipComment (skipWhitespace s0)) = s at h ⊢
  have hc := isTwoCharOperatorStart_cases h
  simp only [h, if_true]
  rcases hc with ⟨e, -⟩ | ⟨e, -⟩ | ⟨e, -⟩ | ⟨e, -⟩ <;> rw [e] <;> rfl

theorem getNextToken_single {s0 : State}
    (h0 : charAt s0.sourceCode (skipToToken s0).currentPos ≠ NUL)
    (h1 : isLetter (charAt s0.sourceCode (skipToToken s0).currentPos) = false)
    (h2 : isDigit (charAt s0.sourceCode (skipToToken s0).currentPos) = false)
    (h3 : charAt s0.sourceCode (skipToToken s0).currentPos ≠ QUOTE)
    (h4 : charAt s0.sourceCode (skipToToken s0).currentPos ≠ DQUOTE)
    (h5 : isTwoCharOperatorStart (skipToToken s0)
      (charAt s0.sourceCode (skipToToken s0).currentPos) = false) :
    getNextToken s0 = processSingleCharOperator (skipToToken s0)
      (charAt s0.sourceCode (skipToToken s0).currentPos) := by
  rw [← skipToToken_sourceCode] at h0 h1 h2 h3 h4 h5 ⊢
  unfold getNextToken
  simp only [skipToToken] at *
  generalize skipWhitespace (skipComment (skipWhitespace s0)) = s at h0 h1 h2 h3 h4 h5 ⊢
  have e0 : (charAt s.sourceCode s.currentPos == NUL) = false := by simpa using h0
  have e3 : (charAt s.sourceCode s.currentPos == QUOTE) = false := by simpa using h3
  have e4 : (charAt s.sourceCode s.currentPos == DQUOTE) = false := by simpa using h4
  simp only [e0, h1, h2, e3, e4, h5, Bool.false_eq_true, if_false]

/-- What a call of `getNextToken` does, in terms of the state `skipToToken s0` in
which it classifies the next character. -/
theorem getNextToken_spec (s0 : State) :
    (charAt s0.sourceCode (skipToToken s0).currentPos = NUL ∧
      getNextToken s0 = (Token.mk TOKEN_EOF "EOF".toList (skipToToken s0).currentLine
        (skipToToken s0).currentColumn TokenValue.unset, skipToToken s0)) ∨
    (charAt s0.sourceCode (skipToToken s0).currentPos ≠ NUL ∧
      ∃ k, TokenAt (skipToToken s0) (getNextToken s0).1 (getNextToken s0).2 k) := by
  by_cases h0 : charAt s0.sourceCode (skipToToken s0).currentPos = NUL
  · exact Or.inl ⟨h0, getNextToken_eof h0⟩
  refine Or.inr ⟨h0, ?_⟩
  have hsrc := skipToToken_sourceCode s0
  by_cases h1 : isLetter (charAt s0.sourceCode (skipToToken s0).currentPos) = true
  · rw [getNextToken_letter h1]
    rw [← hsrc] at h1
    obtain ⟨k, hk, -⟩ := processIdentifier_spec _ h1
    exact ⟨k, hk⟩
  by_cases h2 : isDigit (charAt s0.sourceCode (skipToToken s0).currentPos) = true
  · rw [getNextToken_digit h2]
    rw [← hsrc] at h2
    obtain ⟨k, n, hk, -⟩ := processNumber_spec _ h2
    exact ⟨k, hk⟩
  by_cases h3 : charAt s0.sourceCode (skipToToken s0).currentPos = QUOTE
  · rw [getNextToken_quote h3]
    rw [← hsrc] at h3
    obtain ⟨k, hk, -⟩ := processCharLiteral_spec _ h3
    exact ⟨k, hk⟩
  by_cases h4 : charAt s0.sourceCode (skipToToken s0).currentPos = DQUOTE
  · rw [getNextToken_dquote h4]
    rw [← hsrc] at h4
    obtain ⟨k, n, hk, -⟩ := processStringLiteral_spec _ h4
    exact ⟨k, hk⟩
  by_cases h5 : isTwoCharOperatorStart (skipToToken s0)
      (charAt s0.sourceCode (skipToToken s0).currentPos) = true
  · rw [getNextToken_twoChar h5]
    rw [← hsrc] at h5
    exact ⟨2, (processTwoCharOperator_spec _ h5).1⟩
  · rw [getNextToken_single h0 (by simpa using h1) (by simpa using h2) h3 h4 (by simpa using h5)]
    have hb := (skipToToken_spec s0).2.2.1
    have hn : charAt s0.sourceCode (skipToToken s0).currentPos ≠ '\n' :=
      isBlank_ne hb (by decide)
    rw [← hsrc] at h0 hn ⊢
    exact ⟨1, (processSingleCharOperator_spec _ hn h0).1⟩

/-- A call that returns a token other than end-of-input moves the scan offset
forward, to an offset within the text. -/
theorem getNextToken_progress (s : State) (h : (getNextToken s).1.type ≠ TOKEN_EOF) :
    s.currentPos < (lexerStep s).currentPos ∧
      (lexerStep s).currentPos ≤ s.sourceCode.length := by
  rcases getNextToken_spec s with ⟨-, e⟩ | ⟨-, k, hk⟩
  · rw [e] at h; exact absurd rfl h
  · obtain ⟨hs, hpos, -⟩ := hk
    have h1 := (skipToToken_spec s).1
    have h2 := hs.currentPos_eq
    have h3 := hs.in_text hpos
    rw [skipToToken_sourceCode] at h3
    simp only [lexerStep]
    omega

/-- A call never moves the scan offset backwards. -/
theorem getNextToken_currentPos_le (s : State) : s.currentPos ≤ (lexerStep s).currentPos := by
  rcases getNextToken_spec s with ⟨-, e⟩ | ⟨-, k, hk⟩
  · simp only [lexerStep, e]; exact (skipToToken_spec s).1
  · have h1 := (skipToToken_spec s).1
    have h2 := hk.1.currentPos_eq
    simp only [lexerStep]
    omega

theorem lexerStep_sourceCode (s : State) : (lexerStep s).sourceCode = s.sourceCode :=
  (getNextToken_frame s).1

theorem skipToToken_of_drop {s : State} {c : Char} {rest : List Char}
    (h : s.sourceCode.drop s.currentPos = c :: rest) (hb : isBlank c = false) (hs : c ≠ '/') :
    skipToToken s = s := by
  have hc := charAt_of_drop h
  exact (skipToToken_spec s).2.2.2.2 (by rw [hc]; exact hb) (by rw [hc]; exact hs)

theorem initLexer_eq (s : State) (code : List Char) :
    initLexer s code = { lexerStep (lexerStart s code) with
      currentToken := (getNextToken (lexerStart s code)).1 } := rfl

theorem initLexer_currentToken (s : State) (code : List Char) :
    (initLexer s code).currentToken = (getNextToken (lexerStart s code)).1 := rfl

theorem lexerStart_drop (s : State) (code : List Char) :
    (lexerStart s code).sourceCode.drop (lexerStart s code).currentPos = code := rfl

/-- A lookahead that starts no statement and no declaration ends the
compilation with the error flag set. -/
theorem parseProgram_invalid_statement {s : State} (n : Nat) (he : s.hasError = false)
    (ht : s.currentToken.type = TOKEN_ERROR ∨ s.currentToken.type = TOKEN_STRING_LITERAL) :
    parseProgram (n + 2) s = some (advance (syntaxError s "Sentencia no valida".toList)) ∧
      (advance (syntaxError s "Sentencia no valida".toList)).hasError = true := by
  have h2 : (advance (syntaxError s "Sentencia no valida".toList)).hasError = true := by
    simp [syntaxError]
  refine ⟨?_, h2⟩
  have e1 : parseStatement (n + 1) s =
      some (advance (syntaxError s "Sentencia no valida".toList)) := by
    rcases ht with ht | ht <;> simp [parseStatement, ht]
  have e2 : parseProgram (n + 2) s = (parseStatement (n + 1) s).bind (parseProgram (n + 1)) := by
    rcases ht with ht | ht <;> simp [parseProgram, ht, he]
  rw [e2, e1, Option.some_bind]
  exact parseProgram_stop n h2

theorem compile_invalid_first_token (code : List Char) (n : Nat)
    (ht : (getNextToken (lexerStart initialState code)).1.type = TOKEN_ERROR ∨
      (getNextToken (lexerStart initialState code)).1.type = TOKEN_STRING_LITERAL) :
    ∃ r, compile (n + 2) code = some r ∧ r.hasError = true := by
  have he : (initLexer (initParser (initSemantic initialState)) code).hasError = false := by
    simp [initLexer, initParser]
  have ht2 : (initLexer (initParser (initSemantic initialState)) code).currentToken.type =
      TOKEN_ERROR ∨
      (initLexer (initParser (initSemantic initialState)) code).currentToken.type =
      TOKEN_STRING_LITERAL := ht
  obtain ⟨h1, h2⟩ := parseProgram_invalid_statement n he ht2
  exact ⟨_, h1, h2⟩

theorem charAt_append_length (body rest : List Char) :
    charAt (body ++ rest) body.length = rest.headD NUL := by
  induction body with
  | nil => cases rest <;> rfl
  | cons c body ih => simpa [charAt] using ih

theorem charAt_append_mem (body rest : List Char) (n : Nat) (h : n < body.length) :
    charAt (body ++ rest) n ∈ body := by
  induction body generalizing n with
  | nil => simp at h
  | cons c body ih =>
    cases n with
    | zero => simp [charAt]
    | succ n =>
      have := ih n (by simpa using h)
      simp only [charAt, List.cons_append, List.getD_cons_succ] at this ⊢
      exact List.mem_cons_of_mem _ this

/-- The character that follows a text which ends the input or is followed by a
newline is the end of the input or the newline. -/
theorem headD_of_end {rest : List Char} (h : rest = [] ∨ rest.head? = some '\n') :
    rest.headD NUL = NUL ∨ rest.headD NUL = '\n' := by
  rcases h with e | e
  · left; rw [e]; rfl
  · right
    cases rest with
    | nil => cases e
    | cons c rest1 =>
      simp only [List.head?_cons, Option.some.injEq] at e
      rw [e]; rfl

/-! ### Lines and columns of the tokens -/

theorem lexerStep_synced (s : State) (h : CountersSynced s) :
    CountersSynced (lexerStep s) ∧
    ((getNextToken s).1.type ≠ TOKEN_EOF →
      (getNextToken s).1.line = lineAt s.sourceCode (skipToToken s).currentPos ∧
      (getNextToken s).1.column = columnAt s.sourceCode (skipToToken s).currentPos) := by
  obtain ⟨hl, hc⟩ := h
  have hsrc := skipToToken_sourceCode s
  have hinv : LineSynced (skipToToken s) ∧ (ColumnSynced (skipToToken s) ∨
      charAt s.sourceCode (skipToToken s).currentPos = NUL) := by
    rcases hc with hc | hc
    · exact (skipToToken_spec s).2.2.2.1 hl hc
    · have e : skipToToken s = s :=
        (skipToToken_spec s).2.2.2.2 (by rw [hc]; exact isBlank_NUL) (by rw [hc]; decide)
      rw [e]
      exact ⟨hl, Or.inr hc⟩
  rcases getNextToken_spec s with ⟨h0, e⟩ | ⟨h0, k, hk⟩
  · constructor
    · simp only [lexerStep, e]
      exact ⟨hinv.1, Or.inr (by rw [hsrc]; exact h0)⟩
    · intro hne
      rw [e] at hne
      exact absurd rfl hne
  · have hcol : ColumnSynced (skipToToken s) := by
      rcases hinv.2 with h1 | h1
      · exact h1
      · exact absurd h1 h0
    obtain ⟨hs, -, hline, hcolumn, -, -⟩ := hk
    constructor
    · exact ⟨hs.lineSynced hinv.1, Or.inl (hs.columnSynced hcol)⟩
    · intro _
      rw [hline, hcolumn, ← hsrc]
      exact ⟨hinv.1, hcol⟩

theorem tokenizerState_sourceCode (code : List Char) (n : Nat) :
    (tokenizerState code n).sourceCode = code := by
  induction n with
  | zero => rfl
  | succ n ih =>
    simp only [tokenizerState, Function.iterate_succ_apply'] at ih ⊢
    rw [lexerStep_sourceCode, ih]

theorem tokenizerState_synced (code : List Char) (n : Nat) :
    CountersSynced (tokenizerState code n) := by
  induction n with
  | zero =>
    refine ⟨?_, Or.inl ?_⟩
    · simp [LineSynced, tokenizerState, lexerStart, lineAt]
    · simp [ColumnSynced, tokenizerState, lexerStart, columnAt]
  | succ n ih =>
    simp only [tokenizerState, Function.iterate_succ_apply'] at ih ⊢
    exact (lexerStep_synced _ ih).1

/-! ### Words and numbers -/

theorem isKeyword_eq_keywordKind (w : List Char) : isKeyword w = keywordKind w := by
  unfold isKeyword
  by_cases h0 : w = "entero".toList
  · subst h0; decide
  by_cases h1 : w = "caracter".toList
  · subst h1; decide
  by_cases h2 : w = "real".toList
  · subst h2; decide
  by_cases h3 : w = "si".toList
  · subst h3; decide
  by_cases h4 : w = "sino".toList
  · subst h4; decide
  by_cases h5 : w = "mientras".toList
  · subst h5; decide
  by_cases h6 : w = "repetir".toList
  · subst h6; decide
  by_cases h7 : w = "hasta".toList
  · subst h7; decide
  by_cases h8 : w = "leer".toList
  · subst h8; decide
  by_cases h9 : w = "escribir".toList
  · subst h9; decide
  by_cases h10 : w = "y".toList
  · subst h10; decide
  by_cases h11 : w = "o".toList
  · subst h11; decide
  by_cases h12 : w = "no".toList
  · subst h12; decide
  rw [if_neg h0, if_neg h1, if_neg h2, if_neg h3, if_neg h4, if_neg h5, if_neg h6, if_neg h7,
    if_neg h8, if_neg h9, if_neg h10, if_neg h11, if_neg h12]
  have b : ∀ k : List Char, w ≠ k → (w == k) = false := fun k hk => by simpa using hk
  simp only [keywordKind, keywordTable, List.lookup, b _ h0, b _ h1, b _ h2, b _ h3, b _ h4,
    b _ h5, b _ h6, b _ h7, b _ h8, b _ h9, b _ h10, b _ h11, b _ h12]
  rfl

/-- Beyond the range of `int` the value of `atoi` is the low 32 bits of the `long`,
read in two's complement. -/
theorem atoi_beyond_int :
    atoi "2147483647".toList = 2147483647 ∧
    atoi "2147483648".toList = -2147483648 ∧
    atoi "99999999999".toList = 1215752191 ∧
    atoi "9223372036854775808".toList = -1 := by
  decide

theorem substring_of_drop {code : List Char} {p : Nat} {w rest : List Char}
    (h : code.drop p = w ++ rest) : substring code p w.length = w := by
  simp [substring, h]

/-! ### The unread input never grows -/

theorem advance_currentPos (s : State) : (advance s).currentPos = (lexerStep s).currentPos := rfl

theorem advance_type (s : State) : (advance s).currentToken.type = (getNextToken s).1.type := rfl

theorem unread_advance (s : State) :
    unread (advance s) ≤ unread s ∧
      (s.currentToken.type ≠ TOKEN_EOF → unread (advance s) < unread s) := by
  have hle := getNextToken_currentPos_le s
  simp only [unread, advance_sourceCode, advance_currentPos, advance_type]
  by_cases he : (getNextToken s).1.type = TOKEN_EOF
  · rw [if_pos he]
    constructor
    · omega
    · intro hs
      rw [if_neg hs]
      omega
  · rw [if_neg he]
    obtain ⟨h1, h2⟩ := getNextToken_progress s he
    constructor
    · omega
    · intro hs
      rw [if_neg hs]
      omega

theorem unread_congr {s r : State} (h : SameLexer s r) : unread r = unread s := by
  obtain ⟨h1, h2, -, -, h5⟩ := h
  simp only [unread, h1, h2, h5]

theorem unread_step : ParserStep fun s r => unread r ≤ unread s where
  refl := fun _ => le_refl _
  trans := fun _ _ _ h1 h2 => le_trans h2 h1
  advance := fun s => (unread_advance s).1
  syntaxError := fun s m => le_of_eq (unread_congr (syntaxError_sameLexer s m))
  semanticError := fun s m => le_of_eq (unread_congr (semanticError_sameLexer s m))
  insertSymbol := fun s name type => le_of_eq (unread_congr (insertSymbol_sameLexer s name type))
  checkAssignmentCompatibility := fun s var e =>
    le_of_eq (unread_congr (checkAssignmentCompatibility_sameLexer s var e))
  readTarget := fun s i => le_of_eq (unread_congr (readTarget_sameLexer s i))

theorem match_unread (k : TokenType) (s : State) :
    unread (match_ k s) ≤ unread s ∧
      ((match_ k s).hasError = true ∨ unread (match_ k s) < unread s ∨ k = TOKEN_EOF) := by
  unfold match_
  split
  · rename_i h
    refine ⟨(unread_advance s).1, ?_⟩
    by_cases hk : k = TOKEN_EOF
    · exact Or.inr (Or.inr hk)
    · exact Or.inr (Or.inl ((unread_advance s).2 (by rw [h]; exact hk)))
  · exact ⟨le_of_eq (unread_congr (syntaxError_sameLexer s _)), Or.inl rfl⟩

/-- A successful or failed `match` of a kind other than end-of-input makes
progress: it reads a token or sets the error flag. -/
theorem match_progress {k : TokenType} (s : State) (hk : k ≠ TOKEN_EOF) :
    (match_ k s).hasError = true ∨ unread (match_ k s) < unread s := by
  rcases (match_unread k s).2 with h | h | h
  · exact Or.inl h
  · exact Or.inr h
  · exact absurd h hk

/-! ### Every parsing function returns -/

theorem parseFactor_mono {n m : Nat} {s r : State} (hm : n ≤ m)
    (h : parseFactor n s = some r) : parseFactor m s = some r :=
  (expression_mono_all n).2.2.2.2 m s r hm h

theorem parseTerm_mono {n m : Nat} {s r : State} (hm : n ≤ m)
    (h : parseTerm n s = some r) : parseTerm m s = some r :=
  (expression_mono_all n).2.2.1 m s r hm h

theorem parseTermLoop_mono {n m : Nat} {s r : State} (hm : n ≤ m)
    (h : parseTermLoop n s = some r) : parseTermLoop m s = some r :=
  (expression_mono_all n).2.2.2.1 m s r hm h

theorem parseExpressionLoop_mono {n m : Nat} {s r : State} (hm : n ≤ m)
    (h : parseExpressionLoop n s = some r) : parseExpressionLoop m s = some r :=
  (expression_mono_all n).2.1 m s r hm h

theorem expression_terminates_all : ∀ N,
    (∀ s, unread s ≤ N → ∃ fuel r, parseFactor fuel s = some r) ∧
    (∀ s, unread s ≤ N → ∃ fuel r, parseTermLoop fuel s = some r) ∧
    (∀ s, unread s ≤ N → ∃ fuel r, parseTerm fuel s = some r) ∧
    (∀ s, unread s ≤ N → ∃ fuel r, parseExpressionLoop fuel s = some r) ∧
    (∀ s, unread s ≤ N → ∃ fuel r, parseExpression fuel s = some r) := by
  intro N
  induction N using Nat.strong_induction_on with
  | _ N ih =>
    have hF : ∀ s, unread s ≤ N → ∃ fuel r, parseFactor fuel s = some r := by
      intro s hs
      by_cases hL : s.currentToken.type = TOKEN_LPAREN
      · have hlt : unread (match_ TOKEN_LPAREN s) < unread s := by
          rw [match_same_kind hL]
          exact (unread_advance s).2 (by rw [hL]; decide)
        obtain ⟨f1, r1, h1⟩ := (ih _ (by omega)).2.2.2.2 (match_ TOKEN_LPAREN s) (le_refl _)
        exact ⟨f1 + 1, match_ TOKEN_RPAREN r1, by simp [parseFactor, hL, h1]⟩
      · refine ⟨1, ?_⟩
        simp only [parseFactor, hL, if_false]
        split_ifs <;> exact ⟨_, rfl⟩
    have hTL : ∀ s, unread s ≤ N → ∃ fuel r, parseTermLoop fuel s = some r := by
      intro s hs
      by_cases hc : s.currentToken.type = TOKEN_MULTIPLY ∨ s.currentToken.type = TOKEN_DIVIDE ∨
          s.currentToken.type = TOKEN_MOD
      · have hlt : unread (match_ s.currentToken.type s) < unread s := by
          rw [match_same_kind rfl]
          exact (unread_advance s).2 (by rcases hc with e | e | e <;> rw [e] <;> decide)
        obtain ⟨f1, r1, h1⟩ := (ih _ (by omega)).1 (match_ s.currentToken.type s) (le_refl _)
        have hr1 := unread_step.toExprStep.parseFactor h1
        obtain ⟨f2, r, h2⟩ := (ih _ (by omega)).2.1 r1 hr1
        refine ⟨max f1 f2 + 1, r, ?_⟩
        rw [parseTermLoop, if_pos hc, parseFactor_mono (le_max_left f1 f2) h1, Option.some_bind]
        exact parseTermLoop_mono (le_max_right f1 f2) h2
      · exact ⟨1, s, by simp only [parseTermLoop, if_neg hc]⟩
    have hT : ∀ s, unread s ≤ N → ∃ fuel r, parseTerm fuel s = some r := by
      intro s hs
      obtain ⟨f1, r1, h1⟩ := hF s hs
      have hr1 := unread_step.toExprStep.parseFactor h1
      obtain ⟨f2, r, h2⟩ := hTL r1 (by omega)
      refine ⟨max f1 f2 + 1, r, ?_⟩
      rw [parseTerm, parseFactor_mono (le_max_left f1 f2) h1, Option.some_bind]
      exact parseTermLoop_mono (le_max_right f1 f2) h2
    have hEL : ∀ s, unread s ≤ N → ∃ fuel r, parseExpressionLoop fuel s = some r := by
      intro s hs
      by_cases hc : s.currentToken.type = TOKEN_PLUS ∨ s.currentToken.type = TOKEN_MINUS
      · have hlt : unread (match_ s.currentToken.type s) < unread s := by
          rw [match_same_kind rfl]
          exact (unread_advance s).2 (by rcases hc with e | e <;> rw [e] <;> decide)
        obtain ⟨f1, r1, h1⟩ := (ih _ (by omega)).2.2.1 (match_ s.currentToken.type s) (le_refl _)
        have hr1 := unread_step.toExprStep.parseTerm h1
        obtain ⟨f2, r, h2⟩ := (ih _ (by omega)).2.2.2.1 r1 hr1
        refine ⟨max f1 f2 + 1, r, ?_⟩
        rw [parseExpressionLoop, if_pos hc, parseTerm_mono (le_max_left f1 f2) h1,
          Option.some_bind]
        exact parseExpressionLoop_mono (le_max_right f1 f2) h2
      · exact ⟨1, s, by simp only [parseExpressionLoop, if_neg hc]⟩
    have hE : ∀ s, unread s ≤ N → ∃ fuel r, parseExpression fuel s = some r := by
      intro s hs
      obtain ⟨f1, r1, h1⟩ := hT s hs
      have hr1 := unread_step.toExprStep.parseTerm h1
      obtain ⟨f2, r, h2⟩ := hEL r1 (by omega)
      refine ⟨max f1 f2 + 1, r, ?_⟩
      rw [parseExpression, parseTerm_mono (le_max_left f1 f2) h1, Option.some_bind]
      exact parseExpressionLoop_mono (le_max_right f1 f2) h2
    exact ⟨hF, hTL, hT, hEL, hE⟩

theorem parseExpression_terminates (s : State) : ∃ fuel r, parseExpression fuel s = some r :=
  (expression_terminates_all (unread s)).2.2.2.2 s (le_refl _)

theorem parseConditionLoop_mono {n m : Nat} {s r : State} (hm : n ≤ m)
    (h : parseConditionLoop n s = some r) : parseConditionLoop m s = some r :=
  (condition_mono_all n).2 m s r hm h

theorem condition_terminates_all : ∀ N,
    (∀ s, unread s ≤ N → ∃ fuel r, parseConditionLoop fuel s = some r) ∧
    (∀ s, unread s ≤ N → ∃ fuel r, parseCondition fuel s = some r) := by
  intro N
  induction N using Nat.strong_induction_on with
  | _ N ih =>
    have hCL : ∀ s, unread s ≤ N → ∃ fuel r, parseConditionLoop fuel s = some r := by
      intro s hs
      by_cases hc : s.currentToken.type = TOKEN_AND ∨ s.currentToken.type = TOKEN_OR
      · have hlt : unread (match_ s.currentToken.type s) < unread s := by
          rw [match_same_kind rfl]
          exact (unread_advance s).2 (by rcases hc with e | e <;> rw [e] <;> decide)
        obtain ⟨f1, r1, h1⟩ := (ih _ (by omega)).2 (match_ s.currentToken.type s) (le_refl _)
        have hr1 := unread_step.toExprStep.parseCondition h1
        obtain ⟨f2, r, h2⟩ := (ih _ (by omega)).1 r1 hr1
        refine ⟨max f1 f2 + 1, r, ?_⟩
        rw [parseConditionLoop, if_pos hc, parseCondition_mono (le_max_left f1 f2) h1,
          Option.some_bind]
        exact parseConditionLoop_mono (le_max_right f1 f2) h2
      · exact ⟨1, s, by simp only [parseConditionLoop, if_neg hc]⟩
    refine ⟨hCL, ?_⟩
    intro s hs
    obtain ⟨f1, s1, h1⟩ := parseExpression_terminates s
    have hs1 := unread_step.toExprStep.parseExpression h1
    -- the relational operator and the right operand
    have h2 : ∃ f2 s2, ∀ m, f2 ≤ m →
        (if s1.currentToken.type = TOKEN_EQUAL ∨ s1.currentToken.type = TOKEN_NOT_EQUAL ∨
            s1.currentToken.type = TOKEN_LESS ∨ s1.currentToken.type = TOKEN_LESS_EQUAL ∨
            s1.currentToken.type = TOKEN_GREATER ∨
            s1.currentToken.type = TOKEN_GREATER_EQUAL then
          parseExpression m (match_ s1.currentToken.type s1)
        else
          some (syntaxError s1 "Se esperaba operador relacional en condici\xc3\xb3n".toList)) =
          some s2 ∧ unread s2 ≤ unread s1 := by
      split_ifs with hrel
      · obtain ⟨f2, s2, e2⟩ := parseExpression_terminates (match_ s1.currentToken.type s1)
        refine ⟨f2, s2, fun m hm => ⟨parseExpression_mono hm e2, ?_⟩⟩
        exact le_trans (unread_step.toExprStep.parseExpression e2) (match_unread _ _).1
      · exact ⟨0, _, fun m _ => ⟨rfl, le_of_eq (unread_congr (syntaxError_sameLexer _ _))⟩⟩
    obtain ⟨f2, s2, h2⟩ := h2
    have hs2 := (h2 f2 (le_refl _)).2
    obtain ⟨f3, s3, h3⟩ := hCL s2 (by omega)
    have hs3 := (unread_step.toExprStep.condition_all f3).2 _ _ h3
    -- the negation
    have h4 : ∃ f4 r, ∀ m, f4 ≤ m →
        (if s3.currentToken.type = TOKEN_NOT then parseCondition m (match_ TOKEN_NOT s3)
         else some s3) = some r := by
      split_ifs with hnot
      · have hlt : unread (match_ TOKEN_NOT s3) < unread s3 := by
          rw [match_same_kind hnot]
          exact (unread_advance s3).2 (by rw [hnot]; decide)
        obtain ⟨f4, r, e4⟩ := (ih _ (by omega)).2 (match_ TOKEN_NOT s3) (le_refl _)
        exact ⟨f4, r, fun m hm => parseCondition_mono hm e4⟩
      · exact ⟨0, s3, fun m _ => rfl⟩
    obtain ⟨f4, r, h4⟩ := h4
    refine ⟨max (max f1 f2) (max f3 f4) + 1, r, ?_⟩
    rw [parseCondition, parseExpression_mono (by omega) h1, Option.some_bind,
      (h2 _ (by omega)).1, Option.some_bind, parseConditionLoop_mono (by omega) h3,
      Option.some_bind]
    exact h4 _ (by omega)

theorem parseCondition_terminates (s : State) : ∃ fuel r, parseCondition fuel s = some r :=
  (condition_terminates_all (unread s)).2 s (le_refl _)

theorem ParserStep.and {P Q : State → State → Prop} (hP : ParserStep P) (hQ : ParserStep Q) :
    ParserStep fun s r => P s r ∧ Q s r where
  refl := fun s => ⟨hP.refl s, hQ.refl s⟩
  trans := fun a b c h1 h2 => ⟨hP.trans a b c h1.1 h2.1, hQ.trans a b c h1.2 h2.2⟩
  advance := fun s => ⟨hP.advance s, hQ.advance s⟩
  syntaxError := fun s m => ⟨hP.syntaxError s m, hQ.syntaxError s m⟩
  semanticError := fun s m => ⟨hP.semanticError s m, hQ.semanticError s m⟩
  insertSymbol := fun s n t => ⟨hP.insertSymbol s n t, hQ.insertSymbol s n t⟩
  checkAssignmentCompatibility := fun s v e =>
    ⟨hP.checkAssignmentCompatibility s v e, hQ.checkAssignmentCompatibility s v e⟩
  readTarget := fun s i => ⟨hP.readTarget s i, hQ.readTarget s i⟩

/-- Across every step the unread input does not grow and a set error flag stays
set. -/
theorem settled_step :
    ParserStep fun s r => unread r ≤ unread s ∧ (s.hasError = true → r.hasError = true) :=
  unread_step.and sticky_step

/-- Progress made by a first step is kept by the steps that follow. -/
theorem progress_then {s a r : State} (h1 : a.hasError = true ∨ unread a < unread s)
    (h2 : unread r ≤ unread a ∧ (a.hasError = true → r.hasError = true)) :
    r.hasError = true ∨ unread r < unread s := by
  rcases h1 with h | h
  · exact Or.inl (h2.2 h)
  · exact Or.inr (by omega)

theorem processAssignmentVariable_progress (s : State) :
    (processAssignmentVariable s).2.hasError = true ∨
      unread (processAssignmentVariable s).2 < unread s := by
  unfold processAssignmentVariable
  split
  · exact Or.inl rfl
  · dsimp only
    split
    · left
      exact (sticky_step.toExprStep.match_step _ _) rfl
    · exact match_progress s (by decide)

theorem parseAssignment_progress {n : Nat} {s r : State} (h : parseAssignment n s = some r) :
    r.hasError = true ∨ unread r < unread s := by
  simp only [parseAssignment, Option.map_eq_some'] at h
  obtain ⟨s1, h1, rfl⟩ := h
  refine progress_then (processAssignmentVariable_progress s) ?_
  refine settled_step.trans _ _ _ (settled_step.toExprStep.match_step _ _)
    (settled_step.trans _ _ _ (settled_step.toExprStep.parseExpression h1)
      (settled_step.trans _ _ _ ?_ (settled_step.toExprStep.match_step _ _)))
  unfold checkAssignmentSemantics
  split
  · exact settled_step.refl _
  · exact settled_step.checkAssignmentCompatibility _ _ _

theorem parseReadStatement_progress (s : State) :
    (parseReadStatement s).hasError = true ∨ unread (parseReadStatement s) < unread s := by
  refine progress_then (match_progress (k := TOKEN_LEER) s (by decide)) ?_
  unfold parseReadStatement parseReadParameters
  exact settled_step.trans _ _ _ (settled_step.toExprStep.match_step _ _)
    (settled_step.trans _ _ _ (settled_step.processReadIdentifier _)
      (settled_step.trans _ _ _ (settled_step.toExprStep.match_step _ _)
        (settled_step.toExprStep.match_step _ _)))

theorem parseWriteStatement_progress {n : Nat} {s r : State}
    (h : parseWriteStatement n s = some r) : r.hasError = true ∨ unread r < unread s := by
  simp only [parseWriteStatement, parseWriteParameters, Option.map_eq_some'] at h
  obtain ⟨s2, ⟨s1, h1, rfl⟩, rfl⟩ := h
  refine progress_then (match_progress (k := TOKEN_ESCRIBIR) s (by decide)) ?_
  exact settled_step.trans _ _ _ (settled_step.toExprStep.match_step _ _)
    (settled_step.trans _ _ _ (settled_step.toExprStep.parseExpression h1)
      (settled_step.trans _ _ _ (settled_step.toExprStep.match_step _ _)
        (settled_step.toExprStep.match_step _ _)))

theorem parseStatement_progress {n : Nat} {s r : State} (h : parseStatement n s = some r) :
    r.hasError = true ∨ unread r < unread s := by
  cases n with
  | zero => simp [parseStatement] at h
  | succ n =>
    simp only [parseStatement] at h
    split_ifs at h
    · exact parseAssignment_progress h
    · cases n with
      | zero => simp [parseIfStatement] at h
      | succ n =>
        simp only [parseIfStatement, Option.bind_eq_some] at h
        obtain ⟨s1, h1, s2, h2, h3⟩ := h
        refine progress_then (match_progress (k := TOKEN_SI) s (by decide)) ?_
        exact settled_step.trans _ _ _ (settled_step.toExprStep.parseIfCondition h1)
          (settled_step.trans _ _ _ (settled_step.parseBlock h2)
            ((settled_step.statement_all _).2.2.2.1 _ _ h3))
    · cases n with
      | zero => simp [parseWhileStatement] at h
      | succ n =>
        simp only [parseWhileStatement, Option.bind_eq_some] at h
        obtain ⟨s1, h1, h2⟩ := h
        refine progress_then (match_progress (k := TOKEN_MIENTRAS) s (by decide)) ?_
        exact settled_step.trans _ _ _ (settled_step.toExprStep.parseWhileCondition h1)
          (settled_step.parseBlock h2)
    · cases n with
      | zero => simp [parseRepeatStatement] at h
      | succ n =>
        simp only [parseRepeatStatement, Option.bind_eq_some] at h
        obtain ⟨s1, h1, h2⟩ := h
        refine progress_then (match_progress (k := TOKEN_REPETIR) s (by decide)) ?_
        exact settled_step.trans _ _ _ (settled_step.parseBlock h1)
          (settled_step.toExprStep.parseUntilCondition h2)
    · cases h
      exact parseReadStatement_progress s
    · exact parseWriteStatement_progress h
    · cases h
      left
      exact (sticky_step.advance _) rfl

theorem parseDeclaration_progress {n : Nat} {s r : State} (h : parseDeclaration n s = some r) :
    r.hasError = true ∨ unread r < unread s := by
  simp only [parseDeclaration, parseDataType, Option.map_eq_some'] at h
  obtain ⟨s1, h1, rfl⟩ := h
  by_cases ht : getDataTypeFromToken s = TYPE_ERROR
  · simp only [ht, if_true, ne_eq, not_true_eq_false, if_false, Option.some.injEq] at h1
    subst h1
    left
    exact (sticky_step.toExprStep.match_step _ _) rfl
  · simp only [ht, if_false, ne_eq, not_false_eq_true, if_true, parseIdentifierList] at h1
    have hne : s.currentToken.type ≠ TOKEN_EOF := by
      intro e
      apply ht
      simp [getDataTypeFromToken, e]
    refine progress_then (match_progress s hne) ?_
    exact settled_step.trans _ _ _ (settled_step.processVariableDeclaration _ _)
      (settled_step.trans _ _ _ (settled_step.parseIdentifierListLoop _ _ _ _ h1)
        (settled_step.toExprStep.match_step _ _))

theorem parseIfCondition_terminates (s : State) : ∃ fuel r, parseIfCondition fuel s = some r := by
  obtain ⟨f, r, h⟩ := parseCondition_terminates (match_ TOKEN_LPAREN s)
  exact ⟨f, _, by rw [parseIfCondition, h]; rfl⟩

theorem parseWhileCondition_terminates (s : State) :
    ∃ fuel r, parseWhileCondition fuel s = some r := by
  obtain ⟨f, r, h⟩ := parseCondition_terminates (match_ TOKEN_LPAREN s)
  exact ⟨f, _, by rw [parseWhileCondition, h]; rfl⟩

theorem parseUntilCondition_terminates (s : State) :
    ∃ fuel r, parseUntilCondition fuel s = some r := by
  obtain ⟨f, r, h⟩ := parseCondition_terminates (match_ TOKEN_LPAREN (match_ TOKEN_HASTA s))
  exact ⟨f, _, by rw [parseUntilCondition, h]; rfl⟩

theorem parseWriteStatement_terminates (s : State) :
    ∃ fuel r, parseWriteStatement fuel s = some r := by
  obtain ⟨f, r, h⟩ := parseExpression_terminates (match_ TOKEN_LPAREN (match_ TOKEN_ESCRIBIR s))
  exact ⟨f, _, by rw [parseWriteStatement, parseWriteParameters, h]; rfl⟩

theorem parseAssignment_terminates (s : State) : ∃ fuel r, parseAssignment fuel s = some r := by
  obtain ⟨f, r, h⟩ := parseExpression_terminates
    (match_ TOKEN_ASSIGN (processAssignmentVariable s).2)
  exact ⟨f, _, by simp only [parseAssignment, h]; rfl⟩

theorem parseIdentifierListLoop_terminates (varType : DataType) : ∀ N s, unread s ≤ N →
    ∃ fuel r, parseIdentifierListLoop varType fuel s = some r := by
  intro N
  induction N using Nat.strong_induction_on with
  | _ N ih =>
    intro s hs
    by_cases hc : s.currentToken.type = TOKEN_COMMA
    · have hlt : unread (match_ TOKEN_COMMA s) < unread s := by
        rw [match_same_kind hc]
        exact (unread_advance s).2 (by rw [hc]; decide)
      have hle := unread_step.processVariableDeclaration varType (match_ TOKEN_COMMA s)
      obtain ⟨f, r, h⟩ := ih _ (by omega : unread (processVariableDeclaration varType
        (match_ TOKEN_COMMA s)) < N) _ (le_refl _)
      exact ⟨f + 1, r, by rw [parseIdentifierListLoop, if_pos hc]; exact h⟩
    · exact ⟨1, s, by rw [parseIdentifierListLoop, if_neg hc]⟩

theorem parseDeclaration_terminates (s : State) : ∃ fuel r, parseDeclaration fuel s = some r := by
  by_cases ht : (parseDataType s).1 ≠ TYPE_ERROR
  · obtain ⟨f, r, h⟩ := parseIdentifierListLoop_terminates (parseDataType s).1 _
      (processVariableDeclaration (parseDataType s).1 (parseDataType s).2) (le_refl _)
    refine ⟨f, match_ TOKEN_SEMICOLON r, ?_⟩
    simp only [parseDeclaration, if_pos ht, parseIdentifierList, h]
    rfl
  · exact ⟨0, _, by simp only [parseDeclaration, if_neg ht]; rfl⟩

theorem parseBlockLoop_stop {s : State} (n : Nat) (h : s.hasError = true) :
    parseBlockLoop (n + 1) s = some s := by
  simp [parseBlockLoop, h]

theorem statement_terminates_all : ∀ N,
    (∀ s, unread s ≤ N → ∃ fuel r, parseBlock fuel s = some r) ∧
    (∀ s, unread s ≤ N → ∃ fuel r, parseElseBlock fuel s = some r) ∧
    (∀ s, unread s ≤ N → ∃ fuel r, parseIfStatement fuel s = some r) ∧
    (∀ s, unread s ≤ N → ∃ fuel r, parseWhileStatement fuel s = some r) ∧
    (∀ s, unread s ≤ N → ∃ fuel r, parseRepeatStatement fuel s = some r) ∧
    (∀ s, unread s ≤ N → ∃ fuel r, parseStatement fuel s = some r) ∧
    (∀ s, unread s ≤ N → ∃ fuel r, parseBlockLoop fuel s = some r) := by
  intro N
  induction N using Nat.strong_induction_on with
  | _ N ih =>
    have hB : ∀ s, unread s ≤ N → ∃ fuel r, parseBlock fuel s = some r := by
      intro s hs
      have h1 : ∃ f1 r1, parseBlockLoop f1 (match_ TOKEN_LBRACE s) = some r1 := by
        rcases match_progress (k := TOKEN_LBRACE) s (by decide) with he | hlt
        · exact ⟨1, _, parseBlockLoop_stop 0 he⟩
        · exact (ih _ (by omega)).2.2.2.2.2.2 _ (le_refl _)
      obtain ⟨f1, r1, h1⟩ := h1
      exact ⟨f1 + 1, match_ TOKEN_RBRACE r1, by rw [parseBlock, h1]; rfl⟩
    have hEB : ∀ s, unread s ≤ N → ∃ fuel r, parseElseBlock fuel s = some r := by
      intro s hs
      by_cases hc : s.currentToken.type = TOKEN_SINO
      · obtain ⟨f, r, h⟩ := hB (match_ TOKEN_SINO s)
          (le_trans (match_unread _ _).1 hs)
        exact ⟨f + 1, r, by rw [parseElseBlock, if_pos hc]; exact h⟩
      · exact ⟨1, s, by rw [parseElseBlock, if_neg hc]⟩
    have hI : ∀ s, unread s ≤ N → ∃ fuel r, parseIfStatement fuel s = some r := by
      intro s hs
      obtain ⟨f1, s1, h1⟩ := parseIfCondition_terminates (match_ TOKEN_SI s)
      have hs1 := le_trans (unread_step.toExprStep.parseIfCondition h1) (match_unread _ _).1
      obtain ⟨f2, s2, h2⟩ := hB s1 (by omega)
      have hs2 := unread_step.parseBlock h2
      obtain ⟨f3, r, h3⟩ := hEB s2 (by omega)
      refine ⟨max f1 (max f2 f3) + 1, r, ?_⟩
      rw [parseIfStatement, parseIfCondition_mono (by omega) h1, Option.some_bind,
        parseBlock_mono (by omega) h2, Option.some_bind]
      exact parseElseBlock_mono (by omega) h3
    have hW : ∀ s, unread s ≤ N → ∃ fuel r, parseWhileStatement fuel s = some r := by
      intro s hs
      obtain ⟨f1, s1, h1⟩ := parseWhileCondition_terminates (match_ TOKEN_MIENTRAS s)
      have hs1 := le_trans (unread_step.toExprStep.parseWhileCondition h1) (match_unread _ _).1
      obtain ⟨f2, r, h2⟩ := hB s1 (by omega)
      refine ⟨max f1 f2 + 1, r, ?_⟩
      rw [parseWhileStatement, parseWhileCondition_mono (by omega) h1, Option.some_bind]
      exact parseBlock_mono (by omega) h2
    have hR : ∀ s, unread s ≤ N → ∃ fuel r, parseRepeatStatement fuel s = some r := by
      intro s hs
      obtain ⟨f1, s1, h1⟩ := hB (match_ TOKEN_REPETIR s) (le_trans (match_unread _ _).1 hs)
      obtain ⟨f2, r, h2⟩ := parseUntilCondition_terminates s1
      refine ⟨max f1 f2 + 1, r, ?_⟩
      rw [parseRepeatStatement, parseBlock_mono (by omega) h1, Option.some_bind]
      exact parseUntilCondition_mono (by omega) h2
    have hS : ∀ s, unread s ≤ N → ∃ fuel r, parseStatement fuel s = some r := by
      intro s hs
      by_cases c1 : s.currentToken.type = TOKEN_IDENTIFIER
      · obtain ⟨f, r, h⟩ := parseAssignment_terminates s
        exact ⟨f + 1, r, by rw [parseStatement, if_pos c1]; exact h⟩
      by_cases c2 : s.currentToken.type = TOKEN_SI
      · obtain ⟨f, r, h⟩ := hI s hs
        exact ⟨f + 1, r, by rw [parseStatement, if_neg c1, if_pos c2]; exact h⟩
      by_cases c3 : s.currentToken.type = TOKEN_MIENTRAS
      · obtain ⟨f, r, h⟩ := hW s hs
        exact ⟨f + 1, r, by rw [parseStatement, if_neg c1, if_neg c2, if_pos c3]; exact h⟩
      by_cases c4 : s.currentToken.type = TOKEN_REPETIR
      · obtain ⟨f, r, h⟩ := hR s hs
        exact ⟨f + 1, r, by
          rw [parseStatement, if_neg c1, if_neg c2, if_neg c3, if_pos c4]; exact h⟩
      by_cases c5 : s.currentToken.type = TOKEN_LEER
      · exact ⟨1, _, by
          rw [parseStatement, if_neg c1, if_neg c2, if_neg c3, if_neg c4, if_pos c5]⟩
      by_cases c6 : s.currentToken.type = TOKEN_ESCRIBIR
      · obtain ⟨f, r, h⟩ := parseWriteStatement_terminates s
        exact ⟨f + 1, r, by
          rw [parseStatement, if_neg c1, if_neg c2, if_neg c3, if_neg c4, if_neg c5, if_pos c6]
          exact h⟩
      · exact ⟨1, _, by
          rw [parseStatement, if_neg c1, if_neg c2, if_neg c3, if_neg c4, if_neg c5, if_neg c6]⟩
    have hBL : ∀ s, unread s ≤ N → ∃ fuel r, parseBlockLoop fuel s = some r := by
      intro s hs
      by_cases hc : s.currentToken.type ≠ TOKEN_RBRACE ∧ s.currentToken.type ≠ TOKEN_EOF ∧
          s.hasError = false
      · obtain ⟨f1, s1, h1⟩ := hS s hs
        have h2 : ∃ f2 r, parseBlockLoop f2 s1 = some r := by
          rcases parseStatement_progress h1 with he | hlt
          · exact ⟨1, _, parseBlockLoop_stop 0 he⟩
          · exact (ih _ (by omega)).2.2.2.2.2.2 _ (le_refl _)
        obtain ⟨f2, r, h2⟩ := h2
        refine ⟨max f1 f2 + 1, r, ?_⟩
        rw [parseBlockLoop, if_pos hc, parseStatement_mono (by omega) h1, Option.some_bind]
        exact parseBlockLoop_mono (by omega) h2
      · exact ⟨1, s, by rw [parseBlockLoop, if_neg hc]⟩
    exact ⟨hB, hEB, hI, hW, hR, hS, hBL⟩

theorem parseStatement_terminates (s : State) : ∃ fuel r, parseStatement fuel s = some r :=
  (statement_terminates_all (unread s)).2.2.2.2.2.1 s (le_refl _)

theorem parseProgram_terminates_aux : ∀ N s, unread s ≤ N →
    ∃ fuel r, parseProgram fuel s = some r := by
  intro N
  induction N using Nat.strong_induction_on with
  | _ N ih =>
    intro s hs
    by_cases hc : s.currentToken.type ≠ TOKEN_EOF ∧ s.hasError = false
    · have h1 : ∃ f1 s1, (∀ m, f1 ≤ m →
          (if s.currentToken.type = TOKEN_ENTERO ∨ s.currentToken.type = TOKEN_CARACTER ∨
              s.currentToken.type = TOKEN_REAL then parseDeclaration m s
           else parseStatement m s) = some s1) ∧
          (s1.hasError = true ∨ unread s1 < unread s) := by
        split_ifs
        · obtain ⟨f1, s1, h1⟩ := parseDeclaration_terminates s
          exact ⟨f1, s1, fun m hm => parseDeclaration_mono hm h1, parseDeclaration_progress h1⟩
        · obtain ⟨f1, s1, h1⟩ := parseStatement_terminates s
          exact ⟨f1, s1, fun m hm => parseStatement_mono hm h1, parseStatement_progress h1⟩
      obtain ⟨f1, s1, h1, hp⟩ := h1
      have h2 : ∃ f2 r, parseProgram f2 s1 = some r := by
        rcases hp with he | hlt
        · exact ⟨1, _, parseProgram_stop 0 he⟩
        · exact ih _ (by omega) _ (le_refl _)
      obtain ⟨f2, r, h2⟩ := h2
      refine ⟨max f1 f2 + 1, r, ?_⟩
      rw [parseProgram, if_pos hc, h1 _ (by omega), Option.some_bind]
      exact parseProgram_mono _ _ _ _ (by omega) h2
    · exact ⟨1, s, by rw [parseProgram, if_neg hc]⟩

/-- `parseProgram` returns from every state. -/
theorem parseProgram_terminates (s : State) : ∃ fuel r, parseProgram fuel s = some r :=
  parseProgram_terminates_aux (unread s) s (le_refl _)

/-- Every compilation ends. -/
theorem compile_terminates (code : List Char) :
    ∃ fuel r, ∀ m, fuel ≤ m → compile m code = some r := by
  obtain ⟨f, r, h⟩ := parseProgram_terminates
    (initLexer (initParser (initSemantic initialState)) code)
  exact ⟨f, r, fun m hm => compile_mono hm h⟩

/-- A compilation ends at the end of the input or with the error flag set. -/
theorem parseProgram_end : ∀ n s r, parseProgram n s = some r →
    r.currentToken.type = TOKEN_EOF ∨ r.hasError = true := by
  intro n
  induction n with
  | zero => simp [parseProgram]
  | succ n ih =>
    intro s r h
    simp only [parseProgram] at h
    split at h
    · simp only [Option.bind_eq_some] at h
      obtain ⟨s1, -, h2⟩ := h
      exact ih _ _ h2
    · rename_i hc
      cases h
      by_cases he : s.currentToken.type = TOKEN_EOF
      · exact Or.inl he
      · right
        simp only [he, not_false_eq_true, true_and, Bool.not_eq_false, ne_eq] at hc
        exact hc

/-! ### What holds across the steps the parser takes holds across the parser -/

theorem GuardedStep.expression_all_guarded {P : State → State → Prop} (hP : GuardedStep P) : ∀ n,
    (∀ s r, parseExpression n s = some r → P s r) ∧
    (∀ s r, parseExpressionLoop n s = some r → P s r) ∧
    (∀ s r, parseTerm n s = some r → P s r) ∧
    (∀ s r, parseTermLoop n s = some r → P s r) ∧
    (∀ s r, parseFactor n s = some r → P s r) := by
  intro n
  induction n with
  | zero => simp [parseExpression, parseExpressionLoop, parseTerm, parseTermLoop, parseFactor]
  | succ n ih =>
    obtain ⟨ihE, ihEL, ihT, ihTL, ihF⟩ := ih
    refine ⟨?_, ?_, ?_, ?_, ?_⟩
    · intro s r h
      simp only [parseExpression, Option.bind_eq_some] at h
      obtain ⟨s1, h1, h2⟩ := h
      exact hP.trans _ _ _ (ihT _ _ h1) (ihEL _ _ h2)
    · intro s r h
      simp only [parseExpressionLoop] at h
      split_ifs at h with hc
      · simp only [Option.bind_eq_some] at h
        obtain ⟨s1, h1, h2⟩ := h
        have hk : s.currentToken.type ∈ grammarKinds := by
          rcases hc with e | e <;> rw [e] <;> decide
        exact hP.trans _ _ _ (hP.matched _ _ hk) (hP.trans _ _ _ (ihT _ _ h1) (ihEL _ _ h2))
      · cases h
        exact hP.refl _
    · intro s r h
      simp only [parseTerm, Option.bind_eq_some] at h
      obtain ⟨s1, h1, h2⟩ := h
      exact hP.trans _ _ _ (ihF _ _ h1) (ihTL _ _ h2)
    · intro s r h
      simp only [parseTermLoop] at h
      split_ifs at h with hc
      · simp only [Option.bind_eq_some] at h
        obtain ⟨s1, h1, h2⟩ := h
        have hk : s.currentToken.type ∈ grammarKinds := by
          rcases hc with e | e | e <;> rw [e] <;> decide
        exact hP.trans _ _ _ (hP.matched _ _ hk) (hP.trans _ _ _ (ihF _ _ h1) (ihTL _ _ h2))
      · cases h
        exact hP.refl _
    · intro s r h
      simp only [parseFactor] at h
      split_ifs at h
      · cases h
        exact hP.trans _ _ _ (hP.semanticError _ _) (hP.matched _ _ (by decide))
      · cases h
        exact hP.matched _ _ (by decide)
      · cases h
        exact hP.matched _ _ (by decide)
      · cases h
        exact hP.matched _ _ (by decide)
      · cases h
        exact hP.matched _ _ (by decide)
      · simp only [Option.map_eq_some'] at h
        obtain ⟨s1, h1, rfl⟩ := h
        exact hP.trans _ _ _ (hP.matched _ _ (by decide))
          (hP.trans _ _ _ (ihE _ _ h1) (hP.matched _ _ (by decide)))
      · cases h
        exact hP.syntaxError _ _

theorem GuardedStep.parseExpression_guarded {P : State → State → Prop} (hP : GuardedStep P)
    {n : Nat} {s r : State} (h : parseExpression n s = some r) : P s r :=
  (hP.expression_all_guarded n).1 s r h

theorem GuardedStep.parseFactor_guarded {P : State → State → Prop} (hP : GuardedStep P)
    {n : Nat} {s r : State} (h : parseFactor n s = some r) : P s r :=
  (hP.expression_all_guarded n).2.2.2.2 s r h

theorem GuardedStep.condition_all_guarded {P : State → State → Prop} (hP : GuardedStep P) : ∀ n,
    (∀ s r, parseCondition n s = some r → P s r) ∧
    (∀ s r, parseConditionLoop n s = some r → P s r) := by
  intro n
  induction n with
  | zero => simp [parseCondition, parseConditionLoop]
  | succ n ih =>
    obtain ⟨ihC, ihCL⟩ := ih
    refine ⟨?_, ?_⟩
    · intro s r h
      simp only [Compilador.parseCondition, Option.bind_eq_some] at h
      obtain ⟨s1, h1, s2, h2, s3, h3, h4⟩ := h
      have p1 : P s s1 := hP.parseExpression_guarded h1
      have p2 : P s1 s2 := by
        split_ifs at h2 with hc
        · have hk : s1.currentToken.type ∈ grammarKinds := by
            rcases hc with e | e | e | e | e | e <;> rw [e] <;> decide
          exact hP.trans _ _ _ (hP.matched _ _ hk) (hP.parseExpression_guarded h2)
        · cases h2
          exact hP.syntaxError _ _
      have p3 : P s2 s3 := ihCL _ _ h3
      have p4 : P s3 r := by
        split_ifs at h4
        · exact hP.trans _ _ _ (hP.matched _ _ (by decide)) (ihC _ _ h4)
        · cases h4
          exact hP.refl _
      exact hP.trans _ _ _ p1 (hP.trans _ _ _ p2 (hP.trans _ _ _ p3 p4))
    · intro s r h
      simp only [Compilador.parseConditionLoop] at h
      split_ifs at h with hc
      · simp only [Option.bind_eq_some] at h
        obtain ⟨s1, h1, h2⟩ := h
        have hk : s.currentToken.type ∈ grammarKinds := by
          rcases hc with e | e <;> rw [e] <;> decide
        exact hP.trans _ _ _ (hP.matched _ _ hk) (hP.trans _ _ _ (ihC _ _ h1) (ihCL _ _ h2))
      · cases h
        exact hP.refl _

theorem GuardedStep.parseCondition_guarded {P : State → State → Prop} (hP : GuardedStep P)
    {n : Nat} {s r : State} (h : parseCondition n s = some r) : P s r :=
  (hP.condition_all_guarded n).1 s r h

theorem GuardedStep.parseWriteStatement_guarded {P : State → State → Prop} (hP : GuardedStep P)
    {n : Nat} {s r : State} (h : parseWriteStatement n s = some r) : P s r := by
  simp only [Compilador.parseWriteStatement, parseWriteParameters, Option.map_eq_some'] at h
  obtain ⟨s2, ⟨s1, h1, rfl⟩, rfl⟩ := h
  exact hP.trans _ _ _ (hP.matched _ _ (by decide)) (hP.trans _ _ _ (hP.matched _ _ (by decide))
    (hP.trans _ _ _ (hP.parseExpression_guarded h1)
      (hP.trans _ _ _ (hP.matched _ _ (by decide)) (hP.matched _ _ (by decide)))))

theorem GuardedStep.parenCondition {P : State → State → Prop} (hP : GuardedStep P)
    {n : Nat} {s r : State}
    (h : (Compilador.parseCondition n (match_ TOKEN_LPAREN s)).map (match_ TOKEN_RPAREN) = some r) :
    P s r := by
  simp only [Option.map_eq_some'] at h
  obtain ⟨s1, h1, rfl⟩ := h
  exact hP.trans _ _ _ (hP.matched _ _ (by decide))
    (hP.trans _ _ _ (hP.parseCondition_guarded h1) (hP.matched _ _ (by decide)))

theorem GuardedStep.parseUntilCondition_guarded {P : State → State → Prop} (hP : GuardedStep P)
    {n : Nat} {s r : State} (h : parseUntilCondition n s = some r) : P s r := by
  simp only [Compilador.parseUntilCondition, Option.map_eq_some'] at h
  obtain ⟨s1, h1, rfl⟩ := h
  exact hP.trans _ _ _ (hP.matched _ _ (by decide)) (hP.trans _ _ _ (hP.matched _ _ (by decide))
    (hP.trans _ _ _ (hP.parseCondition_guarded h1)
      (hP.trans _ _ _ (hP.matched _ _ (by decide)) (hP.matched _ _ (by decide)))))

theorem GuardedStep.processVariableDeclaration_guarded {P : State → State → Prop}
    (hP : GuardedStep P) (varType : DataType) (s : State) :
    P s (processVariableDeclaration varType s) := by
  unfold Compilador.processVariableDeclaration
  split
  · exact hP.syntaxError _ _
  · dsimp only
    refine hP.trans s (Compilador.insertSymbol s s.currentToken.lexeme varType).2 _
      (hP.insertSymbol _ _ _) (hP.trans _ _ _ ?_ (hP.matched _ _ (by decide)))
    split
    · exact hP.syntaxError _ _
    · exact hP.refl _

theorem GuardedStep.parseIdentifierListLoop_guarded {P : State → State → Prop} (hP : GuardedStep P)
    (varType : DataType) : ∀ n s r, parseIdentifierListLoop varType n s = some r → P s r := by
  intro n
  induction n with
  | zero => simp [Compilador.parseIdentifierListLoop]
  | succ n ih =>
    intro s r h
    simp only [Compilador.parseIdentifierListLoop] at h
    split at h
    · exact hP.trans _ _ _ (hP.matched _ _ (by decide))
        (hP.trans _ _ _ (hP.processVariableDeclaration_guarded _ _) (ih _ _ h))
    · cases h
      exact hP.refl _

theorem GuardedStep.parseDeclaration_guarded {P : State → State → Prop} (hP : GuardedStep P)
    {n : Nat} {s r : State} (h : parseDeclaration n s = some r) : P s r := by
  simp only [Compilador.parseDeclaration, parseDataType, Option.map_eq_some'] at h
  obtain ⟨s1, h1, rfl⟩ := h
  refine hP.trans _ _ _ ?_ (hP.matched _ _ (by decide))
  by_cases ht : getDataTypeFromToken s = TYPE_ERROR
  · simp only [ht, if_true, ne_eq, not_true_eq_false, if_false, Option.some.injEq] at h1 ⊢
    subst h1
    exact hP.syntaxError _ _
  · simp only [ht, if_false, ne_eq, not_false_eq_true, if_true, parseIdentifierList] at h1 ⊢
    have hk : s.currentToken.type ∈ grammarKinds := by
      unfold getDataTypeFromToken at ht
      split_ifs at ht with e1 e2 e3
      · rw [e1]; decide
      · rw [e2]; decide
      · rw [e3]; decide
      · exact absurd rfl ht
    exact hP.trans _ _ _ (hP.matched _ _ hk) (hP.trans _ _ _ (hP.processVariableDeclaration_guarded _ _)
      (hP.parseIdentifierListLoop_guarded _ _ _ _ h1))

theorem GuardedStep.processAssignmentVariable_guarded {P : State → State → Prop}
    (hP : GuardedStep P) (s : State) : P s (processAssignmentVariable s).2 := by
  unfold Compilador.processAssignmentVariable
  split
  · exact hP.syntaxError _ _
  · dsimp only
    refine hP.trans _ _ _ ?_ (hP.matched _ _ (by decide))
    split
    · exact hP.semanticError _ _
    · exact hP.refl _

theorem GuardedStep.parseAssignment_guarded {P : State → State → Prop} (hP : GuardedStep P)
    {n : Nat} {s r : State} (h : parseAssignment n s = some r) : P s r := by
  simp only [Compilador.parseAssignment, Option.map_eq_some'] at h
  obtain ⟨s1, h1, rfl⟩ := h
  refine hP.trans _ _ _ (hP.processAssignmentVariable_guarded s)
    (hP.trans _ _ _ (hP.matched _ _ (by decide))
      (hP.trans _ _ _ (hP.parseExpression_guarded h1) (hP.trans _ _ _ ?_ (hP.matched _ _ (by decide)))))
  unfold checkAssignmentSemantics
  split
  · exact hP.refl _
  · exact hP.checkAssignmentCompatibility _ _ _

theorem GuardedStep.processReadIdentifier_guarded {P : State → State → Prop} (hP : GuardedStep P)
    (s : State) : P s (processReadIdentifier s) := by
  unfold Compilador.processReadIdentifier
  split
  · exact hP.syntaxError _ _
  · dsimp only
    refine hP.trans _ _ _ ?_ (hP.matched _ _ (by decide))
    split
    · exact hP.semanticError _ _
    · exact hP.readTarget _ _

theorem GuardedStep.parseReadStatement_guarded {P : State → State → Prop} (hP : GuardedStep P)
    (s : State) : P s (parseReadStatement s) := by
  unfold Compilador.parseReadStatement parseReadParameters
  exact hP.trans _ _ _ (hP.matched _ _ (by decide)) (hP.trans _ _ _ (hP.matched _ _ (by decide))
    (hP.trans _ _ _ (hP.processReadIdentifier_guarded _)
      (hP.trans _ _ _ (hP.matched _ _ (by decide)) (hP.matched _ _ (by decide)))))

theorem GuardedStep.statement_all_guarded {P : State → State → Prop} (hP : GuardedStep P) : ∀ n,
    (∀ s r, parseStatement n s = some r → P s r) ∧
    (∀ s r, parseBlock n s = some r → P s r) ∧
    (∀ s r, parseBlockLoop n s = some r → P s r) ∧
    (∀ s r, parseElseBlock n s = some r → P s r) ∧
    (∀ s r, parseIfStatement n s = some r → P s r) ∧
    (∀ s r, parseWhileStatement n s = some r → P s r) ∧
    (∀ s r, parseRepeatStatement n s = some r → P s r) := by
  intro n
  induction n with
  | zero =>
    simp [parseStatement, parseBlock, parseBlockLoop, parseElseBlock, parseIfStatement,
      parseWhileStatement, parseRepeatStatement]
  | succ n ih =>
    obtain ⟨ihS, ihB, ihBL, ihEB, ihI, ihW, ihR⟩ := ih
    refine ⟨?_, ?_, ?_, ?_, ?_, ?_, ?_⟩
    · intro s r h
      simp only [parseStatement] at h
      split_ifs at h
      · exact hP.parseAssignment_guarded h
      · exact ihI _ _ h
      · exact ihW _ _ h
      · exact ihR _ _ h
      · cases h
        exact hP.parseReadStatement_guarded _
      · exact hP.parseWriteStatement_guarded h
      · cases h
        exact hP.recovery _ _
    · intro s r h
      simp only [parseBlock, Option.map_eq_some'] at h
      obtain ⟨s1, h1, rfl⟩ := h
      exact hP.trans _ _ _ (hP.matched _ _ (by decide))
        (hP.trans _ _ _ (ihBL _ _ h1) (hP.matched _ _ (by decide)))
    · intro s r h
      simp only [parseBlockLoop] at h
      split at h
      · simp only [Option.bind_eq_some] at h
        obtain ⟨s1, h1, h2⟩ := h
        exact hP.trans _ _ _ (ihS _ _ h1) (ihBL _ _ h2)
      · cases h
        exact hP.refl _
    · intro s r h
      simp only [parseElseBlock] at h
      split at h
      · exact hP.trans _ _ _ (hP.matched _ _ (by decide)) (ihB _ _ h)
      · cases h
        exact hP.refl _
    · intro s r h
      simp only [parseIfStatement, parseIfCondition, Option.bind_eq_some] at h
      obtain ⟨s1, h1, s2, h2, h3⟩ := h
      exact hP.trans _ _ _ (hP.matched _ _ (by decide)) (hP.trans _ _ _ (hP.parenCondition h1)
        (hP.trans _ _ _ (ihB _ _ h2) (ihEB _ _ h3)))
    · intro s r h
      simp only [parseWhileStatement, parseWhileCondition, Option.bind_eq_some] at h
      obtain ⟨s1, h1, h2⟩ := h
      exact hP.trans _ _ _ (hP.matched _ _ (by decide)) (hP.trans _ _ _ (hP.parenCondition h1)
        (ihB _ _ h2))
    · intro s r h
      simp only [parseRepeatStatement, Option.bind_eq_some] at h
      obtain ⟨s1, h1, h2⟩ := h
      exact hP.trans _ _ _ (hP.matched _ _ (by decide)) (hP.trans _ _ _ (ihB _ _ h1)
        (hP.parseUntilCondition_guarded h2))

theorem GuardedStep.parseStatement_guarded {P : State → State → Prop} (hP : GuardedStep P)
    {n : Nat} {s r : State} (h : parseStatement n s = some r) : P s r :=
  (hP.statement_all_guarded n).1 s r h

theorem GuardedStep.parseBlock_guarded {P : State → State → Prop} (hP : GuardedStep P)
    {n : Nat} {s r : State} (h : parseBlock n s = some r) : P s r :=
  (hP.statement_all_guarded n).2.1 s r h

theorem GuardedStep.parseProgram_guarded {P : State → State → Prop} (hP : GuardedStep P) :
    ∀ n s r, parseProgram n s = some r → P s r := by
  intro n
  induction n with
  | zero => simp [Compilador.parseProgram]
  | succ n ih =>
    intro s r h
    simp only [Compilador.parseProgram] at h
    split at h
    · simp only [Option.bind_eq_some] at h
      obtain ⟨s1, h1, h2⟩ := h
      refine hP.trans _ _ _ ?_ (ih _ _ h2)
      split at h1
      · exact hP.parseDeclaration_guarded h1
      · exact hP.parseStatement_guarded h1
    · cases h
      exact hP.refl _

/-! ### No rule moves past a string literal or an error token without an error -/

theorem advance_iterate_congr {a b : State} (h : SameLexer a b) :
    ∀ k, SameLexer (advance^[k] a) (advance^[k] b) := by
  intro k
  induction k with
  | zero => exact h
  | succ k ih =>
    rw [Function.iterate_succ_apply', Function.iterate_succ_apply']
    exact advance_congr ih

theorem advance_iterate_hasError (s : State) (k : Nat) :
    (advance^[k] s).hasError = s.hasError := by
  induction k with
  | zero => rfl
  | succ k ih => rw [Function.iterate_succ_apply', advance_hasError, ih]

theorem RejectsBadTokens.of_sameLexer {s r : State} (h : SameLexer s r)
    (he : s.hasError = true → r.hasError = true) : RejectsBadTokens s r :=
  ⟨he, 0, h, fun j hj => absurd hj (Nat.not_lt_zero j)⟩

theorem RejectsBadTokens.comp {a b c : State} (h1 : RejectsBadTokens a b)
    (h2 : RejectsBadTokens b c) : RejectsBadTokens a c := by
  obtain ⟨e1, n1, l1, b1⟩ := h1
  obtain ⟨e2, n2, l2, b2⟩ := h2
  refine ⟨fun h => e2 (e1 h), n2 + n1, ?_, ?_⟩
  · rw [Function.iterate_add_apply]
    exact (advance_iterate_congr l1 n2).lexer_trans l2
  · intro j hj hr
    by_cases hlt : j < n1
    · exact e2 (b1 j hlt hr)
    · obtain ⟨i, rfl⟩ : ∃ i, j = i + n1 := ⟨j - n1, by omega⟩
      rw [Function.iterate_add_apply] at hr
      have := (advance_iterate_congr l1 i).2.2.2.2
      rw [← this] at hr
      exact b2 i (by omega) hr

theorem Rejected.not_grammarKind {k : TokenType} (h : Rejected k) : k ∉ grammarKinds := by
  rcases h with e | e <;> rw [e] <;> decide

theorem rejectsBadTokens_step : GuardedStep RejectsBadTokens where
  refl := fun s => RejectsBadTokens.of_sameLexer (SameLexer.lexer_refl s) (fun h => h)
  trans := fun _ _ _ h1 h2 => h1.comp h2
  matched := fun expected s hk => by
    unfold match_
    split
    · rename_i he
      refine ⟨fun h => by rw [advance_hasError]; exact h, 1, SameLexer.lexer_refl _, ?_⟩
      intro j hj hr
      have : j = 0 := by omega
      subst this
      have hr2 : Rejected s.currentToken.type := hr
      rw [he] at hr2
      exact absurd hk hr2.not_grammarKind
    · exact RejectsBadTokens.of_sameLexer (syntaxError_sameLexer s _) (fun _ => rfl)
  recovery := fun s message => by
    have he : (advance (syntaxError s message)).hasError = true := by
      rw [advance_hasError]; rfl
    exact ⟨fun _ => he, 1, advance_congr (syntaxError_sameLexer s message), fun _ _ _ => he⟩
  syntaxError := fun s m =>
    RejectsBadTokens.of_sameLexer (syntaxError_sameLexer s m) (fun _ => rfl)
  semanticError := fun s m =>
    RejectsBadTokens.of_sameLexer (semanticError_sameLexer s m) (fun _ => rfl)
  insertSymbol := fun s name type =>
    RejectsBadTokens.of_sameLexer (insertSymbol_sameLexer s name type)
      (sticky_step.insertSymbol s name type)
  checkAssignmentCompatibility := fun s var e =>
    RejectsBadTokens.of_sameLexer (checkAssignmentCompatibility_sameLexer s var e)
      (sticky_step.checkAssignmentCompatibility s var e)
  readTarget := fun s i =>
    RejectsBadTokens.of_sameLexer (readTarget_sameLexer s i) (fun h => h)

/-- A rule entered with a rejected lookahead ends with the error flag set or
having read nothing. -/
theorem RejectsBadTokens.rejected_lookahead {s r : State} (h : RejectsBadTokens s r)
    (hr : Rejected s.currentToken.type) : r.hasError = true ∨ SameLexer s r := by
  obtain ⟨-, n, l, b⟩ := h
  cases n with
  | zero => exact Or.inr l
  | succ n => exact Or.inl (b 0 (Nat.succ_pos n) hr)

theorem parseFactor_rejected {n : Nat} {s r : State} (h : parseFactor n s = some r)
    (hr : Rejected s.currentToken.type) : r.hasError = true := by
  cases n with
  | zero => simp [parseFactor] at h
  | succ n =>
    have e : parseFactor (n + 1) s = some (syntaxError s
        "Se esperaba identificador, n\xc3\xbamero o expresi\xc3\xb3n entre par\xc3\xa9ntesis".toList) := by
      rcases hr with e | e <;> simp [parseFactor, e]
    rw [e] at h
    cases h
    rfl

theorem parseStatement_rejected {n : Nat} {s r : State} (h : parseStatement n s = some r)
    (hr : Rejected s.currentToken.type) : r.hasError = true := by
  cases n with
  | zero => simp [parseStatement] at h
  | succ n =>
    have e : parseStatement (n + 1) s =
        some (advance (syntaxError s "Sentencia no valida".toList)) := by
      rcases hr with e | e <;> simp [parseStatement, e]
    rw [e] at h
    cases h
    rw [advance_hasError]
    rfl

theorem lookaheadState_sameLexer (code : List Char) (j : Nat) :
    SameLexer (lookaheadState code j)
      (advance^[j] (initLexer (initParser (initSemantic initialState)) code)) := by
  refine advance_iterate_congr ?_ j
  simp only [initLexer]
  exact advance_congr ⟨rfl, rfl, rfl, rfl, rfl⟩

/-! ### Tokens that fit the lexeme buffer -/

/-- C11: what the code does on the nine programs `T v; v := L;`.  Every one of
them compiles with the error flag clear, the one with a character target and a
real literal included: the type handed to the compatibility check is read off the
`;` after the literal, which counts as integer, so an integer target prints
nothing, a real target prints the integer-to-real information line and a character
target prints the integer-to-character warning, whatever the literal is. -/
theorem C11_literal_assignments_all_compile (fuel : Nat) :
    (compile (fuel + 10) "entero v; v := 1;".toList).map State.summary = some (false, []) ∧
    (compile (fuel + 10) "entero v; v := 2.5;".toList).map State.summary = some (false, []) ∧
    (compile (fuel + 10) "entero v; v := 'A';".toList).map State.summary = some (false, []) ∧
    (compile (fuel + 10) "real v; v := 1;".toList).map State.summary =
      some (false, [Diagnostic.info "Conversion automatica de entero a real".toList]) ∧
    (compile (fuel + 10) "real v; v := 2.5;".toList).map State.summary =
      some (false, [Diagnostic.info "Conversion automatica de entero a real".toList]) ∧
    (compile (fuel + 10) "real v; v := 'A';".toList).map State.summary =
      some (false, [Diagnostic.info "Conversion automatica de entero a real".toList]) ∧
    (compile (fuel + 10) "caracter v; v := 1;".toList).map State.summary =
      some (false, [Diagnostic.advertencia
        "Asignacion de entero a caracter (conversion automatica)".toList]) ∧
    (compile (fuel + 10) "caracter v; v := 2.5;".toList).map State.summary =
      some (false, [Diagnostic.advertencia
        "Asignacion de entero a caracter (conversion automatica)".toList]) ∧
    (compile (fuel + 10) "caracter v; v := 'A';".toList).map State.summary =
      some (false, [Diagnostic.advertencia
        "Asignacion de entero a caracter (conversion automatica)".toList]) := by
  refine ⟨?_, ?_, ?_, ?_, ?_, ?_, ?_, ?_, ?_⟩ <;>
    exact @compile_map_mono _ 10 _ _ _ _ (by omega) (by decide)

/-- C12, as stated, fails: compiling `real r; r := 'A';` ends with the error flag
clear. -/
theorem C12_character_to_real_compiles :
    ∃ r, compile 10 "real r; r := 'A';".toList = some r ∧ r.hasError = false := by
  have h : (compile 10 "real r; r := 'A';".toList).map State.summary =
      some (false, [Diagnostic.info "Conversion automatica de entero a real".toList]) := by
    decide
  simp only [Option.map_eq_some', State.summary, Prod.mk.injEq] at h
  obtain ⟨r, h1, h2, -⟩ := h
  exact ⟨r, h1, h2⟩

/-- C12, amended: compiling `real r; r := 'A';` succeeds, and so does compiling
`entero i; i := 'A';`: in both runs the error flag is clear at the end and the
variable is the only symbol of the table, with its declared type and
`initialized = 1`. -/
theorem C12_character_literal_assignments (fuel : Nat) :
    (∃ r, compile (fuel + 10) "real r; r := 'A';".toList = some r ∧ r.hasError = false ∧
      r.symbolTable = [Symbol.mk "r".toList TYPE_REAL (SymbolValue.realValue 0) true]) ∧
    (∃ r, compile (fuel + 10) "entero i; i := 'A';".toList = some r ∧ r.hasError = false ∧
      r.symbolTable = [Symbol.mk "i".toList TYPE_ENTERO (SymbolValue.intValue 0) true]) := by
  have h1 : (compile 10 "real r; r := 'A';".toList).map
      (fun r => (r.hasError, r.symbolTable)) =
      some (false, [Symbol.mk "r".toList TYPE_REAL (SymbolValue.realValue 0) true]) := by
    decide
  have h2 : (compile 10 "entero i; i := 'A';".toList).map
      (fun r => (r.hasError, r.symbolTable)) =
      some (false, [Symbol.mk "i".toList TYPE_ENTERO (SymbolValue.intValue 0) true]) := by
    decide
  simp only [Option.map_eq_some', Prod.mk.injEq] at h1 h2
  obtain ⟨r1, c1, e1, t1⟩ := h1
  obtain ⟨r2, c2, e2, t2⟩ := h2
  exact ⟨⟨r1, compile_mono (by omega) c1, e1, t1⟩, ⟨r2, compile_mono (by omega) c2, e2, t2⟩⟩

/-- C14: with the scan offset at a `'` that is followed by the end of the text, by
a newline, or by one character that is not followed by `'`, `getNextToken` returns
a lexical-error token; so it does with the scan offset at a `"` whose text up to
the end of the input or up to a newline holds no closing `"`.  A source that starts
with such a literal compiles to failure: the run ends with the error flag set. -/
theorem C14_unterminated_literals :
    (∀ (s : State) (rest : List Char), s.sourceCode.drop s.currentPos = QUOTE :: rest →
      (rest = [] ∨ rest.head? = some '\n' ∨
        ∃ c rest1, rest = c :: rest1 ∧ rest1.head? ≠ some QUOTE) →
      (getNextToken s).1.type = TOKEN_ERROR) ∧
    (∀ (s : State) (body rest : List Char),
      s.sourceCode.drop s.currentPos = DQUOTE :: (body ++ rest) →
      (∀ c ∈ body, c ≠ DQUOTE ∧ c ≠ '\n') → (rest = [] ∨ rest.head? = some '\n') →
      (getNextToken s).1.type = TOKEN_ERROR) ∧
    (∀ (code rest : List Char), code = QUOTE :: rest →
      (rest = [] ∨ rest.head? = some '\n' ∨
        ∃ c rest1, rest = c :: rest1 ∧ rest1.head? ≠ some QUOTE) →
      ∃ r, (∀ fuel, compile (fuel + 2) code = some r) ∧ r.hasError = true) ∧
    (∀ (code body rest : List Char), code = DQUOTE :: (body ++ rest) →
      (∀ c ∈ body, c ≠ DQUOTE ∧ c ≠ '\n') → (rest = [] ∨ rest.head? = some '\n') →
      ∃ r, (∀ fuel, compile (fuel + 2) code = some r) ∧ r.hasError = true) := by
  have hq : ∀ (s : State) (rest : List Char), s.sourceCode.drop s.currentPos = QUOTE :: rest →
      (rest = [] ∨ rest.head? = some '\n' ∨
        ∃ c rest1, rest = c :: rest1 ∧ rest1.head? ≠ some QUOTE) →
      (getNextToken s).1.type = TOKEN_ERROR := by
    intro s rest h hrest
    have hc0 := charAt_of_drop h
    have e0 : skipToToken s = s := skipToToken_of_drop h (by decide) (by decide)
    have e1 : getNextToken s = processCharLiteral s := by
      have := @getNextToken_quote s (by rw [e0]; exact hc0)
      rw [e0] at this
      exact this
    obtain ⟨k, -, -, hiff⟩ := processCharLiteral_spec s hc0
    rw [e1, hiff]
    have h1 := drop_succ_of_drop h
    rcases hrest with e | e | ⟨c, rest1, e, hne⟩
    · rw [e] at h1
      exact Or.inl (charAt_of_drop_nil h1)
    · cases rest with
      | nil => cases e
      | cons c rest1 =>
        simp only [List.head?_cons, Option.some.injEq] at e
        rw [e] at h1
        exact Or.inr (Or.inl (charAt_of_drop h1))
    · rw [e] at h1
      have h2 := drop_succ_of_drop h1
      right; right
      intro hq2
      cases rest1 with
      | nil =>
        have := charAt_of_drop_nil h2
        rw [this] at hq2
        exact absurd hq2 (by decide)
      | cons c2 rest2 =>
        have := charAt_of_drop h2
        rw [this] at hq2
        exact hne (by rw [hq2]; rfl)
  have hdq : ∀ (s : State) (body rest : List Char),
      s.sourceCode.drop s.currentPos = DQUOTE :: (body ++ rest) →
      (∀ c ∈ body, c ≠ DQUOTE ∧ c ≠ '\n') → (rest = [] ∨ rest.head? = some '\n') →
      (getNextToken s).1.type = TOKEN_ERROR := by
    intro s body rest h hbody hrest
    have hc0 := charAt_of_drop h
    have e0 : skipToToken s = s := skipToToken_of_drop h (by decide) (by decide)
    have e1 : getNextToken s = processStringLiteral s := by
      have := @getNextToken_dquote s (by rw [e0]; exact hc0)
      rw [e0] at this
      exact this
    obtain ⟨k, n, -, hn, -, hiff⟩ := processStringLiteral_spec s hc0
    rw [e1, hiff]
    have h1 := drop_succ_of_drop h
    -- the scan stops at the first NUL of the body, or at its end
    have hstop := scanWhile_stop (fun c => c != DQUOTE && c != NUL && c != '\n')
      (s.sourceCode.drop (s.currentPos + 1)) (by decide)
    rw [charAt_drop, ← hn] at hstop
    have hend := headD_of_end hrest
    have hle : n ≤ body.length := by
      rw [hn, h1]
      by_contra hgt
      have hall := scanWhile_all (fun c => c != DQUOTE && c != NUL && c != '\n')
        (body ++ rest) body.length (by omega)
      rw [charAt_append_length] at hall
      rcases hend with e | e <;> rw [e] at hall <;> exact absurd hall (by decide)
    intro hq2
    by_cases hlt : n < body.length
    · have hmem : charAt s.sourceCode (s.currentPos + 1 + n) ∈ body := by
        rw [← charAt_drop, h1]
        exact charAt_append_mem body rest n hlt
      exact (hbody _ hmem).1 hq2
    · have e : n = body.length := by omega
      have hch : charAt s.sourceCode (s.currentPos + 1 + n) = rest.headD NUL := by
        rw [← charAt_drop, h1, e]
        exact charAt_append_length body rest
      rw [hch] at hq2
      rcases hend with e | e <;> rw [e] at hq2 <;> exact absurd hq2 (by decide)
  refine ⟨hq, hdq, ?_, ?_⟩
  · intro code rest hcode hrest
    have ht := hq (lexerStart initialState code) rest hcode hrest
    obtain ⟨r, h1, h2⟩ := compile_invalid_first_token code 0 (Or.inl ht)
    exact ⟨r, fun fuel => compile_mono (by omega) h1, h2⟩
  · intro code body rest hcode hbody hrest
    have ht := hdq (lexerStart initialState code) body rest hcode hbody hrest
    obtain ⟨r, h1, h2⟩ := compile_invalid_first_token code 0 (Or.inl ht)
    exact ⟨r, fun fuel => compile_mono (by omega) h1, h2⟩

/-- C14 at concrete inputs: the sources `'A` and `"abc`. -/
theorem C14_unterminated_literals_witness :
    (getNextToken (lexerStart initialState [QUOTE, 'A'])).1.type = TOKEN_ERROR ∧
    (getNextToken (lexerStart initialState [DQUOTE, 'a', 'b', 'c'])).1.type = TOKEN_ERROR ∧
    (∃ r, (∀ fuel, compile (fuel + 2) [QUOTE, 'A'] = some r) ∧ r.hasError = true) ∧
    (∃ r, (∀ fuel, compile (fuel + 2) [DQUOTE, 'a', 'b', 'c'] = some r) ∧
      r.hasError = true) :=
  ⟨C14_unterminated_literals.1 (lexerStart initialState [QUOTE, 'A']) ['A'] rfl
      (Or.inr (Or.inr ⟨'A', [], rfl, by decide⟩)),
    C14_unterminated_literals.2.1 (lexerStart initialState [DQUOTE, 'a', 'b', 'c'])
      ['a', 'b', 'c'] [] rfl (by decide) (Or.inl rfl),
    C14_unterminated_literals.2.2.1 [QUOTE, 'A'] ['A'] rfl
      (Or.inr (Or.inr ⟨'A', [], rfl, by decide⟩)),
    C14_unterminated_literals.2.2.2 [DQUOTE, 'a', 'b', 'c'] ['a', 'b', 'c'] [] rfl
      (by decide) (Or.inl rfl)⟩

/-- C16: what the code does on two comment lines followed by `x`.  Only the
first comment is skipped: the second one is read as two division operators and
the identifier `b`, where the same source without the comments is the single
identifier `x`. -/
theorem C16_second_comment_is_tokenized :
    tokenize "// a\n// b\nx".toList =
      some [(TOKEN_DIVIDE, "/".toList), (TOKEN_DIVIDE, "/".toList),
        (TOKEN_IDENTIFIER, "b".toList), (TOKEN_IDENTIFIER, "x".toList)] ∧
    tokenize "\n\nx".toList = some [(TOKEN_IDENTIFIER, "x".toList)] := by
  decide

/-- C18: with the scan offset at a letter or an underscore, where `w` is the
maximal run of letters, digits and underscores that starts there (and `w` is
shorter than the 50 characters of the lexeme buffer), `getNextToken` consumes `w`
and returns a token with lexeme `w`; its kind is the kind of the reserved word
when `w` is, letter for letter, one of the thirteen reserved words, and identifier
otherwise. -/
theorem C18_words (s : State) (c : Char) (w rest : List Char)
    (h : s.sourceCode.drop s.currentPos = (c :: w) ++ rest)
    (hc : isLetter c = true)
    (hw : ∀ d ∈ w, isLetter d = true ∨ isDigit d = true)
    (hmax : ∀ d, rest.head? = some d → isLetter d = false ∧ isDigit d = false)
    (_ : (c :: w).length < MAX_TOKEN_LENGTH) :
    (getNextToken s).1.lexeme = c :: w ∧
    (getNextToken s).1.type = keywordKind (c :: w) ∧
    (lexerStep s).currentPos = s.currentPos + (c :: w).length := by
  have hc0 := charAt_of_drop h
  have e0 : skipToToken s = s :=
    skipToToken_of_drop h (isLetter_not_isBlank hc) (isLetter_ne hc (by decide))
  have e1 : getNextToken s = processIdentifier s := by
    have := @getNextToken_letter s (by rw [e0, hc0]; exact hc)
    rw [e0] at this
    exact this
  have hn : scanWhile (fun d => isLetter d || isDigit d) (s.sourceCode.drop s.currentPos) =
      (c :: w).length := by
    rw [h]
    refine scanWhile_append _ _ _ ?_ ?_
    · intro d hd
      rcases List.mem_cons.1 hd with e | e
      · rw [e]; simp [hc]
      · rcases hw d e with a | a <;> simp [a]
    · intro d hd
      obtain ⟨a1, a2⟩ := hmax d hd
      simp [a1, a2]
  have hlex : (processIdentifier s).1.lexeme = c :: w := by
    simp only [processIdentifier, hn, Nat.add_sub_cancel_left]
    exact substring_of_drop h
  refine ⟨by rw [e1]; exact hlex, ?_, ?_⟩
  · rw [e1, ← isKeyword_eq_keywordKind, ← hlex]
    rfl
  · simp only [lexerStep, e1, processIdentifier, hn]

/-- C18 at concrete inputs: `sino` is one keyword token; `Entero`, `sinox` and
`si_` are identifiers. -/
theorem C18_words_witness :
    ((getNextToken (lexerStart initialState "sino".toList)).1.lexeme = "sino".toList ∧
      (getNextToken (lexerStart initialState "sino".toList)).1.type = keywordKind "sino".toList ∧
      (lexerStep (lexerStart initialState "sino".toList)).currentPos = 0 + 4) ∧
    keywordKind "sino".toList = TOKEN_SINO ∧
    tokenize "sino".toList = some [(TOKEN_SINO, "sino".toList)] ∧
    tokenize "Entero".toList = some [(TOKEN_IDENTIFIER, "Entero".toList)] ∧
    tokenize "sinox".toList = some [(TOKEN_IDENTIFIER, "sinox".toList)] ∧
    tokenize "si_".toList = some [(TOKEN_IDENTIFIER, "si_".toList)] :=
  ⟨C18_words (lexerStart initialState "sino".toList) 's' "ino".toList [] rfl (by decide)
      (by decide) (by simp) (by decide),
    by decide, by decide, by decide, by decide, by decide⟩

/-- C20: for every source text whose tokens fit the lexeme buffer the compilation
ends, and a compilation that ends does so in a state `r` whose
lookahead is the token number `n` of the text for some `n`: the lookaheads that the
parser had in the course of the compilation are the tokens `0 .. n`, since the
lookahead is only ever replaced by the next token.  If any of them is a string
literal or a lexical-error token, `r` has the error flag set.  No rule moves past
such a token without an error: `match` of any kind the grammar uses reports a
syntax error and leaves the lookahead; `parseFactor` and `parseStatement` entered
with such a lookahead set the error flag; and every rule (`parseExpression`,
`parseCondition`, `parseDeclaration`, `parseBlock`, `parseProgram`) entered with
such a lookahead ends with the error flag set or with nothing read. -/
theorem C20_rejected_tokens (code : List Char) :
    (TokensFit code → ∃ fuel r, (∀ m, fuel ≤ m → compile m code = some r) ∧
      ∃ n, SameLexer (lookaheadState code n) r ∧
        ∀ j, j ≤ n → Rejected (lookaheadState code j).currentToken.type →
          r.hasError = true) ∧
    (∀ fuel r, compile fuel code = some r →
      ∃ n, SameLexer (lookaheadState code n) r ∧
        ∀ j, j ≤ n → Rejected (lookaheadState code j).currentToken.type →
          r.hasError = true) ∧
    (∀ (k : TokenType) (s : State), k ∈ grammarKinds → Rejected s.currentToken.type →
      (match_ k s).hasError = true ∧ SameLexer s (match_ k s)) ∧
    (∀ (fuel : Nat) (s r : State), Rejected s.currentToken.type →
      (parseFactor fuel s = some r → r.hasError = true) ∧
      (parseStatement fuel s = some r → r.hasError = true) ∧
      (parseExpression fuel s = some r → r.hasError = true ∨ SameLexer s r) ∧
      (parseCondition fuel s = some r → r.hasError = true ∨ SameLexer s r) ∧
      (parseDeclaration fuel s = some r → r.hasError = true ∨ SameLexer s r) ∧
      (parseBlock fuel s = some r → r.hasError = true ∨ SameLexer s r) ∧
      (parseProgram fuel s = some r → r.hasError = true ∨ SameLexer s r)) := by
  have key : ∀ fuel r, compile fuel code = some r →
      ∃ n, SameLexer (lookaheadState code n) r ∧
        ∀ j, j ≤ n → Rejected (lookaheadState code j).currentToken.type →
          r.hasError = true := by
    intro fuel r h
    have hrun : parseProgram fuel (initLexer (initParser (initSemantic initialState)) code) =
        some r := h
    obtain ⟨-, n, l, b⟩ := rejectsBadTokens_step.parseProgram_guarded _ _ _ hrun
    refine ⟨n, (lookaheadState_sameLexer code n).lexer_trans l, ?_⟩
    intro j hj hr
    have htok := (lookaheadState_sameLexer code j).2.2.2.2
    rw [← htok] at hr
    by_cases hlt : j < n
    · exact b j hlt hr
    · have e : j = n := by omega
      subst e
      rw [← l.2.2.2.2] at hr
      rcases parseProgram_end _ _ _ hrun with he | he
      · rw [he] at hr
        rcases hr with e | e <;> cases e
      · exact he
  refine ⟨fun _ => ?_, key, ?_, ?_⟩
  · obtain ⟨fuel, r, h⟩ := compile_terminates code
    exact ⟨fuel, r, h, key fuel r (h fuel (le_refl _))⟩
  · intro k s hk hr
    have hne : s.currentToken.type ≠ k := by
      intro e
      rw [e] at hr
      exact hr.not_grammarKind hk
    simp only [match_, if_neg hne]
    exact ⟨rfl, syntaxError_sameLexer s _⟩
  · intro fuel s r hr
    exact ⟨fun h => parseFactor_rejected h hr, fun h => parseStatement_rejected h hr,
      fun h => (rejectsBadTokens_step.parseExpression_guarded h).rejected_lookahead hr,
      fun h => (rejectsBadTokens_step.parseCondition_guarded h).rejected_lookahead hr,
      fun h => (rejectsBadTokens_step.parseDeclaration_guarded h).rejected_lookahead hr,
      fun h => (rejectsBadTokens_step.parseBlock_guarded h).rejected_lookahead hr,
      fun h => (rejectsBadTokens_step.parseProgram_guarded _ _ _ h).rejected_lookahead hr⟩

/-- C20 at concrete inputs: a string literal as the operand of `escribir`, and an
unknown character on the right of an assignment; both compilations end with the
error flag set. -/
theorem C20_rejected_tokens_examples :
    (lookaheadState "entero x; escribir(\"hola\");".toList 5).currentToken.type =
      TOKEN_STRING_LITERAL ∧
    (compile 10 "entero x; escribir(\"hola\");".toList).map (fun r => r.hasError) =
      some true ∧
    (lookaheadState "entero x; x := 1 @ 2;".toList 6).currentToken.type = TOKEN_ERROR ∧
    (compile 10 "entero x; x := 1 @ 2;".toList).map (fun r => r.hasError) = some true := by
  decide

/-! ### The error flag is never cleared -/

theorem getNextToken_hasError (s : State) : (getNextToken s).2.hasError = s.hasError :=
  (getNextToken_frame s).2.2.1

theorem StickyParser.of_step {f : Nat → State → Option State}
    (h : ∀ {P : State → State → Prop}, ParserStep P → ∀ n s r, f n s = some r → P s r) :
    StickyParser f :=
  fun n s r hr => h sticky_step n s r hr

theorem parseCondition_stages {n : Nat} {s r : State} (h : parseCondition (n + 1) s = some r) :
    ∃ s1 s2, parseExpression n s = some s1 ∧
      (isRelOp s1.currentToken.type → parseExpression n (match_ s1.currentToken.type s1) = some s2) ∧
      (¬ isRelOp s1.currentToken.type →
        s2 = syntaxError s1 "Se esperaba operador relacional en condici\xc3\xb3n".toList) ∧
      Sticky s2 r := by
  simp only [parseCondition, Option.bind_eq_some] at h
  obtain ⟨s1, h1, s2, h2, s3, h3, h4⟩ := h
  refine ⟨s1, s2, h1, ?_, ?_, ?_⟩
  · intro hrel
    have hrel2 : s1.currentToken.type = TOKEN_EQUAL ∨ s1.currentToken.type = TOKEN_NOT_EQUAL ∨
        s1.currentToken.type = TOKEN_LESS ∨ s1.currentToken.type = TOKEN_LESS_EQUAL ∨
        s1.currentToken.type = TOKEN_GREATER ∨ s1.currentToken.type = TOKEN_GREATER_EQUAL :=
      hrel
    rw [if_pos hrel2] at h2
    exact h2
  · intro hrel
    have hrel2 : ¬ (s1.currentToken.type = TOKEN_EQUAL ∨
        s1.currentToken.type = TOKEN_NOT_EQUAL ∨
        s1.currentToken.type = TOKEN_LESS ∨ s1.currentToken.type = TOKEN_LESS_EQUAL ∨
        s1.currentToken.type = TOKEN_GREATER ∨ s1.currentToken.type = TOKEN_GREATER_EQUAL) :=
      hrel
    rw [if_neg hrel2] at h2
    cases h2
    rfl
  · intro he
    have e3 : s3.hasError = true := (sticky_step.toExprStep.condition_all n).2 _ _ h3 he
    split_ifs at h4
    · exact sticky_step.toExprStep.parseCondition h4
        ((sticky_step.toExprStep.match_step _ _) e3)
    · cases h4
      exact e3

/-- Without a relational operator after its first expression, `parseCondition`
ends with the error flag set. -/
theorem parseCondition_no_relOp {n m : Nat} {s s1 r : State}
    (h : parseCondition m s = some r) (h1 : parseExpression n s = some s1)
    (hrel : ¬ isRelOp s1.currentToken.type) : r.hasError = true := by
  cases m with
  | zero => simp [parseCondition] at h
  | succ m =>
    obtain ⟨s1', s2, e1, -, e2, e3⟩ := parseCondition_stages h
    have a := parseExpression_mono (le_max_left n m) h1
    have b := parseExpression_mono (le_max_right n m) e1
    rw [a] at b
    cases b
    apply e3
    rw [e2 hrel]
    rfl

/-- The read statement on a declared variable, as an explicit state. -/
theorem parseReadStatement_declared {name : List Char} {s : State} {rest : List Terminal}
    {i : Nat}
    (h : TokenStream s ((TOKEN_LEER, "leer".toList) :: (TOKEN_LPAREN, "(".toList) ::
      (TOKEN_IDENTIFIER, name) :: (TOKEN_RPAREN, ")".toList) ::
      (TOKEN_SEMICOLON, ";".toList) :: rest))
    (he : s.hasError = false) (hi : lookupSymbol s name = some i) :
    parseReadStatement s = advance (advance (advance
        { advance (advance s) with symbolTable := setInitialized s.symbolTable i })) ∧
      TokenStream (parseReadStatement s) rest := by
  obtain ⟨m1, a1⟩ := Accepted.read_token h he
  obtain ⟨m2, a2⟩ := Accepted.read_token a1.1 a1.2.1
  have a02 := a1.andThen a2
  have hi2 : lookupSymbol (advance (advance s)) name = some i :=
    (lookupSymbol_congr a02.2.2 name).trans hi
  obtain ⟨ht, hl, _⟩ := a2.1.cons_inv
  obtain ⟨m3, st3⟩ := a2.1.step (readTarget_sameLexer (advance (advance s)) i)
  have e3 := processReadIdentifier_declared ht hl hi2
  have a3 := processReadIdentifier_accepts a2.1 a2.2.1 hi2
  obtain ⟨m4, a4⟩ := Accepted.read_token a3.1 a3.2.1
  obtain ⟨m5, a5⟩ := Accepted.read_token a4.1 a4.2.1
  have e : parseReadStatement s =
      advance (advance (processReadIdentifier (advance (advance s)))) := by
    simp only [parseReadStatement, parseReadParameters, m1, m2, m4, m5]
  have e4 : processReadIdentifier (advance (advance s)) = advance
      { advance (advance s) with symbolTable := setInitialized s.symbolTable i } := by
    rw [e3, m3]
    simp only [advance_symbolTable]
  refine ⟨by rw [e, e4], ?_⟩
  rw [e]
  exact a5.1

/-! ### The items that the top-level loop admits -/

theorem Admitted.prepend {s s1 r : State} {n : Nat}
    (ht : s.currentToken.type ≠ TOKEN_EOF) (he : s.hasError = false)
    (h1 : parseTopLevel n s = some s1) (h : Admitted s1 r) : Admitted s r := by
  induction h with
  | start => exact Admitted.item (Admitted.start s) ht he h1
  | item _ ht2 he2 h2 ih => exact Admitted.item ih ht2 he2 h2

/-- The state that `parseProgram` returns is reached through admitted items, and
it is a state that the loop test rejects. -/
theorem parseProgram_admitted : ∀ n s r, parseProgram n s = some r →
    Admitted s r ∧ (r.currentToken.type = TOKEN_EOF ∨ r.hasError = true) := by
  intro n
  induction n with
  | zero => simp [parseProgram]
  | succ n ih =>
    intro s r h
    simp only [parseProgram] at h
    split at h
    · rename_i hc
      simp only [Option.bind_eq_some] at h
      obtain ⟨s1, h1, h2⟩ := h
      obtain ⟨a, b⟩ := ih s1 r h2
      exact ⟨Admitted.prepend hc.1 hc.2 (show parseTopLevel n s = some s1 from h1) a, b⟩
    · rename_i hc
      simp only [Option.some.injEq] at h
      subst h
      refine ⟨Admitted.start s, ?_⟩
      by_cases ht : s.currentToken.type = TOKEN_EOF
      · exact Or.inl ht
      · right
        by_contra he
        exact hc ⟨ht, by simpa using he⟩

/-- A run that ends with the error flag set ends with the item in which the flag
was set. -/
theorem Admitted.first_error {s r : State} (h : Admitted s r) (he : s.hasError = false)
    (hr : r.hasError = true) :
    ∃ a n, Admitted s a ∧ a.hasError = false ∧ a.currentToken.type ≠ TOKEN_EOF ∧
      parseTopLevel n a = some r := by
  cases h with
  | start => rw [he] at hr; exact absurd hr (by decide)
  | @item a _ n h1 ht2 he2 h2 => exact ⟨a, n, h1, he2, ht2, h2⟩

/-! ### The value slots of the table -/

theorem setInitialized_map_slots (table : List Symbol) (i : Nat) :
    (setInitialized table i).map Symbol.slots = table.map Symbol.slots := by
  induction table generalizing i with
  | nil => simp [setInitialized]
  | cons a rest ih => cases i <;> simp [setInitialized, ih, Symbol.slots]

theorem SlotsKept.of_table {s r : State} (h : r.symbolTable = s.symbolTable) :
    SlotsKept s r :=
  ⟨[], by simp, by simp [h]⟩

/-- Across every step of the parser the symbols keep their name, type and value,
and a new symbol holds the value it is created with. -/
theorem slotsKept_step : ParserStep SlotsKept where
  refl := fun _ => SlotsKept.of_table rfl
  trans := fun a b c h1 h2 => by
    obtain ⟨ad1, z1, e1⟩ := h1
    obtain ⟨ad2, z2, e2⟩ := h2
    refine ⟨ad2 ++ ad1, ?_, ?_⟩
    · intro sym hs
      rcases List.mem_append.1 hs with h | h
      · exact z2 sym h
      · exact z1 sym h
    · rw [e2, List.map_append, e1, List.append_assoc, List.map_append, List.map_append,
        List.map_append]
  advance := fun s => SlotsKept.of_table (advance_symbolTable s)
  syntaxError := fun _ _ => SlotsKept.of_table rfl
  semanticError := fun _ _ => SlotsKept.of_table rfl
  insertSymbol := fun s name type => by
    rcases insertSymbol_symbolTable s name type with e | ⟨_, _, _, e⟩
    · exact SlotsKept.of_table e
    · exact ⟨[Symbol.mk name type (initializeSymbolValue type) false], by simp,
        by rw [e]; rfl⟩
  checkAssignmentCompatibility := fun s var e => by
    rcases checkAssignmentCompatibility_symbolTable s var e with e1 | ⟨i, e1⟩
    · exact SlotsKept.of_table e1
    · exact ⟨[], by simp, by rw [e1]; simp [setInitialized_map_slots]⟩
  readTarget := fun s i => ⟨[], by simp, by simp [setInitialized_map_slots]⟩

theorem SlotsKept.zeroValues {s r : State} (h : SlotsKept s r) (hz : ZeroValues s) :
    ZeroValues r := by
  obtain ⟨added, z, e⟩ := h
  intro sym hs
  have hm : sym.slots ∈ (added ++ s.symbolTable).map Symbol.slots := by
    rw [← e]; exact List.mem_map_of_mem _ hs
  obtain ⟨sym2, h2, e2⟩ := List.mem_map.1 hm
  have ev : sym2.value = sym.value := congrArg (fun p => p.2.2) e2
  have et : sym2.type = sym.type := congrArg (fun p => p.2.1) e2
  rw [← ev, ← et]
  rcases List.mem_append.1 h2 with h | h
  · exact z sym2 h
  · exact hz sym2 h

/-- No step taken while an expression or a condition is parsed writes the table. -/
theorem sameTable_step : ExprStep fun s r => r.symbolTable = s.symbolTable where
  refl := fun _ => rfl
  trans := fun _ _ _ h1 h2 => h2.trans h1
  advance := fun s => advance_symbolTable s
  syntaxError := fun _ _ => rfl
  semanticError := fun _ _ => rfl

theorem processAssignmentVariable_table (s : State) :
    (processAssignmentVariable s).2.symbolTable = s.symbolTable := by
  unfold processAssignmentVariable
  split
  · rfl
  · dsimp only
    rw [sameTable_step.match_step]
    split <;> rfl

/-- An assignment leaves the table as it was, or sets the initialized flag of one
node. -/
theorem parseAssignment_table {n : Nat} {s r : State} (h : parseAssignment n s = some r) :
    r.symbolTable = s.symbolTable ∨ ∃ i, r.symbolTable = setInitialized s.symbolTable i := by
  simp only [parseAssignment, Option.map_eq_some'] at h
  obtain ⟨s1, h1, rfl⟩ := h
  have e1 : s1.symbolTable = s.symbolTable := by
    rw [sameTable_step.parseExpression h1, sameTable_step.match_step,
      processAssignmentVariable_table]
  rw [sameTable_step.match_step]
  unfold checkAssignmentSemantics
  split
  · exact Or.inl e1
  · rcases checkAssignmentCompatibility_symbolTable s1 (some _) (checkExpressionType s1)
      with e | ⟨i, e⟩
    · exact Or.inl (e.trans e1)
    · exact Or.inr ⟨i, by rw [e, e1]⟩

/-- A read statement leaves the table as it was, or sets the initialized flag of
one node. -/
theorem parseReadStatement_table (s : State) :
    (parseReadStatement s).symbolTable = s.symbolTable ∨
      ∃ i, (parseReadStatement s).symbolTable = setInitialized s.symbolTable i := by
  unfold parseReadStatement parseReadParameters
  rw [sameTable_step.match_step, sameTable_step.match_step]
  unfold processReadIdentifier
  split
  · left
    show (match_ TOKEN_LPAREN (match_ TOKEN_LEER s)).symbolTable = _
    rw [sameTable_step.match_step, sameTable_step.match_step]
  · dsimp only
    rw [sameTable_step.match_step]
    split
    · left
      show (match_ TOKEN_LPAREN (match_ TOKEN_LEER s)).symbolTable = _
      rw [sameTable_step.match_step, sameTable_step.match_step]
    · right
      rename_i i _
      refine ⟨i, ?_⟩
      show setInitialized (match_ TOKEN_LPAREN (match_ TOKEN_LEER s)).symbolTable i = _
      rw [sameTable_step.match_step, sameTable_step.match_step]

/-! ### What one iteration of a loop reads -/

/-- Where the lookahead is not of the expected kind, `match` sets the error flag
and reads nothing. -/
theorem match_mismatch {k : TokenType} {s : State} (h : s.currentToken.type ≠ k) :
    (match_ k s).hasError = true ∧ SameLexer s (match_ k s) ∧
      unread (match_ k s) = unread s := by
  have e : match_ k s = syntaxError s ("Se esperaba token tipo ".toList ++ fmtInt k.code ++
      ", se encontro ".toList ++ fmtInt s.currentToken.type.code) := by
    unfold match_
    rw [if_neg h]
  rw [e]
  exact ⟨rfl, syntaxError_sameLexer s _, unread_congr (syntaxError_sameLexer s _)⟩

@[simp] theorem printedAfter_currentToken (o : List Diagnostic) (s : State) :
    (printedAfter o s).currentToken = s.currentToken := rfl

@[simp] theorem printedAfter_symbolTable (o : List Diagnostic) (s : State) :
    (printedAfter o s).symbolTable = s.symbolTable := rfl

@[simp] theorem printedAfter_hasError (o : List Diagnostic) (s : State) :
    (printedAfter o s).hasError = s.hasError := rfl

@[simp] theorem printedAfter_output (o : List Diagnostic) (s : State) :
    (printedAfter o s).output = o ++ s.output := rfl

theorem printedAfter_sameLexer (o : List Diagnostic) (s : State) :
    SameLexer s (printedAfter o s) := ⟨rfl, rfl, rfl, rfl, rfl⟩

/-- A state is its tokenizer globals, its table, its flag and what was printed. -/
theorem State.eq_of_parts {a b : State} (hl : SameLexer a b)
    (ht : b.symbolTable = a.symbolTable) (he : b.hasError = a.hasError)
    (ho : b.output = a.output) : b = a := by
  obtain ⟨h1, h2, h3, h4, h5⟩ := hl
  cases a
  cases b
  simp only [State.mk.injEq]
  exact ⟨h1, h2, h3, h4, h5, ht, he, ho⟩

theorem advance_printedAfter (o : List Diagnostic) (s : State) :
    advance (printedAfter o s) = printedAfter o (advance s) := by
  refine State.eq_of_parts ?_ ?_ ?_ ?_
  · exact ((advance_congr (printedAfter_sameLexer o s)).lexer_symm.lexer_trans
      (printedAfter_sameLexer o (advance s))).lexer_symm
  · simp
  · simp
  · simp

theorem syntaxError_printedAfter (o : List Diagnostic) (s : State) (message : List Char) :
    syntaxError (printedAfter o s) message = printedAfter o (syntaxError s message) := by
  simp [syntaxError, printedAfter, List.append_assoc]

theorem semanticError_printedAfter (o : List Diagnostic) (s : State) (message : List Char) :
    semanticError (printedAfter o s) message = printedAfter o (semanticError s message) := by
  simp [semanticError, printedAfter, List.append_assoc]

theorem match_printedAfter (o : List Diagnostic) (k : TokenType) (s : State) :
    match_ k (printedAfter o s) = printedAfter o (match_ k s) := by
  unfold match_
  simp only [printedAfter_currentToken]
  split
  · exact advance_printedAfter o s
  · exact syntaxError_printedAfter o s _

theorem lookupSymbol_printedAfter (o : List Diagnostic) (s : State) (name : List Char) :
    lookupSymbol (printedAfter o s) name = lookupSymbol s name := rfl

theorem checkExpressionType_printedAfter (o : List Diagnostic) (s : State) :
    checkExpressionType (printedAfter o s) = checkExpressionType s := rfl

theorem insertSymbol_printedAfter (o : List Diagnostic) (s : State) (name : List Char)
    (type : DataType) :
    insertSymbol (printedAfter o s) name type =
      ((insertSymbol s name type).1, printedAfter o (insertSymbol s name type).2) := by
  by_cases h1 : (lookupSymbol s name).isSome
  · simp [insertSymbol, lookupSymbol_printedAfter, h1]
  · have h1' : lookupFrom s.symbolTable name = none := by simpa [lookupSymbol] using h1
    by_cases h2 : name.length = 0
    · simp [insertSymbol, lookupSymbol, h1', createSymbol, h2]
    · by_cases h3 : name.length ≥ MAX_IDENTIFIER_LENGTH
      · simp [insertSymbol, lookupSymbol, h1', createSymbol, h2, h3, printedAfter,
          List.append_assoc]
      · simp [insertSymbol, lookupSymbol, h1', createSymbol, h2, h3,
          insertSymbolInTable, printedAfter]

theorem performTypeCompatibilityCheck_printedAfter (o : List Diagnostic) (s : State)
    (var : Symbol) (e : DataType) :
    performTypeCompatibilityCheck (printedAfter o s) var e =
      printedAfter o (performTypeCompatibilityCheck s var e) := by
  unfold performTypeCompatibilityCheck checkIntegerAssignment checkRealAssignment
    checkCharacterAssignment
  split_ifs <;>
    first
    | rfl
    | exact semanticError_printedAfter o s _
    | simp [printedAfter, List.append_assoc]

theorem checkAssignmentCompatibility_printedAfter (o : List Diagnostic) (s : State)
    (var : Option Nat) (e : DataType) :
    checkAssignmentCompatibility (printedAfter o s) var e =
      printedAfter o (checkAssignmentCompatibility s var e) := by
  unfold checkAssignmentCompatibility
  cases var with
  | none => rfl
  | some i =>
    simp only [printedAfter_symbolTable]
    cases s.symbolTable[i]? with
    | none => rfl
    | some sym =>
      simp only [performTypeCompatibilityCheck_printedAfter, markVariableAsInitialized]
      rfl

theorem checkAssignmentSemantics_printedAfter (o : List Diagnostic) (s : State)
    (var : Option Nat) :
    checkAssignmentSemantics (printedAfter o s) var =
      printedAfter o (checkAssignmentSemantics s var) := by
  unfold checkAssignmentSemantics
  cases var with
  | none => rfl
  | some i => exact checkAssignmentCompatibility_printedAfter o s _ _

theorem parseDataType_printedAfter (o : List Diagnostic) (s : State) :
    parseDataType (printedAfter o s) = ((parseDataType s).1, printedAfter o (parseDataType s).2) := by
  unfold parseDataType
  have e : getDataTypeFromToken (printedAfter o s) = getDataTypeFromToken s := rfl
  simp only [e, printedAfter_currentToken]
  split
  · simp only [syntaxError_printedAfter]
  · simp only [match_printedAfter]

theorem processVariableDeclaration_printedAfter (o : List Diagnostic) (varType : DataType)
    (s : State) :
    processVariableDeclaration varType (printedAfter o s) =
      printedAfter o (processVariableDeclaration varType s) := by
  unfold processVariableDeclaration
  simp only [printedAfter_currentToken, insertSymbol_printedAfter]
  split
  · exact syntaxError_printedAfter o s _
  · split
    · rw [syntaxError_printedAfter, match_printedAfter]
    · rw [match_printedAfter]

theorem processAssignmentVariable_printedAfter (o : List Diagnostic) (s : State) :
    processAssignmentVariable (printedAfter o s) =
      ((processAssignmentVariable s).1, printedAfter o (processAssignmentVariable s).2) := by
  unfold processAssignmentVariable
  simp only [printedAfter_currentToken, lookupSymbol_printedAfter]
  split
  · simp only [syntaxError_printedAfter]
  · split
    · simp only [semanticError_printedAfter, match_printedAfter]
    · simp only [match_printedAfter]

theorem processReadIdentifier_printedAfter (o : List Diagnostic) (s : State) :
    processReadIdentifier (printedAfter o s) = printedAfter o (processReadIdentifier s) := by
  unfold processReadIdentifier
  simp only [printedAfter_currentToken, lookupSymbol_printedAfter]
  split
  · exact syntaxError_printedAfter o s _
  · cases lookupSymbol s s.currentToken.lexeme with
    | none => simp only [semanticError_printedAfter, match_printedAfter]
    | some i =>
      exact match_printedAfter o TOKEN_IDENTIFIER
        { s with symbolTable := setInitialized s.symbolTable i }

theorem parseReadStatement_printedAfter (o : List Diagnostic) (s : State) :
    parseReadStatement (printedAfter o s) = printedAfter o (parseReadStatement s) := by
  unfold parseReadStatement parseReadParameters
  simp only [match_printedAfter, processReadIdentifier_printedAfter]

/-! ### The tokenizer does not read the lookahead -/

theorem skipWhitespace_setToken (t : Token) (s : State) :
    skipWhitespace { s with currentToken := t } =
      { skipWhitespace s with currentToken := t } := rfl

theorem skipComment_setToken (t : Token) (s : State) :
    skipComment { s with currentToken := t } = { skipComment s with currentToken := t } := by
  simp only [skipComment]
  split_ifs <;> rfl

theorem getNextToken_setToken (t : Token) (s : State) :
    getNextToken { s with currentToken := t } =
      ((getNextToken s).1, { (getNextToken s).2 with currentToken := t }) := by
  unfold getNextToken
  simp only [skipWhitespace_setToken, skipComment_setToken]
  generalize skipWhitespace (skipComment (skipWhitespace s)) = a
  simp only [isTwoCharOperatorStart]
  split_ifs
  · rfl
  · rfl
  · simp only [processNumber]
    split_ifs <;> rfl
  · simp only [processCharLiteral]
    split_ifs <;> rfl
  · simp only [processStringLiteral]
    split_ifs <;> rfl
  · have hc : ∀ k lx, createBasicToken { a with currentToken := t } k lx =
        createBasicToken a k lx := fun _ _ => rfl
    simp only [processTwoCharOperator, hc]
    split_ifs <;> rfl
  · simp only [processSingleCharOperator]
    have ha : processArithmeticOperator { a with currentToken := t } =
        processArithmeticOperator a := rfl
    have hr : processRelationalOperator { a with currentToken := t } =
        processRelationalOperator a := rfl
    have hd : processDelimiter { a with currentToken := t } = processDelimiter a := rfl
    rw [ha, hr, hd]
    split
    · rfl
    · split
      · rfl
      · split <;> rfl

theorem advance_setToken (t : Token) (s : State) :
    advance { s with currentToken := t } = advance s := by
  unfold advance
  rw [getNextToken_setToken]

/-! ### A run after earlier output is the same run -/

theorem expression_printed_all : ∀ n,
    (∀ o s r, parseExpression n s = some r →
      parseExpression n (printedAfter o s) = some (printedAfter o r)) ∧
    (∀ o s r, parseExpressionLoop n s = some r →
      parseExpressionLoop n (printedAfter o s) = some (printedAfter o r)) ∧
    (∀ o s r, parseTerm n s = some r →
      parseTerm n (printedAfter o s) = some (printedAfter o r)) ∧
    (∀ o s r, parseTermLoop n s = some r →
      parseTermLoop n (printedAfter o s) = some (printedAfter o r)) ∧
    (∀ o s r, parseFactor n s = some r →
      parseFactor n (printedAfter o s) = some (printedAfter o r)) := by
  intro n
  induction n with
  | zero => simp [parseExpression, parseExpressionLoop, parseTerm, parseTermLoop, parseFactor]
  | succ n ih =>
    obtain ⟨ihE, ihEL, ihT, ihTL, ihF⟩ := ih
    refine ⟨?_, ?_, ?_, ?_, ?_⟩
    · intro o s r h
      simp only [parseExpression, Option.bind_eq_some] at h ⊢
      obtain ⟨s1, h1, h2⟩ := h
      exact ⟨_, ihT o _ _ h1, ihEL o _ _ h2⟩
    · intro o s r h
      simp only [parseExpressionLoop, printedAfter_currentToken] at h ⊢
      split_ifs at h ⊢
      · simp only [Option.bind_eq_some] at h ⊢
        obtain ⟨s1, h1, h2⟩ := h
        refine ⟨_, ?_, ihEL o _ _ h2⟩
        rw [match_printedAfter]
        exact ihT o _ _ h1
      · simp only [Option.some.injEq] at h ⊢
        rw [h]
    · intro o s r h
      simp only [parseTerm, Option.bind_eq_some] at h ⊢
      obtain ⟨s1, h1, h2⟩ := h
      exact ⟨_, ihF o _ _ h1, ihTL o _ _ h2⟩
    · intro o s r h
      simp only [parseTermLoop, printedAfter_currentToken] at h ⊢
      split_ifs at h ⊢
      · simp only [Option.bind_eq_some] at h ⊢
        obtain ⟨s1, h1, h2⟩ := h
        refine ⟨_, ?_, ihTL o _ _ h2⟩
        rw [match_printedAfter]
        exact ihF o _ _ h1
      · simp only [Option.some.injEq] at h ⊢
        rw [h]
    · intro o s r h
      simp only [parseFactor, printedAfter_currentToken, lookupSymbol_printedAfter] at h ⊢
      split_ifs at h ⊢
      all_goals first
        | (simp only [Option.some.injEq] at h ⊢
           subst h
           simp only [semanticError_printedAfter, syntaxError_printedAfter,
             match_printedAfter])
        | (simp only [Option.map_eq_some'] at h ⊢
           obtain ⟨s1, h1, rfl⟩ := h
           refine ⟨_, ?_, match_printedAfter o _ _⟩
           rw [match_printedAfter]
           exact ihE o _ _ h1)

theorem condition_printed_all : ∀ n,
    (∀ o s r, parseCondition n s = some r →
      parseCondition n (printedAfter o s) = some (printedAfter o r)) ∧
    (∀ o s r, parseConditionLoop n s = some r →
      parseConditionLoop n (printedAfter o s) = some (printedAfter o r)) := by
  intro n
  induction n with
  | zero => simp [parseCondition, parseConditionLoop]
  | succ n ih =>
    obtain ⟨ihC, ihCL⟩ := ih
    have ihE := (expression_printed_all n).1
    refine ⟨?_, ?_⟩
    · intro o s r h
      simp only [parseCondition, Option.bind_eq_some] at h ⊢
      obtain ⟨s1, h1, s2, h2, s3, h3, h4⟩ := h
      refine ⟨_, ihE o _ _ h1, printedAfter o s2, ?_, _, ihCL o _ _ h3, ?_⟩
      · simp only [printedAfter_currentToken]
        split_ifs at h2 ⊢
        · rw [match_printedAfter]
          exact ihE o _ _ h2
        · simp only [Option.some.injEq] at h2 ⊢
          rw [← h2, syntaxError_printedAfter]
      · simp only [printedAfter_currentToken]
        split_ifs at h4 ⊢
        · rw [match_printedAfter]
          exact ihC o _ _ h4
        · simp only [Option.some.injEq] at h4 ⊢
          rw [h4]
    · intro o s r h
      simp only [parseConditionLoop, printedAfter_currentToken] at h ⊢
      split_ifs at h ⊢
      · simp only [Option.bind_eq_some] at h ⊢
        obtain ⟨s1, h1, h2⟩ := h
        refine ⟨_, ?_, ihCL o _ _ h2⟩
        rw [match_printedAfter]
        exact ihC o _ _ h1
      · simp only [Option.some.injEq] at h ⊢
        rw [h]

theorem parseIdentifierListLoop_printed (varType : DataType) : ∀ n o s r,
    parseIdentifierListLoop varType n s = some r →
    parseIdentifierListLoop varType n (printedAfter o s) = some (printedAfter o r) := by
  intro n
  induction n with
  | zero => simp [parseIdentifierListLoop]
  | succ n ih =>
    intro o s r h
    simp only [parseIdentifierListLoop, printedAfter_currentToken] at h ⊢
    split_ifs at h ⊢
    · rw [match_printedAfter, processVariableDeclaration_printedAfter]
      exact ih o _ _ h
    · simp only [Option.some.injEq] at h ⊢
      rw [h]

theorem parseDeclaration_printed {n : Nat} (o : List Diagnostic) {s r : State}
    (h : parseDeclaration n s = some r) :
    parseDeclaration n (printedAfter o s) = some (printedAfter o r) := by
  simp only [parseDeclaration, parseIdentifierList, parseDataType_printedAfter,
    Option.map_eq_some'] at h ⊢
  obtain ⟨s1, h1, rfl⟩ := h
  refine ⟨_, ?_, match_printedAfter o _ _⟩
  split_ifs at h1 ⊢
  · rw [processVariableDeclaration_printedAfter]
    exact parseIdentifierListLoop_printed _ _ o _ _ h1
  · simp only [Option.some.injEq] at h1 ⊢
    rw [h1]

theorem parseAssignment_printed {n : Nat} (o : List Diagnostic) {s r : State}
    (h : parseAssignment n s = some r) :
    parseAssignment n (printedAfter o s) = some (printedAfter o r) := by
  simp only [parseAssignment, processAssignmentVariable_printedAfter,
    Option.map_eq_some'] at h ⊢
  obtain ⟨s1, h1, rfl⟩ := h
  refine ⟨printedAfter o s1, ?_, ?_⟩
  · rw [match_printedAfter]
    exact (expression_printed_all n).1 o _ _ h1
  · rw [checkAssignmentSemantics_printedAfter, match_printedAfter]

theorem parseIfCondition_printed {n : Nat} (o : List Diagnostic) {s r : State}
    (h : parseIfCondition n s = some r) :
    parseIfCondition n (printedAfter o s) = some (printedAfter o r) := by
  simp only [parseIfCondition, Option.map_eq_some'] at h ⊢
  obtain ⟨s1, h1, rfl⟩ := h
  refine ⟨printedAfter o s1, ?_, match_printedAfter o _ _⟩
  rw [match_printedAfter]
  exact (condition_printed_all n).1 o _ _ h1

theorem parseWhileCondition_printed {n : Nat} (o : List Diagnostic) {s r : State}
    (h : parseWhileCondition n s = some r) :
    parseWhileCondition n (printedAfter o s) = some (printedAfter o r) := by
  simp only [parseWhileCondition, Option.map_eq_some'] at h ⊢
  obtain ⟨s1, h1, rfl⟩ := h
  refine ⟨printedAfter o s1, ?_, match_printedAfter o _ _⟩
  rw [match_printedAfter]
  exact (condition_printed_all n).1 o _ _ h1

theorem parseUntilCondition_printed {n : Nat} (o : List Diagnostic) {s r : State}
    (h : parseUntilCondition n s = some r) :
    parseUntilCondition n (printedAfter o s) = some (printedAfter o r) := by
  simp only [parseUntilCondition, Option.map_eq_some'] at h ⊢
  obtain ⟨s1, h1, rfl⟩ := h
  refine ⟨printedAfter o s1, ?_, ?_⟩
  · rw [match_printedAfter, match_printedAfter]
    exact (condition_printed_all n).1 o _ _ h1
  · rw [match_printedAfter, match_printedAfter]

theorem parseWriteStatement_printed {n : Nat} (o : List Diagnostic) {s r : State}
    (h : parseWriteStatement n s = some r) :
    parseWriteStatement n (printedAfter o s) = some (printedAfter o r) := by
  simp only [parseWriteStatement, parseWriteParameters, Option.map_eq_some'] at h ⊢
  obtain ⟨s2, ⟨s1, h1, rfl⟩, rfl⟩ := h
  refine ⟨_, ⟨printedAfter o s1, ?_, rfl⟩, ?_⟩
  · rw [match_printedAfter, match_printedAfter]
    exact (expression_printed_all n).1 o _ _ h1
  · rw [match_printedAfter, match_printedAfter]

theorem statement_printed_all : ∀ n,
    (∀ o s r, parseStatement n s = some r →
      parseStatement n (printedAfter o s) = some (printedAfter o r)) ∧
    (∀ o s r, parseBlock n s = some r →
      parseBlock n (printedAfter o s) = some (printedAfter o r)) ∧
    (∀ o s r, parseBlockLoop n s = some r →
      parseBlockLoop n (printedAfter o s) = some (printedAfter o r)) ∧
    (∀ o s r, parseElseBlock n s = some r →
      parseElseBlock n (printedAfter o s) = some (printedAfter o r)) ∧
    (∀ o s r, parseIfStatement n s = some r →
      parseIfStatement n (printedAfter o s) = some (printedAfter o r)) ∧
    (∀ o s r, parseWhileStatement n s = some r →
      parseWhileStatement n (printedAfter o s) = some (printedAfter o r)) ∧
    (∀ o s r, parseRepeatStatement n s = some r →
      parseRepeatStatement n (printedAfter o s) = some (printedAfter o r)) := by
  intro n
  induction n with
  | zero =>
    simp [parseStatement, parseBlock, parseBlockLoop, parseElseBlock, parseIfStatement,
      parseWhileStatement, parseRepeatStatement]
  | succ n ih =>
    obtain ⟨ihS, ihB, ihBL, ihEB, ihI, ihW, ihR⟩ := ih
    refine ⟨?_, ?_, ?_, ?_, ?_, ?_, ?_⟩
    · intro o s r h
      simp only [parseStatement, printedAfter_currentToken] at h ⊢
      split_ifs at h ⊢
      · exact parseAssignment_printed o h
      · exact ihI o _ _ h
      · exact ihW o _ _ h
      · exact ihR o _ _ h
      · simp only [Option.some.injEq] at h ⊢
        rw [← h, parseReadStatement_printedAfter]
      · exact parseWriteStatement_printed o h
      · simp only [Option.some.injEq] at h ⊢
        rw [← h, syntaxError_printedAfter, advance_printedAfter]
    · intro o s r h
      simp only [parseBlock, Option.map_eq_some'] at h ⊢
      obtain ⟨s1, h1, rfl⟩ := h
      refine ⟨printedAfter o s1, ?_, match_printedAfter o _ _⟩
      rw [match_printedAfter]
      exact ihBL o _ _ h1
    · intro o s r h
      simp only [parseBlockLoop, printedAfter_currentToken, printedAfter_hasError] at h ⊢
      split_ifs at h ⊢
      · simp only [Option.bind_eq_some] at h ⊢
        obtain ⟨s1, h1, h2⟩ := h
        exact ⟨_, ihS o _ _ h1, ihBL o _ _ h2⟩
      · simp only [Option.some.injEq] at h ⊢
        rw [h]
    · intro o s r h
      simp only [parseElseBlock, printedAfter_currentToken] at h ⊢
      split_ifs at h ⊢
      · rw [match_printedAfter]
        exact ihB o _ _ h
      · simp only [Option.some.injEq] at h ⊢
        rw [h]
    · intro o s r h
      simp only [parseIfStatement, Option.bind_eq_some] at h ⊢
      obtain ⟨s1, h1, s2, h2, h3⟩ := h
      refine ⟨printedAfter o s1, ?_, _, ihB o _ _ h2, ihEB o _ _ h3⟩
      rw [match_printedAfter]
      exact parseIfCondition_printed o h1
    · intro o s r h
      simp only [parseWhileStatement, Option.bind_eq_some] at h ⊢
      obtain ⟨s1, h1, h2⟩ := h
      refine ⟨printedAfter o s1, ?_, ihB o _ _ h2⟩
      rw [match_printedAfter]
      exact parseWhileCondition_printed o h1
    · intro o s r h
      simp only [parseRepeatStatement, Option.bind_eq_some] at h ⊢
      obtain ⟨s1, h1, h2⟩ := h
      refine ⟨printedAfter o s1, ?_, parseUntilCondition_printed o h2⟩
      rw [match_printedAfter]
      exact ihB o _ _ h1

theorem parseProgram_printed : ∀ n o s r, parseProgram n s = some r →
    parseProgram n (printedAfter o s) = some (printedAfter o r) := by
  intro n
  induction n with
  | zero => simp [parseProgram]
  | succ n ih =>
    intro o s r h
    simp only [parseProgram, printedAfter_currentToken, printedAfter_hasError] at h ⊢
    split_ifs at h ⊢
    · simp only [Option.bind_eq_some] at h ⊢
      obtain ⟨s1, h1, h2⟩ := h
      exact ⟨_, parseDeclaration_printed o h1, ih o _ _ h2⟩
    · simp only [Option.bind_eq_some] at h ⊢
      obtain ⟨s1, h1, h2⟩ := h
      exact ⟨_, (statement_printed_all n).1 o _ _ h1, ih o _ _ h2⟩
    · simp only [Option.some.injEq] at h ⊢
      rw [h]

/-- The state in which `compileAndShowResults` starts `parseProgram` is the one of
a fresh process, after what was printed before. -/
theorem initial_printedAfter (s : State) (code : List Char) :
    initLexer (initParser (initSemantic s)) code =
      printedAfter s.output (initLexer (initParser (initSemantic initialState)) code) := by
  have e : ({ initParser (initSemantic s) with
        sourceCode := code, currentPos := 0, currentLine := 1, currentColumn := 1 } : State) =
      { printedAfter s.output { initParser (initSemantic initialState) with
          sourceCode := code, currentPos := 0, currentLine := 1, currentColumn := 1 } with
        currentToken := s.currentToken } := by
    simp [printedAfter, initParser, initSemantic, initialState]
  unfold initLexer
  rw [e, advance_setToken, advance_printedAfter]

/-- A run of `compileAndShowResults` is the run of a fresh process, after what was
printed before. -/
theorem compileAndShowResults_printed {n : Nat} {code : List Char} {r : State}
    (h : compile n code = some r) (s : State) :
    compileAndShowResults n s code = some (printedAfter s.output r) := by
  unfold compileAndShowResults
  rw [initial_printedAfter]
  exact parseProgram_printed n _ _ _ h

/-- C21: from every state `parseCondition` returns, and if the lookahead after
its first expression is not one of the six relational operators, it returns with
the error flag set.  So `entero x; si (x) { }` and `entero x; mientras (x + 1) { }`
compile to failure. -/
theorem C21_relational_operator_is_mandatory :
    (∀ s : State, ∃ fuel r, (∀ m, fuel ≤ m → parseCondition m s = some r) ∧
      ∀ n s1, parseExpression n s = some s1 → ¬ isRelOp s1.currentToken.type →
        r.hasError = true) ∧
    (∀ fuel, (compile (fuel + 12) "entero x; si (x) { }".toList).map
      (fun r => r.hasError) = some true) ∧
    (∀ fuel, (compile (fuel + 12) "entero x; mientras (x + 1) { }".toList).map
      (fun r => r.hasError) = some true) := by
  refine ⟨?_, ?_, ?_⟩
  · intro s
    obtain ⟨fuel, r, h⟩ := parseCondition_terminates s
    exact ⟨fuel, r, fun m hm => parseCondition_mono hm h,
      fun n s1 h1 hrel => parseCondition_no_relOp h h1 hrel⟩
  · intro fuel
    exact @compile_map_mono _ 12 _ _ _ _ (by omega) (by decide)
  · intro fuel
    exact @compile_map_mono _ 12 _ _ _ _ (by omega) (by decide)

/-- C22: after `entero x;` the statement `repetir { escribir(x); } hasta (x = 0);`
is parsed with no error and nothing printed; with the condition `(x)`, which has no
relational comparison, and with the condition `(x = 0 = 1)`, which chains two, the
compilation ends with the error flag set. -/
theorem C22_repeat_until (fuel : Nat) :
    (compile (fuel + 12) "entero x; repetir { escribir(x); } hasta (x = 0);".toList).map
      State.summary = some (false, []) ∧
    (compile (fuel + 12) "entero x; repetir { escribir(x); } hasta (x);".toList).map
      (fun r => r.hasError) = some true ∧
    (compile (fuel + 12) "entero x; repetir { escribir(x); } hasta (x = 0 = 1);".toList).map
      (fun r => r.hasError) = some true := by
  refine ⟨?_, ?_, ?_⟩ <;> exact @compile_map_mono _ 12 _ _ _ _ (by omega) (by decide)

/-- C23: in a state with no error whose input starts with `leer ( v ) ;` and whose
table holds `v` at node `i`, whatever the type of `v`, the statement is parsed with
no error and nothing printed, the input is consumed up to the token after `;`, and
the table afterwards is the table before with the initialized flag of node `i` set:
that node keeps its name, type and value, every other node is as before.  For the
three types, `t v; leer(v);` compiles successfully with `v` initialized. -/
theorem C23_read_marks_initialized (s : State) (v : List Char) (i : Nat)
    (rest : List Terminal) (fuel : Nat)
    (h : TokenStream s ((TOKEN_LEER, "leer".toList) :: (TOKEN_LPAREN, "(".toList) ::
      (TOKEN_IDENTIFIER, v) :: (TOKEN_RPAREN, ")".toList) ::
      (TOKEN_SEMICOLON, ";".toList) :: rest))
    (he : s.hasError = false) (hi : lookupSymbol s v = some i) :
    (∃ sym, s.symbolTable[i]? = some sym ∧ sym.name = v ∧
      parseStatement (fuel + 1) s = some (parseReadStatement s) ∧
      (parseReadStatement s).hasError = false ∧
      (parseReadStatement s).output = s.output ∧
      TokenStream (parseReadStatement s) rest ∧
      (parseReadStatement s).symbolTable.length = s.symbolTable.length ∧
      (parseReadStatement s).symbolTable[i]? = some { sym with initialized := true } ∧
      ∀ j, j ≠ i → (parseReadStatement s).symbolTable[j]? = s.symbolTable[j]?) ∧
    (compile (fuel + 12) "caracter c; leer(c);".toList).map
      (fun r => (r.hasError, r.output, r.symbolTable)) =
      some (false, [], [⟨"c".toList, TYPE_CARACTER, SymbolValue.charValue NUL, true⟩]) ∧
    (compile (fuel + 12) "entero n; leer(n);".toList).map
      (fun r => (r.hasError, r.output, r.symbolTable)) =
      some (false, [], [⟨"n".toList, TYPE_ENTERO, SymbolValue.intValue 0, true⟩]) ∧
    (compile (fuel + 12) "real r; leer(r);".toList).map
      (fun r => (r.hasError, r.output, r.symbolTable)) =
      some (false, [], [⟨"r".toList, TYPE_REAL, SymbolValue.realValue 0, true⟩]) := by
  refine ⟨?_, ?_, ?_, ?_⟩
  · obtain ⟨sym, h1, h2⟩ := lookupFrom_some s.symbolTable v i hi
    obtain ⟨e, st⟩ := parseReadStatement_declared h he hi
    refine ⟨sym, h1, h2, parseStatement_leer h.cons_inv.1, ?_, ?_, st, ?_, ?_, ?_⟩
    · rw [e]; simpa using he
    · rw [e]; simp
    · rw [e]
      simp only [advance_symbolTable]
      have := congrArg List.length (setInitialized_map_name s.symbolTable i)
      rwa [List.length_map, List.length_map] at this
    · rw [e]
      simp only [advance_symbolTable]
      exact setInitialized_get?_self _ _ _ h1
    · intro j hj
      rw [e]
      simp only [advance_symbolTable]
      exact setInitialized_get?_other _ _ _ hj
  all_goals exact @compile_map_mono _ 12 _ _ _ _ (by omega) (by decide)

/-- C23 at a concrete input: the text `leer(c);` with `c` declared and not
initialized. -/
theorem C23_read_marks_initialized_witness :
    readExample.symbolTable =
      [⟨"c".toList, TYPE_CARACTER, SymbolValue.charValue NUL, false⟩] ∧
    lookupSymbol readExample "c".toList = some 0 ∧
    parseStatement 1 readExample = some (parseReadStatement readExample) ∧
    (parseReadStatement readExample).hasError = false ∧
    TokenStream (parseReadStatement readExample) [] ∧
    (parseReadStatement readExample).symbolTable =
      [⟨"c".toList, TYPE_CARACTER, SymbolValue.charValue NUL, true⟩] := by
  obtain ⟨_, _, _, h1, h2, _, h3, _⟩ :=
    (C23_read_marks_initialized readExample "c".toList 0 [] 0
      (tokensFrom_sound 10 _ _ (by decide)) (by decide) (by decide)).1
  exact ⟨by decide, by decide, h1, h2, h3, by decide⟩

/-- C24: the error flag is sticky.  Every operation that runs during
`parseProgram` leaves a set flag set: the tokenizer does not touch the flag;
`syntaxError` and `semanticError` set it; `match`, the functions of the semantic
checker and every parsing function keep it set.  `initParser` and `cleanup` clear
it, and the other two initialisers leave it as it is. -/
theorem C24_error_flag_is_sticky :
    (∀ s, (getNextToken s).2.hasError = s.hasError) ∧
    (∀ s message, (syntaxError s message).hasError = true) ∧
    (∀ s message, (semanticError s message).hasError = true) ∧
    (∀ expected, StickyFn (match_ expected)) ∧
    (∀ name type, StickyFn fun s => (insertSymbol s name type).2) ∧
    (∀ var e, StickyFn fun s => checkAssignmentCompatibility s var e) ∧
    (∀ var, StickyFn fun s => checkAssignmentSemantics s var) ∧
    (∀ name, StickyFn fun s => checkVariableInitialization s name) ∧
    (∀ l r op, StickyFn fun s => (checkArithmeticOperation s l r op).2) ∧
    (∀ l r, StickyFn fun s => (checkRelationalOperation s l r).2) ∧
    (StickyFn (fun s => (parseDataType s).2) ∧
      (∀ varType, StickyFn (processVariableDeclaration varType)) ∧
      StickyFn (fun s => (processAssignmentVariable s).2) ∧
      StickyFn processReadIdentifier ∧ StickyFn parseReadParameters ∧
      StickyFn parseReadStatement) ∧
    (StickyParser parseProgram ∧ StickyParser parseDeclaration ∧
      (∀ varType, StickyParser (parseIdentifierList varType)) ∧
      StickyParser parseStatement ∧ StickyParser parseAssignment ∧
      StickyParser parseBlock ∧ StickyParser parseElseBlock ∧
      StickyParser parseIfCondition ∧ StickyParser parseIfStatement ∧
      StickyParser parseWhileCondition ∧ StickyParser parseWhileStatement ∧
      StickyParser parseUntilCondition ∧ StickyParser parseRepeatStatement ∧
      StickyParser parseWriteParameters ∧ StickyParser parseWriteStatement ∧
      StickyParser parseExpression ∧ StickyParser parseTerm ∧ StickyParser parseFactor ∧
      StickyParser parseCondition) ∧
    (∀ s, (initParser s).hasError = false) ∧ (∀ s, (cleanup s).hasError = false) ∧
    (∀ s, (initSemantic s).hasError = s.hasError) ∧
    (∀ s code, (initLexer s code).hasError = s.hasError) := by
  refine ⟨getNextToken_hasError, fun _ _ => rfl, fun _ _ => rfl,
    fun k s => sticky_step.toExprStep.match_step k s,
    fun name type s => sticky_step.insertSymbol s name type,
    fun var e s => sticky_step.checkAssignmentCompatibility s var e, ?_, ?_, ?_, ?_, ?_, ?_,
    fun _ => rfl, fun _ => rfl, fun _ => rfl, ?_⟩
  · intro var s
    cases var with
    | none => exact fun h => h
    | some i => exact sticky_step.checkAssignmentCompatibility s (some i) _
  · intro name s h
    simp only [checkVariableInitialization]
    split
    · exact h
    · split
      · exact h
      · split <;> exact h
  · intro l r op s h
    cases l <;> cases r <;>
      simp [checkArithmeticOperation, validateArithmeticOperation, checkIntegerArithmetic,
        operationInvolvesReal, checkCharacterArithmetic, semanticError] <;>
      (try split_ifs) <;> simp_all
  · intro l r s h
    cases l <;> cases r <;> simp [checkRelationalOperation, semanticError, h]
  · refine ⟨?_, fun ty s => sticky_step.processVariableDeclaration ty s,
      fun s => sticky_step.processAssignmentVariable s,
      fun s => sticky_step.processReadIdentifier s, ?_,
      fun s => sticky_step.parseReadStatement s⟩
    · intro s h
      simp only [parseDataType]
      split
      · rfl
      · exact sticky_step.toExprStep.match_step _ _ h
    · intro s h
      simp only [parseReadParameters]
      exact sticky_step.toExprStep.match_step _ _
        (sticky_step.processReadIdentifier _ (sticky_step.toExprStep.match_step _ _ h))
  · refine ⟨fun n s r h => sticky_step.parseProgram n s r h,
      fun n s r h => sticky_step.parseDeclaration h, ?_,
      fun n s r h => sticky_step.parseStatement h,
      fun n s r h => sticky_step.parseAssignment h,
      fun n s r h => sticky_step.parseBlock h,
      fun n s r h => (sticky_step.statement_all n).2.2.2.1 s r h,
      fun n s r h => sticky_step.toExprStep.parseIfCondition h,
      fun n s r h => (sticky_step.statement_all n).2.2.2.2.1 s r h,
      fun n s r h => sticky_step.toExprStep.parseWhileCondition h,
      fun n s r h => (sticky_step.statement_all n).2.2.2.2.2.1 s r h,
      fun n s r h => sticky_step.toExprStep.parseUntilCondition h,
      fun n s r h => (sticky_step.statement_all n).2.2.2.2.2.2 s r h, ?_,
      fun n s r h => sticky_step.toExprStep.parseWriteStatement h,
      fun n s r h => sticky_step.toExprStep.parseExpression h,
      fun n s r h => sticky_step.toExprStep.parseTerm h,
      fun n s r h => sticky_step.toExprStep.parseFactor h,
      fun n s r h => sticky_step.toExprStep.parseCondition h⟩
    · intro ty n s r h he
      simp only [parseIdentifierList] at h
      exact sticky_step.parseIdentifierListLoop ty n _ r h
        (sticky_step.processVariableDeclaration ty s he)
    · intro n s r h he
      simp only [parseWriteParameters, Option.map_eq_some'] at h
      obtain ⟨s1, h1, rfl⟩ := h
      exact sticky_step.toExprStep.match_step _ _
        (sticky_step.toExprStep.parseExpression h1 (sticky_step.toExprStep.match_step _ _ he))
  · intro s code
    simp [initLexer]

/-- C26: for every source text whose tokens fit the lexeme buffer,
`compileAndShowResults` entered in any state of the globals returns; and for every
source text the state it leaves, when it returns, is the one that a fresh process
leaves but for the lines printed before the call.  So from any two states on entry it leaves
the same error flag (the success flag returned is its negation), the same symbol
table, the same scan offset, line and column, the same lookahead token and the
same source text.  After `cleanup` the symbol table is empty, the scan offset is 0,
line and column are 1 and the error flag is clear. -/
theorem C26_no_state_leaks :
    (∀ code, TokensFit code → ∃ fuel r, ∀ s m, fuel ≤ m →
      compileAndShowResults m s code = some (printedAfter s.output r)) ∧
    (∀ code m r s, compile m code = some r →
      compileAndShowResults m s code = some (printedAfter s.output r)) ∧
    (∀ code, TokensFit code → ∃ fuel, ∀ s1 s2 m, fuel ≤ m →
      ∃ r1 r2, compileAndShowResults m s1 code = some r1 ∧
        compileAndShowResults m s2 code = some r2 ∧
        r1.hasError = r2.hasError ∧ r1.symbolTable = r2.symbolTable ∧
        r1.currentPos = r2.currentPos ∧ r1.currentLine = r2.currentLine ∧
        r1.currentColumn = r2.currentColumn ∧ r1.currentToken = r2.currentToken ∧
        r1.sourceCode = r2.sourceCode ∧
        r1.output.drop s1.output.length = r2.output.drop s2.output.length) ∧
    (∀ s, (cleanup s).symbolTable = [] ∧ (cleanup s).currentPos = 0 ∧
      (cleanup s).currentLine = 1 ∧ (cleanup s).currentColumn = 1 ∧
      (cleanup s).hasError = false) := by
  refine ⟨?_, fun code m r s h => compileAndShowResults_printed h s, ?_,
    fun s => ⟨rfl, rfl, rfl, rfl, rfl⟩⟩
  · intro code _
    obtain ⟨fuel, r, h⟩ := compile_terminates code
    exact ⟨fuel, r, fun s m hm => compileAndShowResults_printed (h m hm) s⟩
  · intro code _
    obtain ⟨fuel, r, h⟩ := compile_terminates code
    refine ⟨fuel, fun s1 s2 m hm => ⟨_, _, compileAndShowResults_printed (h m hm) s1,
      compileAndShowResults_printed (h m hm) s2, rfl, rfl, rfl, rfl, rfl, rfl, rfl, ?_⟩⟩
    simp [printedAfter]

/-- C27: at the end of a compilation every symbol of the table holds
the value that `initializeSymbolValue` gives to its type: the integer 0 for an
integer, the NUL character for a character, the real 0 for a real; and the
compilation of a text whose tokens fit the lexeme buffer has an end.  Across
`parseProgram` from any state the symbols keep name, type and value, and new ones
hold their zero value; an assignment and a read leave the table as it was or set
the initialized flag of one node, which changes no name, type or value. -/
theorem C27_values_are_never_written :
    (∀ code fuel r, compile fuel code = some r →
      ∀ sym ∈ r.symbolTable, sym.value = initializeSymbolValue sym.type ∧
        (sym.type = TYPE_ENTERO → sym.value = SymbolValue.intValue 0) ∧
        (sym.type = TYPE_CARACTER → sym.value = SymbolValue.charValue NUL) ∧
        (sym.type = TYPE_REAL → sym.value = SymbolValue.realValue 0)) ∧
    (∀ code, TokensFit code → ∃ fuel r, ∀ m, fuel ≤ m → compile m code = some r) ∧
    (∀ fuel s r, parseProgram fuel s = some r → SlotsKept s r) ∧
    (∀ fuel s r, parseAssignment fuel s = some r →
      r.symbolTable = s.symbolTable ∨ ∃ i, r.symbolTable = setInitialized s.symbolTable i) ∧
    (∀ s, (parseReadStatement s).symbolTable = s.symbolTable ∨
      ∃ i, (parseReadStatement s).symbolTable = setInitialized s.symbolTable i) ∧
    (∀ s var e, (checkAssignmentCompatibility s var e).symbolTable = s.symbolTable ∨
      ∃ i, (checkAssignmentCompatibility s var e).symbolTable =
        setInitialized s.symbolTable i) ∧
    (∀ table i, (setInitialized table i).map Symbol.slots = table.map Symbol.slots) ∧
    (∀ fuel, (compile (fuel + 12)
        "entero n; caracter c; real r; n := 5; c := 'a'; r := 2.5; leer(n);".toList).map
      (fun r => (r.hasError, r.symbolTable)) = some (false,
        [⟨"r".toList, TYPE_REAL, SymbolValue.realValue 0, true⟩,
         ⟨"c".toList, TYPE_CARACTER, SymbolValue.charValue NUL, true⟩,
         ⟨"n".toList, TYPE_ENTERO, SymbolValue.intValue 0, true⟩])) := by
  refine ⟨?_, fun code _ => compile_terminates code,
    fun fuel s r h => slotsKept_step.parseProgram fuel s r h,
    fun fuel s r h => parseAssignment_table h, parseReadStatement_table,
    checkAssignmentCompatibility_symbolTable, setInitialized_map_slots, ?_⟩
  · intro code fuel r h
    have hz : ZeroValues r := by
      refine (slotsKept_step.parseProgram fuel _ r h).zeroValues ?_
      intro sym hs
      simp [initLexer, initParser, initSemantic] at hs
    intro sym hs
    have hv := hz sym hs
    refine ⟨hv, ?_, ?_, ?_⟩ <;> intro ht <;> rw [hv, ht] <;> rfl
  · intro fuel
    exact @compile_map_mono _ 12 _ _ _ _ (by omega) (by decide)

/-- C28: `checkRelationalOperation(l, r)` returns 1 exactly when `l = r`, or both
types are numeric, or one is character and the other integer; then the state, the
error flag with it, is as it was.  In every other case it returns 0 with the error
flag set.  The result for `(l, r)` is the result for `(r, l)`, and among integer,
character and real the only pairs rejected are character with real. -/
theorem C28_checkRelationalOperation (s : State) (l r : DataType) :
    ((checkRelationalOperation s l r).1 = 1 ↔
      (l = r ∨ bothNumeric l r ∨ characterWithInteger l r)) ∧
    ((checkRelationalOperation s l r).1 = 1 → (checkRelationalOperation s l r).2 = s) ∧
    ((checkRelationalOperation s l r).1 ≠ 1 →
      (checkRelationalOperation s l r).1 = 0 ∧
      (checkRelationalOperation s l r).2.hasError = true) ∧
    (checkRelationalOperation s r l).1 = (checkRelationalOperation s l r).1 ∧
    (l ≠ TYPE_ERROR → r ≠ TYPE_ERROR →
      ((checkRelationalOperation s l r).1 = 0 ↔
        (l = TYPE_CARACTER ∧ r = TYPE_REAL) ∨ (l = TYPE_REAL ∧ r = TYPE_CARACTER))) := by
  cases l <;> cases r <;>
    simp [checkRelationalOperation, bothNumeric, characterWithInteger, semanticError]

/-- C29: `checkArithmeticOperation(l, r, op)` returns the type that the table of
the specification gives: integer for integer with integer, real for real with real
and for real with integer in either order, integer for character with character
when `op` is `+` or `-`, integer for character with integer in either order, and
the error type in every other case.  When the result is the error type the error
flag is set; otherwise the flag is as it was.  The result for `(l, r, op)` is the
result for `(r, l, op)`. -/
theorem C29_checkArithmeticOperation (s : State) (l r : DataType) (op : TokenType) :
    (checkArithmeticOperation s l r op).1 = arithmeticResult l r op ∧
    ((checkArithmeticOperation s l r op).1 = TYPE_ERROR →
      (checkArithmeticOperation s l r op).2.hasError = true) ∧
    ((checkArithmeticOperation s l r op).1 ≠ TYPE_ERROR →
      (checkArithmeticOperation s l r op).2.hasError = s.hasError) ∧
    (checkArithmeticOperation s r l op).1 = (checkArithmeticOperation s l r op).1 := by
  cases l <;> cases r <;>
    simp [checkArithmeticOperation, validateArithmeticOperation, checkIntegerArithmetic,
      operationInvolvesReal, checkCharacterArithmetic, arithmeticResult, semanticError] <;>
    split_ifs <;> simp_all

/-- C30: `parseProgram` entered, or testing its loop again, with the error flag set
returns the state it was given, and so does the loop of `parseBlock`.  So a run of
`parseProgram` that starts with the flag clear and ends with it set ends in the
very state in which a top-level declaration or statement that was entered with the
flag clear finished, the items before it having been admitted with the flag clear;
this holds of the compilation of every text whose tokens fit the lexeme buffer,
which returns.  Compiling `x := 1; entero z;` leaves an empty table. -/
theorem C30_no_item_after_error :
    (∀ n s, s.hasError = true → parseProgram (n + 1) s = some s) ∧
    (∀ n s, s.hasError = true → parseBlockLoop (n + 1) s = some s) ∧
    (∀ fuel s r, parseProgram fuel s = some r → s.hasError = false → r.hasError = true →
      ∃ a n, Admitted s a ∧ a.hasError = false ∧ a.currentToken.type ≠ TOKEN_EOF ∧
        parseTopLevel n a = some r) ∧
    (∀ code, TokensFit code → ∃ fuel r, (∀ m, fuel ≤ m → compile m code = some r) ∧
      (r.hasError = true →
        ∃ a n, Admitted (initLexer (initParser (initSemantic initialState)) code) a ∧
          a.hasError = false ∧ a.currentToken.type ≠ TOKEN_EOF ∧
          parseTopLevel n a = some r)) ∧
    (∀ fuel, (compile (fuel + 12) "x := 1; entero z;".toList).map
      (fun r => (r.hasError, r.symbolTable)) = some (true, [])) := by
  refine ⟨fun n s he => parseProgram_stop n he, fun n s he => parseBlockLoop_stop n he,
    fun fuel s r h he hr => (parseProgram_admitted fuel s r h).1.first_error he hr, ?_, ?_⟩
  · intro code _
    obtain ⟨fuel, r, h⟩ := compile_terminates code
    refine ⟨fuel, r, h, fun hr => ?_⟩
    exact (parseProgram_admitted fuel _ r (h fuel (le_refl _))).1.first_error
      (by simp [initLexer, initParser]) hr
  · intro fuel
    exact @compile_map_mono _ 12 _ _ _ _ (by omega) (by decide)

/-! ### The lexeme of a token -/

/-- The lexeme of a token that is neither end-of-input nor a lexical error is the
text between the offset at which the token starts and the offset after the call. -/
theorem getNextToken_lexeme (s : State) (hEof : (getNextToken s).1.type ≠ TOKEN_EOF)
    (hErr : (getNextToken s).1.type ≠ TOKEN_ERROR) :
    (skipToToken s).currentPos < (lexerStep s).currentPos ∧
    (lexerStep s).currentPos ≤ s.sourceCode.length ∧
    (getNextToken s).1.lexeme = substring s.sourceCode (skipToToken s).currentPos
      ((lexerStep s).currentPos - (skipToToken s).currentPos) := by
  rcases getNextToken_spec s with ⟨-, e⟩ | ⟨-, k, hk⟩
  · rw [e] at hEof
    exact absurd rfl hEof
  · obtain ⟨hs, hpos, -, -, -, hlex⟩ := hk
    have h2 := hs.currentPos_eq
    have h3 := hs.in_text hpos
    rw [skipToToken_sourceCode] at h3
    have hk : (lexerStep s).currentPos - (skipToToken s).currentPos = k := by
      simp only [lexerStep]
      omega
    refine ⟨by simp only [lexerStep]; omega, by simp only [lexerStep]; omega, ?_⟩
    rw [hk, hlex hErr, skipToToken_sourceCode]

theorem substring_length {code : List Char} {p k : Nat} (h : p + k ≤ code.length) :
    (substring code p k).length = k := by
  simp only [substring, List.length_take, List.length_drop]
  omega

/-! ### Steps of a statement -/

theorem StatementStep.processAssignmentVariable_stmt {P : State → State → Prop}
    (hP : StatementStep P) (s : State) : P s (processAssignmentVariable s).2 := by
  unfold Compilador.processAssignmentVariable
  split
  · exact hP.syntaxError _ _
  · dsimp only
    refine hP.trans _ _ _ ?_ (hP.match_step _ _)
    split
    · exact hP.semanticError _ _
    · exact hP.refl _

theorem StatementStep.parseAssignment_stmt {P : State → State → Prop} (hP : StatementStep P)
    {n : Nat} {s r : State} (h : parseAssignment n s = some r) : P s r := by
  simp only [Compilador.parseAssignment, Option.map_eq_some'] at h
  obtain ⟨s1, h1, rfl⟩ := h
  refine hP.trans _ _ _ (hP.processAssignmentVariable_stmt s) (hP.trans _ _ _
    (hP.match_step _ _) (hP.trans _ _ _ (hP.parseExpression h1)
      (hP.trans _ _ _ ?_ (hP.match_step _ _))))
  unfold checkAssignmentSemantics
  split
  · exact hP.refl _
  · exact hP.checkAssignmentCompatibility _ _ _

theorem StatementStep.processReadIdentifier_stmt {P : State → State → Prop}
    (hP : StatementStep P) (s : State) : P s (processReadIdentifier s) := by
  unfold Compilador.processReadIdentifier
  split
  · exact hP.syntaxError _ _
  · dsimp only
    refine hP.trans _ _ _ ?_ (hP.match_step _ _)
    split
    · exact hP.semanticError _ _
    · exact hP.readTarget _ _

theorem StatementStep.parseReadStatement_stmt {P : State → State → Prop}
    (hP : StatementStep P) (s : State) : P s (parseReadStatement s) := by
  unfold Compilador.parseReadStatement parseReadParameters
  exact hP.trans _ _ _ (hP.match_step _ _) (hP.trans _ _ _ (hP.match_step _ _)
    (hP.trans _ _ _ (hP.processReadIdentifier_stmt _)
      (hP.trans _ _ _ (hP.match_step _ _) (hP.match_step _ _))))

theorem StatementStep.statement_all_stmt {P : State → State → Prop} (hP : StatementStep P) :
    ∀ n,
    (∀ s r, parseStatement n s = some r → P s r) ∧
    (∀ s r, parseBlock n s = some r → P s r) ∧
    (∀ s r, parseBlockLoop n s = some r → P s r) ∧
    (∀ s r, parseElseBlock n s = some r → P s r) ∧
    (∀ s r, parseIfStatement n s = some r → P s r) ∧
    (∀ s r, parseWhileStatement n s = some r → P s r) ∧
    (∀ s r, parseRepeatStatement n s = some r → P s r) := by
  intro n
  induction n with
  | zero =>
    simp [parseStatement, parseBlock, parseBlockLoop, parseElseBlock, parseIfStatement,
      parseWhileStatement, parseRepeatStatement]
  | succ n ih =>
    obtain ⟨ihS, ihB, ihBL, ihEB, ihI, ihW, ihR⟩ := ih
    refine ⟨?_, ?_, ?_, ?_, ?_, ?_, ?_⟩
    · intro s r h
      simp only [parseStatement] at h
      split_ifs at h
      · exact hP.parseAssignment_stmt h
      · exact ihI _ _ h
      · exact ihW _ _ h
      · exact ihR _ _ h
      · cases h
        exact hP.parseReadStatement_stmt _
      · exact hP.parseWriteStatement h
      · cases h
        exact hP.trans _ _ _ (hP.syntaxError _ _) (hP.advance _)
    · intro s r h
      simp only [parseBlock, Option.map_eq_some'] at h
      obtain ⟨s1, h1, rfl⟩ := h
      exact hP.trans _ _ _ (hP.match_step _ _) (hP.trans _ _ _ (ihBL _ _ h1) (hP.match_step _ _))
    · intro s r h
      simp only [parseBlockLoop] at h
      split at h
      · simp only [Option.bind_eq_some] at h
        obtain ⟨s1, h1, h2⟩ := h
        exact hP.trans _ _ _ (ihS _ _ h1) (ihBL _ _ h2)
      · cases h
        exact hP.refl _
    · intro s r h
      simp only [parseElseBlock] at h
      split at h
      · exact hP.trans _ _ _ (hP.match_step _ _) (ihB _ _ h)
      · cases h
        exact hP.refl _
    · intro s r h
      simp only [parseIfStatement, Option.bind_eq_some] at h
      obtain ⟨s1, h1, s2, h2, h3⟩ := h
      exact hP.trans _ _ _ (hP.match_step _ _) (hP.trans _ _ _ (hP.parseIfCondition h1)
        (hP.trans _ _ _ (ihB _ _ h2) (ihEB _ _ h3)))
    · intro s r h
      simp only [parseWhileStatement, Option.bind_eq_some] at h
      obtain ⟨s1, h1, h2⟩ := h
      exact hP.trans _ _ _ (hP.match_step _ _) (hP.trans _ _ _ (hP.parseWhileCondition h1)
        (ihB _ _ h2))
    · intro s r h
      simp only [parseRepeatStatement, Option.bind_eq_some] at h
      obtain ⟨s1, h1, h2⟩ := h
      exact hP.trans _ _ _ (hP.match_step _ _) (hP.trans _ _ _ (ihB _ _ h1)
        (hP.parseUntilCondition h2))

/-- Across every step of a statement the symbols of the table keep their name,
type and value, and none is added. -/
theorem slotsSame_step :
    StatementStep fun s r => r.symbolTable.map Symbol.slots = s.symbolTable.map Symbol.slots where
  refl := fun _ => rfl
  trans := fun _ _ _ h1 h2 => h2.trans h1
  advance := fun s => by rw [advance_symbolTable]
  syntaxError := fun _ _ => rfl
  semanticError := fun _ _ => rfl
  checkAssignmentCompatibility := fun s var e => by
    rcases checkAssignmentCompatibility_symbolTable s var e with e1 | ⟨i, e1⟩
    · rw [e1]
    · rw [e1, setInitialized_map_slots]
  readTarget := fun s i => setInitialized_map_slots _ _

theorem NoErrorType.of_slots {s r : State}
    (h : r.symbolTable.map Symbol.slots = s.symbolTable.map Symbol.slots)
    (hs : NoErrorType s) : NoErrorType r := by
  intro sym hm
  have hm2 : sym.slots ∈ s.symbolTable.map Symbol.slots := by
    rw [← h]; exact List.mem_map_of_mem _ hm
  obtain ⟨sym2, h2, e2⟩ := List.mem_map.1 hm2
  have et : sym2.type = sym.type := congrArg (fun p => p.2.1) e2
  rw [← et]
  exact hs sym2 h2

/-! ### Declarations -/

theorem Declared.same_table {varType : DataType} {s r : State}
    (h : r.symbolTable = s.symbolTable) : Declared varType s r :=
  ⟨[], by simp [h], by simp⟩

theorem Declared.followed_by {varType : DataType} {a b c : State} (h1 : Declared varType a b)
    (h2 : Declared varType b c) : Declared varType a c := by
  obtain ⟨ad1, e1, z1⟩ := h1
  obtain ⟨ad2, e2, z2⟩ := h2
  refine ⟨ad2 ++ ad1, by rw [e2, e1, List.append_assoc], ?_⟩
  intro sym hs
  rcases List.mem_append.1 hs with h | h
  · exact z2 sym h
  · exact z1 sym h

theorem processVariableDeclaration_declared (varType : DataType) (s : State) :
    Declared varType s (processVariableDeclaration varType s) := by
  unfold processVariableDeclaration
  split
  · exact Declared.same_table rfl
  · dsimp only
    have hi : Declared varType s (insertSymbol s s.currentToken.lexeme varType).2 := by
      rcases insertSymbol_symbolTable s s.currentToken.lexeme varType with e | ⟨_, _, _, e⟩
      · exact Declared.same_table e
      · exact ⟨[Symbol.mk s.currentToken.lexeme varType (initializeSymbolValue varType) false],
          by rw [e]; rfl, by simp⟩
    refine hi.followed_by (Declared.same_table ?_)
    rw [sameTable_step.match_step]
    split <;> rfl

theorem parseIdentifierListLoop_declared (varType : DataType) : ∀ n s r,
    parseIdentifierListLoop varType n s = some r → Declared varType s r := by
  intro n
  induction n with
  | zero => simp [parseIdentifierListLoop]
  | succ n ih =>
    intro s r h
    simp only [parseIdentifierListLoop] at h
    split_ifs at h
    · refine (Declared.same_table (sameTable_step.match_step TOKEN_COMMA s)).followed_by ?_
      exact (processVariableDeclaration_declared varType _).followed_by (ih _ _ h)
    · cases h
      exact Declared.same_table rfl

/-- A declaration puts new nodes of the type of its keyword in front of the table,
and none when the type is the error type. -/
theorem parseDeclaration_declared {n : Nat} {s r : State}
    (h : parseDeclaration n s = some r) :
    Declared (getDataTypeFromToken s) s r ∧
      (getDataTypeFromToken s = TYPE_ERROR → r.symbolTable = s.symbolTable) := by
  simp only [parseDeclaration, parseDataType, parseIdentifierList, Option.map_eq_some'] at h
  obtain ⟨s1, h1, rfl⟩ := h
  by_cases ht : getDataTypeFromToken s = TYPE_ERROR
  · simp only [ht, if_true, ne_eq, not_true_eq_false, if_false, Option.some.injEq] at h1
    subst h1
    have e : (match_ TOKEN_SEMICOLON (syntaxError s
        "Se esperaba tipo de dato (entero, caracter, real)".toList)).symbolTable =
        s.symbolTable := by
      rw [sameTable_step.match_step]
      rfl
    exact ⟨Declared.same_table e, fun _ => e⟩
  · simp only [ht, if_false, ne_eq, not_false_eq_true, if_true] at h1
    refine ⟨?_, fun e => absurd e ht⟩
    refine (Declared.same_table (sameTable_step.match_step s.currentToken.type s)).followed_by ?_
    refine (processVariableDeclaration_declared _ _).followed_by ?_
    exact (parseIdentifierListLoop_declared _ _ _ _ h1).followed_by
      (Declared.same_table (sameTable_step.match_step _ _))

theorem parseDeclaration_noErrorType {n : Nat} {s r : State}
    (h : parseDeclaration n s = some r) (hs : NoErrorType s) : NoErrorType r := by
  obtain ⟨⟨added, e, z⟩, he⟩ := parseDeclaration_declared h
  by_cases ht : getDataTypeFromToken s = TYPE_ERROR
  · intro sym hm
    rw [he ht] at hm
    exact hs sym hm
  · intro sym hm
    rw [e] at hm
    rcases List.mem_append.1 hm with hm | hm
    · rw [(z sym hm).1]
      exact ht
    · exact hs sym hm

theorem parseStatement_noErrorType {n : Nat} {s r : State}
    (h : parseStatement n s = some r) (hs : NoErrorType s) : NoErrorType r :=
  NoErrorType.of_slots ((slotsSame_step.statement_all_stmt n).1 s r h) hs

theorem parseProgram_noErrorType : ∀ n s r, parseProgram n s = some r →
    NoErrorType s → NoErrorType r := by
  intro n
  induction n with
  | zero => simp [parseProgram]
  | succ n ih =>
    intro s r h hs
    simp only [parseProgram] at h
    split at h
    · simp only [Option.bind_eq_some] at h
      obtain ⟨s1, h1, h2⟩ := h
      refine ih _ _ h2 ?_
      split at h1
      · exact parseDeclaration_noErrorType h1 hs
      · exact parseStatement_noErrorType h1 hs
    · cases h
      exact hs

/-- In a table with no symbol of the error type, the compatibility check runs the
check of the type of the variable. -/
theorem performTypeCompatibilityCheck_typed (s : State) (sym : Symbol) (e : DataType)
    (h : sym.type ≠ TYPE_ERROR) :
    (sym.type = TYPE_ENTERO ∧
      performTypeCompatibilityCheck s sym e = checkIntegerAssignment s sym e) ∨
    (sym.type = TYPE_REAL ∧
      performTypeCompatibilityCheck s sym e = checkRealAssignment s sym e) ∨
    (sym.type = TYPE_CARACTER ∧
      performTypeCompatibilityCheck s sym e = checkCharacterAssignment s sym e) := by
  unfold performTypeCompatibilityCheck
  cases ht : sym.type with
  | TYPE_ENTERO => simp
  | TYPE_REAL => simp
  | TYPE_CARACTER => simp
  | TYPE_ERROR => exact absurd ht h

/-! ### The type that an assignment hands to the compatibility check -/

theorem parseAssignment_stages {n : Nat} {s r : State} (h : parseAssignment n s = some r) :
    ∃ s1, parseExpression n (match_ TOKEN_ASSIGN (processAssignmentVariable s).2) = some s1 ∧
      r = match_ TOKEN_SEMICOLON (checkAssignmentSemantics s1 (processAssignmentVariable s).1) := by
  simp only [parseAssignment, Option.map_eq_some'] at h
  obtain ⟨s1, h1, h2⟩ := h
  exact ⟨s1, h1, h2.symm⟩

theorem checkExpressionType_semicolon {s : State} (h : s.currentToken.type = TOKEN_SEMICOLON) :
    checkExpressionType s = TYPE_ENTERO := by
  simp [checkExpressionType, h]

/-- The type derived from the lookahead is integer unless the lookahead is a real
literal, a character literal or an identifier. -/
theorem checkExpressionType_ne_entero {s : State} (h : checkExpressionType s ≠ TYPE_ENTERO) :
    s.currentToken.type = TOKEN_REAL_LITERAL ∨ s.currentToken.type = TOKEN_CHAR_LITERAL ∨
      s.currentToken.type = TOKEN_IDENTIFIER := by
  unfold checkExpressionType at h
  split_ifs at h with h1 h2 h3 h4
  · exact absurd rfl h
  · exact Or.inl h2
  · exact Or.inr (Or.inl h3)
  · exact Or.inr (Or.inr h4)
  · exact absurd rfl h

/-- With an integer source and a variable of one of the three types, the
compatibility check raises no error: it prints nothing, an information line or a
warning. -/
theorem checkAssignmentCompatibility_entero_output (s : State) (var : Option Nat)
    (hs : NoErrorType s) :
    (checkAssignmentCompatibility s var TYPE_ENTERO).hasError = s.hasError ∧
    ∃ extra, (checkAssignmentCompatibility s var TYPE_ENTERO).output = s.output ++ extra ∧
      ∀ d ∈ extra, (∃ m, d = Diagnostic.info m) ∨ (∃ m, d = Diagnostic.advertencia m) := by
  cases var with
  | none => exact ⟨rfl, [], by simp [checkAssignmentCompatibility], by simp⟩
  | some i =>
    cases hv : s.symbolTable[i]? with
    | none =>
      simp only [checkAssignmentCompatibility, hv]
      exact ⟨trivial, [], by simp, by simp⟩
    | some sym =>
      have hm : sym ∈ s.symbolTable := List.getElem?_mem hv
      have ht := hs sym hm
      simp only [checkAssignmentCompatibility, hv, markVariableAsInitialized]
      rcases performTypeCompatibilityCheck_typed s sym TYPE_ENTERO ht with
        ⟨-, e⟩ | ⟨-, e⟩ | ⟨-, e⟩
      · rw [e]
        exact ⟨by simp [checkIntegerAssignment], [], by simp [checkIntegerAssignment], by simp⟩
      · rw [e]
        exact ⟨by simp [checkRealAssignment],
          [Diagnostic.info "Conversion automatica de entero a real".toList],
          by simp [checkRealAssignment], by simp⟩
      · rw [e]
        exact ⟨by simp [checkCharacterAssignment],
          [Diagnostic.advertencia
            "Asignacion de entero a caracter (conversion automatica)".toList],
          by simp [checkCharacterAssignment], by simp⟩

theorem checkAssignmentSemantics_sameLexer (s : State) (var : Option Nat) :
    SameLexer s (checkAssignmentSemantics s var) := by
  unfold checkAssignmentSemantics
  cases var with
  | none => exact SameLexer.lexer_refl s
  | some i => exact checkAssignmentCompatibility_sameLexer s _ _

theorem checkAssignmentSemantics_eq (s : State) (var : Option Nat) :
    checkAssignmentSemantics s var =
      checkAssignmentCompatibility s var (checkExpressionType s) := by
  cases var <;> rfl

theorem match_advance_of_type {k : TokenType} {s : State} (h : s.currentToken.type = k) :
    match_ k s = advance s := by
  unfold match_
  rw [if_pos h]

/-! ### Identifiers: the tokenizer and `isValidIdentifier` -/

theorem processArithmeticOperator_kind {s : State} {c : Char} {tok : Token}
    (h : processArithmeticOperator s c = some tok) : tok.type ≠ TOKEN_IDENTIFIER := by
  unfold processArithmeticOperator at h
  split_ifs at h <;> cases h <;> simp [createBasicToken]

theorem processRelationalOperator_kind {s : State} {c : Char} {tok : Token}
    (h : processRelationalOperator s c = some tok) : tok.type ≠ TOKEN_IDENTIFIER := by
  unfold processRelationalOperator at h
  split_ifs at h <;> cases h <;> simp [createBasicToken]

theorem processDelimiter_kind {s : State} {c : Char} {tok : Token}
    (h : processDelimiter s c = some tok) : tok.type ≠ TOKEN_IDENTIFIER := by
  unfold processDelimiter at h
  split_ifs at h <;> cases h <;> simp [createBasicToken]

theorem processSingleCharOperator_kind (s : State) (c : Char) :
    (processSingleCharOperator s c).1.type ≠ TOKEN_IDENTIFIER := by
  unfold processSingleCharOperator
  dsimp only
  cases ha : processArithmeticOperator s c with
  | some tok => exact processArithmeticOperator_kind ha
  | none =>
    dsimp only
    cases hr : processRelationalOperator s c with
    | some tok => exact processRelationalOperator_kind hr
    | none =>
      dsimp only
      cases hd : processDelimiter s c with
      | some tok => exact processDelimiter_kind hd
      | none =>
        dsimp only
        simp

theorem processTwoCharOperator_kind (s : State) :
    (processTwoCharOperator s).1.type ≠ TOKEN_IDENTIFIER := by
  simp only [processTwoCharOperator, createBasicToken]
  split_ifs <;> simp

/-- An identifier token comes from `processIdentifier`: the character at which it
starts is a letter or an underscore. -/
theorem getNextToken_identifier {s0 : State}
    (h : (getNextToken s0).1.type = TOKEN_IDENTIFIER) :
    isLetter (charAt s0.sourceCode (skipToToken s0).currentPos) = true := by
  by_contra h1
  have hsrc := skipToToken_sourceCode s0
  by_cases h0 : charAt s0.sourceCode (skipToToken s0).currentPos = NUL
  · rw [getNextToken_eof h0] at h
    simp at h
  by_cases h2 : isDigit (charAt s0.sourceCode (skipToToken s0).currentPos) = true
  · rw [getNextToken_digit h2] at h
    rw [← hsrc] at h2
    obtain ⟨k, n, -, -, -, a, b⟩ := processNumber_spec _ h2
    by_cases hd : charAt (skipToToken s0).sourceCode ((skipToToken s0).currentPos + n) = '.'
    · rw [(a hd).1] at h
      exact absurd h (by decide)
    · rw [(b hd).1] at h
      exact absurd h (by decide)
  by_cases h3 : charAt s0.sourceCode (skipToToken s0).currentPos = QUOTE
  · rw [getNextToken_quote h3] at h
    rw [← hsrc] at h3
    obtain ⟨k, -, a, -⟩ := processCharLiteral_spec _ h3
    rcases a with a | a <;> rw [a] at h <;> exact absurd h (by decide)
  by_cases h4 : charAt s0.sourceCode (skipToToken s0).currentPos = DQUOTE
  · rw [getNextToken_dquote h4] at h
    rw [← hsrc] at h4
    obtain ⟨k, n, -, -, a, -⟩ := processStringLiteral_spec _ h4
    rcases a with a | a <;> rw [a] at h <;> exact absurd h (by decide)
  by_cases h5 : isTwoCharOperatorStart (skipToToken s0)
      (charAt s0.sourceCode (skipToToken s0).currentPos) = true
  · rw [getNextToken_twoChar h5] at h
    exact processTwoCharOperator_kind _ h
  · rw [getNextToken_single h0 (by simpa using h1) (by simpa using h2) h3 h4
      (by simpa using h5)] at h
    exact processSingleCharOperator_kind _ _ h

theorem charAt_getElem {w : List Char} {i : Nat} (h : i < w.length) :
    charAt w i = w.get ⟨i, h⟩ := by
  simp [charAt, List.getD_eq_getElem?_getD, List.getElem?_eq_getElem h]

/-- What `isValidIdentifier` tests. -/
theorem isValidIdentifier_iff (w : List Char) :
    isValidIdentifier w = true ↔
      0 < w.length ∧ isLetter (charAt w 0) = true ∧
        (∀ d ∈ w, (isLetter d || isDigit d) = true) ∧ isKeyword w = TOKEN_IDENTIFIER := by
  cases w with
  | nil => simp [isValidIdentifier]
  | cons c rest =>
    have hc : charAt (c :: rest) 0 = c := by simp [charAt]
    simp only [isValidIdentifier, hc, List.length_cons, Nat.add_one_ne_zero, if_false,
      List.drop_succ_cons, List.drop_zero, List.mem_cons, forall_eq_or_imp]
    by_cases h1 : isLetter c = true
    · by_cases h2 : rest.any (fun c => !isLetter c && !isDigit c) = true
      · simp only [h1, h2, if_true, Bool.not_true, Bool.false_eq_true, if_false, false_iff]
        intro hcon
        obtain ⟨d, hd, hbad⟩ := List.any_eq_true.1 h2
        have := hcon.2.2.1.2 d hd
        simp only [Bool.and_eq_true, Bool.not_eq_true', Bool.or_eq_true] at hbad this
        rcases this with a | a
        · rw [a] at hbad; exact absurd hbad.1 (by decide)
        · rw [a] at hbad; exact absurd hbad.2 (by decide)
      · simp only [h1, h2, Bool.not_true, Bool.false_eq_true, if_false, beq_iff_eq,
          Bool.true_or, true_and]
        constructor
        · intro hk
          refine ⟨by omega, ?_, hk⟩
          intro d hd
          by_contra hbad
          apply h2
          refine List.any_eq_true.2 ⟨d, hd, ?_⟩
          simp only [Bool.or_eq_true, not_or, Bool.not_eq_true] at hbad
          simp [hbad.1, hbad.2]
        · exact fun hk => hk.2.2
    · simp only [Bool.not_eq_true] at h1
      simp [h1]

/-- The first token of a text that is a run of letters, digits and underscores
starting with a letter or an underscore: the whole text. -/
theorem getNextToken_whole_word (w : List Char) (h0 : 0 < w.length)
    (hc : isLetter (charAt w 0) = true)
    (hw : ∀ d ∈ w, (isLetter d || isDigit d) = true) :
    (getNextToken (lexerStart initialState w)).1.lexeme = w ∧
      (getNextToken (lexerStart initialState w)).1.type = isKeyword w ∧
      (lexerStep (lexerStart initialState w)).currentPos = w.length ∧
      (lexerStep (lexerStart initialState w)).sourceCode = w := by
  obtain ⟨c, rest, rfl⟩ : ∃ c rest, w = c :: rest := by
    cases w with
    | nil => simp at h0
    | cons c rest => exact ⟨c, rest, rfl⟩
  have hc' : isLetter c = true := by simpa [charAt] using hc
  have hdrop : (lexerStart initialState (c :: rest)).sourceCode.drop
      (lexerStart initialState (c :: rest)).currentPos = c :: rest := rfl
  have hc0 := charAt_of_drop hdrop
  have e0 : skipToToken (lexerStart initialState (c :: rest)) =
      lexerStart initialState (c :: rest) :=
    skipToToken_of_drop hdrop (isLetter_not_isBlank hc') (isLetter_ne hc' (by decide))
  have e1 : getNextToken (lexerStart initialState (c :: rest)) =
      processIdentifier (lexerStart initialState (c :: rest)) := by
    have := @getNextToken_letter (lexerStart initialState (c :: rest)) (by rw [e0, hc0]; exact hc')
    rw [e0] at this
    exact this
  have hn : scanWhile (fun d => isLetter d || isDigit d)
      ((lexerStart initialState (c :: rest)).sourceCode.drop
        (lexerStart initialState (c :: rest)).currentPos) = (c :: rest).length := by
    rw [hdrop]
    have := scanWhile_append (fun d => isLetter d || isDigit d) (c :: rest) [] hw (by simp)
    simpa using this
  have hlex : (processIdentifier (lexerStart initialState (c :: rest))).1.lexeme = c :: rest := by
    simp only [processIdentifier, hn, Nat.add_sub_cancel_left]
    exact @substring_of_drop _ _ (c :: rest) [] (by simpa using hdrop)
  refine ⟨by rw [e1]; exact hlex, ?_, ?_, lexerStep_sourceCode _⟩
  · rw [e1]
    show isKeyword (processIdentifier (lexerStart initialState (c :: rest))).1.lexeme = _
    rw [hlex]
  · simp only [lexerStep, e1, processIdentifier, hn]
    simp [lexerStart]

/-- At the end of the text `getNextToken` returns the end-of-input token. -/
theorem getNextToken_at_end {s : State} (h : charAt s.sourceCode s.currentPos = NUL) :
    (getNextToken s).1.type = TOKEN_EOF := by
  have e : skipToToken s = s :=
    (skipToToken_spec s).2.2.2.2 (by rw [h]; exact isBlank_NUL) (by rw [h]; decide)
  rw [getNextToken_eof (by rw [e]; exact h)]

theorem charAt_length (w : List Char) : charAt w w.length = NUL := by
  simp [charAt, List.getD_eq_default]

/-- A text that `isValidIdentifier` accepts is one identifier token. -/
theorem tokenize_of_valid (w : List Char) (h : isValidIdentifier w = true) :
    tokenize w = some [(TOKEN_IDENTIFIER, w)] := by
  obtain ⟨h0, hc, hw, hk⟩ := (isValidIdentifier_iff w).1 h
  obtain ⟨a1, a2, a3, a4⟩ := getNextToken_whole_word w h0 hc hw
  have htok : (initLexer initialState w).currentToken =
      (getNextToken (lexerStart initialState w)).1 := initLexer_currentToken _ _
  have hadv : advance (initLexer initialState w) =
      advance (lexerStep (lexerStart initialState w)) := by
    rw [initLexer_eq, advance_setToken]
  have heof : (advance (initLexer initialState w)).currentToken.type = TOKEN_EOF := by
    rw [hadv, advance_currentToken]
    refine getNextToken_at_end ?_
    rw [a4, a3]
    exact charAt_length w
  obtain ⟨m, hm⟩ : ∃ m, w.length = m + 1 := ⟨w.length - 1, by omega⟩
  have hne : (initLexer initialState w).currentToken.type ≠ TOKEN_EOF := by
    rw [htok, a2, hk]
    decide
  simp only [tokenize, tokensFrom, if_neg hne, hm, if_pos heof, Option.map_some']
  rw [htok, a1, a2, hk]

/-- A text that is one identifier token is accepted by `isValidIdentifier`. -/
theorem valid_of_tokenize (w : List Char) (h : tokenize w = some [(TOKEN_IDENTIFIER, w)]) :
    isValidIdentifier w = true := by
  have htok : (initLexer initialState w).currentToken =
      (getNextToken (lexerStart initialState w)).1 := initLexer_currentToken _ _
  simp only [tokenize, tokensFrom] at h
  split_ifs at h with h0
  · simp at h
  simp only [Option.map_eq_some', List.cons.injEq, Prod.mk.injEq] at h
  obtain ⟨ts, -, ⟨ht, hl⟩, -⟩ := h
  rw [htok] at ht hl
  have hsrc : (skipToToken (lexerStart initialState w)).sourceCode = w :=
    skipToToken_sourceCode _
  have hlet := getNextToken_identifier ht
  have e1 := getNextToken_letter hlet
  have hlet2 : isLetter (charAt (skipToToken (lexerStart initialState w)).sourceCode
      (skipToToken (lexerStart initialState w)).currentPos) = true := by
    rw [hsrc]; exact hlet
  obtain ⟨k, ⟨hs, hpos, -, -, -, hlex⟩, hne, hk⟩ := processIdentifier_spec _ hlet2
  have hin := hs.in_text hpos
  have hcur := hs.currentPos_eq
  rw [hsrc] at hin hk
  rw [e1] at hl ht
  have hlex2 := hlex hne
  rw [hl, hsrc] at hlex2
  have hpk : (skipToToken (lexerStart initialState w)).currentPos + k ≤ w.length := by omega
  have hlen := congrArg List.length hlex2
  rw [substring_length hpk] at hlen
  have hp : (skipToToken (lexerStart initialState w)).currentPos = 0 := by omega
  rw [hp] at hk hlet
  simp only [List.drop_zero] at hk
  have hkind : isKeyword w = TOKEN_IDENTIFIER := by
    have : (processIdentifier (skipToToken (lexerStart initialState w))).1.type =
        isKeyword (processIdentifier (skipToToken (lexerStart initialState w))).1.lexeme := rfl
    rw [hl, ht] at this
    exact this.symm
  refine (isValidIdentifier_iff w).2 ⟨by omega, hlet, ?_, hkind⟩
  intro d hd
  obtain ⟨i, hi, rfl⟩ := List.mem_iff_getElem.1 hd
  have := scanWhile_all (fun c => isLetter c || isDigit c) w i (by omega)
  rw [charAt_getElem hi] at this
  exact this

/-- C31: a token that `getNextToken` returns and that is neither end-of-input nor
a lexical error (and is shorter than the 50 characters of the lexeme buffer)
starts at the offset where the call stops skipping, which holds a character that
is not white space, and ends at the scan offset after the call, within the text;
its lexeme is the source text between these two offsets, character for
character. -/
theorem C31_lexeme_is_source_text (s : State)
    (hEof : (getNextToken s).1.type ≠ TOKEN_EOF)
    (hErr : (getNextToken s).1.type ≠ TOKEN_ERROR)
    (_ : (lexerStep s).currentPos - (skipToToken s).currentPos < MAX_TOKEN_LENGTH) :
    (skipToToken s).currentPos < (lexerStep s).currentPos ∧
    (lexerStep s).currentPos ≤ s.sourceCode.length ∧
    isBlank (charAt s.sourceCode (skipToToken s).currentPos) = false ∧
    (getNextToken s).1.lexeme = substring s.sourceCode (skipToToken s).currentPos
      ((lexerStep s).currentPos - (skipToToken s).currentPos) ∧
    (getNextToken s).1.lexeme.length =
      (lexerStep s).currentPos - (skipToToken s).currentPos ∧
    ∀ i, i < (getNextToken s).1.lexeme.length →
      (getNextToken s).1.lexeme[i]? =
        s.sourceCode[(skipToToken s).currentPos + i]? := by
  obtain ⟨h1, h2, h3⟩ := getNextToken_lexeme s hEof hErr
  have hlen : (getNextToken s).1.lexeme.length =
      (lexerStep s).currentPos - (skipToToken s).currentPos := by
    rw [h3]
    exact substring_length (by omega)
  refine ⟨h1, h2, (skipToToken_spec s).2.2.1, h3, hlen, ?_⟩
  intro i hi
  rw [h3] at hi ⊢
  simp only [substring, List.length_take] at hi
  simp only [substring, List.getElem?_take, List.getElem?_drop]
  rw [if_pos (by omega)]

/-- C31 at concrete inputs: the third token of `x1 := 'c';` is the character
literal, read off offsets 6 to 9; and the tokens of a text with a keyword, an
identifier, numbers, a character literal, a string literal and operators carry
their source text. -/
theorem C31_lexeme_is_source_text_witness :
    ((skipToToken (tokenizerState "x1 := 'c';".toList 2)).currentPos = 6 ∧
      (lexerStep (tokenizerState "x1 := 'c';".toList 2)).currentPos = 9 ∧
      (getNextToken (tokenizerState "x1 := 'c';".toList 2)).1.lexeme =
        substring (tokenizerState "x1 := 'c';".toList 2).sourceCode 6 (9 - 6) ∧
      (getNextToken (tokenizerState "x1 := 'c';".toList 2)).1.lexeme = "'c'".toList) ∧
    tokenize ("si x1 12 3.5 'c' ".toList ++ [DQUOTE] ++ "a b".toList ++ [DQUOTE] ++
        " := <= + ;".toList) =
      some [(TOKEN_SI, "si".toList), (TOKEN_IDENTIFIER, "x1".toList),
        (TOKEN_NUMBER, "12".toList), (TOKEN_REAL_LITERAL, "3.5".toList),
        (TOKEN_CHAR_LITERAL, "'c'".toList),
        (TOKEN_STRING_LITERAL, [DQUOTE] ++ "a b".toList ++ [DQUOTE]),
        (TOKEN_ASSIGN, ":=".toList), (TOKEN_LESS_EQUAL, "<=".toList),
        (TOKEN_PLUS, "+".toList), (TOKEN_SEMICOLON, ";".toList)] := by
  have h := C31_lexeme_is_source_text (tokenizerState "x1 := 'c';".toList 2) (by decide)
    (by decide) (by decide)
  have e1 : (skipToToken (tokenizerState "x1 := 'c';".toList 2)).currentPos = 6 := by decide
  have e2 : (lexerStep (tokenizerState "x1 := 'c';".toList 2)).currentPos = 9 := by decide
  refine ⟨⟨e1, e2, ?_, by decide⟩, by decide⟩
  have h3 := h.2.2.2.1
  rw [e1, e2] at h3
  exact h3

/-- C32: what the counters of the tokenizer satisfy.  After any number of calls of
`getNextToken` on any text the line counter is the line of the scan offset, and
the column counter is the column of the scan offset unless the scan offset is at
the end of the text.  There it can be wrong: `skipComment` moves the scan offset
and leaves the column, so on `x // c` the second call stops at offset 6, which is
column 7, with the column counter at 3, and the end-of-input token carries column
3. -/
theorem C32_column_is_stale_after_final_comment :
    (∀ code n, (tokenizerState code n).currentLine =
        lineAt code (tokenizerState code n).currentPos ∧
      ((tokenizerState code n).currentColumn =
          columnAt code (tokenizerState code n).currentPos ∨
        charAt code (tokenizerState code n).currentPos = NUL)) ∧
    ((getNextToken (tokenizerState "x // c".toList 1)).1.type = TOKEN_EOF ∧
      (tokenizerState "x // c".toList 2).currentPos = 6 ∧
      columnAt "x // c".toList 6 = 7 ∧
      (tokenizerState "x // c".toList 2).currentColumn = 3 ∧
      (getNextToken (tokenizerState "x // c".toList 1)).1.column = 3 ∧
      (initLexer initialState "// c".toList).currentToken.type = TOKEN_EOF ∧
      (initLexer initialState "// c".toList).currentPos = 4 ∧
      (initLexer initialState "// c".toList).currentColumn = 1) := by
  refine ⟨fun code n => ?_, by decide⟩
  have h := tokenizerState_synced code n
  simp only [CountersSynced, LineSynced, ColumnSynced, tokenizerState_sourceCode] at h
  exact h

/-- C33: an assignment that returns has parsed its expression to a state `s1`,
and the type it hands to the compatibility check is the one that
`checkExpressionType` derives from the lookahead of `s1`, the token after the
expression.  When that token is `;` the type is integer, and with no symbol of the
error type in the table the check raises no error: the error flag after the
assignment is the flag after the expression, and what is printed in between is
nothing, an information line or a warning.  The type is other than integer only
when the token after the expression is a real literal, a character literal or an
identifier, and then the `match` of `;` fails and the flag is set. -/
theorem C33_expression_type_is_lookahead (n : Nat) (s r : State)
    (h : parseAssignment n s = some r) :
    ∃ s1, parseExpression n (match_ TOKEN_ASSIGN (processAssignmentVariable s).2) = some s1 ∧
      r = match_ TOKEN_SEMICOLON
        (checkAssignmentCompatibility s1 (processAssignmentVariable s).1
          (checkExpressionType s1)) ∧
      (s1.currentToken.type = TOKEN_SEMICOLON →
        checkExpressionType s1 = TYPE_ENTERO ∧
        (NoErrorType s1 → r.hasError = s1.hasError ∧
          ∃ extra, r.output = s1.output ++ extra ∧
            ∀ d ∈ extra, (∃ m, d = Diagnostic.info m) ∨ (∃ m, d = Diagnostic.advertencia m))) ∧
      (checkExpressionType s1 ≠ TYPE_ENTERO →
        (s1.currentToken.type = TOKEN_REAL_LITERAL ∨
          s1.currentToken.type = TOKEN_CHAR_LITERAL ∨
          s1.currentToken.type = TOKEN_IDENTIFIER) ∧
        r.hasError = true) := by
  obtain ⟨s1, h1, h2⟩ := parseAssignment_stages h
  rw [checkAssignmentSemantics_eq] at h2
  have hlex := checkAssignmentCompatibility_sameLexer s1 (processAssignmentVariable s).1
    (checkExpressionType s1)
  refine ⟨s1, h1, h2, ?_, ?_⟩
  · intro ht
    have e := checkExpressionType_semicolon ht
    refine ⟨e, fun hs => ?_⟩
    have hm : r = advance (checkAssignmentCompatibility s1 (processAssignmentVariable s).1
        TYPE_ENTERO) := by
      rw [h2, e]
      refine match_advance_of_type ?_
      rw [e] at hlex
      rw [hlex.2.2.2.2]
      exact ht
    obtain ⟨a, extra, b, c⟩ :=
      checkAssignmentCompatibility_entero_output s1 (processAssignmentVariable s).1 hs
    rw [hm, advance_hasError, advance_output]
    exact ⟨a, extra, b, c⟩
  · intro hne
    have ht := checkExpressionType_ne_entero hne
    refine ⟨ht, ?_⟩
    rw [h2]
    refine (match_mismatch ?_).1
    rw [hlex.2.2.2.2]
    rcases ht with e | e | e <;> rw [e] <;> decide

/-- C33 at concrete inputs: in `c := 2.5;` with the character variable `c`
declared, the token after the expression is `;`, so the source type is integer
and the assignment ends with no error, printing the integer-to-character warning.
In `caracter c; c := 1 2.5;` the token after the expression `1` is the real
literal: the check reports the real source and the `match` of `;` fails. -/
theorem C33_expression_type_is_lookahead_witness :
    (∃ r, parseAssignment 12 assignExample = some r ∧ r.hasError = false ∧
      r.output = [Diagnostic.advertencia
        "Asignacion de entero a caracter (conversion automatica)".toList]) ∧
    (compile 12 "caracter c; c := 1 2.5;".toList).map State.summary =
      some (true, [Diagnostic.errorSemantico 1
        ("Incompatibilidad de tipos: no se puede asignar tipo 2 a variable caracter ".toList
          ++ "'c'".toList),
        Diagnostic.errorSintactico 1 20
          "Se esperaba token tipo 34, se encontro 3".toList "2.5".toList]) := by
  refine ⟨?_, by decide⟩
  have hsome : (parseAssignment 12 assignExample).isSome = true := by decide
  obtain ⟨r, hr⟩ := Option.isSome_iff_exists.1 hsome
  obtain ⟨s1, h1, -, h3, -⟩ := C33_expression_type_is_lookahead 12 assignExample r hr
  have hs1 : (parseExpression 12
      (match_ TOKEN_ASSIGN (processAssignmentVariable assignExample).2)).map
      (fun x => (x.currentToken.type, x.hasError)) = some (TOKEN_SEMICOLON, false) := by
    decide
  rw [h1] at hs1
  simp only [Option.map_some', Option.some.injEq, Prod.mk.injEq] at hs1
  have hout : (parseAssignment 12 assignExample).map (fun x => x.output) =
      some [Diagnostic.advertencia
        "Asignacion de entero a caracter (conversion automatica)".toList] := by
    decide
  rw [hr] at hout
  simp only [Option.map_some', Option.some.injEq] at hout
  have hn : NoErrorType s1 := by
    have ht : (parseExpression 12
        (match_ TOKEN_ASSIGN (processAssignmentVariable assignExample).2)).map
        (fun x => x.symbolTable.map Symbol.type) = some [TYPE_CARACTER] := by
      decide
    rw [h1] at ht
    simp only [Option.map_some', Option.some.injEq] at ht
    intro sym hm
    have : sym.type ∈ s1.symbolTable.map Symbol.type := List.mem_map_of_mem _ hm
    rw [ht] at this
    simp only [List.mem_singleton] at this
    rw [this]
    decide
  exact ⟨r, hr, by rw [((h3 hs1.1).2 hn).1]; exact hs1.2, hout⟩

/-- C35: for a string `w` shorter than the 50 characters of the lexeme buffer,
`isValidIdentifier(w)` returns 1 exactly when the tokenizer, run on `w` as the
whole source, returns one identifier token with lexeme `w` and then end-of-input.
It returns 0 for the empty string, for each of the thirteen reserved words, for a
string that starts with a digit and for a string with a character that is not a
letter, a digit or an underscore. -/
theorem C35_isValidIdentifier (w : List Char) (_ : w.length < MAX_TOKEN_LENGTH) :
    (isValidIdentifier w = true ↔ tokenize w = some [(TOKEN_IDENTIFIER, w)]) ∧
    isValidIdentifier [] = false ∧
    (∀ kw ∈ keywordTable, isValidIdentifier kw.1 = false) ∧
    (∀ (c : Char) (rest : List Char), isDigit c = true →
      isValidIdentifier (c :: rest) = false) ∧
    (∀ (v : List Char) (c : Char), c ∈ v → isLetter c = false → isDigit c = false →
      isValidIdentifier v = false) := by
  refine ⟨⟨tokenize_of_valid w, valid_of_tokenize w⟩, by decide, by decide, ?_, ?_⟩
  · intro c rest hd
    rw [Bool.eq_false_iff]
    intro hv
    have hl := ((isValidIdentifier_iff _).1 hv).2.1
    have : isLetter c = true := by simpa [charAt] using hl
    rw [isDigit_not_isLetter c hd] at this
    exact absurd this (by decide)
  · intro v c hc h1 h2
    rw [Bool.eq_false_iff]
    intro hv
    have := ((isValidIdentifier_iff _).1 hv).2.2.1 c hc
    rw [h1, h2] at this
    exact absurd this (by decide)

/-- C35 at concrete inputs: `x1` is valid and is one identifier token; the
reserved word `si`, `1a` and `a-b` are not valid and are not one identifier
token. -/
theorem C35_isValidIdentifier_witness :
    (isValidIdentifier "x1".toList = true ↔
      tokenize "x1".toList = some [(TOKEN_IDENTIFIER, "x1".toList)]) ∧
    isValidIdentifier "x1".toList = true ∧
    isValidIdentifier "si".toList = false ∧
    tokenize "si".toList = some [(TOKEN_SI, "si".toList)] ∧
    isValidIdentifier "1a".toList = false ∧
    tokenize "1a".toList = some [(TOKEN_NUMBER, "1".toList), (TOKEN_IDENTIFIER, "a".toList)] ∧
    isValidIdentifier "a-b".toList = false ∧
    tokenize "a-b".toList = some [(TOKEN_IDENTIFIER, "a".toList), (TOKEN_MINUS, "-".toList),
      (TOKEN_IDENTIFIER, "b".toList)] :=
  ⟨(C35_isValidIdentifier "x1".toList (by decide)).1, by decide, by decide, by decide,
    by decide, by decide, by decide, by decide⟩

/-- C36: a compilation ends with a table in which every symbol has type
integer, character or real, and the compilation of a text whose tokens fit the
lexeme buffer has an end.  The property that no symbol has the error type holds
of the empty table and is kept by `parseProgram`, by a declaration, by a statement
and by the parsing of an expression or a condition, from any state: a declaration
only puts nodes of the type of its keyword in front of the table, and none when
that type is the error type; a statement inserts none.  In a state with the
property the compatibility check runs the check of the integer, real or character
variable, not its last branch. -/
theorem C36_no_symbol_of_error_type :
    (∀ code fuel r, compile fuel code = some r →
      ∀ sym ∈ r.symbolTable,
        sym.type = TYPE_ENTERO ∨ sym.type = TYPE_CARACTER ∨ sym.type = TYPE_REAL) ∧
    (∀ code, TokensFit code → ∃ fuel r, ∀ m, fuel ≤ m → compile m code = some r) ∧
    NoErrorType (initSemantic initialState) ∧
    (∀ n s r, NoErrorType s →
      (parseProgram n s = some r → NoErrorType r) ∧
      (parseDeclaration n s = some r → NoErrorType r) ∧
      (parseStatement n s = some r → NoErrorType r) ∧
      (parseBlock n s = some r → NoErrorType r) ∧
      (parseExpression n s = some r → NoErrorType r) ∧
      (parseCondition n s = some r → NoErrorType r)) ∧
    (∀ n s r, parseDeclaration n s = some r →
      ∃ added, r.symbolTable = added ++ s.symbolTable ∧
        ∀ sym ∈ added, sym.type = getDataTypeFromToken s ∧ sym.type ≠ TYPE_ERROR) ∧
    (∀ (s : State) (i : Nat) (sym : Symbol) (e : DataType), NoErrorType s →
      s.symbolTable[i]? = some sym →
      (sym.type = TYPE_ENTERO ∧
        performTypeCompatibilityCheck s sym e = checkIntegerAssignment s sym e) ∨
      (sym.type = TYPE_REAL ∧
        performTypeCompatibilityCheck s sym e = checkRealAssignment s sym e) ∨
      (sym.type = TYPE_CARACTER ∧
        performTypeCompatibilityCheck s sym e = checkCharacterAssignment s sym e)) := by
  refine ⟨?_, fun code _ => compile_terminates code, ?_, ?_, ?_, ?_⟩
  · intro code fuel r h
    have hr : NoErrorType r := by
      refine parseProgram_noErrorType fuel _ r h ?_
      intro sym hs
      simp [initLexer, initParser, initSemantic] at hs
    intro sym hs
    have := hr sym hs
    cases ht : sym.type <;> simp_all
  · intro sym hs
    simp [initSemantic] at hs
  · intro n s r hs
    refine ⟨fun h => parseProgram_noErrorType n s r h hs,
      fun h => parseDeclaration_noErrorType h hs,
      fun h => parseStatement_noErrorType h hs,
      fun h => NoErrorType.of_slots ((slotsSame_step.statement_all_stmt n).2.1 s r h) hs,
      fun h => ?_, fun h => ?_⟩
    · intro sym hm
      rw [sameTable_step.parseExpression h] at hm
      exact hs sym hm
    · intro sym hm
      rw [sameTable_step.parseCondition h] at hm
      exact hs sym hm
  · intro n s r h
    obtain ⟨⟨added, e, z⟩, he⟩ := parseDeclaration_declared h
    by_cases ht : getDataTypeFromToken s = TYPE_ERROR
    · exact ⟨[], by simpa using he ht, by simp⟩
    · exact ⟨added, e, fun sym hm => ⟨(z sym hm).1, by rw [(z sym hm).1]; exact ht⟩⟩
  · intro s i sym e hs hv
    exact performTypeCompatibilityCheck_typed s sym e (hs sym (List.getElem?_mem hv))

/-- C37: parsing an expression, a term, a factor, a condition or a write statement
leaves the symbol table as it was, from any state.  A statement of any kind keeps
the symbols with their name, type and value and inserts none; an assignment and a
read leave the table as it was or set the initialized flag of one node; a
declaration puts new nodes in front of the table as it was.  So after `entero x;`
a use of `x` in `escribir(x);`, in the condition of `si` or in the condition and
the body of `mientras` leaves `x` not initialized. -/
theorem C37_expressions_keep_the_table :
    (∀ n s r, (parseExpression n s = some r → r.symbolTable = s.symbolTable) ∧
      (parseTerm n s = some r → r.symbolTable = s.symbolTable) ∧
      (parseFactor n s = some r → r.symbolTable = s.symbolTable) ∧
      (parseCondition n s = some r → r.symbolTable = s.symbolTable) ∧
      (parseWriteStatement n s = some r → r.symbolTable = s.symbolTable)) ∧
    (∀ n s r, parseStatement n s = some r →
      r.symbolTable.map Symbol.slots = s.symbolTable.map Symbol.slots) ∧
    (∀ n s r, parseAssignment n s = some r →
      r.symbolTable = s.symbolTable ∨ ∃ i, r.symbolTable = setInitialized s.symbolTable i) ∧
    (∀ s, (parseReadStatement s).symbolTable = s.symbolTable ∨
      ∃ i, (parseReadStatement s).symbolTable = setInitialized s.symbolTable i) ∧
    (∀ n s r, parseDeclaration n s = some r →
      ∃ added, r.symbolTable = added ++ s.symbolTable) ∧
    (∀ fuel, (compile (fuel + 12) "entero x; escribir(x);".toList).map
      (fun r => (r.hasError, r.symbolTable)) =
      some (false, [Symbol.mk "x".toList TYPE_ENTERO (SymbolValue.intValue 0) false])) ∧
    (∀ fuel, (compile (fuel + 12) "entero x; si (x = 1) { }".toList).map
      (fun r => (r.hasError, r.symbolTable)) =
      some (false, [Symbol.mk "x".toList TYPE_ENTERO (SymbolValue.intValue 0) false])) ∧
    (∀ fuel, (compile (fuel + 12)
        "entero x; mientras (x < 3) { escribir(x + 1); }".toList).map
      (fun r => (r.hasError, r.symbolTable)) =
      some (false, [Symbol.mk "x".toList TYPE_ENTERO (SymbolValue.intValue 0) false])) := by
  refine ⟨fun n s r => ⟨fun h => sameTable_step.parseExpression h,
      fun h => sameTable_step.parseTerm h, fun h => sameTable_step.parseFactor h,
      fun h => sameTable_step.parseCondition h,
      fun h => sameTable_step.parseWriteStatement h⟩,
    fun n s r h => (slotsSame_step.statement_all_stmt n).1 s r h,
    fun n s r h => parseAssignment_table h, parseReadStatement_table, ?_, ?_, ?_, ?_⟩
  · intro n s r h
    obtain ⟨⟨added, e, -⟩, -⟩ := parseDeclaration_declared h
    exact ⟨added, e⟩
  all_goals
    intro fuel
    exact @compile_map_mono _ 12 _ _ _ _ (by omega) (by decide)

/-- C34: what `tokenTypeToString` returns.  The array of names lists `ASIGNACION`
before the arithmetic names and the relational names in the order less, greater,
less-or-equal, greater-or-equal, equal, different, whereas the enumeration has
`TOKEN_ASSIGN` after the arithmetic kinds and the relational kinds in the order
equal, different, less, less-or-equal, greater, greater-or-equal.  So each of these
twelve kinds gets the name of another kind; the other twenty-six get their own. -/
theorem C34_operator_names_are_shifted :
    (tokenTypeToString TOKEN_PLUS = "ASIGNACION".toList ∧
      tokenTypeToString TOKEN_MINUS = "SUMA".toList ∧
      tokenTypeToString TOKEN_MULTIPLY = "RESTA".toList ∧
      tokenTypeToString TOKEN_DIVIDE = "MULTIPLICACION".toList ∧
      tokenTypeToString TOKEN_MOD = "DIVISION".toList ∧
      tokenTypeToString TOKEN_ASSIGN = "MODULO".toList ∧
      tokenTypeToString TOKEN_EQUAL = "MENOR".toList ∧
      tokenTypeToString TOKEN_NOT_EQUAL = "MAYOR".toList ∧
      tokenTypeToString TOKEN_LESS = "MENOR_IGUAL".toList ∧
      tokenTypeToString TOKEN_LESS_EQUAL = "MAYOR_IGUAL".toList ∧
      tokenTypeToString TOKEN_GREATER = "IGUAL".toList ∧
      tokenTypeToString TOKEN_GREATER_EQUAL = "DIFERENTE".toList) ∧
    (tokenTypeToString TOKEN_PLUS ≠ "SUMA".toList ∧
      tokenTypeToString TOKEN_MINUS ≠ "RESTA".toList ∧
      tokenTypeToString TOKEN_MULTIPLY ≠ "MULTIPLICACION".toList ∧
      tokenTypeToString TOKEN_DIVIDE ≠ "DIVISION".toList ∧
      tokenTypeToString TOKEN_MOD ≠ "MODULO".toList ∧
      tokenTypeToString TOKEN_ASSIGN ≠ "ASIGNACION".toList ∧
      tokenTypeToString TOKEN_EQUAL ≠ "IGUAL".toList ∧
      tokenTypeToString TOKEN_NOT_EQUAL ≠ "DIFERENTE".toList ∧
      tokenTypeToString TOKEN_LESS ≠ "MENOR".toList ∧
      tokenTypeToString TOKEN_LESS_EQUAL ≠ "MENOR_IGUAL".toList ∧
      tokenTypeToString TOKEN_GREATER ≠ "MAYOR".toList ∧
      tokenTypeToString TOKEN_GREATER_EQUAL ≠ "MAYOR_IGUAL".toList) ∧
    [TOKEN_IDENTIFIER, TOKEN_NUMBER, TOKEN_CHAR_LITERAL, TOKEN_REAL_LITERAL,
        TOKEN_STRING_LITERAL, TOKEN_ENTERO, TOKEN_CARACTER, TOKEN_REAL, TOKEN_SI, TOKEN_SINO,
        TOKEN_MIENTRAS, TOKEN_REPETIR, TOKEN_HASTA, TOKEN_LEER, TOKEN_ESCRIBIR, TOKEN_AND,
        TOKEN_OR, TOKEN_NOT, TOKEN_LPAREN, TOKEN_RPAREN, TOKEN_LBRACE, TOKEN_RBRACE,
        TOKEN_SEMICOLON, TOKEN_COMMA, TOKEN_EOF, TOKEN_ERROR].map tokenTypeToString =
      ["IDENTIFICADOR".toList, "NUMERO".toList, "CARACTER".toList, "REAL".toList,
        "CADENA".toList, "TIPO_ENTERO".toList, "TIPO_CARACTER".toList, "TIPO_REAL".toList,
        "SI".toList, "SINO".toList, "MIENTRAS".toList, "REPETIR".toList, "HASTA".toList,
        "LEER".toList, "ESCRIBIR".toList, "Y".toList, "O".toList, "NO".toList,
        "PARENTESIS_IZQ".toList, "PARENTESIS_DER".toList, "LLAVE_IZQ".toList,
        "LLAVE_DER".toList, "PUNTO_COMA".toList, "COMA".toList, "FIN_ARCHIVO".toList,
        "ERROR".toList] := by
  refine ⟨by decide, by decide, by decide⟩

end Compilador
